import Mathlib

/-!
# Early boot page-table construction (`arch/riscv/mm/init.c`)

A shallow embedding of the RV64 (`CONFIG_64BIT`, `CONFIG_MMU`, `CONFIG_RELOCATABLE`)
configuration of `arch/riscv/mm/init.c`, followed by theorems about it.

Conventions of the embedding

* `unsigned long`, `uintptr_t` and `phys_addr_t` are natural numbers below `2 ^ 64`;
  additions, subtractions and left shifts that can leave that range are reduced
  modulo `2 ^ 64` explicitly (`add64`, `sub64`, `PFN_PHYS`, `pfn_pte`).
* Physical memory is a map from the byte address of a naturally aligned 64-bit
  cell to the word stored there; every access of the file is such an access
  (table entries and `Elf64_Addr` stores).
* A pointer is the number the C code holds.  With translation disabled it is a
  physical address; with translation enabled it is dereferenced through
  `translate`.
* `BUG_ON` stops the machine: the functions return `Except Stopped _`, the error
  carrying the source line of the check and the state at that moment.
-/

namespace RiscvMM

/-! ## Machine words -/

/-- Number of values of a 64-bit machine word. -/
def WORD : Nat := 2 ^ 64

/-- Addition of two `unsigned long`. -/
def add64 (a b : Nat) : Nat := (a + b) % WORD

/-- Subtraction of two `unsigned long` (wraps below zero). -/
def sub64 (a b : Nat) : Nat := (a + WORD - b % WORD) % WORD

/-! ## Constants of the architecture headers

The headers (`asm/pgtable-64.h`, `asm/pgtable-bits.h`, `asm/page.h`, `asm/fixmap.h`,
`linux/sizes.h`, `linux/pfn.h`) are not part of the translated file.  The values
below are the Sv39/Sv48 ones the file relies on (its own comments speak of
`2 * 9 + 12` common low bits and of 1 GiB top-level regions in the shallow mode). -/

def PAGE_SHIFT : Nat := 12
def PAGE_SIZE : Nat := 1 <<< PAGE_SHIFT
def PMD_SHIFT : Nat := 21
def PMD_SIZE : Nat := 1 <<< PMD_SHIFT
def PUD_SHIFT : Nat := 30
def PUD_SIZE : Nat := 1 <<< PUD_SHIFT
def PTRS_PER_PTE : Nat := 512
def PTRS_PER_PMD : Nat := 512
def PTRS_PER_PUD : Nat := 512
def PTRS_PER_PGD : Nat := 512
def SZ_1G : Nat := 0x40000000
def SZ_128M : Nat := 0x08000000
def MAX_EARLY_MAPPING_SIZE : Nat := SZ_128M
def FIXADDR_SIZE : Nat := PMD_SIZE

def _PAGE_PFN_SHIFT : Nat := 10
def _PAGE_PRESENT : Nat := 1
def _PAGE_READ : Nat := 2
def _PAGE_WRITE : Nat := 4
def _PAGE_EXEC : Nat := 8
def _PAGE_ACCESSED : Nat := 64
def _PAGE_DIRTY : Nat := 128
def _PAGE_KERNEL : Nat :=
  _PAGE_READ ||| _PAGE_WRITE ||| _PAGE_PRESENT ||| _PAGE_ACCESSED ||| _PAGE_DIRTY
def PAGE_KERNEL : Nat := _PAGE_KERNEL
def PAGE_KERNEL_EXEC : Nat := _PAGE_KERNEL ||| _PAGE_EXEC
def PAGE_TABLE : Nat := _PAGE_PRESENT
def FIXMAP_PAGE_NORMAL : Nat := PAGE_KERNEL
def FIXMAP_PAGE_CLEAR : Nat := 0

def SATP_MODE_39 : Nat := 0x8000000000000000
def SATP_MODE_48 : Nat := 0x9000000000000000
def R_RISCV_RELATIVE : Nat := 3

/-- The macro `PFN_DOWN(x)`. -/
def PFN_DOWN (x : Nat) : Nat := x >>> PAGE_SHIFT

/-- The macro `PFN_PHYS(x)`, a 64-bit left shift. -/
def PFN_PHYS (x : Nat) : Nat := (x <<< PAGE_SHIFT) % WORD

/-- The constructors `pfn_pte`, `pfn_pmd`, `pfn_pud`, `pfn_pgd`: the frame number
shifted over the protection bits. -/
def pfn_pte (pfn prot : Nat) : Nat := ((pfn <<< _PAGE_PFN_SHIFT) % WORD) ||| prot

/-- The accessors `_pmd_pfn`, `_pud_pfn`, `_pgd_pfn`. -/
def _pmd_pfn (e : Nat) : Nat := e >>> _PAGE_PFN_SHIFT

def pte_index (a : Nat) : Nat := (a >>> PAGE_SHIFT) &&& (PTRS_PER_PTE - 1)
def pmd_index (a : Nat) : Nat := (a >>> PMD_SHIFT) &&& (PTRS_PER_PMD - 1)
def pud_index (a : Nat) : Nat := (a >>> PUD_SHIFT) &&& (PTRS_PER_PUD - 1)

/-! ## Link-time layout, events and machine state -/

/-- Addresses fixed when the image is linked and loaded, and the constants of
the fixmap header.  Symbol addresses are the physical ones (what PC-relative
addressing yields while translation is off). -/
structure Config where
  /-- The link-time virtual base `CONFIG_PAGE_OFFSET`. -/
  CONFIG_PAGE_OFFSET : Nat
  /-- The virtual base of the shallow mode, `PAGE_OFFSET_L3`. -/
  PAGE_OFFSET_L3 : Nat
  /-- The top of the fixmap, `FIXADDR_TOP`, as a function of the current `PAGE_OFFSET`. -/
  FIXADDR_TOP : Nat → Nat
  /-- The size `FIX_FDT_SIZE` of the blob window. -/
  FIX_FDT_SIZE : Nat
  /-- The enumerators `FIX_FDT`, `FIX_PTE`, `FIX_PMD`, `FIX_PUD` of `enum fixed_addresses`. -/
  FIX_FDT : Nat
  FIX_PTE : Nat
  FIX_PMD : Nat
  FIX_PUD : Nat
  /-- The enumerator `__end_of_fixed_addresses`. -/
  end_of_fixed_addresses : Nat
  /-- The symbols `_start` and `_end`: physical load address and end of the image. -/
  _start : Nat
  _end : Nat
  /-- The symbols `__rela_dyn_start` and `__rela_dyn_end`. -/
  __rela_dyn_start : Nat
  __rela_dyn_end : Nat
  early_pg_dir : Nat
  trampoline_pg_dir : Nat
  swapper_pg_dir : Nat
  fixmap_pte : Nat
  fixmap_pmd : Nat
  fixmap_pud : Nat
  trampoline_pmd : Nat
  trampoline_pud : Nat
  early_pmd : Nat
  early_pud : Nat

/-- The first enumerator of `enum fixed_addresses`, `FIX_HOLE`. -/
def FIX_HOLE : Nat := 0

/-- Operations whose effect lies outside memory; recorded in program order
(newest first). -/
inductive Event
  | alloc (pa : Nat)
  | local_flush_tlb_page (addr : Nat)
  | local_flush_tlb_all
  | csr_write_satp (v : Nat)
  deriving DecidableEq, Repr

/-- One `struct memblock_region` of `memblock.memory`. -/
structure memblock_region where
  base : Nat
  size : Nat
  nomap : Bool
  deriving DecidableEq, Repr

/-- Memory and the globals of the file. -/
structure State where
  /-- Physical memory. -/
  mem : Nat → Nat
  mmu_enabled : Bool
  pgtable_l4_enabled : Bool
  satp_mode : Nat
  kernel_virt_addr : Nat
  va_pa_offset : Nat
  pfn_base : Nat
  dtb_early_va : Nat
  dtb_early_pa : Nat
  /-- Pages `memblock_phys_alloc(PAGE_SIZE, PAGE_SIZE)` will return, in order. -/
  free_pages : List Nat
  /-- The regions of `memblock.memory`, as `for_each_memblock` visits them. -/
  memory : List memblock_region
  trace : List Event

/-- Why the machine stopped. -/
inductive Halt
  /-- A `BUG_ON` at the given source line fired. -/
  | BUG_ON (line : Nat)
  /-- An access through an unmapped virtual address. -/
  | fault (va : Nat)
  /-- A loop whose counter wrapped around and which therefore never exits. -/
  | diverges (line : Nat)
  deriving DecidableEq, Repr

/-- A stopped machine: the cause and the state it stopped in. -/
structure Stopped where
  cause : Halt
  st : State

/-- The macro `PAGE_OFFSET` is `kernel_virt_addr` in a relocatable kernel. -/
def PAGE_OFFSET (s : State) : Nat := s.kernel_virt_addr

/-- The shift `PGDIR_SHIFT` depends on the depth chosen at run time. -/
def PGDIR_SHIFT (s : State) : Nat := if s.pgtable_l4_enabled then 39 else 30

def PGDIR_SIZE (s : State) : Nat := 1 <<< PGDIR_SHIFT s

def pgd_index (s : State) (a : Nat) : Nat := (a >>> PGDIR_SHIFT s) &&& (PTRS_PER_PGD - 1)

def FIXADDR_START (cfg : Config) (s : State) : Nat :=
  sub64 (cfg.FIXADDR_TOP (PAGE_OFFSET s)) FIXADDR_SIZE

/-- The macro `__fix_to_virt(x)`. -/
def __fix_to_virt (cfg : Config) (s : State) (x : Nat) : Nat :=
  sub64 (cfg.FIXADDR_TOP (PAGE_OFFSET s)) ((x <<< PAGE_SHIFT) % WORD)

/-- The macro `__va(pa)`. -/
def __va (s : State) (pa : Nat) : Nat := add64 pa s.va_pa_offset

/-- The macro `__pa(va)`, also `__pa_symbol`. -/
def __pa (s : State) (va : Nat) : Nat := sub64 va s.va_pa_offset

/-- The value of a symbol address expression `(uintptr_t)sym` for the symbol at
physical address `p`: the physical address while translation is off, its image
in the kernel mapping afterwards. -/
def symbol (s : State) (p : Nat) : Nat := if s.mmu_enabled then __va s p else p

/-! ## Memory access -/

/-- Pointwise update of physical memory. -/
def upd (m : Nat → Nat) (a v : Nat) : Nat → Nat := fun x => if x = a then v else m x

/-- Address translation for data accesses made by this file.

With translation disabled a pointer is a physical address.  With translation
enabled the active root is the one phase 1 built: addresses of the fixmap range
go through the entry of `fixmap_pte` selected by `pte_index` (a missing entry
faults), every other address is in the kernel mapping at offset `va_pa_offset`. -/
def translate (cfg : Config) (s : State) (va : Nat) : Except Stopped Nat :=
  if s.mmu_enabled then
    if FIXADDR_START cfg s ≤ va ∧ va < cfg.FIXADDR_TOP (PAGE_OFFSET s) then
      let e := s.mem (cfg.fixmap_pte + 8 * pte_index va)
      if e &&& _PAGE_PRESENT = 0 then .error ⟨.fault va, s⟩
      else .ok (add64 (PFN_PHYS (_pmd_pfn e)) (va &&& (PAGE_SIZE - 1)))
    else .ok (__pa s va)
  else .ok va

/-- Read of the word a pointer points to. -/
def load (cfg : Config) (s : State) (ptr : Nat) : Except Stopped Nat :=
  (translate cfg s ptr).bind fun a => .ok (s.mem a)

/-- Write of a word through a pointer. -/
def store (cfg : Config) (s : State) (ptr v : Nat) : Except Stopped State :=
  (translate cfg s ptr).bind fun a => .ok { s with mem := upd s.mem a v }

/-- The element `tbl[i]` of a table of 64-bit entries. -/
def slot (tbl i : Nat) : Nat := add64 tbl (8 * i)

/-- The call `memset(ptr, 0, 8 * n)`, one word at a time. -/
def memset_zero (cfg : Config) (s : State) (ptr : Nat) : Nat → Except Stopped State
  | 0 => .ok s
  | n + 1 => (store cfg s ptr 0).bind fun s1 => memset_zero cfg s1 (add64 ptr 8) n

/-! ## Granularity selection -/

/-- Source function `best_map_size` (lines 414-421). -/
def best_map_size (base size : Nat) : Nat :=
  if (base &&& (PMD_SIZE - 1)) ≠ 0 ∨ (size &&& (PMD_SIZE - 1)) ≠ 0 then PAGE_SIZE
  else PMD_SIZE

/-! ## The fixmap and the table access port -/

/-- Source function `__set_fixmap` (lines 207-222). -/
def __set_fixmap (cfg : Config) (s : State) (idx phys prot : Nat) : Except Stopped State :=
  let addr := __fix_to_virt cfg s idx
  if idx ≤ FIX_HOLE ∨ idx ≥ cfg.end_of_fixed_addresses then .error ⟨.BUG_ON 212, s⟩
  else
    let ptep := slot (symbol s cfg.fixmap_pte) (pte_index addr)
    if prot ≠ 0 then store cfg s ptep (pfn_pte (phys >>> PAGE_SHIFT) prot)
    else
      (store cfg s ptep 0).bind fun s1 =>
        .ok { s1 with trace := Event.local_flush_tlb_page addr :: s1.trace }

/-- The generic macro `clear_fixmap(idx)`. -/
def clear_fixmap (cfg : Config) (s : State) (idx : Nat) : Except Stopped State :=
  __set_fixmap cfg s idx 0 FIXMAP_PAGE_CLEAR

/-- The generic macro `set_fixmap_offset(idx, phys)`: install, then return the
slot address plus the offset of `phys` in its page. -/
def set_fixmap_offset (cfg : Config) (s : State) (idx phys : Nat) :
    Except Stopped (State × Nat) :=
  (__set_fixmap cfg s idx phys FIXMAP_PAGE_NORMAL).bind fun s1 =>
    .ok (s1, add64 (__fix_to_virt cfg s1 idx) (phys &&& (PAGE_SIZE - 1)))

/-- Source function `get_pte_virt` (lines 224-232). -/
def get_pte_virt (cfg : Config) (s : State) (pa : Nat) : Except Stopped (State × Nat) :=
  if s.mmu_enabled then
    (clear_fixmap cfg s cfg.FIX_PTE).bind fun s1 => set_fixmap_offset cfg s1 cfg.FIX_PTE pa
  else .ok (s, pa)

/-- Source function `get_pmd_virt` (lines 266-274). -/
def get_pmd_virt (cfg : Config) (s : State) (pa : Nat) : Except Stopped (State × Nat) :=
  if s.mmu_enabled then
    (clear_fixmap cfg s cfg.FIX_PMD).bind fun s1 => set_fixmap_offset cfg s1 cfg.FIX_PMD pa
  else .ok (s, pa)

/-- Source function `get_pud_virt` (lines 314-322). -/
def get_pud_virt (cfg : Config) (s : State) (pa : Nat) : Except Stopped (State × Nat) :=
  if s.mmu_enabled then
    (clear_fixmap cfg s cfg.FIX_PUD).bind fun s1 => set_fixmap_offset cfg s1 cfg.FIX_PUD pa
  else .ok (s, pa)

/-! ## The emergency allocator -/

/-- Bookkeeping of a table page handed out by an allocator. -/
def handed_out (s : State) (p : Nat) : State × Nat :=
  ({ s with trace := Event.alloc p :: s.trace }, p)

/-- The call `memblock_phys_alloc(PAGE_SIZE, PAGE_SIZE)` of the region tracker:
the next free page, or 0 when none is left. -/
def memblock_phys_alloc (s : State) : State × Nat :=
  match s.free_pages with
  | [] => handed_out s 0
  | p :: rest => handed_out { s with free_pages := rest } p

/-- Source function `alloc_pte` (lines 234-243). -/
def alloc_pte (s : State) (_va : Nat) : Except Stopped (State × Nat) :=
  if ¬ s.mmu_enabled then .error ⟨.BUG_ON 240, s⟩
  else .ok (memblock_phys_alloc s)

/-- Source function `alloc_pmd` (lines 276-285). -/
def alloc_pmd (cfg : Config) (s : State) (va : Nat) : Except Stopped (State × Nat) :=
  if s.mmu_enabled then .ok (memblock_phys_alloc s)
  else if (sub64 va (PAGE_OFFSET s)) >>> PUD_SHIFT ≠ 0 then .error ⟨.BUG_ON 282, s⟩
  else .ok (handed_out s (symbol s cfg.early_pmd))

/-- Source function `alloc_pud` (lines 324-333). -/
def alloc_pud (cfg : Config) (s : State) (va : Nat) : Except Stopped (State × Nat) :=
  if s.mmu_enabled then .ok (memblock_phys_alloc s)
  else if (sub64 va (PAGE_OFFSET s)) >>> PGDIR_SHIFT s ≠ 0 then .error ⟨.BUG_ON 330, s⟩
  else .ok (handed_out s (symbol s cfg.early_pud))

/-! ## The mapping builder -/

/-- Source function `create_pte_mapping` (lines 245-255). -/
def create_pte_mapping (cfg : Config) (s : State) (ptep va pa sz prot : Nat) :
    Except Stopped State :=
  let p := slot ptep (pte_index va)
  if sz ≠ PAGE_SIZE then .error ⟨.BUG_ON 251, s⟩
  else
    (load cfg s p).bind fun e =>
      if e = 0 then store cfg s p (pfn_pte (PFN_DOWN pa) prot) else .ok s

/-- Source function `create_pmd_mapping` (lines 287-312). -/
def create_pmd_mapping (cfg : Config) (s : State) (pmdp va pa sz prot : Nat) :
    Except Stopped State :=
  let p := slot pmdp (pmd_index va)
  if sz = PMD_SIZE then
    (load cfg s p).bind fun e =>
      if e = 0 then store cfg s p (pfn_pte (PFN_DOWN pa) prot) else .ok s
  else
    (load cfg s p).bind fun e =>
      if e = 0 then
        (alloc_pte s va).bind fun a =>
        (store cfg a.1 p (pfn_pte (PFN_DOWN a.2) PAGE_TABLE)).bind fun s2 =>
        (get_pte_virt cfg s2 a.2).bind fun w =>
        (memset_zero cfg w.1 w.2 (PAGE_SIZE / 8)).bind fun s4 =>
        create_pte_mapping cfg s4 w.2 va pa sz prot
      else
        (get_pte_virt cfg s (PFN_PHYS (_pmd_pfn e))).bind fun w =>
        create_pte_mapping cfg w.1 w.2 va pa sz prot

/-- Source function `create_pud_mapping` (lines 335-360). -/
def create_pud_mapping (cfg : Config) (s : State) (pudp va pa sz prot : Nat) :
    Except Stopped State :=
  let p := slot pudp (pud_index va)
  if sz = PUD_SIZE then
    (load cfg s p).bind fun e =>
      if e = 0 then store cfg s p (pfn_pte (PFN_DOWN pa) prot) else .ok s
  else
    (load cfg s p).bind fun e =>
      if e = 0 then
        (alloc_pmd cfg s va).bind fun a =>
        (store cfg a.1 p (pfn_pte (PFN_DOWN a.2) PAGE_TABLE)).bind fun s2 =>
        (get_pmd_virt cfg s2 a.2).bind fun w =>
        (memset_zero cfg w.1 w.2 (PAGE_SIZE / 8)).bind fun s4 =>
        create_pmd_mapping cfg s4 w.2 va pa sz prot
      else
        (get_pmd_virt cfg s (PFN_PHYS (_pmd_pfn e))).bind fun w =>
        create_pmd_mapping cfg w.1 w.2 va pa sz prot

/-- Source function `create_pgd_mapping` (lines 380-412), with `pgd_next_t` the
upper level (`__PAGETABLE_PMD_FOLDED` is not defined on RV64). -/
def create_pgd_mapping (cfg : Config) (s : State) (pgdp va pa sz prot : Nat) :
    Except Stopped State :=
  let p := slot pgdp (pgd_index s va)
  if ¬ s.pgtable_l4_enabled then create_pud_mapping cfg s pgdp va pa sz prot
  else if sz = PGDIR_SIZE s then
    (load cfg s p).bind fun e =>
      if e = 0 then store cfg s p (pfn_pte (PFN_DOWN pa) prot) else .ok s
  else
    (load cfg s p).bind fun e =>
      if e = 0 then
        (alloc_pud cfg s va).bind fun a =>
        (store cfg a.1 p (pfn_pte (PFN_DOWN a.2) PAGE_TABLE)).bind fun s2 =>
        (get_pud_virt cfg s2 a.2).bind fun w =>
        (memset_zero cfg w.1 w.2 (PAGE_SIZE / 8)).bind fun s4 =>
        create_pud_mapping cfg s4 w.2 va pa sz prot
      else
        (get_pud_virt cfg s (PFN_PHYS (_pmd_pfn e))).bind fun w =>
        create_pud_mapping cfg w.1 w.2 va pa sz prot

/-- The macro `fixmap_pgd_next` (lines 367-368). -/
def fixmap_pgd_next (cfg : Config) (s : State) : Nat :=
  if s.pgtable_l4_enabled then symbol s cfg.fixmap_pud else symbol s cfg.fixmap_pmd

/-- The macro `trampoline_pgd_next` (lines 369-370). -/
def trampoline_pgd_next (cfg : Config) (s : State) : Nat :=
  if s.pgtable_l4_enabled then symbol s cfg.trampoline_pud else symbol s cfg.trampoline_pmd

/-! ## The relocator

The relocator reads and writes through pointers that come from the data of the
relocation table, so its accesses may be at any byte address.  Memory holds the
64-bit words at the multiples of 8, least significant byte first; an access at
`8q + k` takes the upper `8 - k` bytes of the word at `8q` and the lower `k`
bytes of the word after it. -/

/-- The 64-bit word read at the byte address `a`. -/
def read64 (m : Nat → Nat) (a : Nat) : Nat :=
  if a % 8 = 0 then m a
  else m (a - a % 8) % WORD / 2 ^ (8 * (a % 8)) +
    m (add64 (a - a % 8) 8) % 2 ^ (8 * (a % 8)) * 2 ^ (64 - 8 * (a % 8))

/-- Memory after the 64-bit word `v` has been written at the byte address `a`:
an aligned write replaces one word, any other write replaces the upper bytes of
one word and the lower bytes of the next. -/
def write64 (m : Nat → Nat) (a v : Nat) : Nat → Nat :=
  if a % 8 = 0 then upd m a (v % WORD)
  else
    upd (upd m (a - a % 8)
        (m (a - a % 8) % 2 ^ (8 * (a % 8)) + v % 2 ^ (64 - 8 * (a % 8)) * 2 ^ (8 * (a % 8))))
      (add64 (a - a % 8) 8)
      (m (add64 (a - a % 8) 8) % WORD / 2 ^ (8 * (a % 8)) * 2 ^ (8 * (a % 8)) +
        v % WORD / 2 ^ (64 - 8 * (a % 8)))

/-- Read of a 64-bit word through a pointer to any byte address. -/
def load64 (cfg : Config) (s : State) (ptr : Nat) : Except Stopped Nat :=
  (translate cfg s ptr).bind fun a => .ok (read64 s.mem a)

/-- Write of a 64-bit word through a pointer to any byte address (line 486:
`*(Elf_Addr *)addr = relocated_addr`). -/
def store64 (cfg : Config) (s : State) (ptr v : Nat) : Except Stopped State :=
  (translate cfg s ptr).bind fun a => .ok { s with mem := write64 s.mem a v }

/-- The loop of `relocate_kernel` (lines 470-487) from the record at `rela` on.
A record is three words: `r_offset`, `r_info`, `r_addend`.  The fuel bounds the
number of records; it runs out only if the record pointer wrapped around. -/
def relocate_loop (cfg : Config) (link_addr reloc_offset va_link_pa_offset : Nat) :
    Nat → State → Nat → Except Stopped State
  | 0, s, rela =>
    if rela < symbol s cfg.__rela_dyn_end then .error ⟨.diverges 470, s⟩ else .ok s
  | fuel + 1, s, rela =>
    if rela < symbol s cfg.__rela_dyn_end then
      (load64 cfg s rela).bind fun r_offset =>
      (load64 cfg s (add64 rela 8)).bind fun r_info =>
      (load64 cfg s (add64 rela 16)).bind fun r_addend =>
        let addr := sub64 r_offset va_link_pa_offset
        if r_info ≠ R_RISCV_RELATIVE then
          relocate_loop cfg link_addr reloc_offset va_link_pa_offset fuel s (add64 rela 24)
        else
          let relocated_addr :=
            if r_addend ≥ link_addr then add64 r_addend reloc_offset else r_addend
          (store64 cfg s addr relocated_addr).bind fun s1 =>
            relocate_loop cfg link_addr reloc_offset va_link_pa_offset fuel s1 (add64 rela 24)
    else .ok s

/-- Source function `relocate_kernel` (lines 454-488). -/
def relocate_kernel (cfg : Config) (s : State) (load_pa : Nat) : Except Stopped State :=
  let rela := symbol s cfg.__rela_dyn_start
  let link_addr := cfg.CONFIG_PAGE_OFFSET
  let reloc_offset := sub64 (PAGE_OFFSET s) link_addr
  let va_link_pa_offset := sub64 link_addr load_pa
  relocate_loop cfg link_addr reloc_offset va_link_pa_offset
    (sub64 (symbol s cfg.__rela_dyn_end) rela / 24 + 1) s rela

/-! ## Phase 1 -/

/-- The sanity checks of `setup_vm` (lines 516-521), in order; the result is the
first check that fires. -/
def setup_vm_checks (cfg : Config) (s : State) (load_pa load_sz map_size : Nat) : Option Halt :=
  if map_size = PAGE_SIZE then some (.BUG_ON 516)
  else if cfg.CONFIG_PAGE_OFFSET % PGDIR_SIZE s ≠ 0 then some (.BUG_ON 519)
  else if load_pa % map_size ≠ 0 then some (.BUG_ON 520)
  else if load_sz > MAX_EARLY_MAPPING_SIZE then some (.BUG_ON 521)
  else none

/-- The loop of `setup_vm` mapping the image (lines 555-558).  The fuel is the
number of steps that reach `end_va` without wrap-around. -/
def setup_vm_image (cfg : Config) (load_pa map_size end_va : Nat) :
    Nat → State → Nat → Except Stopped State
  | 0, s, va => if va < end_va then .error ⟨.diverges 555, s⟩ else .ok s
  | fuel + 1, s, va =>
    if va < end_va then
      (create_pgd_mapping cfg s (symbol s cfg.early_pg_dir) va
          (add64 load_pa (sub64 va (PAGE_OFFSET s))) map_size PAGE_KERNEL_EXEC).bind fun s1 =>
        setup_vm_image cfg load_pa map_size end_va fuel s1 (add64 va map_size)
    else .ok s

/-- The loop of `setup_vm` staging the blob (lines 562-565). -/
def setup_vm_fdt (cfg : Config) (dtb_pa end_va : Nat) :
    Nat → State → Nat → Except Stopped State
  | 0, s, va => if va < end_va then .error ⟨.diverges 562, s⟩ else .ok s
  | fuel + 1, s, va =>
    if va < end_va then
      (create_pte_mapping cfg s (symbol s cfg.fixmap_pte) va
          (add64 dtb_pa (sub64 va (__fix_to_virt cfg s cfg.FIX_FDT))) PAGE_SIZE PAGE_KERNEL).bind
        fun s1 => setup_vm_fdt cfg dtb_pa end_va fuel s1 (add64 va PAGE_SIZE)
    else .ok s

/-- The table construction of `setup_vm` (lines 523-570), after the checks. -/
def setup_vm_tables (cfg : Config) (s : State) (dtb_pa load_pa load_sz map_size : Nat) :
    Except Stopped State :=
  (create_pgd_mapping cfg s (symbol s cfg.early_pg_dir) (FIXADDR_START cfg s)
      (fixmap_pgd_next cfg s) (PGDIR_SIZE s) PAGE_TABLE).bind fun s =>
  (if s.pgtable_l4_enabled then
      create_pud_mapping cfg s (symbol s cfg.fixmap_pud) (FIXADDR_START cfg s)
        (symbol s cfg.fixmap_pmd) PUD_SIZE PAGE_TABLE
    else .ok s).bind fun s =>
  (create_pmd_mapping cfg s (symbol s cfg.fixmap_pmd) (FIXADDR_START cfg s)
      (symbol s cfg.fixmap_pte) PMD_SIZE PAGE_TABLE).bind fun s =>
  (create_pgd_mapping cfg s (symbol s cfg.trampoline_pg_dir) (PAGE_OFFSET s)
      (trampoline_pgd_next cfg s) (PGDIR_SIZE s) PAGE_TABLE).bind fun s =>
  (if s.pgtable_l4_enabled then
      create_pud_mapping cfg s (symbol s cfg.trampoline_pud) (PAGE_OFFSET s)
        (symbol s cfg.trampoline_pmd) PUD_SIZE PAGE_TABLE
    else .ok s).bind fun s =>
  (create_pmd_mapping cfg s (symbol s cfg.trampoline_pmd) (PAGE_OFFSET s)
      load_pa PMD_SIZE PAGE_KERNEL_EXEC).bind fun s =>
  (setup_vm_image cfg load_pa map_size (add64 (PAGE_OFFSET s) load_sz)
      (load_sz / map_size + 1) s (PAGE_OFFSET s)).bind fun s =>
  (setup_vm_fdt cfg dtb_pa (add64 (__fix_to_virt cfg s cfg.FIX_FDT) cfg.FIX_FDT_SIZE)
      (cfg.FIX_FDT_SIZE / PAGE_SIZE + 1) s (__fix_to_virt cfg s cfg.FIX_FDT)).bind fun s =>
  .ok { s with
    dtb_early_va := add64 (__fix_to_virt cfg s cfg.FIX_FDT) (dtb_pa &&& (PAGE_SIZE - 1))
    dtb_early_pa := dtb_pa }

/-- Source function `setup_vm` (lines 491-571). -/
def setup_vm (cfg : Config) (s0 : State) (dtb_pa : Nat) : Except Stopped State :=
  let load_pa := symbol s0 cfg._start
  let load_sz := sub64 (symbol s0 cfg._end) load_pa
  let map_size := best_map_size load_pa MAX_EARLY_MAPPING_SIZE
  let s := { s0 with
    va_pa_offset := sub64 (PAGE_OFFSET s0) load_pa
    pfn_base := PFN_DOWN load_pa }
  if SZ_1G - (PAGE_OFFSET s &&& (SZ_1G - 1)) < load_sz then .error ⟨.BUG_ON 508, s⟩
  else
    (relocate_kernel cfg s load_pa).bind fun s =>
      match setup_vm_checks cfg s load_pa load_sz map_size with
      | some h => .error ⟨h, s⟩
      | none => setup_vm_tables cfg s dtb_pa load_pa load_sz map_size

/-! ## Phase 1b: depth fallback -/

/-- Source function `setup_vm_fold_pud` (lines 578-593). -/
def setup_vm_fold_pud (cfg : Config) (s : State) : Except Stopped State :=
  let s := { s with
    pgtable_l4_enabled := false
    kernel_virt_addr := cfg.PAGE_OFFSET_L3
    satp_mode := SATP_MODE_39 }
  (memset_zero cfg s (symbol s cfg.trampoline_pg_dir) PTRS_PER_PGD).bind fun s =>
  (memset_zero cfg s (symbol s cfg.early_pg_dir) PTRS_PER_PGD).bind fun s =>
  setup_vm cfg s s.dtb_early_pa

/-! ## Phase 2 -/

/-- The inner loop of `setup_vm_final` (lines 624-628). -/
def setup_vm_final_range (cfg : Config) (map_size end_ : Nat) :
    Nat → State → Nat → Except Stopped State
  | 0, s, pa => if pa < end_ then .error ⟨.diverges 624, s⟩ else .ok s
  | fuel + 1, s, pa =>
    if pa < end_ then
      (create_pgd_mapping cfg s (symbol s cfg.swapper_pg_dir) (__va s pa) pa map_size
          PAGE_KERNEL_EXEC).bind fun s1 =>
        setup_vm_final_range cfg map_size end_ fuel s1 (add64 pa map_size)
    else .ok s

/-- The loop of `setup_vm_final` over the memory regions (lines 611-629). -/
def setup_vm_final_banks (cfg : Config) : List memblock_region → State → Except Stopped State
  | [], s => .ok s
  | reg :: rest, s =>
    let start := reg.base
    let end_ := add64 start reg.size
    if start ≥ end_ then .ok s
    else if reg.nomap then setup_vm_final_banks cfg rest s
    else
      let start :=
        if start ≤ __pa s (PAGE_OFFSET s) ∧ __pa s (PAGE_OFFSET s) < end_ then
          __pa s (PAGE_OFFSET s)
        else start
      let map_size := best_map_size start (sub64 end_ start)
      (setup_vm_final_range cfg map_size end_ (sub64 end_ start / map_size + 1) s start).bind
        fun s1 => setup_vm_final_banks cfg rest s1

/-- Source function `setup_vm_final` (lines 596-639). -/
def setup_vm_final (cfg : Config) (s : State) : Except Stopped State :=
  let s := { s with mmu_enabled := true }
  (create_pgd_mapping cfg s (symbol s cfg.swapper_pg_dir) (FIXADDR_START cfg s)
      (__pa s (fixmap_pgd_next cfg s)) (PGDIR_SIZE s) PAGE_TABLE).bind fun s =>
  (setup_vm_final_banks cfg s.memory s).bind fun s =>
  (clear_fixmap cfg s cfg.FIX_PTE).bind fun s =>
  (clear_fixmap cfg s cfg.FIX_PMD).bind fun s =>
  (clear_fixmap cfg s cfg.FIX_PUD).bind fun s =>
  .ok { s with
    trace := Event.local_flush_tlb_all ::
      Event.csr_write_satp (PFN_DOWN (__pa s (symbol s cfg.swapper_pg_dir)) ||| s.satp_mode) ::
      s.trace }

/-! ## The hardware table walk

The claims speak of looking an address up in a table tree.  The walk below is
the Sv39/Sv48 one on physical memory: an entry without the valid bit ends the
walk without a result, a valid entry with one of the read, write or execute
bits is a leaf, any other valid entry points to the table of the next level. -/

/-- The four table levels, root first. -/
inductive Level
  | pgd | pud | pmd | pte
  deriving DecidableEq, Repr

/-- Bytes mapped by one entry of a level (`l4` is the depth). -/
def Level.block (l4 : Bool) : Level → Nat
  | .pgd => if l4 then 1 <<< 39 else 1 <<< 30
  | .pud => PUD_SIZE
  | .pmd => PMD_SIZE
  | .pte => PAGE_SIZE

/-- The leaf a walk ends at. -/
structure Leaf where
  level : Level
  pfn : Nat
  prot : Nat
  deriving DecidableEq, Repr

/-- An entry with the valid bit. -/
def entry_valid (e : Nat) : Bool := e &&& _PAGE_PRESENT ≠ 0

/-- A valid entry that maps memory rather than pointing to a table. -/
def entry_leaf (e : Nat) : Bool :=
  entry_valid e && (e &&& (_PAGE_READ ||| _PAGE_WRITE ||| _PAGE_EXEC) ≠ 0)

/-- The protection bits of an entry. -/
def entry_prot (e : Nat) : Nat := e &&& ((1 <<< _PAGE_PFN_SHIFT) - 1)

/-- Walk of the last level. -/
def walk_pte (m : Nat → Nat) (tbl va : Nat) : Option Leaf :=
  let e := m (slot tbl (pte_index va))
  if entry_leaf e then some ⟨.pte, _pmd_pfn e, entry_prot e⟩ else none

/-- Walk from a middle-level table. -/
def walk_pmd (m : Nat → Nat) (tbl va : Nat) : Option Leaf :=
  let e := m (slot tbl (pmd_index va))
  if entry_leaf e then some ⟨.pmd, _pmd_pfn e, entry_prot e⟩
  else if entry_valid e then walk_pte m (PFN_PHYS (_pmd_pfn e)) va
  else none

/-- Walk from an upper-level table. -/
def walk_pud (m : Nat → Nat) (tbl va : Nat) : Option Leaf :=
  let e := m (slot tbl (pud_index va))
  if entry_leaf e then some ⟨.pud, _pmd_pfn e, entry_prot e⟩
  else if entry_valid e then walk_pmd m (PFN_PHYS (_pmd_pfn e)) va
  else none

/-- Walk from the root at physical address `root`, at the depth of the state. -/
def walk (s : State) (root va : Nat) : Option Leaf :=
  if s.pgtable_l4_enabled then
    let e := s.mem (slot root (pgd_index s va))
    if entry_leaf e then some ⟨.pgd, _pmd_pfn e, entry_prot e⟩
    else if entry_valid e then walk_pud s.mem (PFN_PHYS (_pmd_pfn e)) va
    else none
  else walk_pud s.mem root va

/-- The physical address a walk resolves `va` to, with the protection of the
leaf: the frame of the leaf plus the offset of `va` in the block. -/
def resolve (s : State) (root va : Nat) : Option (Nat × Nat) :=
  (walk s root va).map fun l =>
    (PFN_PHYS l.pfn + va % l.level.block s.pgtable_l4_enabled, l.prot)

/-! ## Specification-side definitions -/

/-- The selector as the specification words it: the first block size of a
descending list that divides both `base` and `size`, the base page otherwise. -/
def select_granularity (sizes : List Nat) (base size : Nat) : Nat :=
  match sizes.find? (fun g => base % g = 0 ∧ size % g = 0) with
  | some g => g
  | none => PAGE_SIZE


/-- Number of records the loop of `relocate_kernel` visits. -/
def rela_count (cfg : Config) : Nat :=
  (cfg.__rela_dyn_end - cfg.__rela_dyn_start + 23) / 24

/-- Field `r_offset` of record `i` of the table stored in memory `m`. -/
def rela_offset (cfg : Config) (m : Nat → Nat) (i : Nat) : Nat :=
  read64 m (cfg.__rela_dyn_start + 24 * i)

/-- Field `r_info` of record `i`. -/
def rela_info (cfg : Config) (m : Nat → Nat) (i : Nat) : Nat :=
  read64 m (cfg.__rela_dyn_start + 24 * i + 8)

/-- Field `r_addend` of record `i`. -/
def rela_addend (cfg : Config) (m : Nat → Nat) (i : Nat) : Nat :=
  read64 m (cfg.__rela_dyn_start + 24 * i + 16)

/-- The location record `i` is applied to when the image is loaded at `P`:
`r_offset - (L - P)`. -/
def rela_target (cfg : Config) (m : Nat → Nat) (P i : Nat) : Nat :=
  sub64 (rela_offset cfg m i) (sub64 cfg.CONFIG_PAGE_OFFSET P)

/-- The word a load-relative record `i` leaves at its location when the final
base is `F`: the addend shifted by `F - L` if it is at or above `L`, the addend
itself otherwise. -/
def rela_value (cfg : Config) (m : Nat → Nat) (F i : Nat) : Nat :=
  if rela_addend cfg m i ≥ cfg.CONFIG_PAGE_OFFSET then
    add64 (rela_addend cfg m i) (sub64 F cfg.CONFIG_PAGE_OFFSET)
  else rela_addend cfg m i

/-! ## A concrete machine

An Sv48 layout used to instantiate the theorems: the image is linked at
`0xffffc00000000000`, loaded at `0x80200000` and 8 MiB long; its relocation
table holds three records. -/

/-- A concrete layout. -/
def cfg0 : Config where
  CONFIG_PAGE_OFFSET := 0xffffc00000000000
  PAGE_OFFSET_L3 := 0xffffffe000000000
  FIXADDR_TOP := fun po => sub64 po 0x1101000000
  FIX_FDT_SIZE := 0x100000
  FIX_FDT := 256
  FIX_PTE := 257
  FIX_PMD := 258
  FIX_PUD := 259
  end_of_fixed_addresses := 261
  _start := 0x80200000
  _end := 0x80a00000
  __rela_dyn_start := 0x80800000
  __rela_dyn_end := 0x80800048
  early_pg_dir := 0x80900000
  trampoline_pg_dir := 0x80901000
  swapper_pg_dir := 0x80902000
  fixmap_pte := 0x80903000
  fixmap_pmd := 0x80904000
  fixmap_pud := 0x80905000
  trampoline_pmd := 0x80906000
  trampoline_pud := 0x80907000
  early_pmd := 0x80908000
  early_pud := 0x80909000

/-- Memory holding the relocation table of `cfg0`: a load-relative record with
an addend above the link base, one with an addend below it, and a record of
another kind. -/
def mem0 : Nat → Nat := fun a =>
  if a = 0x80800000 then 0xffffc00000500000
  else if a = 0x80800008 then 3
  else if a = 0x80800010 then 0xffffc00000001234
  else if a = 0x80800018 then 0xffffc00000500008
  else if a = 0x80800020 then 3
  else if a = 0x80800028 then 0x40
  else if a = 0x80800030 then 0xffffc00000500010
  else if a = 0x80800038 then 2
  else if a = 0x80800040 then 0xffffc00000005678
  else 0

/-- The machine at entry to `setup_vm`: translation off, the globals as
initialised by the file for the given depth. -/
def boot (cfg : Config) (m : Nat → Nat) (l4 : Bool) : State where
  mem := m
  mmu_enabled := false
  pgtable_l4_enabled := l4
  satp_mode := if l4 then SATP_MODE_48 else SATP_MODE_39
  kernel_virt_addr := cfg.CONFIG_PAGE_OFFSET
  va_pa_offset := 0
  pfn_base := 0
  dtb_early_va := 0
  dtb_early_pa := 0
  free_pages := []
  memory := []
  trace := []

/-- A machine in which slot 0 of `early_pmd` and slot 384 of `early_pg_dir`
already hold a leaf entry for the frame at `0x80200000`. -/
def populated0 : State :=
  boot cfg0 (fun a => if a = 0x80908000 ∨ a = 0x80900c00 then 0x200800cf else 0) true

/-- The machine `boot cfg0 mem0` after the depth fallback has set the globals:
shallow depth, final base `PAGE_OFFSET_L3`. -/
def shallow0 : State :=
  { boot cfg0 mem0 false with kernel_virt_addr := cfg0.PAGE_OFFSET_L3 }

/-- Memory holding a relocation table for `cfg0` whose two load-relative records
have the distinct locations `0x80700000` and `0x80700004`, four bytes apart. -/
def mem1 : Nat → Nat := fun a =>
  if a = 0x80800000 then 0xffffc00000500000
  else if a = 0x80800008 then 3
  else if a = 0x80800010 then 0xffffc00000001234
  else if a = 0x80800018 then 0xffffc00000500004
  else if a = 0x80800020 then 3
  else if a = 0x80800028 then 0x1122334455667788
  else if a = 0x80800030 then 0xffffc00000500010
  else if a = 0x80800038 then 2
  else if a = 0x80800040 then 0xffffc00000005678
  else 0

/-- The machine `shallow0` with the table of `mem1`. -/
def clash0 : State :=
  { boot cfg0 mem1 false with kernel_virt_addr := cfg0.PAGE_OFFSET_L3 }

/-- The globals that only the orchestrator writes are the same in both states;
memory, the free-page list and the event trace may differ. -/
def same_config (s t : State) : Prop :=
  t.mmu_enabled = s.mmu_enabled ∧ t.pgtable_l4_enabled = s.pgtable_l4_enabled ∧
  t.satp_mode = s.satp_mode ∧ t.kernel_virt_addr = s.kernel_virt_addr ∧
  t.va_pa_offset = s.va_pa_offset ∧ t.pfn_base = s.pfn_base ∧
  t.dtb_early_va = s.dtb_early_va ∧ t.dtb_early_pa = s.dtb_early_pa ∧
  t.memory = s.memory

/-! ## Physical-address semantics of the mapping builder

A second description of the mapping builder, used in the proofs: tables are
named by their physical address, there is no translation and there are no
fixmap windows.  The refinement theorems relate it to the embedding of the
source above. -/

/-- Memory after zeroing `n` consecutive words starting at `p`. -/
@[irreducible]
def zero_words (m : Nat → Nat) (p : Nat) : Nat → (Nat → Nat)
  | 0 => m
  | n + 1 => zero_words (upd m p 0) (add64 p 8) n

/-- A table address the fixmap windows cannot serve: one that is not the address
of a page, or the page of `fixmap_pte` itself (whose entries are the windows). -/
def unsafe_table (cfg : Config) (s : State) (T : Nat) : Prop :=
  s.mmu_enabled = true ∧ (T % PAGE_SIZE ≠ 0 ∨ WORD < T + PAGE_SIZE ∨ T = cfg.fixmap_pte)

instance (cfg : Config) (s : State) (T : Nat) : Decidable (unsafe_table cfg s T) := by
  unfold unsafe_table; infer_instance

/-- The shape shared by `create_pmd_mapping`, `create_pud_mapping` and the deep
branch of `create_pgd_mapping`: `SIZE` is the block size of the level, `idx` the
index of `va`, `alloc` and `getv` the allocator and the access port of the next
level, `child` the builder of the next level. -/
def create_level (cfg : Config) (SIZE idx : Nat)
    (alloc : State → Except Stopped (State × Nat))
    (getv : State → Nat → Except Stopped (State × Nat))
    (child : State → Nat → Except Stopped State)
    (s : State) (tbl pa sz prot : Nat) : Except Stopped State :=
  let p := slot tbl idx
  if sz = SIZE then
    (load cfg s p).bind fun e =>
      if e = 0 then store cfg s p (pfn_pte (PFN_DOWN pa) prot) else .ok s
  else
    (load cfg s p).bind fun e =>
      if e = 0 then
        (alloc s).bind fun a =>
        (store cfg a.1 p (pfn_pte (PFN_DOWN a.2) PAGE_TABLE)).bind fun s2 =>
        (getv s2 a.2).bind fun w =>
        (memset_zero cfg w.1 w.2 (PAGE_SIZE / 8)).bind fun s4 =>
        child s4 w.2
      else
        (getv s (PFN_PHYS (_pmd_pfn e))).bind fun w =>
        child w.1 w.2

/-- Physical-address version of `create_pte_mapping`. -/
def phys_pte (s : State) (T va pa sz prot : Nat) : Except Stopped State :=
  let c := slot T (pte_index va)
  if sz ≠ PAGE_SIZE then .error ⟨.BUG_ON 251, s⟩
  else if s.mem c = 0 then .ok { s with mem := upd s.mem c (pfn_pte (PFN_DOWN pa) prot) }
  else .ok s

/-- Physical-address version of `create_level`. -/
def phys_level (cfg : Config) (SIZE idx : Nat)
    (alloc : State → Except Stopped (State × Nat))
    (child : State → Nat → Except Stopped State)
    (s : State) (T pa sz prot : Nat) : Except Stopped State :=
  let c := slot T idx
  if sz = SIZE then
    if s.mem c = 0 then .ok { s with mem := upd s.mem c (pfn_pte (PFN_DOWN pa) prot) }
    else .ok s
  else if s.mem c = 0 then
    (alloc s).bind fun a =>
      if unsafe_table cfg a.1 a.2 then .error ⟨.fault a.2, a.1⟩
      else
        let m := zero_words (upd a.1.mem c (pfn_pte (PFN_DOWN a.2) PAGE_TABLE)) a.2 (PAGE_SIZE / 8)
        child { a.1 with mem := m } a.2
  else
    if unsafe_table cfg s (PFN_PHYS (_pmd_pfn (s.mem c))) then
      .error ⟨.fault (PFN_PHYS (_pmd_pfn (s.mem c))), s⟩
    else child s (PFN_PHYS (_pmd_pfn (s.mem c)))

/-- Physical-address version of `create_pmd_mapping`. -/
def phys_pmd (cfg : Config) (s : State) (T va pa sz prot : Nat) : Except Stopped State :=
  phys_level cfg PMD_SIZE (pmd_index va) (fun s => alloc_pte s va)
    (fun s T => phys_pte s T va pa sz prot) s T pa sz prot

/-- Physical-address version of `create_pud_mapping`. -/
def phys_pud (cfg : Config) (s : State) (T va pa sz prot : Nat) : Except Stopped State :=
  phys_level cfg PUD_SIZE (pud_index va) (fun s => alloc_pmd cfg s va)
    (fun s T => phys_pmd cfg s T va pa sz prot) s T pa sz prot

/-- Physical-address version of `create_pgd_mapping`. -/
def phys_pgd (cfg : Config) (s : State) (T va pa sz prot : Nat) : Except Stopped State :=
  if ¬ s.pgtable_l4_enabled then phys_pud cfg s T va pa sz prot
  else
    phys_level cfg (PGDIR_SIZE s) (pgd_index s va) (fun s => alloc_pud cfg s va)
      (fun s T => phys_pud cfg s T va pa sz prot) s T pa sz prot

/-- A pointer `ptr` gives access to the table at physical address `T`. -/
def Addr (cfg : Config) (s : State) (ptr T : Nat) : Prop :=
  ∀ i, i < 512 → translate cfg s (slot ptr i) = .ok (slot T i)

/-- The physical cell of `fixmap_pte` that holds the window of slot `idx`. -/
def wincell (cfg : Config) (s : State) (idx : Nat) : Nat :=
  cfg.fixmap_pte + 8 * pte_index (__fix_to_virt cfg s idx)

/-- The three window cells used by the table access port. -/
def Win (cfg : Config) (s : State) (a : Nat) : Prop :=
  a = wincell cfg s cfg.FIX_PTE ∨ a = wincell cfg s cfg.FIX_PMD ∨ a = wincell cfg s cfg.FIX_PUD

/-- The symbol at physical address `p` is reached through the kernel mapping,
not through the fixmap, once translation is on. -/
def Linear (cfg : Config) (s : State) (p : Nat) : Prop :=
  p + PAGE_SIZE ≤ WORD ∧
  (s.mmu_enabled = true →
    __va s p + PAGE_SIZE ≤ WORD ∧
    (__va s p + PAGE_SIZE ≤ FIXADDR_START cfg s ∨
      cfg.FIXADDR_TOP (PAGE_OFFSET s) ≤ __va s p))

/-- The fixmap geometry the table access port relies on once translation is on:
the fixmap range does not wrap, the three window slots are distinct slots of the
enumeration inside it, and `fixmap_pte` is a page reached through the kernel
mapping. -/
def Fixmap_ok (cfg : Config) (s : State) : Prop :=
  s.mmu_enabled = true →
    cfg.FIXADDR_TOP (PAGE_OFFSET s) < WORD ∧
    FIXADDR_SIZE ≤ cfg.FIXADDR_TOP (PAGE_OFFSET s) ∧
    cfg.FIXADDR_TOP (PAGE_OFFSET s) % PAGE_SIZE = 0 ∧
    cfg.fixmap_pte % PAGE_SIZE = 0 ∧
    Linear cfg s cfg.fixmap_pte ∧
    (FIX_HOLE < cfg.FIX_PTE ∧ cfg.FIX_PTE < cfg.end_of_fixed_addresses ∧ cfg.FIX_PTE ≤ 512) ∧
    (FIX_HOLE < cfg.FIX_PMD ∧ cfg.FIX_PMD < cfg.end_of_fixed_addresses ∧ cfg.FIX_PMD ≤ 512) ∧
    (FIX_HOLE < cfg.FIX_PUD ∧ cfg.FIX_PUD < cfg.end_of_fixed_addresses ∧ cfg.FIX_PUD ≤ 512) ∧
    cfg.FIX_PTE ≠ cfg.FIX_PMD ∧ cfg.FIX_PTE ≠ cfg.FIX_PUD ∧ cfg.FIX_PMD ≠ cfg.FIX_PUD

/-- The allocation events of a trace. -/
def allocs (t : List Event) : List Nat :=
  t.filterMap fun e => match e with
    | .alloc p => some p
    | _ => none

/-- The embedding state `sc` and the physical-semantics state `sp` describe the
same machine: equal globals, free pages and allocations, equal memory except
for the window cells; with translation off they are equal. -/
def Rel (cfg : Config) (sc sp : State) : Prop :=
  same_config sp sc ∧ sc.free_pages = sp.free_pages ∧ allocs sc.trace = allocs sp.trace ∧
  (∀ a, ¬ Win cfg sp a → sc.mem a = sp.mem a) ∧
  (sp.mmu_enabled = false → sc = sp)

/-- The embedding result `rc` simulates the physical-semantics result `rp`:
a returned state is matched by a related returned state, a `BUG_ON` by the same
`BUG_ON`. -/
def Sim (cfg : Config) (rc rp : Except Stopped State) : Prop :=
  match rp with
  | .ok sp => ∃ sc, rc = .ok sc ∧ Rel cfg sc sp
  | .error e =>
    match e.cause with
    | .BUG_ON n => ∃ st, rc = .error ⟨.BUG_ON n, st⟩
    | _ => True

/-- The state after the access port has pointed the window of slot `idx` at `T`. -/
def win_set (cfg : Config) (s : State) (idx T : Nat) : State :=
  { s with
    mem := upd s.mem (wincell cfg s idx) (pfn_pte (T >>> PAGE_SHIFT) FIXMAP_PAGE_NORMAL)
    trace := Event.local_flush_tlb_page (__fix_to_virt cfg s idx) :: s.trace }

/-- What the refinement needs of an access port `getv`. -/
def GetvSpec (cfg : Config) (getv : State → Nat → Except Stopped (State × Nat)) : Prop :=
  ∀ s T, Fixmap_ok cfg s → ¬ unsafe_table cfg s T →
    ∃ s1 ptr, getv s T = .ok (s1, ptr) ∧ Addr cfg s1 ptr T ∧ Rel cfg s1 s ∧
      (s.mmu_enabled = false → ptr = T) ∧ (s.mmu_enabled = true → ptr < WORD)

/-- What the refinement needs of an allocator: related states get the same
page, and the allocator changes neither memory nor the globals. -/
def AllocSpec (cfg : Config) (alloc : State → Except Stopped (State × Nat)) : Prop :=
  ∀ sc sp, Rel cfg sc sp →
    (∀ sp1 A, alloc sp = .ok (sp1, A) →
      ∃ sc1, alloc sc = .ok (sc1, A) ∧ Rel cfg sc1 sp1 ∧ sc1.mem = sc.mem ∧
        sp1.mem = sp.mem ∧ same_config sp sp1 ∧ same_config sc sc1) ∧
    (∀ e, alloc sp = .error e → ∃ n st, e.cause = .BUG_ON n ∧ alloc sc = .error ⟨.BUG_ON n, st⟩)

/-- Protection bits that make an entry a leaf for the table walk: they fit in
the ten low bits, the valid bit is set and so is one of read, write, execute. -/
def leaf_prot (prot : Nat) : Prop :=
  prot < 1024 ∧ prot % 2 = 1 ∧ 2 ≤ prot % 16

instance (prot : Nat) : Decidable (leaf_prot prot) := by
  unfold leaf_prot; infer_instance

/-- The static tables of the file, in a fixed order. -/
def tables (cfg : Config) : List Nat :=
  [cfg.early_pg_dir, cfg.trampoline_pg_dir, cfg.swapper_pg_dir, cfg.fixmap_pte,
    cfg.fixmap_pmd, cfg.fixmap_pud, cfg.trampoline_pmd, cfg.trampoline_pud, cfg.early_pmd,
    cfg.early_pud]

/-- The static tables of the file are distinct pages of the address space. -/
def Tables_ok (cfg : Config) : Prop :=
  (∀ p ∈ tables cfg, p % PAGE_SIZE = 0 ∧ p + PAGE_SIZE ≤ WORD) ∧ (tables cfg).Nodup

instance (cfg : Config) : Decidable (Tables_ok cfg) := by
  unfold Tables_ok; infer_instance

/-- The root index of an address at a given depth. -/
def pgd_index_of (l4 : Bool) (a : Nat) : Nat :=
  (a >>> (if l4 then 39 else 30)) &&& (PTRS_PER_PGD - 1)

/-- The early tables in memory `m` map the first `n` medium blocks of the image
loaded at `P` and linked at `PO`: the root leads to `early_pmd` (through
`early_pud` in the deep mode) and slot `j` of `early_pmd` holds the leaf of
block `j`. -/
def Kmap (cfg : Config) (m : Nat → Nat) (l4 : Bool) (PO P n : Nat) : Prop :=
  (if l4 then
      m (slot cfg.early_pg_dir (pgd_index_of true PO))
        = pfn_pte (PFN_DOWN cfg.early_pud) PAGE_TABLE ∧
      m (slot cfg.early_pud (pud_index PO)) = pfn_pte (PFN_DOWN cfg.early_pmd) PAGE_TABLE
    else
      m (slot cfg.early_pg_dir (pud_index PO)) = pfn_pte (PFN_DOWN cfg.early_pmd) PAGE_TABLE) ∧
  ∀ j, j < n →
    m (slot cfg.early_pmd j) = pfn_pte (PFN_DOWN (P + j * PMD_SIZE)) PAGE_KERNEL_EXEC

/-- The step from `s` to `t` changed no global and no memory outside the page at `T`. -/
def writes_within (T : Nat) (s t : State) : Prop :=
  same_config s t ∧ ∀ a, ¬ (T ≤ a ∧ a < T + PAGE_SIZE) → t.mem a = s.mem a

/-- The early tables after `k` blocks of the image have been mapped: before the
first block the root slot of `PO` is empty, afterwards `Kmap` holds and the rest
of `early_pmd` is empty. -/
def Image_inv (cfg : Config) (m : Nat → Nat) (l4 : Bool) (PO P k : Nat) : Prop :=
  (k = 0 → m (slot cfg.early_pg_dir (pgd_index_of l4 PO)) = 0) ∧
  (0 < k → Kmap cfg m l4 PO P k ∧ ∀ j, k ≤ j → j < 512 → m (slot cfg.early_pmd j) = 0)

/-- The state in which `setup_vm_fold_pud` calls `setup_vm` again (line 592):
the three globals of lines 579-581 set and the two roots cleared. -/
def fold_entry (cfg : Config) (s : State) : State :=
  { s with
    pgtable_l4_enabled := false
    kernel_virt_addr := cfg.PAGE_OFFSET_L3
    satp_mode := SATP_MODE_39
    mem := zero_words (zero_words s.mem cfg.trampoline_pg_dir 512) cfg.early_pg_dir 512 }

/-- The table pages the allocators hand out, in order, to an insert of size
`sz` at `va` that finds the root slot empty: none for a root-level block, else
one page per level between the root and the level of `sz`. -/
def supply (cfg : Config) (s : State) (va sz : Nat) : Except Stopped (List Nat) :=
  if sz = PGDIR_SIZE s then .ok []
  else
    (if s.pgtable_l4_enabled then (alloc_pud cfg s va).bind fun a => .ok (a.1, [a.2])
      else .ok (s, [])).bind fun x =>
    if sz = PUD_SIZE then .ok x.2
    else
      (alloc_pmd cfg x.1 va).bind fun a =>
        if sz = PMD_SIZE then .ok (x.2 ++ [a.2])
        else (alloc_pte a.1 va).bind fun b => .ok (x.2 ++ [a.2, b.2])

/-- The pages `ps` can serve as the tables of one walk: each is a page below
the end of the address space, none is the page of `fixmap_pte` once translation
is on, and they are pairwise distinct. -/
def Pages_ok (cfg : Config) (s : State) (ps : List Nat) : Prop :=
  (∀ p ∈ ps, p % PAGE_SIZE = 0 ∧ p + PAGE_SIZE ≤ WORD ∧
    (s.mmu_enabled = true → p ≠ cfg.fixmap_pte)) ∧ ps.Nodup

/-- Memory after the page `A` has been linked at the cell `c` and cleared. -/
def grow (m : Nat → Nat) (c A : Nat) : Nat → Nat :=
  zero_words (upd m c (pfn_pte (PFN_DOWN A) PAGE_TABLE)) A 512

/-- A page below the end of the address space. -/
def Pg (p : Nat) : Prop := p % 4096 = 0 ∧ p + 4096 ≤ 18446744073709551616

/-- A machine with translation on, in deep mode: the image of `cfg0` is mapped
at `CONFIG_PAGE_OFFSET`, memory is all zero and the region tracker has three
free pages. -/
def running0 : State :=
  { boot cfg0 (fun _ => 0) true with
    mmu_enabled := true
    va_pa_offset := 0xffffbfff7fe00000
    pfn_base := 0x80200
    free_pages := [0x81000000, 0x81001000, 0x81002000] }

/-! ## The tables an insert visits

`path_pgd` lists, root first, the tables an insert goes through down to the
level of its size: at a level whose slot holds an entry it is the table the
entry points to, at a level whose slot is empty it is the page the allocator
hands out (linked and cleared before the next level runs). -/

/-- The last level visits its table; any size but `PAGE_SIZE` is fatal there. -/
def path_pte (T sz : Nat) : Option (List Nat) :=
  if sz ≠ PAGE_SIZE then none else some [T]

/-- One level of the visit, in the shape of `create_level`. -/
def path_level (SIZE idx : Nat) (alloc : State → Except Stopped (State × Nat))
    (child : State → Nat → Option (List Nat)) (s : State) (T sz : Nat) : Option (List Nat) :=
  let c := slot T idx
  if sz = SIZE then some [T]
  else if s.mem c = 0 then
    match alloc s with
    | .ok a =>
      let m := zero_words (upd a.1.mem c (pfn_pte (PFN_DOWN a.2) PAGE_TABLE)) a.2 (PAGE_SIZE / 8)
      (child { a.1 with mem := m } a.2).map fun P => T :: P
    | .error _ => none
  else (child s (PFN_PHYS (_pmd_pfn (s.mem c)))).map fun P => T :: P

def path_pmd (s : State) (T va sz : Nat) : Option (List Nat) :=
  path_level PMD_SIZE (pmd_index va) (fun s => alloc_pte s va) (fun _ T => path_pte T sz) s T sz

def path_pud (cfg : Config) (s : State) (T va sz : Nat) : Option (List Nat) :=
  path_level PUD_SIZE (pud_index va) (fun s => alloc_pmd cfg s va)
    (fun s T => path_pmd s T va sz) s T sz

def path_pgd (cfg : Config) (s : State) (T va sz : Nat) : Option (List Nat) :=
  if ¬ s.pgtable_l4_enabled then path_pud cfg s T va sz
  else
    path_level (PGDIR_SIZE s) (pgd_index s va) (fun s => alloc_pud cfg s va)
      (fun s T => path_pud cfg s T va sz) s T sz

/-- The address `a` lies in none of the pages `P`. -/
def outside (P : List Nat) (a : Nat) : Prop := ∀ p ∈ P, a < p ∨ p + 4096 ≤ a

/-- The run `run` on the table `T` returns, a second run from the state it
leaves returns that very state, and the first run writes only inside the pages
`P`, of which `T` is the first. -/
def Settles (run : State → Nat → Except Stopped State) (s : State) (T : Nat)
    (P : List Nat) : Prop :=
  ∃ s1, run s T = .ok s1 ∧ run s1 T = .ok s1 ∧ same_config s s1 ∧
    (∀ a, outside P a → s1.mem a = s.mem a) ∧ P.head? = some T

/-! ## The tables as a function of the blocks inserted

Used for phase 2.  A block is named by the indices of its address, root level
first, down to its own level; `M` gives the physical address and the protection
of the blocks inserted so far, `own` the block a table page serves. -/

/-- The blocks `M` with the block `k` added. -/
def ins (M : List Nat → Option (Nat × Nat)) (k : List Nat) (b : Nat × Nat) :
    List Nat → Option (Nat × Nat) :=
  fun j => if j = k then some b else M j

/-- Some block at or below `k` has been inserted. -/
def live (M : List Nat → Option (Nat × Nat)) (k : List Nat) : Prop :=
  ∃ j, k <+: j ∧ M j ≠ none

/-- The table `X` serving the block `π` holds what `M` says: the entry of an
inserted block, a link to the table of a block with inserted blocks below it
(which holds what `M` says in turn, `E`), zero otherwise. -/
def Rep_level
    (E : (Nat → Nat) → (Nat → Option (List Nat)) → (List Nat → Option (Nat × Nat)) →
      Nat → List Nat → Prop)
    (m : Nat → Nat) (own : Nat → Option (List Nat)) (M : List Nat → Option (Nat × Nat))
    (X : Nat) (π : List Nat) : Prop :=
  ∀ i, i < 512 →
    (∀ b, M (π ++ [i]) = some b → m (slot X i) = pfn_pte (PFN_DOWN b.1) b.2) ∧
    (M (π ++ [i]) = none → live M (π ++ [i]) →
      ∃ A, m (slot X i) = pfn_pte (PFN_DOWN A) PAGE_TABLE ∧ own A = some (π ++ [i]) ∧
        E m own M A (π ++ [i])) ∧
    (M (π ++ [i]) = none → ¬ live M (π ++ [i]) → m (slot X i) = 0)

/-- A table of the last level: entries and zeros, nothing below. -/
def Rep_pte : (Nat → Nat) → (Nat → Option (List Nat)) → (List Nat → Option (Nat × Nat)) →
    Nat → List Nat → Prop :=
  Rep_level fun _ _ _ _ _ => False

def Rep_pmd : (Nat → Nat) → (Nat → Option (List Nat)) → (List Nat → Option (Nat × Nat)) →
    Nat → List Nat → Prop :=
  Rep_level Rep_pte

def Rep_pud : (Nat → Nat) → (Nat → Option (List Nat)) → (List Nat → Option (Nat × Nat)) →
    Nat → List Nat → Prop :=
  Rep_level Rep_pmd

/-- The root table, at the depth `l4`. -/
def Rep_pgd (l4 : Bool) : (Nat → Nat) → (Nat → Option (List Nat)) →
    (List Nat → Option (Nat × Nat)) → Nat → List Nat → Prop :=
  if l4 then Rep_level Rep_pud else Rep_pud

/-- Translation is on, the pages that serve as tables are pages other than
`fixmap_pte`, and the free pages of the region tracker are distinct such pages
that serve no block yet. -/
def Env (cfg : Config) (s : State) (own : Nat → Option (List Nat)) : Prop :=
  s.mmu_enabled = true ∧
  (∀ p k, own p = some k → Pg p ∧ p ≠ cfg.fixmap_pte) ∧
  (∀ p ∈ s.free_pages, own p = none ∧ Pg p ∧ p ≠ cfg.fixmap_pte) ∧
  s.free_pages.Nodup

/-- The run `run` on a table serving `π` inserts the block `π ++ tail`: the
tables then hold what `M` with the block added says, only pages serving blocks
at or below `π` are written, and at most one free page per level below is used. -/
def Grows (cfg : Config) (run : State → Nat → Except Stopped State)
    (E : (Nat → Nat) → (Nat → Option (List Nat)) → (List Nat → Option (Nat × Nat)) →
      Nat → List Nat → Prop)
    (tail : List Nat) (b : Nat × Nat) : Prop :=
  ∀ (s : State) (own : Nat → Option (List Nat)) (M : List Nat → Option (Nat × Nat))
    (X : Nat) (π : List Nat),
    Env cfg s own → own X = some π → E s.mem own M X π →
    (∀ k, (k <+: π ++ tail ∨ π ++ tail <+: k) → M k = none) →
    tail.length ≤ s.free_pages.length + 1 →
    ∃ s' own', run s X = .ok s' ∧ Env cfg s' own' ∧
      E s'.mem own' (ins M (π ++ tail) b) X π ∧ same_config s s' ∧
      (∀ p k, own p = some k → own' p = some k) ∧
      (∀ p k, own' p = some k →
        own p = some k ∨ (own p = none ∧ π <+: k ∧ k ≠ π ∧ p ∈ s.free_pages)) ∧
      (∀ a, (∀ p k, own' p = some k → π <+: k → a < p ∨ p + 4096 ≤ a) → s'.mem a = s.mem a) ∧
      s.free_pages.length + 1 ≤ s'.free_pages.length + tail.length ∧
      (∀ p ∈ s'.free_pages, p ∈ s.free_pages)

/-- The table predicate `E` looks only at the pages serving blocks at or below
the block of its table, and at the blocks there. -/
def Local
    (E : (Nat → Nat) → (Nat → Option (List Nat)) → (List Nat → Option (Nat × Nat)) →
      Nat → List Nat → Prop) : Prop :=
  ∀ (m m' : Nat → Nat) (own own' : Nat → Option (List Nat))
    (M M' : List Nat → Option (Nat × Nat)) (X : Nat) (π : List Nat),
    E m own M X π → own X = some π →
    (∀ p k, own p = some k → π <+: k →
      own' p = some k ∧ ∀ i, i < 512 → m' (slot p i) = m (slot p i)) →
    (∀ k, π <+: k → M' k = M k) → E m' own' M' X π

/-- The indices that name the block of size `sz` at `va`, from the middle level
down. -/
def key_pmd (va sz : Nat) : List Nat :=
  pmd_index va :: (if sz = PMD_SIZE then [] else [pte_index va])

/-- The same from the upper level down. -/
def key_pud (va sz : Nat) : List Nat :=
  pud_index va :: (if sz = PUD_SIZE then [] else key_pmd va sz)

/-- The same from the root down, at the depth `l4`. -/
def key_pgd (l4 : Bool) (va sz : Nat) : List Nat :=
  if l4 then pgd_index_of true va :: (if sz = 549755813888 then [] else key_pud va sz)
  else key_pud va sz

/-- Bytes of address space one root table covers at the depth `l4`. -/
def Span (l4 : Bool) : Nat := if l4 then 281474976710656 else 549755813888

/-- The value `end` of a region in `setup_vm_final` (line 613). -/
def bank_end (reg : memblock_region) : Nat := add64 reg.base reg.size

/-- The value `start` of a region when the inner loop begins (lines 612 and
619-621): the base, or `__pa(PAGE_OFFSET)` when the region contains it. -/
def bank_start (s : State) (reg : memblock_region) : Nat :=
  if reg.base ≤ __pa s (PAGE_OFFSET s) ∧ __pa s (PAGE_OFFSET s) < bank_end reg then
    __pa s (PAGE_OFFSET s)
  else reg.base

/-- Number of blocks the inner loop maps for a region. -/
def bank_blocks (s : State) (reg : memblock_region) : Nat :=
  sub64 (bank_end reg) (bank_start s reg) /
    best_map_size (bank_start s reg) (sub64 (bank_end reg) (bank_start s reg))

/-- Three table pages for every block of every region that is mapped. -/
def bank_pages (s : State) : List memblock_region → Nat
  | [] => 0
  | reg :: rest =>
    (if reg.nomap = true ∨ bank_end reg ≤ reg.base then 0 else 3 * bank_blocks s reg) +
      bank_pages s rest

/-- What phase 2 needs of one region that it maps: the mapped range starts and
ends on a page boundary, lies in the window of physical memory that starts at
`lo` and is as large as the reach of one root table, and none of its virtual
addresses shares the root slot of the fixmap. -/
def Bank_ok (cfg : Config) (s : State) (lo : Nat) (reg : memblock_region) : Prop :=
  reg.nomap = false → reg.base < bank_end reg →
    bank_start s reg % PAGE_SIZE = 0 ∧ bank_end reg % PAGE_SIZE = 0 ∧
    lo ≤ bank_start s reg ∧ bank_end reg ≤ lo + Span s.pgtable_l4_enabled ∧
    ∀ pa, bank_start s reg ≤ pa → pa < bank_end reg →
      pgd_index s (__va s pa) ≠ pgd_index s (FIXADDR_START cfg s)

/-- What phase 2 needs of the region list: every region is as `Bank_ok` says,
an empty region (one whose end is not above its base) is followed only by
regions that need no mapping, and the mapped ranges of two regions do not
overlap. -/
def Banks_ok (cfg : Config) (s : State) (lo : Nat) (regs : List memblock_region) : Prop :=
  (∀ reg ∈ regs, Bank_ok cfg s lo reg) ∧
  regs.Pairwise fun a b =>
    (bank_end a ≤ a.base → b.nomap = true ∨ bank_end b ≤ b.base) ∧
    (a.nomap = false → b.nomap = false → a.base < bank_end a → b.base < bank_end b →
      bank_end a ≤ bank_start s b ∨ bank_end b ≤ bank_start s a)

/-- No key of a block is a proper beginning of the key of another block. -/
def Prefix_free (M : List Nat → Option (Nat × Nat)) : Prop :=
  ∀ k j, M k ≠ none → M j ≠ none → k <+: j → k = j

/-- The physical address `a` lies in a block of size `sz` that `M` maps, at the
virtual address of the kernel mapping with offset `off`, with the protection of
the kernel mapping. -/
def Mapped (l4 : Bool) (off : Nat) (M : List Nat → Option (Nat × Nat)) (a sz : Nat) : Prop :=
  ∃ pa, (sz = PMD_SIZE ∨ sz = PAGE_SIZE) ∧ pa % sz = 0 ∧ pa ≤ a ∧ a < pa + sz ∧
    M (key_pgd l4 (add64 pa off) sz) = some (pa, PAGE_KERNEL_EXEC)

/-- The indices of an address from the root down to the middle level. -/
def stem (l4 : Bool) (va : Nat) : List Nat :=
  if l4 then [pgd_index_of true va, pud_index va, pmd_index va]
  else [pud_index va, pmd_index va]

/-- The state of phase 2 between two inserts, `s0` being the state phase 2
started in: the machine `sc` is matched by a machine `sp` of the
physical-address semantics whose permanent root holds what a block map `M`
says; the blocks of `M` are the fixmap link and blocks of the kernel mapping
that lie in the window at `lo` and cover only addresses of `C` (`C a sz`: the
address `a` is to be covered by a block of size `sz`); every address of `C` is
mapped; the tables are the permanent root and pages that were free in `s0`, and
memory outside them is as in `s0`. -/
def Final_inv (cfg : Config) (s0 : State) (lo : Nat) (C : Nat → Nat → Prop) (sc : State) :
    Prop :=
  ∃ sp own M, Rel cfg sc sp ∧ same_config s0 sp ∧ Env cfg sp own ∧
    own cfg.swapper_pg_dir = some [] ∧
    Rep_pgd s0.pgtable_l4_enabled sp.mem own M cfg.swapper_pg_dir [] ∧ Prefix_free M ∧
    (∀ k, M k ≠ none → k = [pgd_index s0 (FIXADDR_START cfg s0)] ∨
      ∃ pa sz, (sz = PMD_SIZE ∨ sz = PAGE_SIZE) ∧ pa % sz = 0 ∧ lo ≤ pa ∧
        pa + sz ≤ lo + Span s0.pgtable_l4_enabled ∧
        k = key_pgd s0.pgtable_l4_enabled (__va s0 pa) sz ∧
        ∀ a, pa ≤ a → a < pa + sz → C a sz) ∧
    (∀ a sz, C a sz → Mapped s0.pgtable_l4_enabled s0.va_pa_offset M a sz) ∧
    (∀ p k, own p = some k → p = cfg.swapper_pg_dir ∨ p ∈ s0.free_pages) ∧
    (∀ p ∈ sp.free_pages, p ∈ s0.free_pages) ∧
    (∀ a, outside (cfg.swapper_pg_dir :: s0.free_pages) a → sp.mem a = s0.mem a)

/-- The address `a` lies in the mapped range of a region of `regs` that is to
be mapped, and `z` is the block size the loop chooses for that region. -/
def Cover (s : State) (regs : List memblock_region) (a z : Nat) : Prop :=
  ∃ reg ∈ regs, reg.nomap = false ∧ reg.base < bank_end reg ∧
    bank_start s reg ≤ a ∧ a < bank_end reg ∧
    z = best_map_size (bank_start s reg) (sub64 (bank_end reg) (bank_start s reg))

/-- The state after the window of slot `idx` has been cleared: the window cell
is zero and the invalidation of the slot address is the newest event. -/
def win_clear (cfg : Config) (s : State) (idx : Nat) : State :=
  { s with
    mem := upd s.mem (wincell cfg s idx) 0
    trace := Event.local_flush_tlb_page (__fix_to_virt cfg s idx) :: s.trace }

/-- The windowed mode of an access port whose slot is `idx`, called with the
table address `pa` and giving the result `r`: the slot is cleared first, with
its invalidation; on the state so reached the page of `pa` is installed in the
slot; the result is the state with the window cell holding the frame of `pa`
and the pointer is the slot address plus the offset of `pa` in its page. -/
def Windowed (cfg : Config) (s : State) (idx pa : Nat) (r : Except Stopped (State × Nat)) :
    Prop :=
  clear_fixmap cfg s idx = .ok (win_clear cfg s idx) ∧
  r = set_fixmap_offset cfg (win_clear cfg s idx) idx pa ∧
  r = .ok (win_set cfg s idx pa,
    add64 (__fix_to_virt cfg s idx) (pa &&& (PAGE_SIZE - 1)))

/-- The first two statements of the branch of a level that creates a table (at
the middle level lines 301-302): take a page from the allocator and write the
parent entry that points to it.  The result is the state right after the parent
entry has been written, with the physical address of the new table. -/
def link_new_table (cfg : Config) (idx : Nat) (alloc : State → Except Stopped (State × Nat))
    (s : State) (tbl : Nat) : Except Stopped (State × Nat) :=
  (alloc s).bind fun a =>
    (store cfg a.1 (slot tbl idx) (pfn_pte (PFN_DOWN a.2) PAGE_TABLE)).bind fun s2 =>
      .ok (s2, a.2)

/-- The next two statements of that branch (at the middle level lines 303-304):
open the new table through the access port and zero-fill it.  The result is the
state after the fill with the pointer to the table. -/
def zero_new_table (cfg : Config) (getv : State → Nat → Except Stopped (State × Nat))
    (s2 : State) (A : Nat) : Except Stopped (State × Nat) :=
  (getv s2 A).bind fun w =>
    (memset_zero cfg w.1 w.2 (PAGE_SIZE / 8)).bind fun s4 => .ok (s4, w.2)

/-- The insert with result `r` at the table `T` (reached through `tbl`) creates
the table `A` in two stages: the parent entry is written first, and in the
state `s2` of that moment it points to `A` while the rest of memory is as the
allocator left it; the table is zero-filled next, and in the state `s4` so
reached every entry of `A` is zero; the insert of the next level then runs on
`s4`. -/
def Fills (cfg : Config) (idx : Nat) (alloc : State → Except Stopped (State × Nat))
    (getv : State → Nat → Except Stopped (State × Nat))
    (child : State → Nat → Except Stopped State) (s : State) (tbl T A : Nat)
    (r : Except Stopped State) : Prop :=
  ∃ s2 s4 ptr, link_new_table cfg idx alloc s tbl = .ok (s2, A) ∧
    s2.mem (slot T idx) = pfn_pte (PFN_DOWN A) PAGE_TABLE ∧
    (∀ a, a ≠ slot T idx → s2.mem a = s.mem a) ∧
    zero_new_table cfg getv s2 A = .ok (s4, ptr) ∧ Addr cfg s4 ptr A ∧
    (∀ i, i < 512 → s4.mem (slot A i) = 0) ∧ r = child s4 ptr

/-- A machine like `running0` whose first free page holds a stale entry. -/
def stale0 : State :=
  { running0 with mem := fun a => if a = 0x81000008 then 0x200000cf else 0 }

/-- The events `t` hold neither a write of the translation-control register nor
a full flush of the translation cache. -/
def quiet (t : List Event) : Prop :=
  ∀ e ∈ t, (∀ v, e ≠ Event.csr_write_satp v) ∧ e ≠ Event.local_flush_tlb_all

/-- The globals of `t` are those of `s`, and the trace of `t` is the trace of
`s` with newer events, all of them `quiet`. -/
def Extends (s t : State) : Prop :=
  same_config s t ∧ ∃ pre, t.trace = pre ++ s.trace ∧ quiet pre

/-- An operation started in `s` with outcome `r`: the state it returns, or the
state it stops in, extends `s` by `quiet` events. -/
def Quiet {α : Type} (s : State) (r : Except Stopped α) (st : α → State) : Prop :=
  match r with
  | .ok a => Extends s (st a)
  | .error e => Extends s e.st

/-- Number of writes of the translation-control register in a trace. -/
def satp_writes (t : List Event) : Nat :=
  (t.filter fun e => match e with
    | .csr_write_satp _ => true
    | _ => false).length

/-- Number of table levels walked from the root down to the level whose block
size is `sz`, at the depth `l4`: the root level counts one, and the deep mode
has one level more above the upper level. -/
def levels (l4 : Bool) (sz : Nat) : Nat :=
  (if l4 then 1 else 0) +
    (if sz = PAGE_SIZE then 3 else if sz = PMD_SIZE then 2 else if sz = PUD_SIZE then 1 else 0)

/-- The path of an insert of size `sz` at `va` exists from the middle-level
table `T` on: the block is of the middle level, or the slot of `va` holds an
entry whose table the access port can serve. -/
def present_pmd (cfg : Config) (s : State) (T va sz : Nat) : Prop :=
  sz = PMD_SIZE ∨
    (sz = PAGE_SIZE ∧ s.mem (slot T (pmd_index va)) ≠ 0 ∧
      ¬ unsafe_table cfg s (PFN_PHYS (_pmd_pfn (s.mem (slot T (pmd_index va))))))

/-- The same from the upper-level table `T` on. -/
def present_pud (cfg : Config) (s : State) (T va sz : Nat) : Prop :=
  sz = PUD_SIZE ∨
    (s.mem (slot T (pud_index va)) ≠ 0 ∧
      ¬ unsafe_table cfg s (PFN_PHYS (_pmd_pfn (s.mem (slot T (pud_index va))))) ∧
      present_pmd cfg s (PFN_PHYS (_pmd_pfn (s.mem (slot T (pud_index va))))) va sz)

/-- The same from the root `T` on, at the depth of the state. -/
def present_pgd (cfg : Config) (s : State) (T va sz : Nat) : Prop :=
  if s.pgtable_l4_enabled then
    sz = PGDIR_SIZE s ∨
      (s.mem (slot T (pgd_index s va)) ≠ 0 ∧
        ¬ unsafe_table cfg s (PFN_PHYS (_pmd_pfn (s.mem (slot T (pgd_index s va))))) ∧
        present_pud cfg s (PFN_PHYS (_pmd_pfn (s.mem (slot T (pgd_index s va))))) va sz)
  else present_pud cfg s T va sz

/-- A machine like `running0` with two regions to map, one of a page and one
of a medium block, and six free pages. -/
def mapped0 : State :=
  { running0 with
    memory := [⟨0x80600000, 0x1000, false⟩, ⟨0x80800000, 0x200000, false⟩]
    free_pages := [0x81000000, 0x81001000, 0x81002000, 0x81003000, 0x81004000, 0x81005000] }

/-- A machine like `running0` whose region list starts with an empty region. -/
def broken0 : State :=
  { running0 with memory := [⟨0x80400000, 0, false⟩, ⟨0x80600000, 0x1000, false⟩] }

/-- The `n` pages from `0x90000000` on. -/
@[irreducible]
def pool (n : Nat) : List Nat := (List.range n).map fun i => 0x90000000 + 4096 * i

/-- A machine like `running0` with one region of a medium block and a page,
starting at a medium-block boundary, and free pages for all its blocks. -/
def wide0 : State :=
  { running0 with
    memory := [⟨0x80200000, 0x201000, false⟩]
    free_pages := pool 1539 }

/-- The pages the allocators of the mapping builder can hand out in state `s`:
once translation is on the free pages of the region tracker, and page 0 when
none is left; before that the static tables `early_pud` and `early_pmd`. -/
def fresh_pages (cfg : Config) (s : State) : List Nat :=
  if s.mmu_enabled then s.free_pages ++ [0] else [cfg.early_pud, cfg.early_pmd]

/-- The run `run` on the table `T`, the first of the pages `P`, returns, and it
changes only cells that held zero and cells of pages the allocators can hand
out. -/
def Gentle (cfg : Config) (run : State → Nat → Except Stopped State) (s : State) (T : Nat)
    (P : List Nat) : Prop :=
  ∃ s1, run s T = .ok s1 ∧ same_config s s1 ∧
    (∀ p ∈ fresh_pages cfg s1, p ∈ fresh_pages cfg s) ∧
    (∀ a, s1.mem a ≠ s.mem a →
      s.mem a = 0 ∨ ∃ p ∈ fresh_pages cfg s, p ≤ a ∧ a < p + 4096) ∧
    P.head? = some T

/-- The cell the walk of the last level reads. -/
def cells_pte (tbl va : Nat) : List Nat := [slot tbl (pte_index va)]

/-- The cells the walk from a middle-level table reads. -/
def cells_pmd (m : Nat → Nat) (tbl va : Nat) : List Nat :=
  slot tbl (pmd_index va) ::
    (if entry_leaf (m (slot tbl (pmd_index va))) then []
      else if entry_valid (m (slot tbl (pmd_index va))) then
        cells_pte (PFN_PHYS (_pmd_pfn (m (slot tbl (pmd_index va))))) va
      else [])

/-- The cells the walk from an upper-level table reads. -/
def cells_pud (m : Nat → Nat) (tbl va : Nat) : List Nat :=
  slot tbl (pud_index va) ::
    (if entry_leaf (m (slot tbl (pud_index va))) then []
      else if entry_valid (m (slot tbl (pud_index va))) then
        cells_pmd m (PFN_PHYS (_pmd_pfn (m (slot tbl (pud_index va))))) va
      else [])

/-- The cells `walk` reads on its way from the root. -/
def walk_cells (s : State) (root va : Nat) : List Nat :=
  if s.pgtable_l4_enabled then
    slot root (pgd_index s va) ::
      (if entry_leaf (s.mem (slot root (pgd_index s va))) then []
        else if entry_valid (s.mem (slot root (pgd_index s va))) then
          cells_pud s.mem (PFN_PHYS (_pmd_pfn (s.mem (slot root (pgd_index s va))))) va
        else [])
  else cells_pud s.mem root va

instance (cfg : Config) (s : State) (a : Nat) : Decidable (Win cfg s a) := by
  unfold Win; infer_instance

instance (P : List Nat) (a : Nat) : Decidable (outside P a) := by
  unfold outside; infer_instance

/-- A machine like `running0` whose permanent root holds the fixmap tables and
a table of the upper level at `0x81800000` for the kernel mapping: the window of
slot `FIX_PUD` points at the page `0x82000000`, and slot 5 of the upper-level
table maps the block at `0xc0000000`. -/
def windowed0 : State :=
  { running0 with
    mem := fun a =>
      if a = slot cfg0.swapper_pg_dir (pgd_index running0 (__fix_to_virt cfg0 running0 cfg0.FIX_PUD))
        then pfn_pte (PFN_DOWN cfg0.fixmap_pud) PAGE_TABLE
      else if a = slot cfg0.fixmap_pud (pud_index (__fix_to_virt cfg0 running0 cfg0.FIX_PUD))
        then pfn_pte (PFN_DOWN cfg0.fixmap_pmd) PAGE_TABLE
      else if a = slot cfg0.fixmap_pmd (pmd_index (__fix_to_virt cfg0 running0 cfg0.FIX_PUD))
        then pfn_pte (PFN_DOWN cfg0.fixmap_pte) PAGE_TABLE
      else if a = slot cfg0.fixmap_pte (pte_index (__fix_to_virt cfg0 running0 cfg0.FIX_PUD))
        then pfn_pte (PFN_DOWN 0x82000000) FIXMAP_PAGE_NORMAL
      else if a = slot cfg0.swapper_pg_dir (pgd_index running0 0xffffc00000000000)
        then pfn_pte (PFN_DOWN 0x81800000) PAGE_TABLE
      else if a = slot 0x81800000 5 then pfn_pte (PFN_DOWN 0xc0000000) PAGE_KERNEL
      else 0 }
/-! ## Arithmetic of the constants -/

theorem PAGE_SIZE_eq : PAGE_SIZE = 4096 := rfl
theorem PMD_SIZE_eq : PMD_SIZE = 2097152 := rfl
theorem PUD_SIZE_eq : PUD_SIZE = 1073741824 := rfl
theorem WORD_eq : WORD = 18446744073709551616 := rfl

theorem and_mask_eq_mod (a k : Nat) : a &&& (1 <<< k - 1) = a % 2 ^ k := by
  rw [Nat.shiftLeft_eq, Nat.one_mul]
  exact Nat.and_pow_two_sub_one_eq_mod a k

theorem pte_index_eq (a : Nat) : pte_index a = a / 4096 % 512 := by
  unfold pte_index PAGE_SHIFT PTRS_PER_PTE
  rw [Nat.shiftRight_eq_div_pow]
  exact Nat.and_pow_two_sub_one_eq_mod (a / 2 ^ 12) 9

theorem pmd_index_eq (a : Nat) : pmd_index a = a / 2097152 % 512 := by
  unfold pmd_index PMD_SHIFT PTRS_PER_PMD
  rw [Nat.shiftRight_eq_div_pow]
  exact Nat.and_pow_two_sub_one_eq_mod (a / 2 ^ 21) 9

theorem pud_index_eq (a : Nat) : pud_index a = a / 1073741824 % 512 := by
  unfold pud_index PUD_SHIFT PTRS_PER_PUD
  rw [Nat.shiftRight_eq_div_pow]
  exact Nat.and_pow_two_sub_one_eq_mod (a / 2 ^ 30) 9

theorem pgd_index_eq (s : State) (a : Nat) :
    pgd_index s a = if s.pgtable_l4_enabled then a / 549755813888 % 512
      else a / 1073741824 % 512 := by
  unfold pgd_index PGDIR_SHIFT PTRS_PER_PGD
  rw [Nat.shiftRight_eq_div_pow]
  split
  · exact Nat.and_pow_two_sub_one_eq_mod (a / 2 ^ 39) 9
  · exact Nat.and_pow_two_sub_one_eq_mod (a / 2 ^ 30) 9

theorem PGDIR_SIZE_eq (s : State) :
    PGDIR_SIZE s = if s.pgtable_l4_enabled then 549755813888 else 1073741824 := by
  unfold PGDIR_SIZE PGDIR_SHIFT
  split <;> rfl

theorem PFN_DOWN_eq (x : Nat) : PFN_DOWN x = x / 4096 := by
  unfold PFN_DOWN PAGE_SHIFT
  rw [Nat.shiftRight_eq_div_pow]

theorem PFN_PHYS_eq (x : Nat) : PFN_PHYS x = x * 4096 % WORD := by
  unfold PFN_PHYS PAGE_SHIFT
  rw [Nat.shiftLeft_eq]

theorem _pmd_pfn_eq (e : Nat) : _pmd_pfn e = e / 1024 := by
  unfold _pmd_pfn _PAGE_PFN_SHIFT
  rw [Nat.shiftRight_eq_div_pow]

theorem pfn_pte_eq (pfn prot : Nat) (h : prot < 1024) :
    pfn_pte pfn prot = pfn * 1024 % WORD + prot := by
  unfold pfn_pte _PAGE_PFN_SHIFT
  rw [Nat.shiftLeft_eq, WORD_eq]
  have hd : pfn * 2 ^ 10 % 18446744073709551616
      = 2 ^ 10 * (pfn * 2 ^ 10 % 18446744073709551616 / 2 ^ 10) := by omega
  rw [hd, ← Nat.mul_add_lt_is_or (by simpa using h)]
  omega

/-! ## Granularity selection (C4) -/

/-- C4: `best_map_size` is the selector over the one-element list `[PMD_SIZE]`:
it returns `PMD_SIZE` exactly when `base` and `size` are both multiples of
`PMD_SIZE` and `PAGE_SIZE` in every other case; a size of one medium block with
a misaligned base gives `PAGE_SIZE`.  It is a total function. -/
theorem best_map_size_selects (base size : Nat) :
    best_map_size base size = select_granularity [PMD_SIZE] base size ∧
    (best_map_size base size = PMD_SIZE ↔ base % PMD_SIZE = 0 ∧ size % PMD_SIZE = 0) ∧
    (best_map_size base size = PAGE_SIZE ↔ ¬ (base % PMD_SIZE = 0 ∧ size % PMD_SIZE = 0)) ∧
    best_map_size base PMD_SIZE = (if base % PMD_SIZE = 0 then PMD_SIZE else PAGE_SIZE) := by
  have hb : base &&& (PMD_SIZE - 1) = base % PMD_SIZE := and_mask_eq_mod base 21
  have hs : size &&& (PMD_SIZE - 1) = size % PMD_SIZE := and_mask_eq_mod size 21
  have hp : PMD_SIZE &&& (PMD_SIZE - 1) = 0 := by decide
  have hne : PAGE_SIZE ≠ PMD_SIZE := by decide
  refine ⟨?_, ?_, ?_, ?_⟩
  · unfold best_map_size select_granularity
    rw [hb, hs]
    by_cases h : base % PMD_SIZE = 0 ∧ size % PMD_SIZE = 0
    · simp [h.1, h.2]
    · have h2 : ¬ (base % PMD_SIZE = 0 ∧ size % PMD_SIZE = 0) := h
      simp only [List.find?, h2, decide_False]
      rw [if_pos (by tauto)]
  · unfold best_map_size
    rw [hb, hs]
    by_cases h : base % PMD_SIZE = 0 ∧ size % PMD_SIZE = 0
    · simp [h.1, h.2]
    · rw [if_pos (by tauto)]
      simp [h, hne]
  · unfold best_map_size
    rw [hb, hs]
    by_cases h : base % PMD_SIZE = 0 ∧ size % PMD_SIZE = 0
    · simp [h.1, h.2, hne.symm]
    · rw [if_pos (by tauto)]
      simp [h]
  · unfold best_map_size
    rw [hb, hp]
    by_cases h : base % PMD_SIZE = 0
    · simp [h]
    · simp [h]

/-! ## Access with translation disabled -/

theorem translate_off (cfg : Config) (s : State) (va : Nat) (h : s.mmu_enabled = false) :
    translate cfg s va = .ok va := by
  simp [translate, h]

theorem load_off (cfg : Config) (s : State) (p : Nat) (h : s.mmu_enabled = false) :
    load cfg s p = .ok (s.mem p) := by
  simp [load, translate_off cfg s p h, Except.bind]

theorem store_off (cfg : Config) (s : State) (p v : Nat) (h : s.mmu_enabled = false) :
    store cfg s p v = .ok { s with mem := upd s.mem p v } := by
  simp [store, translate_off cfg s p h, Except.bind]

theorem load64_off (cfg : Config) (s : State) (p : Nat) (h : s.mmu_enabled = false) :
    load64 cfg s p = .ok (read64 s.mem p) := by
  simp [load64, translate_off cfg s p h, Except.bind]

theorem store64_off (cfg : Config) (s : State) (p v : Nat) (h : s.mmu_enabled = false) :
    store64 cfg s p v = .ok { s with mem := write64 s.mem p v } := by
  simp [store64, translate_off cfg s p h, Except.bind]

theorem symbol_off (s : State) (p : Nat) (h : s.mmu_enabled = false) : symbol s p = p := by
  simp [symbol, h]

/-! ## The emergency allocator before translation is enabled (C10) -/

/-- C10: with translation disabled, `alloc_pmd(va)` returns `early_pmd` when
`va - PAGE_OFFSET` (modulo the word size) is below `PUD_SIZE` and stops at its
`BUG_ON` otherwise; `alloc_pud(va)` returns `early_pud` when the difference is
below `PGDIR_SIZE` and stops otherwise; `alloc_pte` always stops.  When
`PAGE_OFFSET` is a multiple of `PGDIR_SIZE` (what `setup_vm` requires of the
link base), every `va` below `PAGE_OFFSET` is rejected by both. -/
theorem emergency_allocator_before_translation (cfg : Config) (s : State) (va : Nat)
    (hoff : s.mmu_enabled = false) :
    alloc_pmd cfg s va =
      (if sub64 va (PAGE_OFFSET s) < PUD_SIZE then .ok (handed_out s cfg.early_pmd)
        else .error ⟨.BUG_ON 282, s⟩) ∧
    alloc_pud cfg s va =
      (if sub64 va (PAGE_OFFSET s) < PGDIR_SIZE s then .ok (handed_out s cfg.early_pud)
        else .error ⟨.BUG_ON 330, s⟩) ∧
    alloc_pte s va = .error ⟨.BUG_ON 240, s⟩ ∧
    (PAGE_OFFSET s < WORD → PAGE_OFFSET s % PGDIR_SIZE s = 0 → va < PAGE_OFFSET s →
      alloc_pmd cfg s va = .error ⟨.BUG_ON 282, s⟩ ∧
      alloc_pud cfg s va = .error ⟨.BUG_ON 330, s⟩) := by
  have hpmd : alloc_pmd cfg s va =
      (if sub64 va (PAGE_OFFSET s) < PUD_SIZE then .ok (handed_out s cfg.early_pmd)
        else .error ⟨.BUG_ON 282, s⟩) := by
    unfold alloc_pmd
    rw [symbol_off s _ hoff]
    simp only [hoff, Bool.false_eq_true, if_false, PUD_SHIFT, Nat.shiftRight_eq_div_pow,
      PUD_SIZE_eq]
    by_cases h : sub64 va (PAGE_OFFSET s) < 1073741824
    · rw [if_neg (by omega), if_pos h]
    · rw [if_pos (by omega), if_neg h]
  have hpud : alloc_pud cfg s va =
      (if sub64 va (PAGE_OFFSET s) < PGDIR_SIZE s then .ok (handed_out s cfg.early_pud)
        else .error ⟨.BUG_ON 330, s⟩) := by
    unfold alloc_pud
    rw [symbol_off s _ hoff, PGDIR_SIZE_eq]
    simp only [hoff, Bool.false_eq_true, if_false, PGDIR_SHIFT, Nat.shiftRight_eq_div_pow]
    cases s.pgtable_l4_enabled
    · simp only [Bool.false_eq_true, if_false]
      by_cases h : sub64 va (PAGE_OFFSET s) < 1073741824
      · rw [if_neg (by omega), if_pos h]
      · rw [if_pos (by omega), if_neg h]
    · simp only [if_true]
      by_cases h : sub64 va (PAGE_OFFSET s) < 549755813888
      · rw [if_neg (by omega), if_pos h]
      · rw [if_pos (by omega), if_neg h]
  refine ⟨hpmd, hpud, ?_, ?_⟩
  · simp [alloc_pte, hoff]
  · intro hlt hal hva
    rw [hpmd, hpud, PGDIR_SIZE_eq]
    rw [PGDIR_SIZE_eq] at hal
    have hsub : sub64 va (PAGE_OFFSET s) = va + WORD - PAGE_OFFSET s := by
      unfold sub64
      rw [Nat.mod_eq_of_lt hlt, Nat.mod_eq_of_lt (by omega)]
    rw [hsub, PUD_SIZE_eq]
    rw [WORD_eq] at *
    cases hl4 : s.pgtable_l4_enabled
    · rw [hl4] at hal
      simp only [Bool.false_eq_true, if_false] at hal ⊢
      constructor <;> rw [if_neg (by omega)]
    · rw [hl4] at hal
      simp only [if_true] at hal ⊢
      constructor <;> rw [if_neg (by omega)]

/-! ## First write wins (C3) -/

/-- C3: at every level, an insert of that level's block size whose slot already
holds a non-zero entry changes nothing, whatever `pa` and `prot` are: the
resulting state is the state before the call (the root-level case covers both
depths). -/
theorem first_write_wins (cfg : Config) (s : State) (tbl va pa prot e : Nat) (he : e ≠ 0) :
    (load cfg s (slot tbl (pte_index va)) = .ok e →
      create_pte_mapping cfg s tbl va pa PAGE_SIZE prot = .ok s) ∧
    (load cfg s (slot tbl (pmd_index va)) = .ok e →
      create_pmd_mapping cfg s tbl va pa PMD_SIZE prot = .ok s) ∧
    (load cfg s (slot tbl (pud_index va)) = .ok e →
      create_pud_mapping cfg s tbl va pa PUD_SIZE prot = .ok s) ∧
    (load cfg s (slot tbl (pgd_index s va)) = .ok e →
      create_pgd_mapping cfg s tbl va pa (PGDIR_SIZE s) prot = .ok s) := by
  refine ⟨?_, ?_, ?_, ?_⟩
  · intro h
    simp [create_pte_mapping, h, Except.bind, he]
  · intro h
    simp [create_pmd_mapping, h, Except.bind, he]
  · intro h
    simp [create_pud_mapping, h, Except.bind, he]
  · intro h
    unfold create_pgd_mapping
    cases hl4 : s.pgtable_l4_enabled
    · have hsz : PGDIR_SIZE s = PUD_SIZE := by rw [PGDIR_SIZE_eq, hl4]; rfl
      have hidx : pgd_index s va = pud_index va := by
        rw [pgd_index_eq, pud_index_eq, hl4]; rfl
      rw [hidx] at h
      simp [create_pud_mapping, hsz, h, Except.bind, he]
    · simp [h, Except.bind, he]

theorem emergency_allocator_before_translation_witness :
    (boot cfg0 mem0 true).mmu_enabled = false ∧
    alloc_pmd cfg0 (boot cfg0 mem0 true) 0xffffc00000200000
      = .ok (handed_out (boot cfg0 mem0 true) 0x80908000) ∧
    alloc_pmd cfg0 (boot cfg0 mem0 true) 0xffffc00040000000
      = .error ⟨.BUG_ON 282, boot cfg0 mem0 true⟩ ∧
    alloc_pud cfg0 (boot cfg0 mem0 true) 0xffffc00040000000
      = .ok (handed_out (boot cfg0 mem0 true) 0x80909000) ∧
    alloc_pte (boot cfg0 mem0 true) 0xffffc00000000000
      = .error ⟨.BUG_ON 240, boot cfg0 mem0 true⟩ ∧
    alloc_pud cfg0 (boot cfg0 mem0 true) 0xffffbfffffffffff
      = .error ⟨.BUG_ON 330, boot cfg0 mem0 true⟩ := by
  have h1 := emergency_allocator_before_translation cfg0 (boot cfg0 mem0 true)
    0xffffc00000200000 rfl
  have h2 := emergency_allocator_before_translation cfg0 (boot cfg0 mem0 true)
    0xffffc00040000000 rfl
  have h3 := emergency_allocator_before_translation cfg0 (boot cfg0 mem0 true)
    0xffffbfffffffffff rfl
  refine ⟨rfl, ?_, ?_, ?_, h1.2.2.1, ?_⟩
  · rw [h1.1, if_pos (by decide)]; rfl
  · rw [h2.1, if_neg (by decide)]
  · rw [h2.2.1, if_pos (by decide)]; rfl
  · exact (h3.2.2.2 (by decide) (by decide) (by decide)).2

theorem first_write_wins_witness :
    create_pmd_mapping cfg0 populated0 0x80908000 0xffffc00000000000 0x12345000 PMD_SIZE 7
      = .ok populated0 ∧
    create_pgd_mapping cfg0 populated0 0x80900000 0xffffc00000000000 0x12345000
      (PGDIR_SIZE populated0) 7 = .ok populated0 := by
  have h := first_write_wins cfg0 populated0 0x80908000 0xffffc00000000000 0x12345000 7
    0x200800cf (by decide)
  have h2 := first_write_wins cfg0 populated0 0x80900000 0xffffc00000000000 0x12345000 7
    0x200800cf (by decide)
  refine ⟨h.2.1 ?_, h2.2.2.2 ?_⟩
  · rw [load_off cfg0 populated0 _ rfl]; rfl
  · rw [load_off cfg0 populated0 _ rfl]; rfl
/-! ## The relocator (C5) -/

theorem splice_read (x y v : Nat) (k : Nat) (h1 : 0 < k) (h2 : k < 8) :
    (x % 2 ^ (8 * k) + v % 2 ^ (64 - 8 * k) * 2 ^ (8 * k)) % WORD / 2 ^ (8 * k) +
      (y % WORD / 2 ^ (8 * k) * 2 ^ (8 * k) + v % WORD / 2 ^ (64 - 8 * k)) % 2 ^ (8 * k) *
        2 ^ (64 - 8 * k) = v % WORD := by
  rw [WORD_eq]
  interval_cases k <;> norm_num <;> omega

theorem read_write_same (m : Nat → Nat) (a v : Nat) :
    read64 (write64 m a v) a = v % WORD := by
  unfold read64 write64
  by_cases h : a % 8 = 0
  · rw [if_pos h, if_pos h]
    simp [upd]
  · rw [if_neg h, if_neg h]
    have hne : a - a % 8 ≠ add64 (a - a % 8) 8 := by
      unfold add64
      rw [WORD_eq]
      omega
    simp only [upd, if_neg hne, if_true]
    exact splice_read _ _ v (a % 8) (by omega) (by omega)

/-- A word that the eight bytes of the store do not touch keeps its value. -/
theorem write_other_word (m : Nat → Nat) (a v w : Nat) (ha : a + 8 ≤ WORD)
    (h : a + 8 ≤ w ∨ w + 8 ≤ a) : write64 m a v w = m w := by
  unfold write64
  by_cases h0 : a % 8 = 0
  · rw [if_pos h0]
    unfold upd
    rw [if_neg (by omega)]
  · rw [if_neg h0]
    have hhi : add64 (a - a % 8) 8 = a - a % 8 + 8 := by
      unfold add64
      rw [WORD_eq] at ha ⊢
      exact Nat.mod_eq_of_lt (by omega)
    rw [hhi]
    unfold upd
    rw [if_neg (by omega), if_neg (by omega)]

theorem keep_high (x v ka kb : Nat) (h1 : 0 < ka) (h2 : ka ≤ kb) (h3 : kb < 8) :
    (x % WORD / 2 ^ (8 * ka) * 2 ^ (8 * ka) + v % WORD / 2 ^ (64 - 8 * ka)) % WORD /
      2 ^ (8 * kb) = x % WORD / 2 ^ (8 * kb) := by
  rw [WORD_eq]
  have h4 : ka < 8 := by omega
  interval_cases ka <;> interval_cases kb <;> norm_num at h2 ⊢ <;> omega

theorem keep_low (x v ka kb : Nat) (h1 : 0 < kb) (h2 : kb ≤ ka) (h3 : ka < 8) :
    (x % 2 ^ (8 * ka) + v % 2 ^ (64 - 8 * ka) * 2 ^ (8 * ka)) % 2 ^ (8 * kb) =
      x % 2 ^ (8 * kb) := by
  interval_cases ka <;> interval_cases kb <;> norm_num at h2 ⊢ <;> omega

/-- A word read off the eight bytes of a store is not changed by it. -/
theorem read_write_other (m : Nat → Nat) (a v b : Nat) (ha : a + 8 ≤ WORD)
    (hb : b + 8 ≤ WORD) (h : a + 8 ≤ b ∨ b + 8 ≤ a) :
    read64 (write64 m a v) b = read64 m b := by
  by_cases hb0 : b % 8 = 0
  · unfold read64
    rw [if_pos hb0, if_pos hb0]
    exact write_other_word m a v b ha h
  · by_cases ha0 : a % 8 = 0
    · unfold read64
      rw [if_neg hb0, if_neg hb0]
      have hhi : add64 (b - b % 8) 8 = b - b % 8 + 8 := by
        unfold add64
        rw [WORD_eq] at hb ⊢
        exact Nat.mod_eq_of_lt (by omega)
      rw [hhi, write_other_word m a v _ ha (by omega), write_other_word m a v _ ha (by omega)]
    · have hha : add64 (a - a % 8) 8 = a - a % 8 + 8 := by
        unfold add64
        rw [WORD_eq] at ha ⊢
        exact Nat.mod_eq_of_lt (by omega)
      have hhb : add64 (b - b % 8) 8 = b - b % 8 + 8 := by
        unfold add64
        rw [WORD_eq] at hb ⊢
        exact Nat.mod_eq_of_lt (by omega)
      unfold read64
      rw [if_neg hb0, if_neg hb0, hhb]
      rcases h with h | h
      · rw [write_other_word m a v (b - b % 8 + 8) ha (by omega)]
        by_cases e : b - b % 8 = a - a % 8 + 8
        · have hw : write64 m a v (b - b % 8) =
              m (b - b % 8) % WORD / 2 ^ (8 * (a % 8)) * 2 ^ (8 * (a % 8)) +
                v % WORD / 2 ^ (64 - 8 * (a % 8)) := by
            unfold write64
            rw [if_neg ha0, hha, ← e]
            unfold upd
            rw [if_pos rfl]
          rw [hw, keep_high _ v (a % 8) (b % 8) (by omega) (by omega) (by omega)]
        · rw [write_other_word m a v (b - b % 8) ha (by omega)]
      · rw [write_other_word m a v (b - b % 8) ha (by omega)]
        by_cases e : b - b % 8 + 8 = a - a % 8
        · have hw : write64 m a v (b - b % 8 + 8) =
              m (b - b % 8 + 8) % 2 ^ (8 * (a % 8)) +
                v % 2 ^ (64 - 8 * (a % 8)) * 2 ^ (8 * (a % 8)) := by
            unfold write64
            rw [if_neg ha0, hha, ← e]
            unfold upd
            rw [if_neg (by omega), if_pos rfl]
          rw [hw, keep_low _ v (a % 8) (b % 8) (by omega) (by omega) (by omega)]
        · rw [write_other_word m a v (b - b % 8 + 8) ha (by omega)]

theorem relocate_fuel_enough (cfg : Config) (s : State) (hoff : s.mmu_enabled = false)
    (hend : cfg.__rela_dyn_end + 24 ≤ WORD) :
    rela_count cfg ≤
      sub64 (symbol s cfg.__rela_dyn_end) (symbol s cfg.__rela_dyn_start) / 24 + 1 := by
  rw [symbol_off s _ hoff, symbol_off s _ hoff]
  unfold rela_count sub64
  have hW := WORD_eq
  by_cases hle : cfg.__rela_dyn_start ≤ cfg.__rela_dyn_end
  · rw [Nat.mod_eq_of_lt (by omega : cfg.__rela_dyn_start < WORD)]
    have : (cfg.__rela_dyn_end + WORD - cfg.__rela_dyn_start) % WORD
        = cfg.__rela_dyn_end - cfg.__rela_dyn_start := by
      rw [show cfg.__rela_dyn_end + WORD - cfg.__rela_dyn_start
        = (cfg.__rela_dyn_end - cfg.__rela_dyn_start) + WORD by omega]
      rw [Nat.add_mod_right, Nat.mod_eq_of_lt (by omega)]
    rw [this]
    omega
  · have : cfg.__rela_dyn_end - cfg.__rela_dyn_start = 0 := by omega
    rw [this]
    omega

/-- The loop of the relocator on a table whose load-relative records have
locations that overlap neither each other nor the fields of the table. -/
theorem relocate_loop_table (cfg : Config) (s : State) (P : Nat)
    (hend : cfg.__rela_dyn_end + 24 ≤ WORD)
    (hkey : ∀ i, i < rela_count cfg → rela_info cfg s.mem i = R_RISCV_RELATIVE →
      ∀ (m : Nat → Nat) (v k : Nat), k < rela_count cfg →
        read64 (write64 m (rela_target cfg s.mem P i) v) (cfg.__rela_dyn_start + 24 * k)
          = read64 m (cfg.__rela_dyn_start + 24 * k) ∧
        read64 (write64 m (rela_target cfg s.mem P i) v) (cfg.__rela_dyn_start + 24 * k + 8)
          = read64 m (cfg.__rela_dyn_start + 24 * k + 8) ∧
        read64 (write64 m (rela_target cfg s.mem P i) v) (cfg.__rela_dyn_start + 24 * k + 16)
          = read64 m (cfg.__rela_dyn_start + 24 * k + 16))
    (hfit : ∀ i, i < rela_count cfg → rela_info cfg s.mem i = R_RISCV_RELATIVE →
      rela_target cfg s.mem P i + 8 ≤ WORD)
    (hdist : ∀ i j, i < rela_count cfg → j < rela_count cfg →
      rela_info cfg s.mem i = R_RISCV_RELATIVE → rela_info cfg s.mem j = R_RISCV_RELATIVE →
      i ≠ j → rela_target cfg s.mem P i + 8 ≤ rela_target cfg s.mem P j ∨
        rela_target cfg s.mem P j + 8 ≤ rela_target cfg s.mem P i) :
    ∀ (d j fuel : Nat) (t : State), j + d = rela_count cfg → d ≤ fuel →
      t.mmu_enabled = false →
      (∀ k, k < rela_count cfg →
        read64 t.mem (cfg.__rela_dyn_start + 24 * k) = rela_offset cfg s.mem k ∧
        read64 t.mem (cfg.__rela_dyn_start + 24 * k + 8) = rela_info cfg s.mem k ∧
        read64 t.mem (cfg.__rela_dyn_start + 24 * k + 16) = rela_addend cfg s.mem k) →
      ∃ m', relocate_loop cfg cfg.CONFIG_PAGE_OFFSET
            (sub64 (PAGE_OFFSET s) cfg.CONFIG_PAGE_OFFSET) (sub64 cfg.CONFIG_PAGE_OFFSET P)
            fuel t (cfg.__rela_dyn_start + 24 * j) = .ok { t with mem := m' } ∧
        (∀ i, j ≤ i → i < rela_count cfg → rela_info cfg s.mem i = R_RISCV_RELATIVE →
          read64 m' (rela_target cfg s.mem P i) =
            rela_value cfg s.mem (PAGE_OFFSET s) i % WORD) ∧
        (∀ a, a + 8 ≤ WORD →
          (∀ i, j ≤ i → i < rela_count cfg → rela_info cfg s.mem i = R_RISCV_RELATIVE →
            rela_target cfg s.mem P i + 8 ≤ a ∨ a + 8 ≤ rela_target cfg s.mem P i) →
          read64 m' a = read64 t.mem a) ∧
        (∀ a, (∀ i, j ≤ i → i < rela_count cfg → rela_info cfg s.mem i ≠ R_RISCV_RELATIVE) →
          m' a = t.mem a) := by
  intro d
  induction d with
  | zero =>
    intro j fuel t hj _ hoff _
    refine ⟨t.mem, ?_, ?_, ?_, ?_⟩
    · have hge : ¬ (cfg.__rela_dyn_start + 24 * j < cfg.__rela_dyn_end) := by
        unfold rela_count at hj
        omega
      cases fuel with
      | zero => simp [relocate_loop, symbol_off t _ hoff, hge]
      | succ f => simp [relocate_loop, symbol_off t _ hoff, hge]
    · intro i h1 h2
      omega
    · intro a _ _
      rfl
    · intro a _
      rfl
  | succ d ih =>
    intro j fuel t hj hfuel hoff htab
    obtain ⟨f, rfl⟩ : ∃ f, fuel = f + 1 := ⟨fuel - 1, by omega⟩
    have hjn : j < rela_count cfg := by omega
    have hlt : cfg.__rela_dyn_start + 24 * j < cfg.__rela_dyn_end := by
      unfold rela_count at hjn
      omega
    have hW := WORD_eq
    have h8 : add64 (cfg.__rela_dyn_start + 24 * j) 8 = cfg.__rela_dyn_start + 24 * j + 8 := by
      unfold add64; rw [Nat.mod_eq_of_lt (by omega)]
    have h16 : add64 (cfg.__rela_dyn_start + 24 * j) 16 = cfg.__rela_dyn_start + 24 * j + 16 := by
      unfold add64; rw [Nat.mod_eq_of_lt (by omega)]
    have h24 : add64 (cfg.__rela_dyn_start + 24 * j) 24 = cfg.__rela_dyn_start + 24 * (j + 1) := by
      unfold add64; rw [Nat.mod_eq_of_lt (by omega)]; ring
    obtain ⟨ho, hi, ha⟩ := htab j hjn
    by_cases hrel : rela_info cfg s.mem j = R_RISCV_RELATIVE
    · -- a load-relative record: one store, then the rest of the table
      have hfj := hfit j hjn hrel
      have htab1 : ∀ k, k < rela_count cfg →
          read64 (write64 t.mem (rela_target cfg s.mem P j)
              (rela_value cfg s.mem (PAGE_OFFSET s) j)) (cfg.__rela_dyn_start + 24 * k)
            = rela_offset cfg s.mem k ∧
          read64 (write64 t.mem (rela_target cfg s.mem P j)
              (rela_value cfg s.mem (PAGE_OFFSET s) j)) (cfg.__rela_dyn_start + 24 * k + 8)
            = rela_info cfg s.mem k ∧
          read64 (write64 t.mem (rela_target cfg s.mem P j)
              (rela_value cfg s.mem (PAGE_OFFSET s) j)) (cfg.__rela_dyn_start + 24 * k + 16)
            = rela_addend cfg s.mem k := by
        intro k hk
        obtain ⟨k1, k2, k3⟩ := hkey j hjn hrel t.mem (rela_value cfg s.mem (PAGE_OFFSET s) j) k hk
        obtain ⟨t1, t2, t3⟩ := htab k hk
        exact ⟨k1.trans t1, k2.trans t2, k3.trans t3⟩
      obtain ⟨m', hrun, hval, hframe, hnone⟩ := ih (j + 1) f
        { t with mem := (write64 t.mem (rela_target cfg s.mem P j)
          (rela_value cfg s.mem (PAGE_OFFSET s) j)) } (by omega) (by omega) hoff htab1
      refine ⟨m', ?_, ?_, ?_, ?_⟩
      · rw [relocate_loop, symbol_off t _ hoff, if_pos hlt]
        simp only [load64_off cfg t _ hoff, store64_off cfg t _ _ hoff, Except.bind, h8, h16,
          h24, ho, hi, ha, hrel, ne_eq, not_true_eq_false, if_false]
        exact hrun
      · intro i h1 h2 h3
        by_cases hij : i = j
        · subst hij
          rw [hframe _ hfj (fun k hk1 hk2 hk3 => hdist k i hk2 h2 hk3 h3 (by omega))]
          exact read_write_same _ _ _
        · exact hval i (by omega) h2 h3
      · intro a haW hne
        rw [hframe a haW (fun k hk1 hk2 hk3 => hne k (by omega) hk2 hk3)]
        exact read_write_other _ _ _ a hfj haW (hne j (le_refl j) hjn hrel)
      · intro a hno
        exact absurd hrel (hno j (le_refl j) hjn)
    · -- a record of another kind is skipped
      obtain ⟨m', hrun, hval, hframe, hnone⟩ := ih (j + 1) f t (by omega) (by omega) hoff htab
      refine ⟨m', ?_, ?_, ?_, ?_⟩
      · rw [relocate_loop, symbol_off t _ hoff, if_pos hlt]
        simp only [load64_off cfg t _ hoff, Except.bind, h8, h16, h24, ho, hi, ha, hrel, ne_eq,
          not_false_eq_true, if_true]
        exact hrun
      · intro i h1 h2 h3
        by_cases hij : i = j
        · subst hij
          exact absurd h3 hrel
        · exact hval i (by omega) h2 h3
      · intro a haW hne
        exact hframe a haW (fun k hk1 hk2 hk3 => hne k (by omega) hk2 hk3)
      · intro a hno
        exact hnone a (fun k hk1 hk2 => hno k (by omega) hk2)

theorem read64_aligned (m : Nat → Nat) (a : Nat) (h : a % 8 = 0) : read64 m a = m a := by
  unfold read64
  rw [if_pos h]

theorem rela_table_end (cfg : Config) (k : Nat) (hend : cfg.__rela_dyn_end + 24 ≤ WORD)
    (hk : k < rela_count cfg) :
    cfg.__rela_dyn_start + 24 * k + 24 ≤ cfg.__rela_dyn_start + 24 * rela_count cfg ∧
      cfg.__rela_dyn_start + 24 * rela_count cfg ≤ WORD := by
  unfold rela_count at hk ⊢
  rw [WORD_eq] at hend ⊢
  omega

/-- C5 (amended): with translation off, for a relocation table whose
load-relative records have locations whose eight bytes overlap neither each
other nor the table and end below the top of the address space,
`relocate_kernel(P)` returns, and in the memory it leaves the word read at
`r_offset - (L - P)` is, for each load-relative record, `r_addend + (F - L)`
modulo the word size if `r_addend ≥ L` and `r_addend` otherwise (with
`L = CONFIG_PAGE_OFFSET` and `F = PAGE_OFFSET`); every word whose eight bytes
overlap no such location, in particular the word at the location of a record of
another kind, reads what it read before; nothing but memory changes. -/
theorem relocate_kernel_result (cfg : Config) (s : State) (P : Nat)
    (hoff : s.mmu_enabled = false)
    (hend : cfg.__rela_dyn_end + 24 ≤ WORD)
    (hout : ∀ i, i < rela_count cfg → rela_info cfg s.mem i = R_RISCV_RELATIVE →
      rela_target cfg s.mem P i + 8 ≤ cfg.__rela_dyn_start ∨
      cfg.__rela_dyn_start + 24 * rela_count cfg ≤ rela_target cfg s.mem P i)
    (hfit : ∀ i, i < rela_count cfg → rela_info cfg s.mem i = R_RISCV_RELATIVE →
      rela_target cfg s.mem P i + 8 ≤ WORD)
    (hdist : ∀ i j, i < rela_count cfg → j < rela_count cfg →
      rela_info cfg s.mem i = R_RISCV_RELATIVE → rela_info cfg s.mem j = R_RISCV_RELATIVE →
      i ≠ j → rela_target cfg s.mem P i + 8 ≤ rela_target cfg s.mem P j ∨
        rela_target cfg s.mem P j + 8 ≤ rela_target cfg s.mem P i) :
    ∃ m', relocate_kernel cfg s P = .ok { s with mem := m' } ∧
      (∀ i, i < rela_count cfg → rela_info cfg s.mem i = R_RISCV_RELATIVE →
        read64 m' (rela_target cfg s.mem P i) =
          rela_value cfg s.mem (PAGE_OFFSET s) i % WORD) ∧
      (∀ a, a + 8 ≤ WORD →
        (∀ i, i < rela_count cfg → rela_info cfg s.mem i = R_RISCV_RELATIVE →
          rela_target cfg s.mem P i + 8 ≤ a ∨ a + 8 ≤ rela_target cfg s.mem P i) →
        read64 m' a = read64 s.mem a) := by
  have hfuel := relocate_fuel_enough cfg s hoff hend
  have hkey : ∀ i, i < rela_count cfg → rela_info cfg s.mem i = R_RISCV_RELATIVE →
      ∀ (m : Nat → Nat) (v k : Nat), k < rela_count cfg →
        read64 (write64 m (rela_target cfg s.mem P i) v) (cfg.__rela_dyn_start + 24 * k)
          = read64 m (cfg.__rela_dyn_start + 24 * k) ∧
        read64 (write64 m (rela_target cfg s.mem P i) v) (cfg.__rela_dyn_start + 24 * k + 8)
          = read64 m (cfg.__rela_dyn_start + 24 * k + 8) ∧
        read64 (write64 m (rela_target cfg s.mem P i) v) (cfg.__rela_dyn_start + 24 * k + 16)
          = read64 m (cfg.__rela_dyn_start + 24 * k + 16) := by
    intro i hi hrel m v k hk
    obtain ⟨e1, e2⟩ := rela_table_end cfg k hend hk
    have ho := hout i hi hrel
    have hf := hfit i hi hrel
    exact ⟨read_write_other m _ v _ hf (by omega) (by omega),
      read_write_other m _ v _ hf (by omega) (by omega),
      read_write_other m _ v _ hf (by omega) (by omega)⟩
  obtain ⟨m', hrun, hval, hframe, _⟩ :=
    relocate_loop_table cfg s P hend hkey hfit hdist (rela_count cfg) 0 _ s (by omega) hfuel hoff
      (fun _ _ => ⟨rfl, rfl, rfl⟩)
  refine ⟨m', ?_, fun i h2 h3 => hval i (Nat.zero_le i) h2 h3,
    fun a haW hne => hframe a haW (fun k _ hk2 hk3 => hne k hk2 hk3)⟩
  unfold relocate_kernel
  simp only [symbol_off s _ hoff] at hrun ⊢
  simpa using hrun

theorem relocate_kernel_result_witness :
    ∃ m', relocate_kernel cfg0 shallow0 0x80200000 = .ok { shallow0 with mem := m' } ∧
      read64 m' 0x80700000 = 0xffffffe000001234 ∧ read64 m' 0x80700008 = 0x40 ∧
      read64 m' 0x80700010 = 0 := by
  have hn : rela_count cfg0 = 3 := by decide
  have hdist : ∀ i j, i < rela_count cfg0 → j < rela_count cfg0 →
      rela_info cfg0 shallow0.mem i = R_RISCV_RELATIVE →
      rela_info cfg0 shallow0.mem j = R_RISCV_RELATIVE →
      i ≠ j → rela_target cfg0 shallow0.mem 0x80200000 i + 8
          ≤ rela_target cfg0 shallow0.mem 0x80200000 j ∨
        rela_target cfg0 shallow0.mem 0x80200000 j + 8
          ≤ rela_target cfg0 shallow0.mem 0x80200000 i := by
    intro i j hi hj
    rw [hn] at hi hj
    interval_cases i <;> interval_cases j <;> decide
  have hout : ∀ i, i < rela_count cfg0 →
      rela_info cfg0 shallow0.mem i = R_RISCV_RELATIVE →
      rela_target cfg0 shallow0.mem 0x80200000 i + 8 ≤ cfg0.__rela_dyn_start ∨
      cfg0.__rela_dyn_start + 24 * rela_count cfg0
        ≤ rela_target cfg0 shallow0.mem 0x80200000 i := by
    intro i hi
    rw [hn] at hi
    interval_cases i <;> decide
  have hfit : ∀ i, i < rela_count cfg0 →
      rela_info cfg0 shallow0.mem i = R_RISCV_RELATIVE →
      rela_target cfg0 shallow0.mem 0x80200000 i + 8 ≤ WORD := by
    intro i hi
    rw [hn] at hi
    interval_cases i <;> decide
  obtain ⟨m', h1, h2, h3⟩ := relocate_kernel_result cfg0 shallow0 0x80200000 rfl
    (by decide) hout hfit hdist
  have t0 : rela_target cfg0 shallow0.mem 0x80200000 0 = 0x80700000 := by decide
  have t1 : rela_target cfg0 shallow0.mem 0x80200000 1 = 0x80700008 := by decide
  have v0 := h2 0 (by decide) (by decide)
  have v1 := h2 1 (by decide) (by decide)
  rw [t0] at v0
  rw [t1] at v1
  refine ⟨m', h1, v0.trans (by decide), v1.trans (by decide), ?_⟩
  rw [h3 0x80700010 (by decide) (fun i hi hr => by
    rw [hn] at hi
    interval_cases i
    · decide
    · decide
    · exact absurd hr (by decide))]
  decide

/-- C5 as stated fails: two load-relative records whose locations are distinct
but four bytes apart.  The second store replaces the upper half of the word the
first one wrote and the lower half of the next word, which is the location of
no record. -/
theorem relocate_kernel_result_counterexample :
    rela_count cfg0 = 3 ∧
    rela_info cfg0 clash0.mem 0 = R_RISCV_RELATIVE ∧
    rela_info cfg0 clash0.mem 1 = R_RISCV_RELATIVE ∧
    rela_info cfg0 clash0.mem 2 ≠ R_RISCV_RELATIVE ∧
    rela_target cfg0 clash0.mem 0x80200000 0 = 0x80700000 ∧
    rela_target cfg0 clash0.mem 0x80200000 1 = 0x80700004 ∧
    rela_value cfg0 clash0.mem (PAGE_OFFSET clash0) 0 = 0xffffffe000001234 ∧
    rela_value cfg0 clash0.mem (PAGE_OFFSET clash0) 1 = 0x1122334455667788 ∧
    clash0.mem 0x80700008 = 0 ∧
    ∃ m', relocate_kernel cfg0 clash0 0x80200000 = .ok { clash0 with mem := m' } ∧
      read64 m' 0x80700000 = 0x5566778800001234 ∧
      read64 m' 0x80700004 = 0x1122334455667788 ∧
      read64 m' 0x80700008 = 0x11223344 :=
  ⟨by decide, by decide, by decide, by decide, by decide, by decide, by decide, by decide,
    by decide,
    write64 (write64 clash0.mem 0x80700000 0xffffffe000001234) 0x80700004 0x1122334455667788,
    rfl, by decide, by decide, by decide⟩

/-! ## Preservation of the globals -/

theorem same_config_refl (s : State) : same_config s s := by
  simp [same_config]

theorem same_config_trans {s t u : State} (h1 : same_config s t) (h2 : same_config t u) :
    same_config s u := by
  simp only [same_config] at *
  obtain ⟨a1, a2, a3, a4, a5, a6, a7, a8, a9⟩ := h1
  obtain ⟨b1, b2, b3, b4, b5, b6, b7, b8, b9⟩ := h2
  exact ⟨b1.trans a1, b2.trans a2, b3.trans a3, b4.trans a4, b5.trans a5, b6.trans a6,
    b7.trans a7, b8.trans a8, b9.trans a9⟩

theorem store_config {cfg : Config} {s t : State} {p v : Nat}
    (h : store cfg s p v = .ok t) : same_config s t := by
  unfold store at h
  cases htr : translate cfg s p with
  | error e => simp [htr, Except.bind] at h
  | ok a =>
    simp only [htr, Except.bind, Except.ok.injEq] at h
    subst h
    simp [same_config]

theorem store64_config {cfg : Config} {s t : State} {p v : Nat}
    (h : store64 cfg s p v = .ok t) : same_config s t := by
  unfold store64 at h
  cases htr : translate cfg s p with
  | error e => simp [htr, Except.bind] at h
  | ok a =>
    simp only [htr, Except.bind, Except.ok.injEq] at h
    subst h
    simp [same_config]

theorem relocate_loop_config (cfg : Config) (L ro vlp : Nat) :
    ∀ (fuel : Nat) (s t : State) (rela : Nat),
      relocate_loop cfg L ro vlp fuel s rela = .ok t → same_config s t := by
  intro fuel
  induction fuel with
  | zero =>
    intro s t rela h
    unfold relocate_loop at h
    split at h
    · simp at h
    · simp only [Except.ok.injEq] at h
      subst h
      exact same_config_refl s
  | succ f ih =>
    intro s t rela h
    unfold relocate_loop at h
    split at h
    · cases h1 : load64 cfg s rela with
      | error e => simp [h1, Except.bind] at h
      | ok r_offset =>
        cases h2 : load64 cfg s (add64 rela 8) with
        | error e => simp [h1, h2, Except.bind] at h
        | ok r_info =>
          cases h3 : load64 cfg s (add64 rela 16) with
          | error e => simp [h1, h2, h3, Except.bind] at h
          | ok r_addend =>
            simp only [h1, h2, h3, Except.bind] at h
            split at h
            · exact ih _ _ _ h
            · cases h4 : store64 cfg s (sub64 r_offset vlp)
                  (if r_addend ≥ L then add64 r_addend ro else r_addend) with
              | error e => simp [h4] at h
              | ok s1 =>
                simp only [h4] at h
                exact same_config_trans (store64_config h4) (ih _ _ _ h)
    · simp only [Except.ok.injEq] at h
      subst h
      exact same_config_refl s

theorem relocate_kernel_config {cfg : Config} {s t : State} {P : Nat}
    (h : relocate_kernel cfg s P = .ok t) : same_config s t :=
  relocate_loop_config cfg _ _ _ _ s t _ h

/-! ## Validation in phase 1 (C9) -/

theorem setup_vm_checks_depth (cfg : Config) (s t : State) (load_pa load_sz map_size : Nat)
    (h : t.pgtable_l4_enabled = s.pgtable_l4_enabled) :
    setup_vm_checks cfg t load_pa load_sz map_size
      = setup_vm_checks cfg s load_pa load_sz map_size := by
  unfold setup_vm_checks
  rw [PGDIR_SIZE_eq, PGDIR_SIZE_eq, h]

theorem best_map_size_early (load_pa : Nat) :
    best_map_size load_pa MAX_EARLY_MAPPING_SIZE
      = if load_pa % PMD_SIZE = 0 then PMD_SIZE else PAGE_SIZE := by
  have hb : load_pa &&& (PMD_SIZE - 1) = load_pa % PMD_SIZE := and_mask_eq_mod load_pa 21
  have hs : MAX_EARLY_MAPPING_SIZE &&& (PMD_SIZE - 1) = 0 := by decide
  unfold best_map_size
  rw [hb, hs]
  by_cases h : load_pa % PMD_SIZE = 0
  · simp [h]
  · simp [h]

theorem setup_vm_checks_exact (cfg : Config) (s : State) (load_pa load_sz : Nat) :
    (setup_vm_checks cfg s load_pa load_sz (best_map_size load_pa MAX_EARLY_MAPPING_SIZE) = none
      ↔ load_pa % PMD_SIZE = 0 ∧ cfg.CONFIG_PAGE_OFFSET % PGDIR_SIZE s = 0 ∧
        load_sz ≤ MAX_EARLY_MAPPING_SIZE) ∧
    setup_vm_checks cfg s load_pa load_sz (best_map_size load_pa MAX_EARLY_MAPPING_SIZE)
      ≠ some (.BUG_ON 520) := by
  rw [best_map_size_early]
  unfold setup_vm_checks
  have hne : PMD_SIZE ≠ PAGE_SIZE := by decide
  by_cases hb : load_pa % PMD_SIZE = 0
  · simp only [hb, if_true, hne, if_false, true_and]
    by_cases hc : cfg.CONFIG_PAGE_OFFSET % PGDIR_SIZE s = 0
    · by_cases hs : load_sz ≤ MAX_EARLY_MAPPING_SIZE
      · simp [hc, hs]
      · simp [hc, hs]
    · simp [hc]
  · simp [hb]

theorem setup_vm_checks_cause (cfg : Config) (s : State) (load_pa load_sz map_size : Nat)
    (b : Halt) (h : setup_vm_checks cfg s load_pa load_sz map_size = some b) :
    b = .BUG_ON 516 ∨ b = .BUG_ON 519 ∨ b = .BUG_ON 520 ∨ b = .BUG_ON 521 := by
  unfold setup_vm_checks at h
  split at h
  · simp only [Option.some.injEq] at h; exact Or.inl h.symm
  · split at h
    · simp only [Option.some.injEq] at h; exact Or.inr (Or.inl h.symm)
    · split at h
      · simp only [Option.some.injEq] at h; exact Or.inr (Or.inr (Or.inl h.symm))
      · split at h
        · simp only [Option.some.injEq] at h; exact Or.inr (Or.inr (Or.inr h.symm))
        · simp at h

/-- When the check of line 508, the relocator and the checks of lines 516-521
pass, `setup_vm` goes on to build the tables with `PMD_SIZE` as granularity. -/
theorem setup_vm_pass (cfg : Config) (s s2 : State) (dtb_pa : Nat)
    (h508 : ¬ (SZ_1G - (PAGE_OFFSET s &&& (SZ_1G - 1))
      < sub64 (symbol s cfg._end) (symbol s cfg._start)))
    (hr : relocate_kernel cfg { s with
      va_pa_offset := sub64 (PAGE_OFFSET s) (symbol s cfg._start)
      pfn_base := PFN_DOWN (symbol s cfg._start) } (symbol s cfg._start) = .ok s2)
    (h1 : symbol s cfg._start % PMD_SIZE = 0) (h2 : cfg.CONFIG_PAGE_OFFSET % PGDIR_SIZE s = 0)
    (h3 : sub64 (symbol s cfg._end) (symbol s cfg._start) ≤ MAX_EARLY_MAPPING_SIZE) :
    setup_vm cfg s dtb_pa = setup_vm_tables cfg s2 dtb_pa (symbol s cfg._start)
      (sub64 (symbol s cfg._end) (symbol s cfg._start)) PMD_SIZE := by
  unfold setup_vm
  simp only [PAGE_OFFSET] at h508 hr ⊢
  rw [if_neg h508, hr]
  simp only [Except.bind]
  have hl4 : s2.pgtable_l4_enabled = s.pgtable_l4_enabled := (relocate_kernel_config hr).2.1
  rw [setup_vm_checks_depth cfg s s2 _ _ _ hl4]
  rw [((setup_vm_checks_exact cfg s _ _).1).mpr ⟨h1, h2, h3⟩]
  simp only []
  rw [best_map_size_early, if_pos h1]

/-- C9: `setup_vm` stops before any table is built when the link base is not a
multiple of `PGDIR_SIZE`, or the load address is not a multiple of the chosen
granularity, or the image is larger than `MAX_EARLY_MAPPING_SIZE`: it stops
at the `BUG_ON` of line 508 in the entry state with the two offsets published,
or inside the relocator, or at the `BUG_ON` of line 516, 519 or 521 in the state
the relocator returned.  The checks of lines 516-521 all pass exactly when the load address
is a multiple of `PMD_SIZE`, the link base a multiple of `PGDIR_SIZE` and the
image at most 128 MiB; the check of line 520 is never the one that fires; and
when they pass (and the relocation check and the relocator do), `setup_vm`
goes on to build the tables with `PMD_SIZE` as the granularity. -/
theorem setup_vm_validation (cfg : Config) (s : State) (dtb_pa : Nat) :
    ((cfg.CONFIG_PAGE_OFFSET % PGDIR_SIZE s ≠ 0 ∨
        symbol s cfg._start % best_map_size (symbol s cfg._start) MAX_EARLY_MAPPING_SIZE ≠ 0 ∨
        sub64 (symbol s cfg._end) (symbol s cfg._start) > MAX_EARLY_MAPPING_SIZE) →
      ∃ h, setup_vm cfg s dtb_pa = .error h ∧
        (h.cause = .BUG_ON 508 ∧ h.st = { s with
            va_pa_offset := sub64 (PAGE_OFFSET s) (symbol s cfg._start)
            pfn_base := PFN_DOWN (symbol s cfg._start) } ∨
          relocate_kernel cfg { s with
            va_pa_offset := sub64 (PAGE_OFFSET s) (symbol s cfg._start)
            pfn_base := PFN_DOWN (symbol s cfg._start) } (symbol s cfg._start) = .error h ∨
          (h.cause = .BUG_ON 516 ∨ h.cause = .BUG_ON 519 ∨ h.cause = .BUG_ON 521) ∧
          relocate_kernel cfg { s with
            va_pa_offset := sub64 (PAGE_OFFSET s) (symbol s cfg._start)
            pfn_base := PFN_DOWN (symbol s cfg._start) } (symbol s cfg._start) = .ok h.st)) ∧
    (∀ load_pa load_sz,
      (setup_vm_checks cfg s load_pa load_sz (best_map_size load_pa MAX_EARLY_MAPPING_SIZE)
          = none
        ↔ load_pa % PMD_SIZE = 0 ∧ cfg.CONFIG_PAGE_OFFSET % PGDIR_SIZE s = 0 ∧
          load_sz ≤ MAX_EARLY_MAPPING_SIZE) ∧
      setup_vm_checks cfg s load_pa load_sz (best_map_size load_pa MAX_EARLY_MAPPING_SIZE)
        ≠ some (.BUG_ON 520)) ∧
    (∀ s2, ¬ (SZ_1G - (PAGE_OFFSET s &&& (SZ_1G - 1))
          < sub64 (symbol s cfg._end) (symbol s cfg._start)) →
      relocate_kernel cfg { s with
        va_pa_offset := sub64 (PAGE_OFFSET s) (symbol s cfg._start)
        pfn_base := PFN_DOWN (symbol s cfg._start) } (symbol s cfg._start) = .ok s2 →
      symbol s cfg._start % PMD_SIZE = 0 → cfg.CONFIG_PAGE_OFFSET % PGDIR_SIZE s = 0 →
      sub64 (symbol s cfg._end) (symbol s cfg._start) ≤ MAX_EARLY_MAPPING_SIZE →
      setup_vm cfg s dtb_pa = setup_vm_tables cfg s2 dtb_pa (symbol s cfg._start)
        (sub64 (symbol s cfg._end) (symbol s cfg._start)) PMD_SIZE) := by
  refine ⟨?_, fun load_pa load_sz => setup_vm_checks_exact cfg s load_pa load_sz, ?_⟩
  · intro hbad
    unfold setup_vm
    simp only []
    split
    · exact ⟨_, rfl, Or.inl ⟨rfl, rfl⟩⟩
    · cases hr : relocate_kernel cfg { s with
          va_pa_offset := sub64 (PAGE_OFFSET s) (symbol s cfg._start)
          pfn_base := PFN_DOWN (symbol s cfg._start) } (symbol s cfg._start) with
      | error e => exact ⟨e, by simp [Except.bind], Or.inr (Or.inl rfl)⟩
      | ok s2 =>
        have hl4 : s2.pgtable_l4_enabled = s.pgtable_l4_enabled :=
          (relocate_kernel_config hr).2.1
        have hchk := setup_vm_checks_depth cfg s s2 (symbol s cfg._start)
          (sub64 (symbol s cfg._end) (symbol s cfg._start))
          (best_map_size (symbol s cfg._start) MAX_EARLY_MAPPING_SIZE) hl4
        have hex := (setup_vm_checks_exact cfg s (symbol s cfg._start)
          (sub64 (symbol s cfg._end) (symbol s cfg._start))).1
        cases hc : setup_vm_checks cfg s (symbol s cfg._start)
            (sub64 (symbol s cfg._end) (symbol s cfg._start))
            (best_map_size (symbol s cfg._start) MAX_EARLY_MAPPING_SIZE) with
        | none =>
          exfalso
          obtain ⟨h1, h2, h3⟩ := hex.mp hc
          rw [best_map_size_early, if_pos h1] at hbad
          rcases hbad with h | h | h
          · exact h h2
          · exact h h1
          · omega
        | some b =>
          have hb := setup_vm_checks_cause cfg s _ _ _ b hc
          have h520 := (setup_vm_checks_exact cfg s (symbol s cfg._start)
            (sub64 (symbol s cfg._end) (symbol s cfg._start))).2
          rw [hc] at h520
          have hb2 : b = .BUG_ON 516 ∨ b = .BUG_ON 519 ∨ b = .BUG_ON 521 := by
            rcases hb with h | h | h | h
            · exact Or.inl h
            · exact Or.inr (Or.inl h)
            · exact absurd (congrArg some h) h520
            · exact Or.inr (Or.inr h)
          refine ⟨⟨b, s2⟩, ?_, Or.inr (Or.inr ⟨hb2, rfl⟩)⟩
          simp only [Except.bind]
          rw [hchk, hc]
  · intro s2 h508 hr h1 h2 h3
    exact setup_vm_pass cfg s s2 dtb_pa h508 hr h1 h2 h3

/-! ## The levels of the builder as instances of one shape -/

theorem create_pmd_mapping_level (cfg : Config) (s : State) (pmdp va pa sz prot : Nat) :
    create_pmd_mapping cfg s pmdp va pa sz prot =
      create_level cfg PMD_SIZE (pmd_index va) (fun s => alloc_pte s va) (get_pte_virt cfg)
        (fun s p => create_pte_mapping cfg s p va pa sz prot) s pmdp pa sz prot := rfl

theorem create_pud_mapping_level (cfg : Config) (s : State) (pudp va pa sz prot : Nat) :
    create_pud_mapping cfg s pudp va pa sz prot =
      create_level cfg PUD_SIZE (pud_index va) (fun s => alloc_pmd cfg s va) (get_pmd_virt cfg)
        (fun s p => create_pmd_mapping cfg s p va pa sz prot) s pudp pa sz prot := rfl

theorem create_pgd_mapping_level (cfg : Config) (s : State) (pgdp va pa sz prot : Nat) :
    create_pgd_mapping cfg s pgdp va pa sz prot =
      if ¬ s.pgtable_l4_enabled then create_pud_mapping cfg s pgdp va pa sz prot
      else
        create_level cfg (PGDIR_SIZE s) (pgd_index s va) (fun s => alloc_pud cfg s va)
          (get_pud_virt cfg) (fun s p => create_pud_mapping cfg s p va pa sz prot)
          s pgdp pa sz prot := rfl

/-! ## Translation depends on the globals and on `fixmap_pte` only -/

theorem pte_index_lt (a : Nat) : pte_index a < 512 := by
  rw [pte_index_eq]; omega

theorem translate_congr (cfg : Config) (s t : State) (va r : Nat)
    (hc : same_config s t)
    (hm : ∀ i, i < 512 → t.mem (cfg.fixmap_pte + 8 * i) = s.mem (cfg.fixmap_pte + 8 * i))
    (h : translate cfg s va = .ok r) : translate cfg t va = .ok r := by
  obtain ⟨c1, c2, c3, c4, c5, c6, c7, c8, c9⟩ := hc
  unfold translate at h ⊢
  have hfs : FIXADDR_START cfg t = FIXADDR_START cfg s := by
    simp [FIXADDR_START, PAGE_OFFSET, c4]
  have hpo : PAGE_OFFSET t = PAGE_OFFSET s := by simp [PAGE_OFFSET, c4]
  have hpa : __pa t va = __pa s va := by simp [__pa, c5]
  rw [c1, hfs, hpo, hpa, hm _ (pte_index_lt va)]
  cases hmm : s.mmu_enabled
  · simpa [hmm] using h
  · simp only [hmm, if_true] at h ⊢
    split
    · rename_i hr
      rw [if_pos hr] at h
      split
      · rename_i he
        rw [if_pos he] at h
        simp at h
      · rename_i he
        rw [if_neg he] at h
        exact h
    · rename_i hr
      rw [if_neg hr] at h
      exact h

theorem Addr_congr (cfg : Config) (s t : State) (ptr T : Nat)
    (hc : same_config s t)
    (hm : ∀ i, i < 512 → t.mem (cfg.fixmap_pte + 8 * i) = s.mem (cfg.fixmap_pte + 8 * i))
    (h : Addr cfg s ptr T) : Addr cfg t ptr T :=
  fun i hi => translate_congr cfg s t _ _ hc hm (h i hi)

theorem load_Addr (cfg : Config) (s : State) (ptr T i : Nat) (h : Addr cfg s ptr T)
    (hi : i < 512) : load cfg s (slot ptr i) = .ok (s.mem (slot T i)) := by
  simp [load, h i hi, Except.bind]

theorem store_Addr (cfg : Config) (s : State) (ptr T i v : Nat) (h : Addr cfg s ptr T)
    (hi : i < 512) :
    store cfg s (slot ptr i) v = .ok { s with mem := upd s.mem (slot T i) v } := by
  simp [store, h i hi, Except.bind]

theorem pmd_index_lt (a : Nat) : pmd_index a < 512 := by
  rw [pmd_index_eq]; omega

theorem pud_index_lt (a : Nat) : pud_index a < 512 := by
  rw [pud_index_eq]; omega

theorem pgd_index_lt (s : State) (a : Nat) : pgd_index s a < 512 := by
  rw [pgd_index_eq]; split <;> omega

theorem Addr_off (cfg : Config) (s : State) (T : Nat) (h : s.mmu_enabled = false) :
    Addr cfg s T T :=
  fun i _ => translate_off cfg s (slot T i) h

/-! ## `memset` -/

theorem zero_words_zero (m : Nat → Nat) (p : Nat) : zero_words m p 0 = m := by
  rw [zero_words]

theorem zero_words_succ (m : Nat → Nat) (p n : Nat) :
    zero_words m p (n + 1) = zero_words (upd m p 0) (add64 p 8) n := by
  rw [zero_words]

theorem memset_zero_off (cfg : Config) :
    ∀ (n : Nat) (s : State) (p : Nat), s.mmu_enabled = false →
      memset_zero cfg s p n = .ok { s with mem := zero_words s.mem p n } := by
  intro n
  induction n with
  | zero => intro s p _; rw [zero_words_zero]; rfl
  | succ n ih =>
    intro s p h
    rw [memset_zero, store_off cfg s p 0 h]
    simp only [Except.bind]
    rw [ih _ _ (by simpa using h), zero_words_succ]

theorem slot_eq (T i : Nat) (h : T + 8 * i < WORD) : slot T i = T + 8 * i := by
  unfold slot add64
  exact Nat.mod_eq_of_lt h

theorem zero_words_eq :
    ∀ (n : Nat) (m : Nat → Nat) (p : Nat), p + 8 * n ≤ WORD →
      zero_words m p n = fun a => if p ≤ a ∧ a < p + 8 * n ∧ (a - p) % 8 = 0 then 0 else m a := by
  intro n
  induction n with
  | zero =>
    intro m p _
    funext a
    rw [zero_words_zero, if_neg (by omega)]
  | succ n ih =>
    intro m p h
    have hW := WORD_eq
    by_cases hn : n = 0
    · subst hn
      funext a
      rw [zero_words_succ, zero_words_zero]
      simp only [upd]
      by_cases ha : a = p
      · subst ha; simp
      · rw [if_neg ha, if_neg (by omega)]
    · have hp : add64 p 8 = p + 8 := by
        unfold add64; rw [Nat.mod_eq_of_lt (by omega)]
      rw [zero_words_succ, hp, ih _ _ (by omega)]
      funext a
      simp only [upd]
      by_cases ha : a = p
      · subst ha
        rw [if_neg (by omega), if_pos rfl, if_pos (by omega)]
      · by_cases hin : p + 8 ≤ a ∧ a < p + 8 + 8 * n ∧ (a - (p + 8)) % 8 = 0
        · rw [if_pos hin, if_pos (by omega)]
        · rw [if_neg hin, if_neg ha, if_neg (by omega)]

/-! ## Symbols and fixmap windows under translation -/

theorem Addr_linear (cfg : Config) (s : State) (p : Nat) (h : Linear cfg s p) :
    Addr cfg s (symbol s p) p := by
  obtain ⟨hp, hon⟩ := h
  have hW := WORD_eq
  have hP := PAGE_SIZE_eq
  intro i hi
  cases hm : s.mmu_enabled
  · rw [symbol_off s p hm]
    exact translate_off cfg s _ hm
  · obtain ⟨h1, h2⟩ := hon hm
    have hs : slot (symbol s p) i = __va s p + 8 * i := by
      simp only [symbol, hm, if_true]
      exact slot_eq _ _ (by omega)
    have hT : slot p i = p + 8 * i := slot_eq _ _ (by omega)
    rw [hs, hT]
    unfold translate
    simp only [hm, if_true]
    rw [if_neg (by omega)]
    congr 1
    unfold __pa sub64
    unfold __va add64 at h1 h2 ⊢
    clear hW
    simp only [WORD_eq] at *
    omega

theorem fix_to_virt_eq (cfg : Config) (s : State) (idx : Nat)
    (htop : cfg.FIXADDR_TOP (PAGE_OFFSET s) < WORD)
    (hsz : FIXADDR_SIZE ≤ cfg.FIXADDR_TOP (PAGE_OFFSET s)) (hidx : idx ≤ 512) :
    __fix_to_virt cfg s idx = cfg.FIXADDR_TOP (PAGE_OFFSET s) - idx * 4096 := by
  have hF : FIXADDR_SIZE = 2097152 := rfl
  unfold __fix_to_virt sub64 PAGE_SHIFT
  rw [Nat.shiftLeft_eq]
  simp only [WORD_eq, hF] at *
  omega

theorem FIXADDR_START_eq (cfg : Config) (s : State)
    (htop : cfg.FIXADDR_TOP (PAGE_OFFSET s) < WORD)
    (hsz : FIXADDR_SIZE ≤ cfg.FIXADDR_TOP (PAGE_OFFSET s)) :
    FIXADDR_START cfg s = cfg.FIXADDR_TOP (PAGE_OFFSET s) - 2097152 := by
  have hF : FIXADDR_SIZE = 2097152 := rfl
  unfold FIXADDR_START sub64
  simp only [WORD_eq, hF] at *
  omega

/-- The state after the window of slot `idx` has been pointed at the page of `T`. -/
theorem set_fixmap_on (cfg : Config) (s : State) (idx phys prot : Nat)
    (hfix : Fixmap_ok cfg s) (hon : s.mmu_enabled = true)
    (h1 : FIX_HOLE < idx) (h2 : idx < cfg.end_of_fixed_addresses) :
    __set_fixmap cfg s idx phys prot =
      if prot ≠ 0 then
        .ok { s with mem := upd s.mem (wincell cfg s idx) (pfn_pte (phys >>> PAGE_SHIFT) prot) }
      else
        .ok { s with
          mem := upd s.mem (wincell cfg s idx) 0
          trace := Event.local_flush_tlb_page (__fix_to_virt cfg s idx) :: s.trace } := by
  obtain ⟨_, _, _, _, hlin, _⟩ := hfix hon
  have hA := Addr_linear cfg s cfg.fixmap_pte hlin
  have hW := WORD_eq
  have hP := PAGE_SIZE_eq
  have hi := pte_index_lt (__fix_to_virt cfg s idx)
  have hslot : slot cfg.fixmap_pte (pte_index (__fix_to_virt cfg s idx)) = wincell cfg s idx := by
    unfold wincell
    exact slot_eq _ _ (by have := hlin.1; omega)
  unfold __set_fixmap
  simp only []
  rw [if_neg (by omega)]
  rw [store_Addr cfg s _ _ _ _ hA hi, store_Addr cfg s _ _ _ _ hA hi, hslot]
  simp only [Except.bind]

theorem wincell_congr (cfg : Config) (s t : State) (idx : Nat) (h : same_config s t) :
    wincell cfg t idx = wincell cfg s idx := by
  simp [wincell, __fix_to_virt, PAGE_OFFSET, h.2.2.2.1]

theorem Win_congr (cfg : Config) (s t : State) (a : Nat) (h : same_config s t) :
    Win cfg t a ↔ Win cfg s a := by
  simp [Win, wincell_congr cfg s t _ h]

theorem Linear_congr (cfg : Config) (s t : State) (p : Nat) (h : same_config s t)
    (hl : Linear cfg s p) : Linear cfg t p := by
  obtain ⟨c1, c2, c3, c4, c5, c6, c7, c8, c9⟩ := h
  unfold Linear at *
  simp only [__va, FIXADDR_START, PAGE_OFFSET, c1, c4, c5] at *
  exact hl

theorem Fixmap_ok_congr (cfg : Config) (s t : State) (h : same_config s t)
    (hf : Fixmap_ok cfg s) : Fixmap_ok cfg t := by
  intro hon
  have hl : ∀ p, Linear cfg s p → Linear cfg t p := fun p => Linear_congr cfg s t p h
  obtain ⟨c1, c2, c3, c4, c5, c6, c7, c8, c9⟩ := h
  have := hf (by rw [← c1]; exact hon)
  simp only [PAGE_OFFSET, c4] at this ⊢
  exact ⟨this.1, this.2.1, this.2.2.1, this.2.2.2.1, hl _ this.2.2.2.2.1, this.2.2.2.2.2⟩

theorem entry_roundtrip (T prot : Nat) (hT : T % 4096 = 0) (hW : T < WORD) (hp : prot < 1024) :
    PFN_PHYS (_pmd_pfn (pfn_pte (PFN_DOWN T) prot)) = T := by
  rw [pfn_pte_eq _ _ hp, PFN_DOWN_eq, _pmd_pfn_eq, PFN_PHYS_eq]
  rw [WORD_eq] at hW ⊢
  omega

theorem entry_present (pfn prot : Nat) (hp : prot < 1024) (h1 : prot % 2 = 1) :
    pfn_pte pfn prot &&& _PAGE_PRESENT ≠ 0 := by
  have h := and_mask_eq_mod (pfn_pte pfn prot) 1
  have e : (1 <<< 1 - 1 : Nat) = _PAGE_PRESENT := rfl
  rw [e] at h
  rw [h, pfn_pte_eq _ _ hp]
  simp only [WORD_eq]
  omega

theorem entry_ne_zero (pfn prot : Nat) (hp : prot < 1024) (h0 : prot ≠ 0) :
    pfn_pte pfn prot ≠ 0 := by
  rw [pfn_pte_eq _ _ hp]
  omega

theorem window_arith (top idx i : Nat) (h1 : top < 18446744073709551616)
    (h2 : 2097152 ≤ top) (h3 : top % 4096 = 0) (h4 : 0 < idx) (h5 : idx ≤ 512) (h6 : i < 512) :
    (top - idx * 4096 + 8 * i) / 4096 % 512 = (top - idx * 4096) / 4096 % 512 ∧
    top - 2097152 ≤ top - idx * 4096 + 8 * i ∧ top - idx * 4096 + 8 * i < top ∧
    (top - idx * 4096 + 8 * i) % 4096 = 8 * i ∧
    (top - idx * 4096 + 0) % 18446744073709551616 = top - idx * 4096 := by
  omega

/-- With the window cell of slot `idx` holding the entry of page `T`, the slot
address gives access to `T`. -/
theorem Addr_win (cfg : Config) (s : State) (idx T : Nat)
    (hfix : Fixmap_ok cfg s) (hon : s.mmu_enabled = true)
    (h1 : FIX_HOLE < idx) (h2 : idx ≤ 512)
    (hT : T % PAGE_SIZE = 0) (hTW : T + PAGE_SIZE ≤ WORD)
    (hcell : s.mem (wincell cfg s idx) = pfn_pte (T >>> PAGE_SHIFT) FIXMAP_PAGE_NORMAL) :
    Addr cfg s (add64 (__fix_to_virt cfg s idx) (T &&& (PAGE_SIZE - 1))) T := by
  obtain ⟨htop, hsz, hal, _, _, _⟩ := hfix hon
  have hfv := fix_to_virt_eq cfg s idx htop hsz h2
  have hfs := FIXADDR_START_eq cfg s htop hsz
  have htop2 : cfg.FIXADDR_TOP (PAGE_OFFSET s) < 18446744073709551616 := htop
  have hsz2 : 2097152 ≤ cfg.FIXADDR_TOP (PAGE_OFFSET s) := hsz
  have hal2 : cfg.FIXADDR_TOP (PAGE_OFFSET s) % 4096 = 0 := hal
  have h12 : 0 < idx := h1
  have hT2 : T % 4096 = 0 := hT
  have hTW2 : T + 4096 ≤ 18446744073709551616 := hTW
  have hoff : T &&& (PAGE_SIZE - 1) = 0 := by
    have := and_mask_eq_mod T 12
    have e : (1 <<< 12 - 1 : Nat) = PAGE_SIZE - 1 := rfl
    rw [e] at this
    rw [this]
    exact hT2
  intro i hi
  obtain ⟨a1, a2, a3, a4, a5⟩ :=
    window_arith (cfg.FIXADDR_TOP (PAGE_OFFSET s)) idx i htop2 hsz2 hal2 h12 h2 hi
  have hptr : add64 (__fix_to_virt cfg s idx) (T &&& (PAGE_SIZE - 1))
      = cfg.FIXADDR_TOP (PAGE_OFFSET s) - idx * 4096 := by
    rw [hoff, hfv]
    exact a5
  have hs : slot (cfg.FIXADDR_TOP (PAGE_OFFSET s) - idx * 4096) i
      = cfg.FIXADDR_TOP (PAGE_OFFSET s) - idx * 4096 + 8 * i := by
    apply slot_eq
    rw [WORD_eq]
    omega
  have hTs : slot T i = T + 8 * i := by
    apply slot_eq
    rw [WORD_eq]
    omega
  have hpi : pte_index (cfg.FIXADDR_TOP (PAGE_OFFSET s) - idx * 4096 + 8 * i)
      = pte_index (__fix_to_virt cfg s idx) := by
    rw [hfv, pte_index_eq, pte_index_eq]
    exact a1
  rw [hptr, hs, hTs]
  unfold translate
  simp only [hon, if_true]
  rw [hfs, if_pos ⟨a2, a3⟩, hpi]
  have hc : s.mem (cfg.fixmap_pte + 8 * pte_index (__fix_to_virt cfg s idx))
      = pfn_pte (T >>> PAGE_SHIFT) FIXMAP_PAGE_NORMAL := hcell
  simp only [hc]
  have hpn : (FIXMAP_PAGE_NORMAL : Nat) < 1024 := by decide
  rw [if_neg (entry_present _ _ hpn (by decide))]
  have hrt := entry_roundtrip T FIXMAP_PAGE_NORMAL hT2 (by rw [WORD_eq]; omega) hpn
  have hpd : T >>> PAGE_SHIFT = PFN_DOWN T := rfl
  rw [hpd, hrt]
  refine congrArg Except.ok ?_
  have hlow := and_mask_eq_mod (cfg.FIXADDR_TOP (PAGE_OFFSET s) - idx * 4096 + 8 * i) 12
  have e : (1 <<< 12 - 1 : Nat) = PAGE_SIZE - 1 := rfl
  rw [e] at hlow
  rw [hlow]
  have e2 : (2 : Nat) ^ 12 = 4096 := rfl
  rw [e2, a4]
  unfold add64
  rw [WORD_eq]
  omega

theorem upd_upd (m : Nat → Nat) (a v w : Nat) : upd (upd m a v) a w = upd m a w := by
  funext x
  simp only [upd]
  split <;> rfl

theorem window_on (cfg : Config) (s : State) (idx T : Nat)
    (hfix : Fixmap_ok cfg s) (hon : s.mmu_enabled = true)
    (h1 : FIX_HOLE < idx) (h2 : idx < cfg.end_of_fixed_addresses) :
    (clear_fixmap cfg s idx).bind (fun s1 => set_fixmap_offset cfg s1 idx T) =
      .ok (win_set cfg s idx T, add64 (__fix_to_virt cfg s idx) (T &&& (PAGE_SIZE - 1))) := by
  unfold clear_fixmap
  rw [set_fixmap_on cfg s idx 0 FIXMAP_PAGE_CLEAR hfix hon h1 h2]
  have hz : ¬ (FIXMAP_PAGE_CLEAR ≠ 0) := by decide
  rw [if_neg hz]
  simp only [Except.bind]
  unfold set_fixmap_offset
  have hc : same_config s { s with
      mem := upd s.mem (wincell cfg s idx) 0
      trace := Event.local_flush_tlb_page (__fix_to_virt cfg s idx) :: s.trace } := by
    simp [same_config]
  rw [set_fixmap_on cfg _ idx T FIXMAP_PAGE_NORMAL (Fixmap_ok_congr cfg s _ hc hfix) hon h1 h2]
  have hnz : (FIXMAP_PAGE_NORMAL : Nat) ≠ 0 := by decide
  rw [if_pos hnz]
  simp only [Except.bind, wincell_congr cfg s _ idx hc, upd_upd]
  rfl

/-! ## The embedding refines the physical-address semantics -/

theorem Rel_refl (cfg : Config) (s : State) : Rel cfg s s :=
  ⟨same_config_refl s, rfl, rfl, fun _ _ => rfl, fun _ => rfl⟩

theorem same_config_symm {s t : State} (h : same_config s t) : same_config t s := by
  obtain ⟨c1, c2, c3, c4, c5, c6, c7, c8, c9⟩ := h
  exact ⟨c1.symm, c2.symm, c3.symm, c4.symm, c5.symm, c6.symm, c7.symm, c8.symm, c9.symm⟩

theorem Rel_trans {cfg : Config} {a b c : State} (h1 : Rel cfg a b) (h2 : Rel cfg b c) :
    Rel cfg a c := by
  obtain ⟨a1, a2, a3, a4, a5⟩ := h1
  obtain ⟨b1, b2, b3, b4, b5⟩ := h2
  refine ⟨same_config_trans b1 a1, a2.trans b2, a3.trans b3, ?_, ?_⟩
  · intro x hx
    rw [a4 x (fun hw => hx ((Win_congr cfg c b x b1).mp hw)), b4 x hx]
  · intro hoff
    have hb : b = c := b5 hoff
    have : b.mmu_enabled = false := by rw [hb]; exact hoff
    rw [a5 this, hb]

theorem unsafe_table_congr (cfg : Config) (s t : State) (T : Nat) (h : same_config s t) :
    unsafe_table cfg t T ↔ unsafe_table cfg s T := by
  simp [unsafe_table, h.1]

theorem safe_off_fixmap (cfg : Config) (s : State) (T : Nat) (hfix : Fixmap_ok cfg s)
    (hs : ¬ unsafe_table cfg s T) (hon : s.mmu_enabled = true) :
    T % 4096 = 0 ∧ T + 4096 ≤ 18446744073709551616 ∧ cfg.fixmap_pte % 4096 = 0 ∧
      T ≠ cfg.fixmap_pte ∧ cfg.fixmap_pte + 4096 ≤ 18446744073709551616 := by
  obtain ⟨_, _, _, hfp, hlin, _⟩ := hfix hon
  have h1 : cfg.fixmap_pte + 4096 ≤ 18446744073709551616 := hlin.1
  have hfp2 : cfg.fixmap_pte % 4096 = 0 := hfp
  unfold unsafe_table at hs
  simp only [hon, true_and, not_or, not_not, PAGE_SIZE_eq, WORD_eq] at hs
  exact ⟨hs.1, by omega, hfp2, hs.2.2, h1⟩

theorem safe_cells (cfg : Config) (s : State) (T : Nat) (hfix : Fixmap_ok cfg s)
    (hs : ¬ unsafe_table cfg s T) (hon : s.mmu_enabled = true) (i j : Nat) (hi : i < 512)
    (hj : j < 512) : slot T i ≠ cfg.fixmap_pte + 8 * j := by
  obtain ⟨h1, h2, h3, h4, h5⟩ := safe_off_fixmap cfg s T hfix hs hon
  rw [slot_eq T i (by rw [WORD_eq]; omega)]
  omega

theorem safe_not_win (cfg : Config) (s : State) (T : Nat) (hfix : Fixmap_ok cfg s)
    (hs : ¬ unsafe_table cfg s T) (hon : s.mmu_enabled = true) (i : Nat) (hi : i < 512) :
    ¬ Win cfg s (slot T i) := by
  intro hw
  rcases hw with h | h | h <;>
    exact safe_cells cfg s T hfix hs hon i _ hi (pte_index_lt _) h

theorem Rel_mem (cfg : Config) (sc sp : State) (T i : Nat) (hR : Rel cfg sc sp)
    (hfix : Fixmap_ok cfg sp) (hs : ¬ unsafe_table cfg sp T) (hi : i < 512) :
    sc.mem (slot T i) = sp.mem (slot T i) := by
  cases hm : sp.mmu_enabled
  · rw [hR.2.2.2.2 hm]
  · exact hR.2.2.2.1 _ (safe_not_win cfg sp T hfix hs hm i hi)

theorem Rel_upd (cfg : Config) (sc sp : State) (a v : Nat) (hR : Rel cfg sc sp) :
    Rel cfg { sc with mem := upd sc.mem a v } { sp with mem := upd sp.mem a v } := by
  obtain ⟨c, r2, r3, r4, r5⟩ := hR
  refine ⟨c, r2, r3, ?_, ?_⟩
  · intro x hx
    have hw : ¬ Win cfg sp x := hx
    simp only [upd]
    split
    · rfl
    · exact r4 x hw
  · intro hoff
    have : sc = sp := r5 hoff
    rw [this]

theorem refine_pte (cfg : Config) (sc sp : State) (ptr T va pa sz prot : Nat)
    (hR : Rel cfg sc sp) (hfix : Fixmap_ok cfg sp) (hA : Addr cfg sc ptr T)
    (hs : ¬ unsafe_table cfg sp T) :
    Sim cfg (create_pte_mapping cfg sc ptr va pa sz prot) (phys_pte sp T va pa sz prot) := by
  unfold create_pte_mapping phys_pte
  simp only []
  by_cases hsz : sz ≠ PAGE_SIZE
  · rw [if_pos hsz, if_pos hsz]
    exact ⟨sc, rfl⟩
  · rw [if_neg hsz, if_neg hsz, load_Addr cfg sc ptr T _ hA (pte_index_lt va)]
    simp only [Except.bind]
    rw [Rel_mem cfg sc sp T _ hR hfix hs (pte_index_lt va)]
    by_cases he : sp.mem (slot T (pte_index va)) = 0
    · rw [if_pos he, if_pos he, store_Addr cfg sc ptr T _ _ hA (pte_index_lt va)]
      exact ⟨_, rfl, Rel_upd cfg sc sp _ _ hR⟩
    · rw [if_neg he, if_neg he]
      exact ⟨sc, rfl, hR⟩

theorem zero_words_congr :
    ∀ (n : Nat) (m1 m2 : Nat → Nat) (p a : Nat), m1 a = m2 a →
      zero_words m1 p n a = zero_words m2 p n a := by
  intro n
  induction n with
  | zero => intro m1 m2 p a h; rw [zero_words_zero, zero_words_zero]; exact h
  | succ n ih =>
    intro m1 m2 p a h
    rw [zero_words_succ, zero_words_succ]
    apply ih
    simp only [upd]
    split
    · rfl
    · exact h

theorem zero_words_page (m : Nat → Nat) (T : Nat) (hT : T + 4096 ≤ 18446744073709551616) :
    zero_words m T (PAGE_SIZE / 8)
      = fun a => if T ≤ a ∧ a < T + 4096 ∧ (a - T) % 8 = 0 then 0 else m a := by
  have h := zero_words_eq 512 m T (by rw [WORD_eq]; omega)
  exact h

theorem memset_Addr (cfg : Config) (T : Nat)
    (hT : ∀ i j, i < 512 → j < 512 → slot T i ≠ cfg.fixmap_pte + 8 * j) :
    ∀ (n k : Nat) (s : State) (ptr : Nat), k + n = 512 → Addr cfg s ptr T →
      memset_zero cfg s (slot ptr k) n = .ok { s with mem := zero_words s.mem (slot T k) n } := by
  intro n
  induction n with
  | zero => intro k s ptr _ _; rw [zero_words_zero]; rfl
  | succ n ih =>
    intro k s ptr hk hA
    rw [memset_zero, store_Addr cfg s ptr T k 0 hA (by omega)]
    simp only [Except.bind]
    have hnext : ∀ q, add64 (slot q k) 8 = slot q (k + 1) := by
      intro q
      unfold slot add64
      rw [WORD_eq]
      omega
    have hA2 : Addr cfg { s with mem := upd s.mem (slot T k) 0 } ptr T := by
      apply Addr_congr cfg s _ ptr T (by simp [same_config]) _ hA
      intro j hj
      have : cfg.fixmap_pte + 8 * j ≠ slot T k := fun h => hT k j (by omega) hj h.symm
      simp [upd, this]
    rw [hnext, ih (k + 1) _ ptr (by omega) hA2, zero_words_succ, hnext]

theorem slot_zero (p : Nat) (h : p < WORD) : slot p 0 = p := by
  unfold slot add64
  simp [Nat.mod_eq_of_lt h]

theorem add64_lt (a b : Nat) : add64 a b < WORD := by
  unfold add64
  exact Nat.mod_lt _ (by rw [WORD_eq]; omega)

theorem window_spec (cfg : Config) (idx : Nat)
    (getv : State → Nat → Except Stopped (State × Nat))
    (hdef : ∀ s pa, getv s pa =
      if s.mmu_enabled then
        (clear_fixmap cfg s idx).bind fun s1 => set_fixmap_offset cfg s1 idx pa
      else .ok (s, pa))
    (hidx : ∀ s, Fixmap_ok cfg s → s.mmu_enabled = true →
      FIX_HOLE < idx ∧ idx < cfg.end_of_fixed_addresses ∧ idx ≤ 512 ∧
        ∀ a, a = wincell cfg s idx → Win cfg s a) :
    GetvSpec cfg getv := by
  intro s T hfix hs
  cases hm : s.mmu_enabled
  · refine ⟨s, T, ?_, Addr_off cfg s T hm, Rel_refl cfg s, fun _ => rfl, fun h => by simp at h⟩
    rw [hdef]
    simp [hm]
  · obtain ⟨h1, h2, h3, hw⟩ := hidx s hfix hm
    obtain ⟨t1, t2, _, _, _⟩ := safe_off_fixmap cfg s T hfix hs hm
    have hc : same_config s (win_set cfg s idx T) := by simp [same_config, win_set]
    refine ⟨win_set cfg s idx T, add64 (__fix_to_virt cfg s idx) (T &&& (PAGE_SIZE - 1)),
      ?_, ?_, ?_, fun h => by simp at h, fun _ => add64_lt _ _⟩
    · rw [hdef]
      simp only [hm, if_true]
      exact window_on cfg s idx T hfix hm h1 h2
    · have hfv : __fix_to_virt cfg (win_set cfg s idx T) idx = __fix_to_virt cfg s idx := rfl
      rw [← hfv]
      apply Addr_win cfg _ idx T (Fixmap_ok_congr cfg s _ hc hfix) hm h1 h3 t1 t2
      rw [wincell_congr cfg s _ idx hc]
      simp [win_set, upd]
    · refine ⟨hc, rfl, ?_, ?_, ?_⟩
      · simp [win_set, allocs, List.filterMap_cons]
      · intro a ha
        have : a ≠ wincell cfg s idx := fun h => ha (hw a h)
        simp [win_set, upd, this]
      · intro hoff
        rw [hm] at hoff
        exact absurd hoff (by simp)

theorem get_pte_virt_spec (cfg : Config) : GetvSpec cfg (get_pte_virt cfg) :=
  window_spec cfg cfg.FIX_PTE _ (fun _ _ => rfl) fun s hfix hon => by
    obtain ⟨_, _, _, _, _, h, _⟩ := hfix hon
    exact ⟨h.1, h.2.1, h.2.2, fun a ha => Or.inl ha⟩

theorem get_pmd_virt_spec (cfg : Config) : GetvSpec cfg (get_pmd_virt cfg) :=
  window_spec cfg cfg.FIX_PMD _ (fun _ _ => rfl) fun s hfix hon => by
    obtain ⟨_, _, _, _, _, _, h, _⟩ := hfix hon
    exact ⟨h.1, h.2.1, h.2.2, fun a ha => Or.inr (Or.inl ha)⟩

theorem get_pud_virt_spec (cfg : Config) : GetvSpec cfg (get_pud_virt cfg) :=
  window_spec cfg cfg.FIX_PUD _ (fun _ _ => rfl) fun s hfix hon => by
    obtain ⟨_, _, _, _, _, _, _, h, _⟩ := hfix hon
    exact ⟨h.1, h.2.1, h.2.2, fun a ha => Or.inr (Or.inr ha)⟩

theorem handed_out_rel (cfg : Config) (sc sp : State) (p : Nat) (hR : Rel cfg sc sp) :
    Rel cfg (handed_out sc p).1 (handed_out sp p).1 := by
  obtain ⟨c, r2, r3, r4, r5⟩ := hR
  refine ⟨c, r2, ?_, r4, ?_⟩
  · simp [handed_out, allocs, List.filterMap_cons] at r3 ⊢
    exact r3
  · intro hoff
    have : sc = sp := r5 hoff
    rw [this]

theorem memblock_phys_alloc_rel (cfg : Config) (sc sp : State) (hR : Rel cfg sc sp) :
    Rel cfg (memblock_phys_alloc sc).1 (memblock_phys_alloc sp).1 ∧
    (memblock_phys_alloc sc).2 = (memblock_phys_alloc sp).2 ∧
    (memblock_phys_alloc sc).1.mem = sc.mem ∧ (memblock_phys_alloc sp).1.mem = sp.mem ∧
    same_config sp (memblock_phys_alloc sp).1 ∧ same_config sc (memblock_phys_alloc sc).1 := by
  have hf : sc.free_pages = sp.free_pages := hR.2.1
  unfold memblock_phys_alloc
  rw [hf]
  cases hfp : sp.free_pages with
  | nil =>
    exact ⟨handed_out_rel cfg sc sp 0 hR, rfl, rfl, rfl, by simp [same_config, handed_out],
      by simp [same_config, handed_out]⟩
  | cons p rest =>
    simp only []
    have hR2 : Rel cfg { sc with free_pages := rest } { sp with free_pages := rest } := by
      obtain ⟨c, r2, r3, r4, r5⟩ := hR
      refine ⟨c, rfl, r3, r4, ?_⟩
      intro hoff
      have : sc = sp := r5 hoff
      rw [this]
    exact ⟨handed_out_rel cfg _ _ p hR2, rfl, rfl, rfl, by simp [same_config, handed_out],
      by simp [same_config, handed_out]⟩

theorem alloc_pte_spec (cfg : Config) (va : Nat) : AllocSpec cfg (fun s => alloc_pte s va) := by
  intro sc sp hR
  have hm : sc.mmu_enabled = sp.mmu_enabled := hR.1.1
  obtain ⟨r1, r2, r3, r4, r5, r6⟩ := memblock_phys_alloc_rel cfg sc sp hR
  simp only [alloc_pte, hm]
  cases hmm : sp.mmu_enabled
  · refine ⟨fun sp1 A h => by simp at h, fun e h => ?_⟩
    simp only [Bool.false_eq_true, not_false_eq_true, if_true, Except.error.injEq] at h ⊢
    subst h
    exact ⟨240, sc, rfl, rfl⟩
  · refine ⟨fun sp1 A h => ?_, fun e h => by simp at h⟩
    simp only [not_true_eq_false, if_false, Except.ok.injEq] at h ⊢
    have h1 : (memblock_phys_alloc sp).1 = sp1 := by rw [h]
    have h2 : (memblock_phys_alloc sp).2 = A := by rw [h]
    subst h1 h2
    exact ⟨_, Prod.ext rfl r2, r1, r3, r4, r5, r6⟩

theorem alloc_static_spec (cfg : Config) (va line : Nat) (shift : State → Nat) (p : Nat)
    (alloc : State → Except Stopped (State × Nat))
    (hdef : ∀ s, alloc s =
      if s.mmu_enabled then .ok (memblock_phys_alloc s)
      else if (sub64 va (PAGE_OFFSET s)) >>> shift s ≠ 0 then .error ⟨.BUG_ON line, s⟩
      else .ok (handed_out s (symbol s p)))
    (shift_congr : ∀ s t, same_config s t → shift t = shift s) : AllocSpec cfg alloc := by
  intro sc sp hR
  have hm : sc.mmu_enabled = sp.mmu_enabled := hR.1.1
  have hpo : PAGE_OFFSET sc = PAGE_OFFSET sp := hR.1.2.2.2.1
  have hsh : shift sc = shift sp := shift_congr sp sc hR.1
  obtain ⟨r1, r2, r3, r4, r5, r6⟩ := memblock_phys_alloc_rel cfg sc sp hR
  rw [hdef, hdef, hm, hpo, hsh]
  cases hmm : sp.mmu_enabled
  · have hsc : sc = sp := hR.2.2.2.2 hmm
    subst hsc
    simp only [Bool.false_eq_true, if_false]
    by_cases hg : sub64 va (PAGE_OFFSET sc) >>> shift sc ≠ 0
    · rw [if_pos hg]
      refine ⟨fun sp1 A h => by simp at h, fun e h => ?_⟩
      simp only [Except.error.injEq] at h ⊢
      subst h
      exact ⟨line, sc, rfl, rfl⟩
    · rw [if_neg hg]
      refine ⟨fun sp1 A h => ?_, fun e h => by simp at h⟩
      simp only [Except.ok.injEq] at h ⊢
      have h1 : (handed_out sc (symbol sc p)).1 = sp1 := by rw [h]
      have h2 : (handed_out sc (symbol sc p)).2 = A := by rw [h]
      subst h1 h2
      exact ⟨_, rfl, Rel_refl cfg _, rfl, rfl, by simp [same_config, handed_out],
        by simp [same_config, handed_out]⟩
  · simp only [if_true]
    refine ⟨fun sp1 A h => ?_, fun e h => by simp at h⟩
    simp only [Except.ok.injEq] at h ⊢
    have h1 : (memblock_phys_alloc sp).1 = sp1 := by rw [h]
    have h2 : (memblock_phys_alloc sp).2 = A := by rw [h]
    subst h1 h2
    exact ⟨_, Prod.ext rfl r2, r1, r3, r4, r5, r6⟩

theorem alloc_pmd_spec (cfg : Config) (va : Nat) : AllocSpec cfg (fun s => alloc_pmd cfg s va) :=
  alloc_static_spec cfg va 282 (fun _ => PUD_SHIFT) cfg.early_pmd _ (fun _ => rfl)
    (fun _ _ _ => rfl)

theorem alloc_pud_spec (cfg : Config) (va : Nat) : AllocSpec cfg (fun s => alloc_pud cfg s va) :=
  alloc_static_spec cfg va 330 PGDIR_SHIFT cfg.early_pud _ (fun _ => rfl)
    (fun s t h => by simp [PGDIR_SHIFT, h.2.1])

theorem Fixmap_ok_rel {cfg : Config} {sc sp : State} (hR : Rel cfg sc sp)
    (hfix : Fixmap_ok cfg sp) : Fixmap_ok cfg sc :=
  Fixmap_ok_congr cfg sp sc hR.1 hfix

theorem unsafe_rel {cfg : Config} {sc sp : State} (hR : Rel cfg sc sp) (T : Nat)
    (hs : ¬ unsafe_table cfg sp T) : ¬ unsafe_table cfg sc T :=
  fun h => hs ((unsafe_table_congr cfg sp sc T hR.1).mp h)

theorem fresh_table (cfg : Config) (getv : State → Nat → Except Stopped (State × Nat))
    (hgetv : GetvSpec cfg getv) (sc sp : State) (A : Nat) (hR : Rel cfg sc sp)
    (hfix : Fixmap_ok cfg sp) (hs : ¬ unsafe_table cfg sp A) :
    ∃ s3 s4 ptr, getv sc A = .ok (s3, ptr) ∧
      memset_zero cfg s3 ptr (PAGE_SIZE / 8) = .ok s4 ∧
      Rel cfg s4 { sp with mem := zero_words sp.mem A (PAGE_SIZE / 8) } ∧
      Addr cfg s4 ptr A := by
  obtain ⟨s3, ptr, hg, hA3, hR3, hoffp, honp⟩ :=
    hgetv sc A (Fixmap_ok_rel hR hfix) (unsafe_rel hR A hs)
  have hmc : sc.mmu_enabled = sp.mmu_enabled := hR.1.1
  have hpw : PAGE_SIZE / 8 = 512 := rfl
  rw [hpw]
  rcases Bool.eq_false_or_eq_true sp.mmu_enabled with hm | hm
  swap
  · -- translation off: no window, the two states are equal
    have h3 : s3 = sc := hR3.2.2.2.2 (by rw [hmc]; exact hm)
    have hsc : sc = sp := hR.2.2.2.2 hm
    have hp : ptr = A := hoffp (by rw [hmc]; exact hm)
    subst h3 hsc hp
    refine ⟨s3, _, ptr, hg, memset_zero_off cfg _ s3 ptr hm, Rel_refl cfg _, ?_⟩
    exact Addr_off cfg _ ptr hm
  · have hm3 : s3.mmu_enabled = true := by rw [hR3.1.1, hmc]; exact hm
    obtain ⟨t1, t2, t3, t4, t5⟩ := safe_off_fixmap cfg sp A hfix hs hm
    have hcells : ∀ i j, i < 512 → j < 512 → slot A i ≠ cfg.fixmap_pte + 8 * j :=
      fun i j hi hj => safe_cells cfg sp A hfix hs hm i j hi hj
    have hms := memset_Addr cfg A hcells 512 0 s3 ptr (by omega) hA3
    rw [slot_zero ptr (honp (by rw [hmc]; exact hm)),
      slot_zero A (by rw [WORD_eq]; omega)] at hms
    refine ⟨s3, _, ptr, hg, hms, ?_, ?_⟩
    · have hR' : Rel cfg s3 sp := Rel_trans hR3 hR
      obtain ⟨c, r2, r3, r4, r5⟩ := hR'
      refine ⟨c, r2, r3, ?_, ?_⟩
      · intro a ha
        exact zero_words_congr _ _ _ _ _ (r4 a ha)
      · intro hoff
        have : sp.mmu_enabled = false := hoff
        rw [hm] at this
        exact absurd this (by simp)
    · apply Addr_congr cfg s3 _ ptr A (by simp [same_config]) _ hA3
      intro j hj
      show zero_words s3.mem A 512 (cfg.fixmap_pte + 8 * j)
        = s3.mem (cfg.fixmap_pte + 8 * j)
      rw [← hpw, zero_words_page s3.mem A t2]
      simp only []
      rw [if_neg (by omega)]

theorem refine_level (cfg : Config) (SIZE idx : Nat)
    (alloc : State → Except Stopped (State × Nat))
    (getv : State → Nat → Except Stopped (State × Nat))
    (child pchild : State → Nat → Except Stopped State) (pa sz prot : Nat)
    (hidx : idx < 512) (halloc : AllocSpec cfg alloc) (hgetv : GetvSpec cfg getv)
    (hchild : ∀ sc sp ptr T, Rel cfg sc sp → Fixmap_ok cfg sp → Addr cfg sc ptr T →
      ¬ unsafe_table cfg sp T → Sim cfg (child sc ptr) (pchild sp T))
    (sc sp : State) (ptr T : Nat) (hR : Rel cfg sc sp) (hfix : Fixmap_ok cfg sp)
    (hA : Addr cfg sc ptr T) (hs : ¬ unsafe_table cfg sp T) :
    Sim cfg (create_level cfg SIZE idx alloc getv child sc ptr pa sz prot)
      (phys_level cfg SIZE idx alloc pchild sp T pa sz prot) := by
  unfold create_level phys_level
  simp only []
  rw [load_Addr cfg sc ptr T _ hA hidx, Rel_mem cfg sc sp T _ hR hfix hs hidx]
  simp only [Except.bind]
  by_cases hsz : sz = SIZE
  · rw [if_pos hsz, if_pos hsz]
    by_cases he : sp.mem (slot T idx) = 0
    · rw [if_pos he, if_pos he, store_Addr cfg sc ptr T _ _ hA hidx]
      exact ⟨_, rfl, Rel_upd cfg sc sp _ _ hR⟩
    · rw [if_neg he, if_neg he]
      exact ⟨sc, rfl, hR⟩
  · rw [if_neg hsz, if_neg hsz]
    by_cases he : sp.mem (slot T idx) = 0
    · rw [if_pos he, if_pos he]
      cases hal : alloc sp with
      | error e0 =>
        obtain ⟨n, st, hc, hcon⟩ := (halloc sc sp hR).2 e0 hal
        rw [hcon]
        simp only [Sim, hc]
        exact ⟨st, rfl⟩
      | ok a =>
        obtain ⟨sp1, A⟩ := a
        obtain ⟨sc1, hca, hR1, hm1, hm2, hc1, hc2⟩ := (halloc sc sp hR).1 sp1 A hal
        rw [hca]
        simp only []
        by_cases hu : unsafe_table cfg sp1 A
        · rw [if_pos hu]
          simp [Sim]
        · rw [if_neg hu]
          have hA1 : Addr cfg sc1 ptr T :=
            Addr_congr cfg sc sc1 ptr T hc2 (fun i _ => by rw [hm1]) hA
          rw [store_Addr cfg sc1 ptr T _ _ hA1 hidx]
          simp only []
          have hR2 := Rel_upd cfg sc1 sp1 (slot T idx) (pfn_pte (PFN_DOWN A) PAGE_TABLE) hR1
          have hfix2 : Fixmap_ok cfg
              { sp1 with mem := upd sp1.mem (slot T idx) (pfn_pte (PFN_DOWN A) PAGE_TABLE) } :=
            Fixmap_ok_congr cfg sp _ (same_config_trans hc1 (by simp [same_config])) hfix
          have hu2 : ¬ unsafe_table cfg
              { sp1 with mem := upd sp1.mem (slot T idx) (pfn_pte (PFN_DOWN A) PAGE_TABLE) } A :=
            hu
          obtain ⟨s3, s4, ptr', hg, hms, hR4, hA4⟩ :=
            fresh_table cfg getv hgetv _ _ A hR2 hfix2 hu2
          rw [hg]
          simp only []
          rw [hms]
          simp only []
          exact hchild s4 _ ptr' A hR4 hfix2 hA4 hu
    · rw [if_neg he, if_neg he]
      by_cases hu : unsafe_table cfg sp (PFN_PHYS (_pmd_pfn (sp.mem (slot T idx))))
      · rw [if_pos hu]
        simp [Sim]
      · rw [if_neg hu]
        obtain ⟨s1, ptr', hg, hA1, hR1, _, _⟩ :=
          hgetv sc _ (Fixmap_ok_rel hR hfix) (unsafe_rel hR _ hu)
        rw [hg]
        simp only []
        exact hchild s1 sp ptr' _ (Rel_trans hR1 hR) hfix hA1 hu

theorem refine_pmd (cfg : Config) (va pa sz prot : Nat) (sc sp : State) (ptr T : Nat)
    (hR : Rel cfg sc sp) (hfix : Fixmap_ok cfg sp) (hA : Addr cfg sc ptr T)
    (hs : ¬ unsafe_table cfg sp T) :
    Sim cfg (create_pmd_mapping cfg sc ptr va pa sz prot) (phys_pmd cfg sp T va pa sz prot) := by
  rw [create_pmd_mapping_level]
  exact refine_level cfg PMD_SIZE (pmd_index va) _ _ _ _ pa sz prot (pmd_index_lt va)
    (alloc_pte_spec cfg va) (get_pte_virt_spec cfg)
    (fun sc sp ptr T h1 h2 h3 h4 => refine_pte cfg sc sp ptr T va pa sz prot h1 h2 h3 h4)
    sc sp ptr T hR hfix hA hs

theorem refine_pud (cfg : Config) (va pa sz prot : Nat) (sc sp : State) (ptr T : Nat)
    (hR : Rel cfg sc sp) (hfix : Fixmap_ok cfg sp) (hA : Addr cfg sc ptr T)
    (hs : ¬ unsafe_table cfg sp T) :
    Sim cfg (create_pud_mapping cfg sc ptr va pa sz prot) (phys_pud cfg sp T va pa sz prot) := by
  rw [create_pud_mapping_level]
  exact refine_level cfg PUD_SIZE (pud_index va) _ _ _ _ pa sz prot (pud_index_lt va)
    (alloc_pmd_spec cfg va) (get_pmd_virt_spec cfg)
    (fun sc sp ptr T h1 h2 h3 h4 => refine_pmd cfg va pa sz prot sc sp ptr T h1 h2 h3 h4)
    sc sp ptr T hR hfix hA hs

/-- The embedding of `create_pgd_mapping` refines its physical-address
semantics: from related states, with a pointer that gives access to the root
`T`, a returned state is matched by a related returned state and a `BUG_ON` by
the same `BUG_ON`. -/
theorem refine_pgd (cfg : Config) (va pa sz prot : Nat) (sc sp : State) (ptr T : Nat)
    (hR : Rel cfg sc sp) (hfix : Fixmap_ok cfg sp) (hA : Addr cfg sc ptr T)
    (hs : ¬ unsafe_table cfg sp T) :
    Sim cfg (create_pgd_mapping cfg sc ptr va pa sz prot) (phys_pgd cfg sp T va pa sz prot) := by
  rw [create_pgd_mapping_level]
  unfold phys_pgd
  have hl4 : sc.pgtable_l4_enabled = sp.pgtable_l4_enabled := hR.1.2.1
  have hsz : PGDIR_SIZE sc = PGDIR_SIZE sp := by rw [PGDIR_SIZE_eq, PGDIR_SIZE_eq, hl4]
  have hix : pgd_index sc va = pgd_index sp va := by rw [pgd_index_eq, pgd_index_eq, hl4]
  rw [hl4, hsz, hix]
  by_cases h : ¬ sp.pgtable_l4_enabled = true
  · rw [if_pos h, if_pos h]
    exact refine_pud cfg va pa sz prot sc sp ptr T hR hfix hA hs
  · rw [if_neg h, if_neg h]
    exact refine_level cfg (PGDIR_SIZE sp) (pgd_index sp va) _ _ _ _ pa sz prot
      (pgd_index_lt sp va) (alloc_pud_spec cfg va) (get_pud_virt_spec cfg)
      (fun sc sp ptr T h1 h2 h3 h4 => refine_pud cfg va pa sz prot sc sp ptr T h1 h2 h3 h4)
      sc sp ptr T hR hfix hA hs

/-! ## With translation off the embedding is the physical-address semantics -/

theorem pte_off (cfg : Config) (s : State) (T va pa sz prot : Nat)
    (h : s.mmu_enabled = false) :
    create_pte_mapping cfg s T va pa sz prot = phys_pte s T va pa sz prot := by
  unfold create_pte_mapping phys_pte
  simp only [load_off cfg s _ h, store_off cfg s _ _ h, Except.bind]

theorem level_off (cfg : Config) (SIZE idx : Nat)
    (alloc : State → Except Stopped (State × Nat))
    (getv : State → Nat → Except Stopped (State × Nat))
    (child pchild : State → Nat → Except Stopped State) (pa sz prot : Nat)
    (halloc : ∀ s a, alloc s = .ok a → a.1.mmu_enabled = s.mmu_enabled)
    (hgetv : ∀ s T, s.mmu_enabled = false → getv s T = .ok (s, T))
    (hchild : ∀ s T, s.mmu_enabled = false → child s T = pchild s T)
    (s : State) (T : Nat) (h : s.mmu_enabled = false) :
    create_level cfg SIZE idx alloc getv child s T pa sz prot
      = phys_level cfg SIZE idx alloc pchild s T pa sz prot := by
  unfold create_level phys_level
  simp only [load_off cfg s _ h, store_off cfg s _ _ h, Except.bind]
  by_cases hsz : sz = SIZE
  · rw [if_pos hsz, if_pos hsz]
  · rw [if_neg hsz, if_neg hsz]
    by_cases he : s.mem (slot T idx) = 0
    · rw [if_pos he, if_pos he]
      cases hal : alloc s with
      | error e => rfl
      | ok a =>
        have hm : a.1.mmu_enabled = false := by rw [halloc s a hal]; exact h
        have hu : ¬ unsafe_table cfg a.1 a.2 := by simp [unsafe_table, hm]
        obtain ⟨s1, A⟩ := a
        simp only [] at hm hu ⊢
        rw [if_neg hu, store_off cfg s1 _ _ hm]
        simp only []
        generalize hs2 : ({ s1 with
          mem := upd s1.mem (slot T idx) (pfn_pte (PFN_DOWN A) PAGE_TABLE) } : State) = s2
        have hm2 : s2.mmu_enabled = false := by rw [← hs2]; exact hm
        rw [hgetv s2 A hm2]
        simp only []
        rw [memset_zero_off cfg _ s2 A hm2]
        simp only []
        subst hs2
        exact hchild _ _ hm
    · rw [if_neg he, if_neg he]
      have hu : ¬ unsafe_table cfg s (PFN_PHYS (_pmd_pfn (s.mem (slot T idx)))) := by
        simp [unsafe_table, h]
      rw [if_neg hu, hgetv _ _ h]
      exact hchild _ _ h

theorem memblock_phys_alloc_mmu (s : State) :
    (memblock_phys_alloc s).1.mmu_enabled = s.mmu_enabled := by
  unfold memblock_phys_alloc
  split <;> rfl

theorem alloc_pte_mmu (va : Nat) (s : State) (a : State × Nat)
    (h : alloc_pte s va = .ok a) : a.1.mmu_enabled = s.mmu_enabled := by
  unfold alloc_pte at h
  split at h
  · simp at h
  · simp only [Except.ok.injEq] at h
    rw [← h]
    exact memblock_phys_alloc_mmu s

theorem alloc_pmd_mmu (cfg : Config) (va : Nat) (s : State) (a : State × Nat)
    (h : alloc_pmd cfg s va = .ok a) : a.1.mmu_enabled = s.mmu_enabled := by
  unfold alloc_pmd at h
  split at h
  · simp only [Except.ok.injEq] at h
    rw [← h]
    exact memblock_phys_alloc_mmu s
  · split at h
    · simp at h
    · simp only [Except.ok.injEq] at h
      rw [← h]
      rfl

theorem alloc_pud_mmu (cfg : Config) (va : Nat) (s : State) (a : State × Nat)
    (h : alloc_pud cfg s va = .ok a) : a.1.mmu_enabled = s.mmu_enabled := by
  unfold alloc_pud at h
  split at h
  · simp only [Except.ok.injEq] at h
    rw [← h]
    exact memblock_phys_alloc_mmu s
  · split at h
    · simp at h
    · simp only [Except.ok.injEq] at h
      rw [← h]
      rfl

theorem pmd_off (cfg : Config) (s : State) (T va pa sz prot : Nat)
    (h : s.mmu_enabled = false) :
    create_pmd_mapping cfg s T va pa sz prot = phys_pmd cfg s T va pa sz prot := by
  rw [create_pmd_mapping_level]
  exact level_off cfg _ _ _ _ _ _ pa sz prot (alloc_pte_mmu va)
    (fun s T hs => by simp [get_pte_virt, hs])
    (fun s T hs => pte_off cfg s T va pa sz prot hs) s T h

theorem pud_off (cfg : Config) (s : State) (T va pa sz prot : Nat)
    (h : s.mmu_enabled = false) :
    create_pud_mapping cfg s T va pa sz prot = phys_pud cfg s T va pa sz prot := by
  rw [create_pud_mapping_level]
  exact level_off cfg _ _ _ _ _ _ pa sz prot (alloc_pmd_mmu cfg va)
    (fun s T hs => by simp [get_pmd_virt, hs])
    (fun s T hs => pmd_off cfg s T va pa sz prot hs) s T h

/-- With translation off, `create_pgd_mapping` is its physical-address
semantics, also in the state it stops in. -/
theorem pgd_off (cfg : Config) (s : State) (T va pa sz prot : Nat)
    (h : s.mmu_enabled = false) :
    create_pgd_mapping cfg s T va pa sz prot = phys_pgd cfg s T va pa sz prot := by
  rw [create_pgd_mapping_level]
  unfold phys_pgd
  split
  · exact pud_off cfg s T va pa sz prot h
  · exact level_off cfg _ _ _ _ _ _ pa sz prot (alloc_pud_mmu cfg va)
      (fun s T hs => by simp [get_pud_virt, hs])
      (fun s T hs => pud_off cfg s T va pa sz prot hs) s T h

/-! ## Classification of table entries -/

theorem and_14 (x : Nat) : x &&& 14 = (x % 16) &&& 14 := by
  apply Nat.eq_of_testBit_eq
  intro i
  have e : (16 : Nat) = 2 ^ 4 := rfl
  rw [Nat.testBit_and, Nat.testBit_and, e, Nat.testBit_mod_two_pow]
  by_cases hi : i < 4
  · simp [hi]
  · have h14 : (14 : Nat).testBit i = false := by
      apply Nat.testBit_lt_two_pow
      calc (14 : Nat) < 2 ^ 4 := by decide
        _ ≤ 2 ^ i := Nat.pow_le_pow_right (by decide) (by omega)
    simp [h14]

theorem and_14_ne (x : Nat) : x &&& 14 ≠ 0 ↔ 2 ≤ x % 16 := by
  rw [and_14]
  have h : x % 16 < 16 := Nat.mod_lt _ (by decide)
  generalize x % 16 = r at h
  interval_cases r <;> decide

theorem entry_valid_iff (e : Nat) : entry_valid e = true ↔ e % 2 = 1 := by
  unfold entry_valid _PAGE_PRESENT
  rw [Nat.and_one_is_mod]
  simp only [ne_eq, decide_eq_true_eq]
  omega

theorem entry_leaf_iff (e : Nat) : entry_leaf e = true ↔ e % 2 = 1 ∧ 2 ≤ e % 16 := by
  unfold entry_leaf
  have h : (_PAGE_READ ||| _PAGE_WRITE ||| _PAGE_EXEC) = 14 := by decide
  rw [h, Bool.and_eq_true, entry_valid_iff]
  simp only [decide_eq_true_eq]
  rw [and_14_ne]

theorem entry_prot_eq (e : Nat) : entry_prot e = e % 1024 := by
  unfold entry_prot _PAGE_PFN_SHIFT
  exact and_mask_eq_mod e 10

theorem pfn_pte_valid (x prot : Nat) (h : prot < 1024) :
    entry_valid (pfn_pte x prot) = true ↔ prot % 2 = 1 := by
  rw [entry_valid_iff, pfn_pte_eq _ _ h, WORD_eq]
  omega

theorem pfn_pte_leaf (x prot : Nat) (h : prot < 1024) :
    entry_leaf (pfn_pte x prot) = true ↔ prot % 2 = 1 ∧ 2 ≤ prot % 16 := by
  rw [entry_leaf_iff, pfn_pte_eq _ _ h, WORD_eq]
  omega

theorem pfn_pte_prot (x prot : Nat) (h : prot < 1024) : entry_prot (pfn_pte x prot) = prot := by
  rw [entry_prot_eq, pfn_pte_eq _ _ h, WORD_eq]
  omega

theorem pfn_pte_pfn (x prot : Nat) (h : prot < 1024) (hx : x * 1024 < WORD) :
    _pmd_pfn (pfn_pte x prot) = x := by
  rw [_pmd_pfn_eq, pfn_pte_eq _ _ h]
  rw [WORD_eq] at hx ⊢
  omega

theorem link_classify (T : Nat) :
    entry_leaf (pfn_pte (PFN_DOWN T) PAGE_TABLE) = false ∧
    entry_valid (pfn_pte (PFN_DOWN T) PAGE_TABLE) = true ∧
    pfn_pte (PFN_DOWN T) PAGE_TABLE ≠ 0 := by
  have hp : (PAGE_TABLE : Nat) < 1024 := by decide
  refine ⟨?_, ?_, entry_ne_zero _ _ hp (by decide)⟩
  · rw [Bool.eq_false_iff]
    intro h
    rw [pfn_pte_leaf _ _ hp] at h
    exact absurd h.2 (by decide)
  · rw [pfn_pte_valid _ _ hp]
    decide

theorem leaf_classify (pa prot : Nat) (hpa : pa < WORD) (hp : leaf_prot prot) :
    entry_leaf (pfn_pte (PFN_DOWN pa) prot) = true ∧
    _pmd_pfn (pfn_pte (PFN_DOWN pa) prot) = PFN_DOWN pa ∧
    entry_prot (pfn_pte (PFN_DOWN pa) prot) = prot ∧
    pfn_pte (PFN_DOWN pa) prot ≠ 0 := by
  obtain ⟨h1, h2, h3⟩ := hp
  refine ⟨(pfn_pte_leaf _ _ h1).mpr ⟨h2, h3⟩, ?_, pfn_pte_prot _ _ h1,
    entry_ne_zero _ _ h1 (by omega)⟩
  apply pfn_pte_pfn _ _ h1
  rw [PFN_DOWN_eq]
  rw [WORD_eq] at hpa ⊢
  omega

/-! ## The three cases of a level -/

theorem phys_level_leaf (cfg : Config) (SIZE idx : Nat)
    (alloc : State → Except Stopped (State × Nat))
    (child : State → Nat → Except Stopped State) (s : State) (T pa prot : Nat) :
    phys_level cfg SIZE idx alloc child s T pa SIZE prot =
      .ok (if s.mem (slot T idx) = 0 then
        { s with mem := upd s.mem (slot T idx) (pfn_pte (PFN_DOWN pa) prot) } else s) := by
  unfold phys_level
  simp only [if_true]
  split <;> rfl

theorem phys_level_follow (cfg : Config) (SIZE idx : Nat)
    (alloc : State → Except Stopped (State × Nat))
    (child : State → Nat → Except Stopped State) (s : State) (T pa sz prot : Nat)
    (hsz : sz ≠ SIZE) (he : s.mem (slot T idx) ≠ 0)
    (hu : ¬ unsafe_table cfg s (PFN_PHYS (_pmd_pfn (s.mem (slot T idx))))) :
    phys_level cfg SIZE idx alloc child s T pa sz prot =
      child s (PFN_PHYS (_pmd_pfn (s.mem (slot T idx)))) := by
  unfold phys_level
  simp only []
  rw [if_neg hsz, if_neg he, if_neg hu]

theorem phys_level_alloc (cfg : Config) (SIZE idx : Nat)
    (alloc : State → Except Stopped (State × Nat))
    (child : State → Nat → Except Stopped State) (s s1 : State) (T pa sz prot A : Nat)
    (hsz : sz ≠ SIZE) (he : s.mem (slot T idx) = 0) (hal : alloc s = .ok (s1, A))
    (hu : ¬ unsafe_table cfg s1 A) :
    phys_level cfg SIZE idx alloc child s T pa sz prot =
      child { s1 with mem := (zero_words
        (upd s1.mem (slot T idx) (pfn_pte (PFN_DOWN A) PAGE_TABLE)) A 512) } A := by
  unfold phys_level
  simp only []
  rw [if_neg hsz, if_pos he, hal]
  simp only [Except.bind]
  rw [if_neg hu]
  rfl

theorem unsafe_off (cfg : Config) (s : State) (T : Nat) (h : s.mmu_enabled = false) :
    ¬ unsafe_table cfg s T := by
  simp [unsafe_table, h]

/-! ## Leaf-size inserts with translation off write inside their table -/

theorem writes_within_refl (T : Nat) (s : State) : writes_within T s s :=
  ⟨same_config_refl s, fun _ _ => rfl⟩

theorem writes_within_upd (T i v : Nat) (s : State) (hT : T + PAGE_SIZE ≤ WORD) (hi : i < 512) :
    writes_within T s { s with mem := upd s.mem (slot T i) v } := by
  refine ⟨by simp [same_config], ?_⟩
  intro a ha
  have hs : slot T i = T + 8 * i := slot_eq T i (by rw [WORD_eq]; rw [PAGE_SIZE_eq, WORD_eq] at hT; omega)
  have : a ≠ slot T i := by
    rw [hs]
    rw [PAGE_SIZE_eq] at ha
    omega
  simp [upd, this]

theorem leaf_step_within (T i v : Nat) (s : State) (hT : T + PAGE_SIZE ≤ WORD) (hi : i < 512) :
    writes_within T s
      (if s.mem (slot T i) = 0 then { s with mem := upd s.mem (slot T i) v } else s) := by
  split
  · exact writes_within_upd T i v s hT hi
  · exact writes_within_refl T s

theorem pmd_leaf_off (cfg : Config) (s : State) (T va pa prot : Nat)
    (h : s.mmu_enabled = false) (hT : T + PAGE_SIZE ≤ WORD) :
    ∃ s1, create_pmd_mapping cfg s T va pa PMD_SIZE prot = .ok s1 ∧ writes_within T s s1 := by
  rw [pmd_off cfg s T va pa PMD_SIZE prot h]
  unfold phys_pmd
  rw [phys_level_leaf]
  exact ⟨_, rfl, leaf_step_within T _ _ s hT (pmd_index_lt va)⟩

theorem pud_leaf_off (cfg : Config) (s : State) (T va pa prot : Nat)
    (h : s.mmu_enabled = false) (hT : T + PAGE_SIZE ≤ WORD) :
    ∃ s1, create_pud_mapping cfg s T va pa PUD_SIZE prot = .ok s1 ∧ writes_within T s s1 := by
  rw [pud_off cfg s T va pa PUD_SIZE prot h]
  unfold phys_pud
  rw [phys_level_leaf]
  exact ⟨_, rfl, leaf_step_within T _ _ s hT (pud_index_lt va)⟩

theorem pgd_leaf_off (cfg : Config) (s : State) (T va pa prot : Nat)
    (h : s.mmu_enabled = false) :
    create_pgd_mapping cfg s T va pa (PGDIR_SIZE s) prot =
      .ok (if s.mem (slot T (pgd_index s va)) = 0 then
        { s with mem := upd s.mem (slot T (pgd_index s va)) (pfn_pte (PFN_DOWN pa) prot) }
        else s) := by
  rw [pgd_off cfg s T va pa (PGDIR_SIZE s) prot h]
  unfold phys_pgd
  rcases Bool.eq_false_or_eq_true s.pgtable_l4_enabled with hl4 | hl4
  · rw [if_neg (by simp [hl4]), phys_level_leaf]
  · have hsz : PGDIR_SIZE s = PUD_SIZE := by rw [PGDIR_SIZE_eq, hl4]; rfl
    have hidx : pgd_index s va = pud_index va := by rw [pgd_index_eq, pud_index_eq, hl4]; rfl
    rw [if_pos (by simp [hl4])]
    unfold phys_pud
    rw [hsz, hidx, phys_level_leaf]

theorem pte_leaf_off (cfg : Config) (s : State) (T va pa prot : Nat)
    (h : s.mmu_enabled = false) (hT : T + PAGE_SIZE ≤ WORD) :
    ∃ s1, create_pte_mapping cfg s T va pa PAGE_SIZE prot = .ok s1 ∧ writes_within T s s1 := by
  rw [pte_off cfg s T va pa PAGE_SIZE prot h]
  unfold phys_pte
  simp only [ne_eq, not_true_eq_false, if_false]
  split
  · exact ⟨_, rfl, writes_within_upd T _ _ s hT (pte_index_lt va)⟩
  · exact ⟨_, rfl, writes_within_refl T s⟩

/-! ## Phase 1: mapping the image -/

theorem alloc_pmd_early (cfg : Config) (s : State) (va : Nat) (hoff : s.mmu_enabled = false)
    (h : sub64 va (PAGE_OFFSET s) < 1073741824) :
    alloc_pmd cfg s va = .ok (handed_out s cfg.early_pmd) := by
  unfold alloc_pmd
  rw [symbol_off s _ hoff]
  simp only [hoff, Bool.false_eq_true, if_false, PUD_SHIFT, Nat.shiftRight_eq_div_pow]
  rw [if_neg (by omega)]

theorem alloc_pud_early (cfg : Config) (s : State) (va : Nat) (hoff : s.mmu_enabled = false)
    (h : sub64 va (PAGE_OFFSET s) < 1073741824) :
    alloc_pud cfg s va = .ok (handed_out s cfg.early_pud) := by
  unfold alloc_pud
  rw [symbol_off s _ hoff]
  simp only [hoff, Bool.false_eq_true, if_false, PGDIR_SHIFT, Nat.shiftRight_eq_div_pow]
  split <;> rw [if_neg (by omega)]

theorem image_va_arith (PO k : Nat) (h1 : PO % 1073741824 = 0)
    (h2 : PO < 18446744073709551616) (hk : k < 512) :
    PO + k * 2097152 < 18446744073709551616 ∧
    (PO + k * 2097152) / 2097152 % 512 = k ∧
    (PO + k * 2097152) / 1073741824 % 512 = PO / 1073741824 % 512 ∧
    (PO + k * 2097152) / 549755813888 % 512 = PO / 549755813888 % 512 ∧
    (PO + k * 2097152 + 18446744073709551616 - PO % 18446744073709551616)
      % 18446744073709551616 = k * 2097152 := by
  omega

/-- Memory after a fresh table `M` has been linked at cell `c` and the leaf `lf`
written into its cell `d`. -/
theorem fresh_table_mem (m : Nat → Nat) (c l M d lf : Nat)
    (hM : M + 4096 ≤ 18446744073709551616) (hc : c < M ∨ M + 4096 ≤ c)
    (hd : M ≤ d ∧ d < M + 4096 ∧ (d - M) % 8 = 0) :
    upd (zero_words (upd m c l) M 512) d lf c = l ∧
    upd (zero_words (upd m c l) M 512) d lf d = lf ∧
    (∀ a, M ≤ a → a < M + 4096 → (a - M) % 8 = 0 → a ≠ d →
      upd (zero_words (upd m c l) M 512) d lf a = 0) ∧
    (∀ a, (a < M ∨ M + 4096 ≤ a) → a ≠ c → upd (zero_words (upd m c l) M 512) d lf a = m a) := by
  have hz := zero_words_page (upd m c l) M hM
  have hpw : PAGE_SIZE / 8 = 512 := rfl
  rw [hpw] at hz
  rw [hz]
  refine ⟨?_, ?_, ?_, ?_⟩
  · simp only [upd]
    rw [if_neg (by omega), if_neg (by omega)]
    simp
  · simp [upd]
  · intro a h1 h2 h3 h4
    simp only [upd]
    rw [if_neg h4, if_pos ⟨h1, h2, h3⟩]
  · intro a h1 h2
    simp only [upd]
    rw [if_neg (by omega), if_neg (by omega), if_neg h2]

theorem pmd_size_ne_pud : PMD_SIZE ≠ PUD_SIZE := by decide

theorem pmd_size_ne_pgdir (s : State) : PMD_SIZE ≠ PGDIR_SIZE s := by
  rw [PGDIR_SIZE_eq, PMD_SIZE_eq]
  split <;> omega

/-- The upper level on a table `X` whose slot for `va` is empty: `early_pmd` is
handed out, zeroed and linked, and the leaf is written into it. -/
theorem pud_first (cfg : Config) (s : State) (X va pa prot : Nat)
    (hoff : s.mmu_enabled = false) (hva : sub64 va (PAGE_OFFSET s) < 1073741824)
    (he : s.mem (slot X (pud_index va)) = 0)
    (hM : cfg.early_pmd + 4096 ≤ 18446744073709551616) :
    phys_pud cfg s X va pa PMD_SIZE prot =
      .ok { (handed_out s cfg.early_pmd).1 with mem := (upd (zero_words
        (upd s.mem (slot X (pud_index va)) (pfn_pte (PFN_DOWN cfg.early_pmd) PAGE_TABLE))
        cfg.early_pmd 512) (slot cfg.early_pmd (pmd_index va)) (pfn_pte (PFN_DOWN pa) prot)) } := by
  unfold phys_pud
  rw [phys_level_alloc cfg _ _ _ _ s (handed_out s cfg.early_pmd).1 X pa PMD_SIZE prot
    cfg.early_pmd pmd_size_ne_pud he (alloc_pmd_early cfg s va hoff hva)
    (unsafe_off cfg _ _ hoff)]
  unfold phys_pmd
  rw [phys_level_leaf]
  have hs : slot cfg.early_pmd (pmd_index va) = cfg.early_pmd + 8 * pmd_index va :=
    slot_eq _ _ (by have := pmd_index_lt va; rw [WORD_eq]; omega)
  have hz : zero_words (upd (handed_out s cfg.early_pmd).1.mem (slot X (pud_index va))
      (pfn_pte (PFN_DOWN cfg.early_pmd) PAGE_TABLE)) cfg.early_pmd 512
      (slot cfg.early_pmd (pmd_index va)) = 0 := by
    have hpw : PAGE_SIZE / 8 = 512 := rfl
    have := zero_words_page (upd (handed_out s cfg.early_pmd).1.mem (slot X (pud_index va))
      (pfn_pte (PFN_DOWN cfg.early_pmd) PAGE_TABLE)) cfg.early_pmd hM
    rw [hpw] at this
    rw [this, hs]
    have := pmd_index_lt va
    simp only []
    rw [if_pos (by omega)]
  simp only []
  rw [if_pos hz]
  rfl

/-- The upper level on a table `X` whose slot for `va` links `early_pmd`, with
the slot of `va` in `early_pmd` still empty: only the leaf is written. -/
theorem pud_next (cfg : Config) (s : State) (X va pa prot : Nat)
    (hoff : s.mmu_enabled = false)
    (hl : s.mem (slot X (pud_index va)) = pfn_pte (PFN_DOWN cfg.early_pmd) PAGE_TABLE)
    (hM : cfg.early_pmd + 4096 ≤ 18446744073709551616) (hMa : cfg.early_pmd % 4096 = 0)
    (he : s.mem (slot cfg.early_pmd (pmd_index va)) = 0) :
    phys_pud cfg s X va pa PMD_SIZE prot =
      .ok { s with mem :=
        (upd s.mem (slot cfg.early_pmd (pmd_index va)) (pfn_pte (PFN_DOWN pa) prot)) } := by
  unfold phys_pud
  have hne : s.mem (slot X (pud_index va)) ≠ 0 := by
    rw [hl]; exact (link_classify _).2.2
  have hrt : PFN_PHYS (_pmd_pfn (s.mem (slot X (pud_index va)))) = cfg.early_pmd := by
    rw [hl]
    exact entry_roundtrip _ _ hMa (by rw [WORD_eq]; omega) (by decide)
  rw [phys_level_follow cfg _ _ _ _ s X pa PMD_SIZE prot pmd_size_ne_pud hne
    (unsafe_off cfg _ _ hoff), hrt]
  unfold phys_pmd
  rw [phys_level_leaf, if_pos he]

theorem tables_get_ok (cfg : Config) (h : Tables_ok cfg) (i : Nat) (hi : i < 10) :
    (tables cfg).get ⟨i, hi⟩ % 4096 = 0 ∧
      (tables cfg).get ⟨i, hi⟩ + 4096 ≤ 18446744073709551616 :=
  h.1 _ (List.get_mem (tables cfg) i hi)

theorem tables_get_ne (cfg : Config) (h : Tables_ok cfg) (i j : Nat) (hi : i < 10)
    (hj : j < 10) (hij : i ≠ j) : (tables cfg).get ⟨i, hi⟩ ≠ (tables cfg).get ⟨j, hj⟩ := by
  intro heq
  have := (List.Nodup.get_inj_iff h.2).mp heq
  exact hij (Fin.mk.inj_iff.mp this)

theorem early_tables_facts (cfg : Config) (h : Tables_ok cfg) :
    (cfg.early_pg_dir % 4096 = 0 ∧ cfg.early_pg_dir + 4096 ≤ 18446744073709551616) ∧
    (cfg.early_pud % 4096 = 0 ∧ cfg.early_pud + 4096 ≤ 18446744073709551616) ∧
    (cfg.early_pmd % 4096 = 0 ∧ cfg.early_pmd + 4096 ≤ 18446744073709551616) ∧
    cfg.early_pg_dir ≠ cfg.early_pud ∧ cfg.early_pg_dir ≠ cfg.early_pmd ∧
    cfg.early_pud ≠ cfg.early_pmd :=
  ⟨tables_get_ok cfg h 0 (by decide), tables_get_ok cfg h 9 (by decide),
    tables_get_ok cfg h 8 (by decide), tables_get_ne cfg h 0 9 (by decide) (by decide) (by decide),
    tables_get_ne cfg h 0 8 (by decide) (by decide) (by decide),
    tables_get_ne cfg h 9 8 (by decide) (by decide) (by decide)⟩

theorem cell_eq (A i : Nat) (hA : A + 4096 ≤ 18446744073709551616) (hi : i < 512) :
    slot A i = A + 8 * i :=
  slot_eq A i (by rw [WORD_eq]; omega)

theorem cell_in (A i : Nat) (hA : A + 4096 ≤ 18446744073709551616) (hi : i < 512) :
    A ≤ slot A i ∧ slot A i < A + 4096 ∧ (slot A i - A) % 8 = 0 := by
  rw [cell_eq A i hA hi]
  omega

theorem cell_out (A B i : Nat) (hA : A + 4096 ≤ 18446744073709551616) (hi : i < 512)
    (hAa : A % 4096 = 0) (hBa : B % 4096 = 0) (hne : A ≠ B) :
    slot A i < B ∨ B + 4096 ≤ slot A i := by
  rw [cell_eq A i hA hi]
  omega

theorem cell_ne (A B i j : Nat) (hA : A + 4096 ≤ 18446744073709551616)
    (hB : B + 4096 ≤ 18446744073709551616) (hi : i < 512) (hj : j < 512)
    (hAa : A % 4096 = 0) (hBa : B % 4096 = 0) (hne : A ≠ B) : slot A i ≠ slot B j := by
  rw [cell_eq A i hA hi, cell_eq B j hB hj]
  omega

theorem cell_inj (A i j : Nat) (hA : A + 4096 ≤ 18446744073709551616) (hi : i < 512)
    (hj : j < 512) (hne : i ≠ j) : slot A i ≠ slot A j := by
  rw [cell_eq A i hA hi, cell_eq A j hA hj]
  omega

theorem pud_first_mem (cfg : Config) (s : State) (X va pa prot : Nat)
    (hoff : s.mmu_enabled = false) (hva : sub64 va (PAGE_OFFSET s) < 1073741824)
    (he : s.mem (slot X (pud_index va)) = 0)
    (hM : cfg.early_pmd + 4096 ≤ 18446744073709551616) :
    ∃ s1, phys_pud cfg s X va pa PMD_SIZE prot = .ok s1 ∧ same_config s s1 ∧
      s1.mem = upd (zero_words
        (upd s.mem (slot X (pud_index va)) (pfn_pte (PFN_DOWN cfg.early_pmd) PAGE_TABLE))
        cfg.early_pmd 512) (slot cfg.early_pmd (pmd_index va)) (pfn_pte (PFN_DOWN pa) prot) :=
  ⟨_, pud_first cfg s X va pa prot hoff hva he hM, by simp [same_config, handed_out], rfl⟩

theorem pud_next_mem (cfg : Config) (s : State) (X va pa prot : Nat)
    (hoff : s.mmu_enabled = false)
    (hl : s.mem (slot X (pud_index va)) = pfn_pte (PFN_DOWN cfg.early_pmd) PAGE_TABLE)
    (hM : cfg.early_pmd + 4096 ≤ 18446744073709551616) (hMa : cfg.early_pmd % 4096 = 0)
    (he : s.mem (slot cfg.early_pmd (pmd_index va)) = 0) :
    ∃ s1, phys_pud cfg s X va pa PMD_SIZE prot = .ok s1 ∧ same_config s s1 ∧
      s1.mem = upd s.mem (slot cfg.early_pmd (pmd_index va)) (pfn_pte (PFN_DOWN pa) prot) :=
  ⟨_, pud_next cfg s X va pa prot hoff hl hM hMa he, by simp [same_config], rfl⟩

theorem pgd_index_of_eq (s : State) (a : Nat) :
    pgd_index s a = pgd_index_of s.pgtable_l4_enabled a := rfl

theorem pgd_index_of_false (a : Nat) : pgd_index_of false a = pud_index a := rfl

theorem pgd_index_of_lt (l4 : Bool) (a : Nat) : pgd_index_of l4 a < 512 := by
  unfold pgd_index_of PTRS_PER_PGD
  rw [Nat.shiftRight_eq_div_pow]
  have := Nat.and_pow_two_sub_one_eq_mod (a / 2 ^ (if l4 = true then 39 else 30)) 9
  have e : (2 : Nat) ^ 9 - 1 = 512 - 1 := rfl
  rw [e] at this
  rw [this]
  exact Nat.mod_lt _ (by decide)

/-- Writing the leaf of block `k` into `early_pmd` keeps the image invariant. -/
theorem image_inv_leaf (cfg : Config) (m : Nat → Nat) (l4 : Bool) (PO P k : Nat)
    (hT : Tables_ok cfg) (hk : k < 512) (hk0 : 0 < k)
    (hinv : Image_inv cfg m l4 PO P k) :
    Image_inv cfg (upd m (slot cfg.early_pmd k)
      (pfn_pte (PFN_DOWN (P + k * PMD_SIZE)) PAGE_KERNEL_EXEC)) l4 PO P (k + 1) := by
  obtain ⟨⟨hRa, hR⟩, ⟨hUa, hU⟩, ⟨hMa, hM⟩, hRU, hRM, hUM⟩ := early_tables_facts cfg hT
  obtain ⟨⟨hlinks, hleaves⟩, hrest⟩ := hinv.2 hk0
  refine ⟨fun h => by omega, fun _ => ⟨⟨?_, ?_⟩, ?_⟩⟩
  · cases l4
    · simp only [Bool.false_eq_true, if_false] at hlinks ⊢
      simp only [upd]
      rw [if_neg (cell_ne _ _ _ _ hR hM (pud_index_lt PO) hk hRa hMa hRM)]
      exact hlinks
    · simp only [if_true] at hlinks ⊢
      simp only [upd]
      rw [if_neg (cell_ne _ _ _ _ hR hM (pgd_index_of_lt true PO) hk hRa hMa hRM),
        if_neg (cell_ne _ _ _ _ hU hM (pud_index_lt PO) hk hUa hMa hUM)]
      exact hlinks
  · intro j hj
    simp only [upd]
    by_cases hjk : j = k
    · subst hjk
      rw [if_pos rfl]
    · rw [if_neg (cell_inj _ _ _ hM (by omega) hk hjk)]
      exact hleaves j (by omega)
  · intro j hj1 hj2
    simp only [upd]
    rw [if_neg (cell_inj _ _ _ hM hj2 hk (by omega))]
    exact hrest j (by omega) hj2

/-- Linking a fresh `early_pmd` at the upper-level cell `c` and writing the
first leaf gives the image invariant for one block. -/
theorem image_inv_first_pmd (cfg : Config) (m : Nat → Nat) (PO P : Nat) (hT : Tables_ok cfg) :
    upd (zero_words (upd m (slot cfg.early_pg_dir (pud_index PO))
          (pfn_pte (PFN_DOWN cfg.early_pmd) PAGE_TABLE)) cfg.early_pmd 512)
        (slot cfg.early_pmd 0) (pfn_pte (PFN_DOWN (P + 0 * PMD_SIZE)) PAGE_KERNEL_EXEC)
        (slot cfg.early_pg_dir (pud_index PO)) = pfn_pte (PFN_DOWN cfg.early_pmd) PAGE_TABLE ∧
    (∀ X c, X % 4096 = 0 → X + 4096 ≤ 18446744073709551616 → X ≠ cfg.early_pmd →
      c = slot X (pud_index PO) →
      upd (zero_words (upd m c (pfn_pte (PFN_DOWN cfg.early_pmd) PAGE_TABLE)) cfg.early_pmd 512)
        (slot cfg.early_pmd 0) (pfn_pte (PFN_DOWN (P + 0 * PMD_SIZE)) PAGE_KERNEL_EXEC) c
        = pfn_pte (PFN_DOWN cfg.early_pmd) PAGE_TABLE ∧
      (∀ j, j < 1 →
        upd (zero_words (upd m c (pfn_pte (PFN_DOWN cfg.early_pmd) PAGE_TABLE))
            cfg.early_pmd 512)
          (slot cfg.early_pmd 0) (pfn_pte (PFN_DOWN (P + 0 * PMD_SIZE)) PAGE_KERNEL_EXEC)
          (slot cfg.early_pmd j) = pfn_pte (PFN_DOWN (P + j * PMD_SIZE)) PAGE_KERNEL_EXEC) ∧
      (∀ j, 1 ≤ j → j < 512 →
        upd (zero_words (upd m c (pfn_pte (PFN_DOWN cfg.early_pmd) PAGE_TABLE))
            cfg.early_pmd 512)
          (slot cfg.early_pmd 0) (pfn_pte (PFN_DOWN (P + 0 * PMD_SIZE)) PAGE_KERNEL_EXEC)
          (slot cfg.early_pmd j) = 0) ∧
      (∀ a, (a < cfg.early_pmd ∨ cfg.early_pmd + 4096 ≤ a) → a ≠ c →
        upd (zero_words (upd m c (pfn_pte (PFN_DOWN cfg.early_pmd) PAGE_TABLE))
            cfg.early_pmd 512)
          (slot cfg.early_pmd 0) (pfn_pte (PFN_DOWN (P + 0 * PMD_SIZE)) PAGE_KERNEL_EXEC) a
          = m a)) := by
  obtain ⟨⟨hRa, hR⟩, ⟨hUa, hU⟩, ⟨hMa, hM⟩, hRU, hRM, hUM⟩ := early_tables_facts cfg hT
  have hgen : ∀ X c, X % 4096 = 0 → X + 4096 ≤ 18446744073709551616 → X ≠ cfg.early_pmd →
      c = slot X (pud_index PO) → c < cfg.early_pmd ∨ cfg.early_pmd + 4096 ≤ c := by
    intro X c h1 h2 h3 h4
    rw [h4]
    exact cell_out X _ _ h2 (pud_index_lt PO) h1 hMa h3
  refine ⟨?_, ?_⟩
  · exact (fresh_table_mem m _ _ cfg.early_pmd _ _ hM
      (hgen _ _ hRa hR hRM rfl) (cell_in _ 0 hM (by decide))).1
  · intro X c h1 h2 h3 h4
    obtain ⟨f1, f2, f3, f4⟩ := fresh_table_mem m c (pfn_pte (PFN_DOWN cfg.early_pmd) PAGE_TABLE)
      cfg.early_pmd (slot cfg.early_pmd 0)
      (pfn_pte (PFN_DOWN (P + 0 * PMD_SIZE)) PAGE_KERNEL_EXEC) hM (hgen X c h1 h2 h3 h4)
      (cell_in _ 0 hM (by decide))
    refine ⟨f1, ?_, ?_, f4⟩
    · intro j hj
      have : j = 0 := by omega
      subst this
      exact f2
    · intro j hj1 hj2
      obtain ⟨c1, c2, c3⟩ := cell_in cfg.early_pmd j hM hj2
      exact f3 _ c1 c2 c3 (cell_inj _ _ _ hM hj2 (by decide) (by omega))

/-! ## One step of the image loop -/

theorem pgd_index_of_true (a : Nat) : pgd_index_of true a = a / 549755813888 % 512 := by
  unfold pgd_index_of PTRS_PER_PGD
  rw [Nat.shiftRight_eq_div_pow]
  exact Nat.and_pow_two_sub_one_eq_mod (a / 2 ^ 39) 9

theorem zero_words_out (m : Nat → Nat) (T a : Nat) (hT : T + 4096 ≤ 18446744073709551616)
    (ha : a < T ∨ T + 4096 ≤ a) : zero_words m T 512 a = m a := by
  have h := zero_words_page m T hT
  have hpw : PAGE_SIZE / 8 = 512 := rfl
  rw [hpw] at h
  rw [h]
  simp only []
  rw [if_neg (by omega)]

theorem zero_words_in (m : Nat → Nat) (T i : Nat) (hT : T + 4096 ≤ 18446744073709551616)
    (hi : i < 512) : zero_words m T 512 (slot T i) = 0 := by
  have h := zero_words_page m T hT
  have hpw : PAGE_SIZE / 8 = 512 := rfl
  rw [hpw] at h
  rw [h]
  obtain ⟨c1, c2, c3⟩ := cell_in T i hT hi
  simp only []
  rw [if_pos ⟨c1, c2, c3⟩]

/-- Deep mode, empty root slot: `early_pud` and `early_pmd` are handed out,
zeroed and linked, and the leaf is written. -/
theorem pgd_first_mem (cfg : Config) (s : State) (R va pa prot : Nat)
    (hoff : s.mmu_enabled = false) (hl4 : s.pgtable_l4_enabled = true)
    (hva : sub64 va (PAGE_OFFSET s) < 1073741824)
    (he : s.mem (slot R (pgd_index s va)) = 0)
    (hU : cfg.early_pud + 4096 ≤ 18446744073709551616)
    (hM : cfg.early_pmd + 4096 ≤ 18446744073709551616) :
    ∃ s1, phys_pgd cfg s R va pa PMD_SIZE prot = .ok s1 ∧ same_config s s1 ∧
      s1.mem = upd (zero_words (upd (zero_words
          (upd s.mem (slot R (pgd_index s va)) (pfn_pte (PFN_DOWN cfg.early_pud) PAGE_TABLE))
          cfg.early_pud 512) (slot cfg.early_pud (pud_index va))
          (pfn_pte (PFN_DOWN cfg.early_pmd) PAGE_TABLE)) cfg.early_pmd 512)
        (slot cfg.early_pmd (pmd_index va)) (pfn_pte (PFN_DOWN pa) prot) := by
  unfold phys_pgd
  rw [if_neg (by simp [hl4])]
  rw [phys_level_alloc cfg _ _ _ _ s (handed_out s cfg.early_pud).1 R pa PMD_SIZE prot
    cfg.early_pud (pmd_size_ne_pgdir s) he (alloc_pud_early cfg s va hoff hva)
    (unsafe_off cfg _ _ hoff)]
  have key : ∀ S2 : State, same_config s S2 →
      S2.mem = zero_words (upd s.mem (slot R (pgd_index s va))
        (pfn_pte (PFN_DOWN cfg.early_pud) PAGE_TABLE)) cfg.early_pud 512 →
      ∃ s1, phys_pud cfg S2 cfg.early_pud va pa PMD_SIZE prot = .ok s1 ∧ same_config s s1 ∧
        s1.mem = upd (zero_words (upd (zero_words
          (upd s.mem (slot R (pgd_index s va)) (pfn_pte (PFN_DOWN cfg.early_pud) PAGE_TABLE))
          cfg.early_pud 512) (slot cfg.early_pud (pud_index va))
          (pfn_pte (PFN_DOWN cfg.early_pmd) PAGE_TABLE)) cfg.early_pmd 512)
        (slot cfg.early_pmd (pmd_index va)) (pfn_pte (PFN_DOWN pa) prot) := by
    intro S2 hc hm
    have hoff2 : S2.mmu_enabled = false := by rw [hc.1]; exact hoff
    have hpo : PAGE_OFFSET S2 = PAGE_OFFSET s := hc.2.2.2.1
    have he2 : S2.mem (slot cfg.early_pud (pud_index va)) = 0 := by
      rw [hm]
      exact zero_words_in _ _ _ hU (pud_index_lt va)
    obtain ⟨s1, e1, c1, m1⟩ := pud_first_mem cfg S2 cfg.early_pud va pa prot hoff2
      (by rw [hpo]; exact hva) he2 hM
    refine ⟨s1, e1, same_config_trans hc c1, ?_⟩
    rw [m1, hm]
  exact key _ (by simp [same_config, handed_out]) rfl

/-- Deep mode, root slot linking `early_pud`, which links `early_pmd`, whose
slot for `va` is empty: only the leaf is written. -/
theorem pgd_next_mem (cfg : Config) (s : State) (R va pa prot : Nat)
    (hoff : s.mmu_enabled = false) (hl4 : s.pgtable_l4_enabled = true)
    (hl : s.mem (slot R (pgd_index s va)) = pfn_pte (PFN_DOWN cfg.early_pud) PAGE_TABLE)
    (hl2 : s.mem (slot cfg.early_pud (pud_index va))
      = pfn_pte (PFN_DOWN cfg.early_pmd) PAGE_TABLE)
    (hU : cfg.early_pud + 4096 ≤ 18446744073709551616) (hUa : cfg.early_pud % 4096 = 0)
    (hM : cfg.early_pmd + 4096 ≤ 18446744073709551616) (hMa : cfg.early_pmd % 4096 = 0)
    (he : s.mem (slot cfg.early_pmd (pmd_index va)) = 0) :
    ∃ s1, phys_pgd cfg s R va pa PMD_SIZE prot = .ok s1 ∧ same_config s s1 ∧
      s1.mem = upd s.mem (slot cfg.early_pmd (pmd_index va)) (pfn_pte (PFN_DOWN pa) prot) := by
  unfold phys_pgd
  rw [if_neg (by simp [hl4])]
  have hne : s.mem (slot R (pgd_index s va)) ≠ 0 := by
    rw [hl]; exact (link_classify _).2.2
  have hrt : PFN_PHYS (_pmd_pfn (s.mem (slot R (pgd_index s va)))) = cfg.early_pud := by
    rw [hl]
    exact entry_roundtrip _ _ hUa (by rw [WORD_eq]; omega) (by decide)
  rw [phys_level_follow cfg _ _ _ _ s R pa PMD_SIZE prot (pmd_size_ne_pgdir s) hne
    (unsafe_off cfg _ _ hoff), hrt]
  exact pud_next_mem cfg s cfg.early_pud va pa prot hoff hl2 hM hMa he

theorem kept_upd (P : List Nat) (m : Nat → Nat) (X i v a : Nat)
    (hX : X + 4096 ≤ 18446744073709551616) (hi : i < 512) (hm : X ∈ P) (ha : outside P a) :
    upd m (slot X i) v a = m a := by
  have h1 := ha X hm
  obtain ⟨c1, c2, _⟩ := cell_in X i hX hi
  unfold upd
  rw [if_neg (by omega)]

theorem kept_zero (P : List Nat) (m : Nat → Nat) (A a : Nat)
    (hA : A + 4096 ≤ 18446744073709551616) (hm : A ∈ P) (ha : outside P a) :
    zero_words m A 512 a = m a :=
  zero_words_out m A a hA (ha A hm)

/-- One iteration of the image loop of `setup_vm`: block `k` is added to the
early tables. -/
theorem image_step (cfg : Config) (s : State) (P k pa : Nat)
    (hoff : s.mmu_enabled = false) (hT : Tables_ok cfg)
    (h1 : PAGE_OFFSET s % 1073741824 = 0) (h2 : PAGE_OFFSET s < 18446744073709551616)
    (hk : k < 512) (hpa : pa = P + k * PMD_SIZE)
    (hinv : Image_inv cfg s.mem s.pgtable_l4_enabled (PAGE_OFFSET s) P k) :
    ∃ s1, create_pgd_mapping cfg s cfg.early_pg_dir (PAGE_OFFSET s + k * 2097152) pa PMD_SIZE
        PAGE_KERNEL_EXEC = .ok s1 ∧ same_config s s1 ∧
      Image_inv cfg s1.mem s.pgtable_l4_enabled (PAGE_OFFSET s) P (k + 1) ∧
      ∀ a, outside [cfg.early_pg_dir, cfg.early_pud, cfg.early_pmd] a → s1.mem a = s.mem a := by
  obtain ⟨⟨hRa, hR⟩, ⟨hUa, hU⟩, ⟨hMa, hM⟩, hRU, hRM, hUM⟩ := early_tables_facts cfg hT
  obtain ⟨v1, v2, v3, v4, v5⟩ := image_va_arith (PAGE_OFFSET s) k h1 h2 hk
  have hpmd : pmd_index (PAGE_OFFSET s + k * 2097152) = k := by rw [pmd_index_eq]; exact v2
  have hpud : pud_index (PAGE_OFFSET s + k * 2097152) = pud_index (PAGE_OFFSET s) := by
    rw [pud_index_eq, pud_index_eq]; exact v3
  have hpgd : pgd_index_of true (PAGE_OFFSET s + k * 2097152)
      = pgd_index_of true (PAGE_OFFSET s) := by
    rw [pgd_index_of_true, pgd_index_of_true]; exact v4
  have hsub : sub64 (PAGE_OFFSET s + k * 2097152) (PAGE_OFFSET s) < 1073741824 := by
    unfold sub64
    rw [WORD_eq, v5]
    omega
  rw [pgd_off cfg s _ _ _ _ _ hoff]
  subst hpa
  rcases Bool.eq_false_or_eq_true s.pgtable_l4_enabled with hl | hl
  · -- deep mode
    have hidx : pgd_index s (PAGE_OFFSET s + k * 2097152) = pgd_index_of true (PAGE_OFFSET s) := by
      rw [pgd_index_of_eq, hl]; exact hpgd
    rw [hl] at hinv ⊢
    rcases Nat.eq_zero_or_pos k with hk0 | hk0
    · subst hk0
      obtain ⟨s1, e1, c1, m1⟩ := pgd_first_mem cfg s cfg.early_pg_dir
        (PAGE_OFFSET s + 0 * 2097152) (P + 0 * PMD_SIZE) PAGE_KERNEL_EXEC hoff hl hsub
        (by rw [hidx]; exact hinv.1 rfl) hU hM
      have hfr : ∀ a, outside [cfg.early_pg_dir, cfg.early_pud, cfg.early_pmd] a →
          s1.mem a = s.mem a := by
        intro a ha
        rw [m1, kept_upd _ _ _ _ _ a hM (pmd_index_lt _) (by simp) ha,
          kept_zero _ _ _ a hM (by simp) ha,
          kept_upd _ _ _ _ _ a hU (pud_index_lt _) (by simp) ha,
          kept_zero _ _ _ a hU (by simp) ha,
          kept_upd _ _ _ _ _ a hR (pgd_index_lt s _) (by simp) ha]
      refine ⟨s1, e1, c1, ?_, hfr⟩
      rw [m1, hidx, hpud, hpmd]
      obtain ⟨f1, f2, f3, f4⟩ := (image_inv_first_pmd cfg (zero_words
        (upd s.mem (slot cfg.early_pg_dir (pgd_index_of true (PAGE_OFFSET s)))
          (pfn_pte (PFN_DOWN cfg.early_pud) PAGE_TABLE)) cfg.early_pud 512)
        (PAGE_OFFSET s) P hT).2 cfg.early_pud _ hUa hU hUM rfl
      refine ⟨fun h => by omega, fun _ => ⟨⟨?_, f2⟩, f3⟩⟩
      simp only [if_true]
      refine ⟨?_, f1⟩
      rw [f4 _ (cell_out _ _ _ hR (pgd_index_of_lt true _) hRa hMa hRM)
        (cell_ne _ _ _ _ hR hU (pgd_index_of_lt true _) (pud_index_lt _) hRa hUa hRU),
        zero_words_out _ _ _ hU (cell_out _ _ _ hR (pgd_index_of_lt true _) hRa hUa hRU)]
      simp [upd]
    · obtain ⟨⟨hlinks, hleaves⟩, hrest⟩ := hinv.2 hk0
      simp only [if_true] at hlinks
      obtain ⟨s1, e1, c1, m1⟩ := pgd_next_mem cfg s cfg.early_pg_dir
        (PAGE_OFFSET s + k * 2097152) (P + k * PMD_SIZE) PAGE_KERNEL_EXEC hoff hl
        (by rw [hidx]; exact hlinks.1) (by rw [hpud]; exact hlinks.2) hU hUa hM hMa
        (by rw [hpmd]; exact hrest k (le_refl k) hk)
      have hfr : ∀ a, outside [cfg.early_pg_dir, cfg.early_pud, cfg.early_pmd] a →
          s1.mem a = s.mem a := by
        intro a ha
        rw [m1, kept_upd _ _ _ _ _ a hM (pmd_index_lt _) (by simp) ha]
      refine ⟨s1, e1, c1, ?_, hfr⟩
      rw [m1, hpmd]
      exact image_inv_leaf cfg s.mem true (PAGE_OFFSET s) P k hT hk hk0 (hinv)
  · -- shallow mode
    rw [hl] at hinv ⊢
    unfold phys_pgd
    rw [if_pos (by simp [hl])]
    rcases Nat.eq_zero_or_pos k with hk0 | hk0
    · subst hk0
      obtain ⟨s1, e1, c1, m1⟩ := pud_first_mem cfg s cfg.early_pg_dir
        (PAGE_OFFSET s + 0 * 2097152) (P + 0 * PMD_SIZE) PAGE_KERNEL_EXEC hoff hsub
        (by rw [hpud]; exact hinv.1 rfl) hM
      have hfr : ∀ a, outside [cfg.early_pg_dir, cfg.early_pud, cfg.early_pmd] a →
          s1.mem a = s.mem a := by
        intro a ha
        rw [m1, kept_upd _ _ _ _ _ a hM (pmd_index_lt _) (by simp) ha,
          kept_zero _ _ _ a hM (by simp) ha,
          kept_upd _ _ _ _ _ a hR (pud_index_lt _) (by simp) ha]
      refine ⟨s1, e1, c1, ?_, hfr⟩
      rw [m1, hpud, hpmd]
      obtain ⟨f1, f2, f3, f4⟩ := (image_inv_first_pmd cfg s.mem (PAGE_OFFSET s) P hT).2
        cfg.early_pg_dir _ hRa hR hRM rfl
      refine ⟨fun h => by omega, fun _ => ⟨⟨?_, f2⟩, f3⟩⟩
      simp only [Bool.false_eq_true, if_false]
      exact f1
    · obtain ⟨⟨hlinks, hleaves⟩, hrest⟩ := hinv.2 hk0
      simp only [Bool.false_eq_true, if_false] at hlinks
      obtain ⟨s1, e1, c1, m1⟩ := pud_next_mem cfg s cfg.early_pg_dir
        (PAGE_OFFSET s + k * 2097152) (P + k * PMD_SIZE) PAGE_KERNEL_EXEC hoff
        (by rw [hpud]; exact hlinks) hM hMa (by rw [hpmd]; exact hrest k (le_refl k) hk)
      have hfr : ∀ a, outside [cfg.early_pg_dir, cfg.early_pud, cfg.early_pmd] a →
          s1.mem a = s.mem a := by
        intro a ha
        rw [m1, kept_upd _ _ _ _ _ a hM (pmd_index_lt _) (by simp) ha]
      refine ⟨s1, e1, c1, ?_, hfr⟩
      rw [m1, hpmd]
      exact image_inv_leaf cfg s.mem false (PAGE_OFFSET s) P k hT hk hk0 hinv

/-! ## The image loop and the walk of the early tables -/

theorem bind_ok {α β : Type} (a : α) (f : α → Except Stopped β) :
    (Except.ok a : Except Stopped α).bind f = f a := rfl

theorem image_loop_arith (PO P S k : Nat) (h1 : PO % 1073741824 = 0)
    (h2 : PO < 18446744073709551616) (hS : S ≤ 134217728)
    (hP : P + S ≤ 18446744073709551616) (hlt : PO + k * 2097152 < PO + S) :
    (P + (PO + k * 2097152 + 18446744073709551616 - PO % 18446744073709551616)
        % 18446744073709551616) % 18446744073709551616 = P + k * 2097152 ∧
    (PO + k * 2097152 + 2097152) % 18446744073709551616 = PO + (k + 1) * 2097152 := by
  omega

theorem image_loop (cfg : Config) (P S PO : Nat) (l4 : Bool) (hT : Tables_ok cfg)
    (h1 : PO % 1073741824 = 0) (h2 : PO < 18446744073709551616) (hS : S ≤ 134217728)
    (hP : P + S ≤ 18446744073709551616) :
    ∀ (fuel k : Nat) (s : State), s.mmu_enabled = false → PAGE_OFFSET s = PO →
      s.pgtable_l4_enabled = l4 → S ≤ (k + fuel) * 2097152 → k ≤ 64 →
      Image_inv cfg s.mem l4 PO P k →
      ∃ s1 n, setup_vm_image cfg P PMD_SIZE (add64 PO S) fuel s (PO + k * 2097152) = .ok s1 ∧
        same_config s s1 ∧ Image_inv cfg s1.mem l4 PO P n ∧ S ≤ n * 2097152 ∧ k ≤ n ∧
        n ≤ 64 ∧
        ∀ a, outside [cfg.early_pg_dir, cfg.early_pud, cfg.early_pmd] a → s1.mem a = s.mem a := by
  have hend : add64 PO S = PO + S := by
    unfold add64
    rw [WORD_eq]
    exact Nat.mod_eq_of_lt (by omega)
  intro fuel
  induction fuel with
  | zero =>
    intro k s hoff hpo hl hf hk hinv
    refine ⟨s, k, ?_, same_config_refl s, hinv, by omega, le_refl k, hk, fun _ _ => rfl⟩
    unfold setup_vm_image
    rw [hend, if_neg (by omega)]
  | succ f ih =>
    intro k s hoff hpo hl hf hk hinv
    by_cases hlt : PO + k * 2097152 < PO + S
    · obtain ⟨s1, e1, c1, i1, f1⟩ := image_step cfg s P k (P + k * PMD_SIZE) hoff hT
        (by rw [hpo]; exact h1) (by rw [hpo]; exact h2) (by omega) rfl
        (by rw [hpo, hl]; exact hinv)
      rw [hpo, hl] at i1
      rw [hpo] at e1
      obtain ⟨s2, n, e2, c2, i2, b1, b2, b3, f2⟩ := ih (k + 1) s1 (by rw [c1.1]; exact hoff)
        (by unfold PAGE_OFFSET; rw [c1.2.2.2.1]; exact hpo) (by rw [c1.2.1]; exact hl)
        (by omega) (by omega) i1
      refine ⟨s2, n, ?_, same_config_trans c1 c2, i2, b1, by omega, b3,
        fun a ha => (f2 a ha).trans (f1 a ha)⟩
      obtain ⟨a1, a2⟩ := image_loop_arith PO P S k h1 h2 hS hP hlt
      have hpa : add64 P (sub64 (PO + k * 2097152) PO) = P + k * PMD_SIZE := by
        unfold add64 sub64
        rw [WORD_eq, PMD_SIZE_eq]
        exact a1
      have hva : add64 (PO + k * 2097152) PMD_SIZE = PO + (k + 1) * 2097152 := by
        unfold add64
        rw [WORD_eq, PMD_SIZE_eq]
        exact a2
      rw [setup_vm_image, hend, if_pos hlt, symbol_off s _ hoff, hpo, hpa, e1, bind_ok, hva,
        ← hend]
      exact e2
    · refine ⟨s, k, ?_, same_config_refl s, hinv, by omega, le_refl k, hk, fun _ _ => rfl⟩
      rw [setup_vm_image, hend, if_neg hlt]

/-- The image invariant only reads the three early tables. -/
theorem image_inv_frame (cfg : Config) (m m' : Nat → Nat) (l4 : Bool) (PO P n : Nat)
    (hn : n ≤ 512)
    (hfr : ∀ X i, (X = cfg.early_pg_dir ∨ X = cfg.early_pud ∨ X = cfg.early_pmd) → i < 512 →
      m' (slot X i) = m (slot X i))
    (hI : Image_inv cfg m l4 PO P n) : Image_inv cfg m' l4 PO P n := by
  refine ⟨fun h0 => ?_, fun hpos => ?_⟩
  · rw [hfr _ _ (Or.inl rfl) (pgd_index_of_lt l4 PO)]
    exact hI.1 h0
  · obtain ⟨⟨hlinks, hleaves⟩, hrest⟩ := hI.2 hpos
    refine ⟨⟨?_, ?_⟩, ?_⟩
    · cases l4
      · simp only [Bool.false_eq_true, if_false] at hlinks ⊢
        rw [hfr _ _ (Or.inl rfl) (pud_index_lt PO)]
        exact hlinks
      · simp only [if_true] at hlinks ⊢
        rw [hfr _ _ (Or.inl rfl) (pgd_index_of_lt true PO),
          hfr _ _ (Or.inr (Or.inl rfl)) (pud_index_lt PO)]
        exact hlinks
    · intro j hj
      rw [hfr _ _ (Or.inr (Or.inr rfl)) (by omega)]
      exact hleaves j hj
    · intro j hj1 hj2
      rw [hfr _ _ (Or.inr (Or.inr rfl)) hj2]
      exact hrest j hj1 hj2

theorem resolve_arith (PO P va n : Nat) (h1 : PO % 1073741824 = 0) (hPa : P % 2097152 = 0)
    (hn : n ≤ 512) (hva : PO ≤ va) (hlt : va - PO < n * 2097152) :
    va / 2097152 % 512 = (va - PO) / 2097152 ∧ (va - PO) / 2097152 < n ∧
    va / 1073741824 % 512 = PO / 1073741824 % 512 ∧
    va / 549755813888 % 512 = PO / 549755813888 % 512 ∧
    (P + (va - PO) / 2097152 * 2097152) / 4096 * 4096 + va % 2097152 = P + (va - PO) := by
  omega

/-- A walk of the early tables that satisfy `Kmap` resolves every address of the
mapped blocks to the image. -/
theorem kmap_resolve (cfg : Config) (s : State) (P n va : Nat) (hT : Tables_ok cfg)
    (h1 : PAGE_OFFSET s % 1073741824 = 0)
    (hPa : P % 2097152 = 0) (hn : n ≤ 512)
    (hK : Kmap cfg s.mem s.pgtable_l4_enabled (PAGE_OFFSET s) P n)
    (hva : PAGE_OFFSET s ≤ va) (hlt : va - PAGE_OFFSET s < n * 2097152)
    (hP : P + (va - PAGE_OFFSET s) < 18446744073709551616) :
    resolve s cfg.early_pg_dir va = some (P + (va - PAGE_OFFSET s), PAGE_KERNEL_EXEC) := by
  obtain ⟨⟨hRa, hR⟩, ⟨hUa, hU⟩, ⟨hMa, hM⟩, hRU, hRM, hUM⟩ := early_tables_facts cfg hT
  obtain ⟨r1, r2, r3, r4, r5⟩ := resolve_arith (PAGE_OFFSET s) P va n h1 hPa hn hva hlt
  obtain ⟨hlinks, hleaves⟩ := hK
  have hpmd : pmd_index va = (va - PAGE_OFFSET s) / 2097152 := by rw [pmd_index_eq]; exact r1
  have hpud : pud_index va = pud_index (PAGE_OFFSET s) := by
    rw [pud_index_eq, pud_index_eq]; exact r3
  have hlt2 : P + (va - PAGE_OFFSET s) / 2097152 * PMD_SIZE < WORD := by
    rw [PMD_SIZE_eq, WORD_eq]
    omega
  obtain ⟨l1, l2, l3, _⟩ := leaf_classify (P + (va - PAGE_OFFSET s) / 2097152 * PMD_SIZE)
    PAGE_KERNEL_EXEC hlt2 (by decide)
  have hrtM : PFN_PHYS (_pmd_pfn (pfn_pte (PFN_DOWN cfg.early_pmd) PAGE_TABLE)) = cfg.early_pmd :=
    entry_roundtrip _ _ hMa (by rw [WORD_eq]; omega) (by decide)
  have hrtU : PFN_PHYS (_pmd_pfn (pfn_pte (PFN_DOWN cfg.early_pud) PAGE_TABLE)) = cfg.early_pud :=
    entry_roundtrip _ _ hUa (by rw [WORD_eq]; omega) (by decide)
  have hfin : PFN_PHYS (PFN_DOWN (P + (va - PAGE_OFFSET s) / 2097152 * PMD_SIZE))
      + va % PMD_SIZE = P + (va - PAGE_OFFSET s) := by
    rw [PFN_PHYS_eq, PFN_DOWN_eq, PMD_SIZE_eq, WORD_eq]
    rw [PMD_SIZE_eq, WORD_eq] at hlt2
    rw [Nat.mod_eq_of_lt (by omega)]
    exact r5
  have hpmdw : walk_pmd s.mem cfg.early_pmd va = some ⟨.pmd,
      PFN_DOWN (P + (va - PAGE_OFFSET s) / 2097152 * PMD_SIZE), PAGE_KERNEL_EXEC⟩ := by
    unfold walk_pmd
    simp only []
    rw [hpmd, hleaves _ r2, if_pos l1, l2, l3]
  have hpudw : ∀ X, s.mem (slot X (pud_index (PAGE_OFFSET s)))
        = pfn_pte (PFN_DOWN cfg.early_pmd) PAGE_TABLE →
      walk_pud s.mem X va = some ⟨.pmd,
        PFN_DOWN (P + (va - PAGE_OFFSET s) / 2097152 * PMD_SIZE), PAGE_KERNEL_EXEC⟩ := by
    intro X hX
    unfold walk_pud
    simp only []
    rw [hpud, hX, (link_classify _).1, (link_classify _).2.1, hrtM]
    simp only [Bool.false_eq_true, if_false, if_true]
    exact hpmdw
  unfold resolve walk
  rcases Bool.eq_false_or_eq_true s.pgtable_l4_enabled with hl | hl
  · rw [hl] at hlinks
    simp only [if_true] at hlinks
    have hidx : pgd_index s va = pgd_index_of true (PAGE_OFFSET s) := by
      rw [pgd_index_of_eq, hl, pgd_index_of_true, pgd_index_of_true]
      exact r4
    simp only [hl, if_true]
    rw [hidx, hlinks.1, (link_classify _).1, (link_classify _).2.1, hrtU]
    simp only [Bool.false_eq_true, if_false, if_true]
    rw [hpudw _ hlinks.2]
    simp only [Option.map, Level.block]
    rw [hfin]
  · rw [hl] at hlinks
    simp only [Bool.false_eq_true, if_false] at hlinks
    simp only [hl, Bool.false_eq_true, if_false]
    rw [hpudw _ hlinks]
    simp only [Option.map, Level.block]
    rw [hfin]

/-! ## Phase 1 end to end (C6) -/

theorem writes_within_trans {T : Nat} {s t u : State} (h1 : writes_within T s t)
    (h2 : writes_within T t u) : writes_within T s u :=
  ⟨same_config_trans h1.1 h2.1, fun a ha => (h2.2 a ha).trans (h1.2 a ha)⟩

/-- A cell of a table is kept by writes inside another table. -/
theorem within_keeps (T X i : Nat) (s t : State) (h : writes_within T s t)
    (hTa : T % 4096 = 0) (hXa : X % 4096 = 0) (hX : X + 4096 ≤ 18446744073709551616)
    (hne : X ≠ T) (hi : i < 512) : t.mem (slot X i) = s.mem (slot X i) := by
  refine h.2 _ ?_
  have := cell_out X T i hX hi hXa hTa hne
  rw [PAGE_SIZE_eq]
  omega

theorem pgd_leaf_within (cfg : Config) (s : State) (T va pa prot : Nat)
    (h : s.mmu_enabled = false) :
    ∃ s1, create_pgd_mapping cfg s T va pa (PGDIR_SIZE s) prot = .ok s1 ∧ same_config s s1 ∧
      ∀ a, a ≠ slot T (pgd_index s va) → s1.mem a = s.mem a := by
  rw [pgd_leaf_off cfg s T va pa prot h]
  refine ⟨_, rfl, ?_, ?_⟩
  · split
    · simp [same_config]
    · exact same_config_refl s
  · intro a ha
    split
    · simp [upd, ha]
    · rfl

theorem pud_leaf_opt (cfg : Config) (s : State) (T va pa prot : Nat)
    (h : s.mmu_enabled = false) (hT : T + PAGE_SIZE ≤ WORD) :
    ∃ s1, (if s.pgtable_l4_enabled then create_pud_mapping cfg s T va pa PUD_SIZE prot
        else .ok s) = .ok s1 ∧ writes_within T s s1 := by
  split
  · exact pud_leaf_off cfg s T va pa prot h hT
  · exact ⟨s, rfl, writes_within_refl T s⟩

theorem fdt_loop (cfg : Config) (dtb V0 FS : Nat)
    (hF : cfg.fixmap_pte + PAGE_SIZE ≤ WORD) (hV : V0 + FS + 4096 ≤ 18446744073709551616) :
    ∀ (fuel i : Nat) (s : State), s.mmu_enabled = false → FS ≤ (i + fuel) * 4096 →
      ∃ s1, setup_vm_fdt cfg dtb (add64 V0 FS) fuel s (V0 + i * 4096) = .ok s1 ∧
        writes_within cfg.fixmap_pte s s1 := by
  have hend : add64 V0 FS = V0 + FS := by
    unfold add64
    rw [WORD_eq]
    exact Nat.mod_eq_of_lt (by omega)
  intro fuel
  induction fuel with
  | zero =>
    intro i s hoff hf
    refine ⟨s, ?_, writes_within_refl _ s⟩
    unfold setup_vm_fdt
    rw [hend, if_neg (by omega)]
  | succ f ih =>
    intro i s hoff hf
    by_cases hlt : V0 + i * 4096 < V0 + FS
    · obtain ⟨s1, e1, w1⟩ := pte_leaf_off cfg s cfg.fixmap_pte (V0 + i * 4096)
        (add64 dtb (sub64 (V0 + i * 4096) (__fix_to_virt cfg s cfg.FIX_FDT))) PAGE_KERNEL
        hoff hF
      obtain ⟨s2, e2, w2⟩ := ih (i + 1) s1 (by rw [w1.1.1]; exact hoff) (by omega)
      refine ⟨s2, ?_, writes_within_trans w1 w2⟩
      have hva : add64 (V0 + i * 4096) PAGE_SIZE = V0 + (i + 1) * 4096 := by
        unfold add64
        rw [WORD_eq, PAGE_SIZE_eq]
        omega
      rw [setup_vm_fdt, hend, if_pos hlt, symbol_off s _ hoff, e1, bind_ok, hva, ← hend]
      exact e2
    · refine ⟨s, ?_, writes_within_refl _ s⟩
      rw [setup_vm_fdt, hend, if_neg hlt]

theorem fix_to_virt_congr (cfg : Config) (s t : State) (x : Nat) (h : same_config s t) :
    __fix_to_virt cfg t x = __fix_to_virt cfg s x := by
  unfold __fix_to_virt PAGE_OFFSET
  rw [h.2.2.2.1]

/-- The six inserts of `setup_vm` before the image loop (lines 523-541) keep a
cell of the early root other than the one of the fixmap. -/
theorem setup_vm_tables_kmap (cfg : Config) (s : State) (dtb P S : Nat)
    (hoff : s.mmu_enabled = false) (hT : Tables_ok cfg)
    (h1 : PAGE_OFFSET s % 1073741824 = 0) (h2 : PAGE_OFFSET s < 18446744073709551616)
    (hS : S ≤ 134217728) (hP : P + S ≤ 18446744073709551616)
    (hfix : pgd_index s (FIXADDR_START cfg s) ≠ pgd_index s (PAGE_OFFSET s))
    (hfdt : __fix_to_virt cfg s cfg.FIX_FDT + cfg.FIX_FDT_SIZE + 4096 ≤ 18446744073709551616)
    (hzero : s.mem (slot cfg.early_pg_dir (pgd_index s (PAGE_OFFSET s))) = 0) :
    ∃ s' n, setup_vm_tables cfg s dtb P S PMD_SIZE = .ok s' ∧
      s'.va_pa_offset = s.va_pa_offset ∧ s'.pgtable_l4_enabled = s.pgtable_l4_enabled ∧
      s'.kernel_virt_addr = s.kernel_virt_addr ∧
      Image_inv cfg s'.mem s.pgtable_l4_enabled (PAGE_OFFSET s) P n ∧
      S ≤ n * 2097152 ∧ n ≤ 64 ∧
      ∃ s9 s10, same_config s s9 ∧ s9.mmu_enabled = false ∧
        (∀ j, j < 512 → s9.mem (slot cfg.fixmap_pte j) = s.mem (slot cfg.fixmap_pte j)) ∧
        setup_vm_fdt cfg dtb (add64 (__fix_to_virt cfg s cfg.FIX_FDT) cfg.FIX_FDT_SIZE)
          (cfg.FIX_FDT_SIZE / PAGE_SIZE + 1) s9 (__fix_to_virt cfg s cfg.FIX_FDT) = .ok s10 ∧
        s' = { s10 with
          dtb_early_va := add64 (__fix_to_virt cfg s10 cfg.FIX_FDT) (dtb &&& (PAGE_SIZE - 1))
          dtb_early_pa := dtb } := by
  obtain ⟨⟨hRa, hR⟩, ⟨hUa, hU⟩, ⟨hMa, hM⟩, hRU, hRM, hUM⟩ := early_tables_facts cfg hT
  have hFa : cfg.fixmap_pte % 4096 = 0 := (tables_get_ok cfg hT 3 (by decide)).1
  have hF : cfg.fixmap_pte + 4096 ≤ 18446744073709551616 :=
    (tables_get_ok cfg hT 3 (by decide)).2
  have hFR : cfg.fixmap_pte ≠ cfg.early_pg_dir :=
    tables_get_ne cfg hT 3 0 (by decide) (by decide) (by decide)
  have hFU : cfg.fixmap_pte ≠ cfg.early_pud :=
    tables_get_ne cfg hT 3 9 (by decide) (by decide) (by decide)
  have hFM : cfg.fixmap_pte ≠ cfg.early_pmd :=
    tables_get_ne cfg hT 3 8 (by decide) (by decide) (by decide)
  have keepF : ∀ i (hi : i < 10), i ≠ 3 → ∀ (a b : State),
      writes_within ((tables cfg).get ⟨i, hi⟩) a b → ∀ j, j < 512 →
        b.mem (slot cfg.fixmap_pte j) = a.mem (slot cfg.fixmap_pte j) := by
    intro i hi n3 a b hw j hj
    exact within_keeps _ cfg.fixmap_pte j a b hw (tables_get_ok cfg hT i hi).1 hFa hF
      (tables_get_ne cfg hT 3 i (by decide) hi (Ne.symm n3)) hj
  have hW : ∀ i (hi : i < 10), (tables cfg).get ⟨i, hi⟩ + PAGE_SIZE ≤ WORD := by
    intro i hi
    rw [PAGE_SIZE_eq, WORD_eq]
    exact (tables_get_ok cfg hT i hi).2
  have hidx := pgd_index_lt s (PAGE_OFFSET s)
  -- cells of the early tables are kept by writes inside table number `i`
  have keep : ∀ i (hi : i < 10), i ≠ 0 → i ≠ 8 → i ≠ 9 → ∀ (a b : State),
      writes_within ((tables cfg).get ⟨i, hi⟩) a b →
      ∀ X j, (X = cfg.early_pg_dir ∨ X = cfg.early_pud ∨ X = cfg.early_pmd) → j < 512 →
        b.mem (slot X j) = a.mem (slot X j) := by
    intro i hi n0 n8 n9 a b hw X j hX hj
    rcases hX with hX | hX | hX
    · exact within_keeps _ X j a b hw (tables_get_ok cfg hT i hi).1 (by rw [hX]; exact hRa)
        (by rw [hX]; exact hR)
        (by rw [hX]; exact tables_get_ne cfg hT 0 i (by decide) hi (Ne.symm n0)) hj
    · exact within_keeps _ X j a b hw (tables_get_ok cfg hT i hi).1 (by rw [hX]; exact hUa)
        (by rw [hX]; exact hU)
        (by rw [hX]; exact tables_get_ne cfg hT 9 i (by decide) hi (Ne.symm n9)) hj
    · exact within_keeps _ X j a b hw (tables_get_ok cfg hT i hi).1 (by rw [hX]; exact hMa)
        (by rw [hX]; exact hM)
        (by rw [hX]; exact tables_get_ne cfg hT 8 i (by decide) hi (Ne.symm n8)) hj
  unfold setup_vm_tables
  -- line 523: the fixmap in the early root
  obtain ⟨s3, e3, c3, f3⟩ := pgd_leaf_within cfg s cfg.early_pg_dir (FIXADDR_START cfg s)
    (fixmap_pgd_next cfg s) PAGE_TABLE hoff
  have z3 : s3.mem (slot cfg.early_pg_dir (pgd_index s (PAGE_OFFSET s))) = 0 := by
    rw [f3 _ (cell_inj _ _ _ hR hidx (pgd_index_lt s _) (Ne.symm hfix))]
    exact hzero
  have o3 : s3.mmu_enabled = false := by rw [c3.1]; exact hoff
  rw [symbol_off s _ hoff, e3]
  simp only [bind_ok, symbol_off s3 _ o3]
  -- lines 526-528
  obtain ⟨s4, e4, w4⟩ := pud_leaf_opt cfg s3 cfg.fixmap_pud (FIXADDR_START cfg s3)
    cfg.fixmap_pmd PAGE_TABLE o3 (hW 5 (by decide))
  have c4 := same_config_trans c3 w4.1
  have o4 : s4.mmu_enabled = false := by rw [c4.1]; exact hoff
  rw [e4]
  simp only [bind_ok, symbol_off s4 _ o4]
  -- line 530
  obtain ⟨s5, e5, w5⟩ := pmd_leaf_off cfg s4 cfg.fixmap_pmd (FIXADDR_START cfg s4)
    cfg.fixmap_pte PAGE_TABLE o4 (hW 4 (by decide))
  have c5 := same_config_trans c4 w5.1
  have o5 : s5.mmu_enabled = false := by rw [c5.1]; exact hoff
  rw [e5]
  simp only [bind_ok, symbol_off s5 _ o5]
  -- line 536
  obtain ⟨s6, e6, w6⟩ : ∃ s6, create_pgd_mapping cfg s5 cfg.trampoline_pg_dir (PAGE_OFFSET s5)
      (trampoline_pgd_next cfg s5) (PGDIR_SIZE s5) PAGE_TABLE = .ok s6 ∧
      writes_within cfg.trampoline_pg_dir s5 s6 := by
    rw [pgd_leaf_off cfg s5 _ _ _ _ o5]
    exact ⟨_, rfl, leaf_step_within _ _ _ s5 (hW 1 (by decide)) (pgd_index_lt s5 _)⟩
  have c6 := same_config_trans c5 w6.1
  have o6 : s6.mmu_enabled = false := by rw [c6.1]; exact hoff
  rw [e6]
  simp only [bind_ok, symbol_off s6 _ o6]
  -- lines 538-540
  obtain ⟨s7, e7, w7⟩ := pud_leaf_opt cfg s6 cfg.trampoline_pud (PAGE_OFFSET s6)
    cfg.trampoline_pmd PAGE_TABLE o6 (hW 7 (by decide))
  have c7 := same_config_trans c6 w7.1
  have o7 : s7.mmu_enabled = false := by rw [c7.1]; exact hoff
  rw [e7]
  simp only [bind_ok, symbol_off s7 _ o7]
  -- line 541
  obtain ⟨s8, e8, w8⟩ := pmd_leaf_off cfg s7 cfg.trampoline_pmd (PAGE_OFFSET s7)
    P PAGE_KERNEL_EXEC o7 (hW 6 (by decide))
  have c8 := same_config_trans c7 w8.1
  have o8 : s8.mmu_enabled = false := by rw [c8.1]; exact hoff
  rw [e8]
  simp only [bind_ok]
  have z8 : s8.mem (slot cfg.early_pg_dir (pgd_index s (PAGE_OFFSET s))) = 0 := by
    rw [keep 6 (by decide) (by decide) (by decide) (by decide) s7 s8 w8 _ _ (Or.inl rfl) hidx,
      keep 7 (by decide) (by decide) (by decide) (by decide) s6 s7 w7 _ _ (Or.inl rfl) hidx,
      keep 1 (by decide) (by decide) (by decide) (by decide) s5 s6 w6 _ _ (Or.inl rfl) hidx,
      keep 4 (by decide) (by decide) (by decide) (by decide) s4 s5 w5 _ _ (Or.inl rfl) hidx,
      keep 5 (by decide) (by decide) (by decide) (by decide) s3 s4 w4 _ _ (Or.inl rfl) hidx]
    exact z3
  -- lines 554-558: the image
  have p8 : PAGE_OFFSET s8 = PAGE_OFFSET s := c8.2.2.2.1
  have l8 : s8.pgtable_l4_enabled = s.pgtable_l4_enabled := c8.2.1
  have i8 : Image_inv cfg s8.mem s.pgtable_l4_enabled (PAGE_OFFSET s) P 0 := by
    refine ⟨fun _ => ?_, fun h => absurd h (by decide)⟩
    rw [← pgd_index_of_eq]
    exact z8
  obtain ⟨s9, n, e9, c9', i9, b1, _, b3, f9⟩ := image_loop cfg P S (PAGE_OFFSET s)
    s.pgtable_l4_enabled hT h1 h2 hS hP (S / PMD_SIZE + 1) 0 s8 o8 p8 l8
    (by rw [PMD_SIZE_eq]; omega) (by decide) i8
  have c9 := same_config_trans c8 c9'
  have o9 : s9.mmu_enabled = false := by rw [c9.1]; exact hoff
  simp only [Nat.zero_mul, Nat.add_zero] at e9
  rw [p8, e9]
  simp only [bind_ok]
  -- lines 561-565: the blob
  have hv9 : __fix_to_virt cfg s9 cfg.FIX_FDT = __fix_to_virt cfg s cfg.FIX_FDT :=
    fix_to_virt_congr cfg s s9 _ c9
  obtain ⟨s10, e10, w10⟩ := fdt_loop cfg dtb (__fix_to_virt cfg s cfg.FIX_FDT) cfg.FIX_FDT_SIZE
    (hW 3 (by decide)) hfdt (cfg.FIX_FDT_SIZE / PAGE_SIZE + 1) 0 s9 o9
    (by rw [PAGE_SIZE_eq]; omega)
  simp only [Nat.zero_mul, Nat.add_zero] at e10
  rw [hv9, e10]
  simp only [bind_ok]
  have c10 := same_config_trans c9 w10.1
  have e10' := e10
  rw [← hv9] at e10
  refine ⟨_, n, rfl, c10.2.2.2.2.1, c10.2.1, c10.2.2.2.1, ?_, b1, b3, s9, s10, c9, o9, ?_, e10',
    rfl⟩
  · exact image_inv_frame cfg s9.mem _ _ _ _ n (by omega)
      (keep 3 (by decide) (by decide) (by decide) (by decide) s9 s10 w10) i9
  · intro j hj
    have hout : outside [cfg.early_pg_dir, cfg.early_pud, cfg.early_pmd]
        (slot cfg.fixmap_pte j) := by
      intro p hp
      simp only [List.mem_cons, List.mem_singleton, List.not_mem_nil, or_false] at hp
      rcases hp with rfl | rfl | rfl
      · exact cell_out _ _ j hF hj hFa hRa hFR
      · exact cell_out _ _ j hF hj hFa hUa hFU
      · exact cell_out _ _ j hF hj hFa hMa hFM
    rw [f9 _ hout,
      keepF 6 (by decide) (by decide) s7 s8 w8 j hj,
      keepF 7 (by decide) (by decide) s6 s7 w7 j hj,
      keepF 1 (by decide) (by decide) s5 s6 w6 j hj,
      keepF 4 (by decide) (by decide) s4 s5 w5 j hj,
      keepF 5 (by decide) (by decide) s3 s4 w4 j hj]
    exact f3 _ (cell_ne _ _ j _ hF hR hj (pgd_index_lt s _) hFa hRa hFR)

theorem resolve_offset (PO P S va : Nat) (h2 : PO < 18446744073709551616)
    (hP : P + S ≤ 18446744073709551616) (hPO : P ≤ 18446744073709551616)
    (hva : PO ≤ va) (hlt : va < PO + S) :
    (va + 18446744073709551616
        - (PO + 18446744073709551616 - P % 18446744073709551616) % 18446744073709551616
          % 18446744073709551616) % 18446744073709551616 = P + (va - PO) := by
  omega

/-- C6: phase 1 maps the image.  Translation is off; the static tables are
distinct pages; `PAGE_OFFSET` is a multiple of `PUD_SIZE`; the image symbols
satisfy `_start ≤ _end` below the end of the address space; the fixmap lies in
another root slot than `PAGE_OFFSET` and the blob window does not wrap; the
checks of lines 516-521 pass for `P = _start` and `S = _end - _start`; the
relocator has returned, leaving the root slot of `PAGE_OFFSET` in
`early_pg_dir` empty (in particular an all-zero root).  Then `setup_vm`
returns (no fatal check of `alloc_pte`, `alloc_pmd`, `alloc_pud` or any other
fires), and in the state it leaves a walk from `early_pg_dir` resolves every
`va` in `[PAGE_OFFSET, PAGE_OFFSET + S)` to `P + (va - PAGE_OFFSET)` with
protection `PAGE_KERNEL_EXEC`, which is `va - va_pa_offset`. -/
theorem setup_vm_maps_image (cfg : Config) (s0 s2 : State) (dtb_pa : Nat)
    (hoff : s0.mmu_enabled = false) (hT : Tables_ok cfg)
    (hPO : PAGE_OFFSET s0 % PUD_SIZE = 0) (hPO2 : PAGE_OFFSET s0 < WORD)
    (himg : cfg._start ≤ cfg._end) (hend : cfg._end < WORD)
    (hfix : pgd_index s0 (FIXADDR_START cfg s0) ≠ pgd_index s0 (PAGE_OFFSET s0))
    (hfdt : __fix_to_virt cfg s0 cfg.FIX_FDT + cfg.FIX_FDT_SIZE + PAGE_SIZE ≤ WORD)
    (hchk : setup_vm_checks cfg s0 cfg._start (cfg._end - cfg._start)
      (best_map_size cfg._start MAX_EARLY_MAPPING_SIZE) = none)
    (hrel : relocate_kernel cfg { s0 with
      va_pa_offset := sub64 (PAGE_OFFSET s0) cfg._start
      pfn_base := PFN_DOWN cfg._start } cfg._start = .ok s2)
    (hzero : s2.mem (slot cfg.early_pg_dir (pgd_index s0 (PAGE_OFFSET s0))) = 0) :
    ∃ s', setup_vm cfg s0 dtb_pa = .ok s' ∧
      s'.va_pa_offset = sub64 (PAGE_OFFSET s0) cfg._start ∧
      ∀ va, PAGE_OFFSET s0 ≤ va → va < PAGE_OFFSET s0 + (cfg._end - cfg._start) →
        resolve s' cfg.early_pg_dir va
          = some (cfg._start + (va - PAGE_OFFSET s0), PAGE_KERNEL_EXEC) ∧
        cfg._start + (va - PAGE_OFFSET s0) = sub64 va s'.va_pa_offset := by
  rw [PUD_SIZE_eq] at hPO
  rw [WORD_eq] at hPO2 hend
  rw [PAGE_SIZE_eq, WORD_eq] at hfdt
  obtain ⟨k1, k2, k3⟩ := (setup_vm_checks_exact cfg s0 _ _).1.mp hchk
  rw [PMD_SIZE_eq] at k1
  have k3' : cfg._end - cfg._start ≤ 134217728 := k3
  have hsub : sub64 cfg._end cfg._start = cfg._end - cfg._start := by
    unfold sub64
    rw [WORD_eq]
    omega
  have c2 := relocate_kernel_config hrel
  have o2 : s2.mmu_enabled = false := by rw [c2.1]; exact hoff
  have p2 : PAGE_OFFSET s2 = PAGE_OFFSET s0 := c2.2.2.2.1
  have l2 : s2.pgtable_l4_enabled = s0.pgtable_l4_enabled := c2.2.1
  have v2 : s2.va_pa_offset = sub64 (PAGE_OFFSET s0) cfg._start := c2.2.2.2.2.1
  have hi2 : ∀ a, pgd_index s2 a = pgd_index s0 a := by
    intro a
    rw [pgd_index_of_eq, pgd_index_of_eq, l2]
  have hf2 : FIXADDR_START cfg s2 = FIXADDR_START cfg s0 := by
    unfold FIXADDR_START
    rw [p2]
  have h508 : ¬ (SZ_1G - (PAGE_OFFSET s0 &&& (SZ_1G - 1))
      < sub64 (symbol s0 cfg._end) (symbol s0 cfg._start)) := by
    rw [symbol_off s0 _ hoff, symbol_off s0 _ hoff, hsub]
    have hm : PAGE_OFFSET s0 &&& (SZ_1G - 1) = PAGE_OFFSET s0 % 1073741824 :=
      and_mask_eq_mod (PAGE_OFFSET s0) 30
    have hg : SZ_1G = 1073741824 := rfl
    rw [hm, hPO, hg]
    omega
  have hpass := setup_vm_pass cfg s0 s2 dtb_pa h508
    (by rw [symbol_off s0 _ hoff]; exact hrel)
    (by rw [symbol_off s0 _ hoff, PMD_SIZE_eq]; exact k1) k2
    (by rw [symbol_off s0 _ hoff, symbol_off s0 _ hoff, hsub]; exact k3)
  rw [symbol_off s0 _ hoff, symbol_off s0 _ hoff, hsub] at hpass
  obtain ⟨s', n, e, q1, q2, q3, inv, b1, b2, _⟩ := setup_vm_tables_kmap cfg s2 dtb_pa cfg._start
    (cfg._end - cfg._start) o2 hT (by rw [p2]; exact hPO) (by rw [p2]; exact hPO2) k3'
    (by omega) (by rw [hi2, hi2, hf2, p2]; exact hfix)
    (by rw [fix_to_virt_congr cfg _ s2 _ c2]; exact hfdt) (by rw [hi2, p2]; exact hzero)
  rw [p2, l2] at inv
  have p' : PAGE_OFFSET s' = PAGE_OFFSET s0 := by
    unfold PAGE_OFFSET
    rw [q3]
    exact p2
  refine ⟨s', by rw [hpass]; exact e, by rw [q1]; exact v2, ?_⟩
  intro va hva hlt
  have hn : 0 < n := by omega
  have hK := (inv.2 hn).1
  refine ⟨?_, ?_⟩
  · have hr := kmap_resolve cfg s' cfg._start n va hT (by rw [p']; exact hPO) k1 (by omega)
      (by rw [q2, l2, p']; exact hK) (by rw [p']; exact hva) (by rw [p']; omega)
      (by rw [p']; omega)
    rw [p'] at hr
    exact hr
  · rw [q1, v2]
    unfold sub64
    rw [WORD_eq]
    exact (resolve_offset (PAGE_OFFSET s0) cfg._start (cfg._end - cfg._start) va hPO2
      (by omega) (by omega) hva hlt).symm

theorem setup_vm_maps_image_witness :
    ∃ s', setup_vm cfg0 (boot cfg0 mem0 true) 0x82200000 = .ok s' ∧
      resolve s' cfg0.early_pg_dir 0xffffc00000601234 = some (0x80801234, PAGE_KERNEL_EXEC) ∧
      sub64 0xffffc00000601234 s'.va_pa_offset = 0x80801234 := by
  obtain ⟨s', h1, h2, h3⟩ := setup_vm_maps_image cfg0 (boot cfg0 mem0 true)
    { boot cfg0 mem0 true with
      va_pa_offset := 0xffffbfff7fe00000
      pfn_base := 0x80200
      mem := upd (upd mem0 0x80700000 0xffffc00000001234) 0x80700008 0x40 }
    0x82200000 rfl (by decide) (by decide) (by decide) (by decide) (by decide) (by decide)
    (by decide) (by decide) rfl rfl
  obtain ⟨h4, h5⟩ := h3 0xffffc00000601234 (by decide) (by decide)
  exact ⟨s', h1, h4, h5.symm⟩

/-! ## The staged blob (C11) -/

theorem bind_ok_inv {α β : Type} {x : Except Stopped α} {f : α → Except Stopped β} {b : β}
    (h : x.bind f = .ok b) : ∃ a, x = .ok a ∧ f a = .ok b := by
  cases x with
  | error e => simp [Except.bind] at h
  | ok a => exact ⟨a, rfl, h⟩

theorem memblock_phys_alloc_config (s : State) : same_config s (memblock_phys_alloc s).1 := by
  unfold memblock_phys_alloc
  split <;> simp [same_config, handed_out]

theorem alloc_pte_config (va : Nat) (s : State) (a : State × Nat)
    (h : alloc_pte s va = .ok a) : same_config s a.1 := by
  unfold alloc_pte at h
  split at h
  · simp at h
  · simp only [Except.ok.injEq] at h
    rw [← h]
    exact memblock_phys_alloc_config s

theorem alloc_pmd_config (cfg : Config) (va : Nat) (s : State) (a : State × Nat)
    (h : alloc_pmd cfg s va = .ok a) : same_config s a.1 := by
  unfold alloc_pmd at h
  split at h
  · simp only [Except.ok.injEq] at h
    rw [← h]
    exact memblock_phys_alloc_config s
  · split at h
    · simp at h
    · simp only [Except.ok.injEq] at h
      rw [← h]
      simp [same_config, handed_out]

theorem alloc_pud_config (cfg : Config) (va : Nat) (s : State) (a : State × Nat)
    (h : alloc_pud cfg s va = .ok a) : same_config s a.1 := by
  unfold alloc_pud at h
  split at h
  · simp only [Except.ok.injEq] at h
    rw [← h]
    exact memblock_phys_alloc_config s
  · split at h
    · simp at h
    · simp only [Except.ok.injEq] at h
      rw [← h]
      simp [same_config, handed_out]

theorem phys_pte_config (s t : State) (T va pa sz prot : Nat)
    (h : phys_pte s T va pa sz prot = .ok t) : same_config s t := by
  unfold phys_pte at h
  simp only [] at h
  split at h
  · simp at h
  · split at h
    · simp only [Except.ok.injEq] at h
      rw [← h]
      simp [same_config]
    · simp only [Except.ok.injEq] at h
      rw [← h]
      exact same_config_refl s

theorem phys_level_config (cfg : Config) (SIZE idx : Nat)
    (alloc : State → Except Stopped (State × Nat))
    (child : State → Nat → Except Stopped State) (pa sz prot : Nat)
    (ha : ∀ s a, alloc s = .ok a → same_config s a.1)
    (hc : ∀ s T t, child s T = .ok t → same_config s t) (s t : State) (T : Nat)
    (h : phys_level cfg SIZE idx alloc child s T pa sz prot = .ok t) : same_config s t := by
  unfold phys_level at h
  simp only [] at h
  split at h
  · split at h
    · simp only [Except.ok.injEq] at h
      rw [← h]
      simp [same_config]
    · simp only [Except.ok.injEq] at h
      rw [← h]
      exact same_config_refl s
  · split at h
    · obtain ⟨a, h1, h2⟩ := bind_ok_inv h
      split at h2
      · simp at h2
      · have c1 := ha s a h1
        have c2 := hc _ _ _ h2
        exact same_config_trans c1 (same_config_trans (by simp [same_config]) c2)
    · split at h
      · simp at h
      · exact hc _ _ _ h

theorem phys_pmd_config (cfg : Config) (s t : State) (T va pa sz prot : Nat)
    (h : phys_pmd cfg s T va pa sz prot = .ok t) : same_config s t :=
  phys_level_config cfg _ _ _ _ pa sz prot (alloc_pte_config va)
    (fun s T t h => phys_pte_config s t T va pa sz prot h) s t T h

theorem phys_pud_config (cfg : Config) (s t : State) (T va pa sz prot : Nat)
    (h : phys_pud cfg s T va pa sz prot = .ok t) : same_config s t :=
  phys_level_config cfg _ _ _ _ pa sz prot (alloc_pmd_config cfg va)
    (fun s T t h => phys_pmd_config cfg s t T va pa sz prot h) s t T h

theorem phys_pgd_config (cfg : Config) (s t : State) (T va pa sz prot : Nat)
    (h : phys_pgd cfg s T va pa sz prot = .ok t) : same_config s t := by
  unfold phys_pgd at h
  split at h
  · exact phys_pud_config cfg s t T va pa sz prot h
  · exact phys_level_config cfg _ _ _ _ pa sz prot (alloc_pud_config cfg va)
      (fun s T t h => phys_pud_config cfg s t T va pa sz prot h) s t T h

theorem setup_vm_image_config (cfg : Config) (P ms e : Nat) :
    ∀ (fuel : Nat) (s t : State) (va : Nat), s.mmu_enabled = false →
      setup_vm_image cfg P ms e fuel s va = .ok t → same_config s t := by
  intro fuel
  induction fuel with
  | zero =>
    intro s t va _ h
    unfold setup_vm_image at h
    split at h
    · simp at h
    · simp only [Except.ok.injEq] at h
      rw [← h]
      exact same_config_refl s
  | succ f ih =>
    intro s t va hoff h
    rw [setup_vm_image] at h
    split at h
    · obtain ⟨s1, h1, h2⟩ := bind_ok_inv h
      rw [pgd_off cfg s _ _ _ _ _ hoff] at h1
      have c1 := phys_pgd_config cfg s s1 _ _ _ _ _ h1
      exact same_config_trans c1 (ih s1 t _ (by rw [c1.1]; exact hoff) h2)
    · simp only [Except.ok.injEq] at h
      rw [← h]
      exact same_config_refl s

theorem setup_vm_fdt_config (cfg : Config) (dtb e : Nat) :
    ∀ (fuel : Nat) (s t : State) (va : Nat), s.mmu_enabled = false →
      setup_vm_fdt cfg dtb e fuel s va = .ok t → same_config s t := by
  intro fuel
  induction fuel with
  | zero =>
    intro s t va _ h
    unfold setup_vm_fdt at h
    split at h
    · simp at h
    · simp only [Except.ok.injEq] at h
      rw [← h]
      exact same_config_refl s
  | succ f ih =>
    intro s t va hoff h
    rw [setup_vm_fdt] at h
    split at h
    · obtain ⟨s1, h1, h2⟩ := bind_ok_inv h
      rw [pte_off cfg s _ _ _ _ _ hoff] at h1
      have c1 := phys_pte_config s s1 _ _ _ _ _ h1
      exact same_config_trans c1 (ih s1 t _ (by rw [c1.1]; exact hoff) h2)
    · simp only [Except.ok.injEq] at h
      rw [← h]
      exact same_config_refl s

/-- The table construction of `setup_vm` publishes the blob address and changes
no other global. -/
theorem setup_vm_tables_config (cfg : Config) (s t : State) (dtb P S ms : Nat)
    (hoff : s.mmu_enabled = false) (h : setup_vm_tables cfg s dtb P S ms = .ok t) :
    t.mmu_enabled = false ∧ t.pgtable_l4_enabled = s.pgtable_l4_enabled ∧
    t.satp_mode = s.satp_mode ∧ t.kernel_virt_addr = s.kernel_virt_addr ∧
    t.va_pa_offset = s.va_pa_offset ∧ t.pfn_base = s.pfn_base ∧ t.dtb_early_pa = dtb := by
  unfold setup_vm_tables at h
  obtain ⟨s3, e3, h⟩ := bind_ok_inv h
  rw [pgd_off cfg s _ _ _ _ _ hoff] at e3
  have c3 := phys_pgd_config cfg _ _ _ _ _ _ _ e3
  have o3 : s3.mmu_enabled = false := by rw [c3.1]; exact hoff
  obtain ⟨s4, e4, h⟩ := bind_ok_inv h
  have c4 : same_config s s4 := by
    split at e4
    · rw [pud_off cfg s3 _ _ _ _ _ o3] at e4
      exact same_config_trans c3 (phys_pud_config cfg _ _ _ _ _ _ _ e4)
    · simp only [Except.ok.injEq] at e4
      rw [← e4]
      exact c3
  have o4 : s4.mmu_enabled = false := by rw [c4.1]; exact hoff
  obtain ⟨s5, e5, h⟩ := bind_ok_inv h
  rw [pmd_off cfg s4 _ _ _ _ _ o4] at e5
  have c5 := same_config_trans c4 (phys_pmd_config cfg _ _ _ _ _ _ _ e5)
  have o5 : s5.mmu_enabled = false := by rw [c5.1]; exact hoff
  obtain ⟨s6, e6, h⟩ := bind_ok_inv h
  rw [pgd_off cfg s5 _ _ _ _ _ o5] at e6
  have c6 := same_config_trans c5 (phys_pgd_config cfg _ _ _ _ _ _ _ e6)
  have o6 : s6.mmu_enabled = false := by rw [c6.1]; exact hoff
  obtain ⟨s7, e7, h⟩ := bind_ok_inv h
  have c7 : same_config s s7 := by
    split at e7
    · rw [pud_off cfg s6 _ _ _ _ _ o6] at e7
      exact same_config_trans c6 (phys_pud_config cfg _ _ _ _ _ _ _ e7)
    · simp only [Except.ok.injEq] at e7
      rw [← e7]
      exact c6
  have o7 : s7.mmu_enabled = false := by rw [c7.1]; exact hoff
  obtain ⟨s8, e8, h⟩ := bind_ok_inv h
  rw [pmd_off cfg s7 _ _ _ _ _ o7] at e8
  have c8 := same_config_trans c7 (phys_pmd_config cfg _ _ _ _ _ _ _ e8)
  have o8 : s8.mmu_enabled = false := by rw [c8.1]; exact hoff
  obtain ⟨s9, e9, h⟩ := bind_ok_inv h
  have c9 := same_config_trans c8 (setup_vm_image_config cfg _ _ _ _ _ _ _ o8 e9)
  have o9 : s9.mmu_enabled = false := by rw [c9.1]; exact hoff
  obtain ⟨s10, e10, h⟩ := bind_ok_inv h
  have c10 := same_config_trans c9 (setup_vm_fdt_config cfg _ _ _ _ _ _ o9 e10)
  simp only [Except.ok.injEq] at h
  rw [← h]
  obtain ⟨a1, a2, a3, a4, a5, a6, _, _, _⟩ := c10
  exact ⟨by rw [← hoff]; exact a1, a2, a3, a4, a5, a6, rfl⟩

/-! ## Depth fallback (C8) -/

theorem zero_words_cases (m : Nat → Nat) (T a : Nat) (hT : T + 4096 ≤ 18446744073709551616) :
    zero_words m T 512 a = 0 ∨ zero_words m T 512 a = m a := by
  have h := zero_words_page m T hT
  have hpw : PAGE_SIZE / 8 = 512 := rfl
  rw [hpw] at h
  rw [h]
  simp only []
  split
  · exact Or.inl rfl
  · exact Or.inr rfl

theorem zero_words_not_cell (m : Nat → Nat) (T a : Nat) (hT : T + 4096 ≤ 18446744073709551616)
    (ha : ∀ i, i < 512 → a ≠ slot T i) : zero_words m T 512 a = m a := by
  have h := zero_words_page m T hT
  have hpw : PAGE_SIZE / 8 = 512 := rfl
  rw [hpw] at h
  rw [h]
  simp only []
  split
  · rename_i hc
    exfalso
    refine ha ((a - T) / 8) (by omega) ?_
    rw [cell_eq T _ hT (by omega)]
    omega
  · rfl

theorem fold_entry_eq (cfg : Config) (s : State) (hoff : s.mmu_enabled = false) :
    setup_vm_fold_pud cfg s = setup_vm cfg (fold_entry cfg s) s.dtb_early_pa := by
  unfold setup_vm_fold_pud
  simp only []
  rw [memset_zero_off cfg _ _ _ (by exact hoff)]
  simp only [bind_ok]
  rw [memset_zero_off cfg _ _ _ (by exact hoff)]
  simp only [bind_ok]
  rw [symbol_off _ _ (by exact hoff), symbol_off _ _ (by exact hoff)]
  rfl

theorem fold_entry_mem (cfg : Config) (s : State) (hT : Tables_ok cfg) :
    (∀ i, i < 512 → (fold_entry cfg s).mem (slot cfg.early_pg_dir i) = 0 ∧
      (fold_entry cfg s).mem (slot cfg.trampoline_pg_dir i) = 0) ∧
    (∀ a, (∀ i, i < 512 → a ≠ slot cfg.early_pg_dir i ∧ a ≠ slot cfg.trampoline_pg_dir i) →
      (fold_entry cfg s).mem a = s.mem a) := by
  have hR : cfg.early_pg_dir + 4096 ≤ 18446744073709551616 :=
    (tables_get_ok cfg hT 0 (by decide)).2
  have hX : cfg.trampoline_pg_dir + 4096 ≤ 18446744073709551616 :=
    (tables_get_ok cfg hT 1 (by decide)).2
  refine ⟨fun i hi => ⟨?_, ?_⟩, fun a ha => ?_⟩
  · exact zero_words_in _ _ _ hR hi
  · show zero_words (zero_words s.mem cfg.trampoline_pg_dir 512) cfg.early_pg_dir 512
      (slot cfg.trampoline_pg_dir i) = 0
    rcases zero_words_cases (zero_words s.mem cfg.trampoline_pg_dir 512) cfg.early_pg_dir
      (slot cfg.trampoline_pg_dir i) hR with h | h
    · exact h
    · rw [h]
      exact zero_words_in _ _ _ hX hi
  · show zero_words (zero_words s.mem cfg.trampoline_pg_dir 512) cfg.early_pg_dir 512 a = s.mem a
    rw [zero_words_not_cell _ _ _ hR (fun i hi => (ha i hi).1),
      zero_words_not_cell _ _ _ hX (fun i hi => (ha i hi).2)]

theorem fold_entry_congr (cfg : Config) (s : State) (m : Nat → Nat) (hT : Tables_ok cfg)
    (hm : ∀ a, (∀ i, i < 512 → a ≠ slot cfg.early_pg_dir i ∧ a ≠ slot cfg.trampoline_pg_dir i) →
      m a = s.mem a) :
    fold_entry cfg { s with mem := m } = fold_entry cfg s := by
  have hR : cfg.early_pg_dir + 4096 ≤ 18446744073709551616 :=
    (tables_get_ok cfg hT 0 (by decide)).2
  have hX : cfg.trampoline_pg_dir + 4096 ≤ 18446744073709551616 :=
    (tables_get_ok cfg hT 1 (by decide)).2
  have hmem : zero_words (zero_words m cfg.trampoline_pg_dir 512) cfg.early_pg_dir 512
      = zero_words (zero_words s.mem cfg.trampoline_pg_dir 512) cfg.early_pg_dir 512 := by
    funext a
    by_cases h1 : ∃ i, i < 512 ∧ a = slot cfg.early_pg_dir i
    · obtain ⟨i, hi, rfl⟩ := h1
      rw [zero_words_in _ _ _ hR hi, zero_words_in _ _ _ hR hi]
    · have h1' : ∀ i, i < 512 → a ≠ slot cfg.early_pg_dir i := fun i hi he => h1 ⟨i, hi, he⟩
      rw [zero_words_not_cell _ _ _ hR h1', zero_words_not_cell _ _ _ hR h1']
      by_cases h2 : ∃ i, i < 512 ∧ a = slot cfg.trampoline_pg_dir i
      · obtain ⟨i, hi, rfl⟩ := h2
        rw [zero_words_in _ _ _ hX hi, zero_words_in _ _ _ hX hi]
      · have h2' : ∀ i, i < 512 → a ≠ slot cfg.trampoline_pg_dir i :=
          fun i hi he => h2 ⟨i, hi, he⟩
        rw [zero_words_not_cell _ _ _ hX h2', zero_words_not_cell _ _ _ hX h2']
        exact hm a (fun i hi => ⟨h1' i hi, h2' i hi⟩)
  unfold fold_entry
  simp only []
  rw [hmem]

/-- What a returning `setup_vm` publishes, translation being off. -/
theorem setup_vm_config (cfg : Config) (s t : State) (dtb : Nat)
    (hoff : s.mmu_enabled = false) (h : setup_vm cfg s dtb = .ok t) :
    t.mmu_enabled = false ∧ t.pgtable_l4_enabled = s.pgtable_l4_enabled ∧
    t.satp_mode = s.satp_mode ∧ t.kernel_virt_addr = s.kernel_virt_addr ∧
    t.va_pa_offset = sub64 (PAGE_OFFSET s) cfg._start ∧ t.dtb_early_pa = dtb := by
  unfold setup_vm at h
  simp only [] at h
  split at h
  · simp at h
  · obtain ⟨s2, e2, h⟩ := bind_ok_inv h
    have c2 := relocate_kernel_config e2
    split at h
    · simp at h
    · obtain ⟨a1, a2, a3, a4, a5, _, a7⟩ := setup_vm_tables_config cfg s2 t _ _ _ _
        (by rw [c2.1]; exact hoff) h
      refine ⟨a1, a2.trans c2.2.1, a3.trans c2.2.2.1, a4.trans c2.2.2.2.1, ?_, a7⟩
      rw [a5, c2.2.2.2.2.1]
      show sub64 (PAGE_OFFSET s) (symbol s cfg._start) = _
      rw [symbol_off s _ hoff]

/-- C8: the depth fallback, translation being off and the static tables being
distinct pages.  `setup_vm_fold_pud` is `setup_vm` run, with the blob address
the first run recorded, from the state `fold_entry` in which the depth is
shallow, the base is `PAGE_OFFSET_L3`, the mode tag is `SATP_MODE_39`, every
entry of `early_pg_dir` and of `trampoline_pg_dir` is zero and all other memory
is as it was; so the re-run performs every check of phase 1 against the new
base, and nothing the two roots held before has any influence on the result.
If it returns, the state it leaves has the shallow depth, `kernel_virt_addr =
PAGE_OFFSET_L3`, `satp_mode = SATP_MODE_39`, `va_pa_offset = PAGE_OFFSET_L3 -
load_pa` and the blob address of the first run. -/
theorem setup_vm_fold_pud_post (cfg : Config) (s : State)
    (hoff : s.mmu_enabled = false) (hT : Tables_ok cfg) :
    setup_vm_fold_pud cfg s = setup_vm cfg (fold_entry cfg s) s.dtb_early_pa ∧
    (∀ i, i < 512 → (fold_entry cfg s).mem (slot cfg.early_pg_dir i) = 0 ∧
      (fold_entry cfg s).mem (slot cfg.trampoline_pg_dir i) = 0) ∧
    (∀ a, (∀ i, i < 512 → a ≠ slot cfg.early_pg_dir i ∧ a ≠ slot cfg.trampoline_pg_dir i) →
      (fold_entry cfg s).mem a = s.mem a) ∧
    (∀ m, (∀ a, (∀ i, i < 512 →
          a ≠ slot cfg.early_pg_dir i ∧ a ≠ slot cfg.trampoline_pg_dir i) → m a = s.mem a) →
      setup_vm_fold_pud cfg { s with mem := m } = setup_vm_fold_pud cfg s) ∧
    (∀ s', setup_vm_fold_pud cfg s = .ok s' →
      s'.pgtable_l4_enabled = false ∧ s'.kernel_virt_addr = cfg.PAGE_OFFSET_L3 ∧
      s'.satp_mode = SATP_MODE_39 ∧
      s'.va_pa_offset = sub64 cfg.PAGE_OFFSET_L3 (symbol s cfg._start) ∧
      s'.dtb_early_pa = s.dtb_early_pa ∧ s'.mmu_enabled = false) := by
  have hm := fold_entry_mem cfg s hT
  refine ⟨fold_entry_eq cfg s hoff, hm.1, hm.2, ?_, ?_⟩
  · intro m hmm
    rw [fold_entry_eq cfg s hoff, fold_entry_eq cfg _ (by exact hoff),
      fold_entry_congr cfg s m hT hmm]
  · intro s' h
    rw [fold_entry_eq cfg s hoff] at h
    obtain ⟨a1, a2, a3, a4, a5, a6⟩ := setup_vm_config cfg (fold_entry cfg s) s' _ hoff h
    refine ⟨a2, a4, a3, ?_, a6, a1⟩
    rw [a5, symbol_off s _ hoff]
    rfl

/-- A table without load-relative records: the relocator returns the state it
was given. -/
theorem relocate_kernel_none (cfg : Config) (s : State) (P : Nat)
    (hoff : s.mmu_enabled = false) (hend : cfg.__rela_dyn_end + 24 ≤ WORD)
    (hnone : ∀ i, i < rela_count cfg → rela_info cfg s.mem i ≠ R_RISCV_RELATIVE) :
    relocate_kernel cfg s P = .ok s := by
  obtain ⟨m', hrun, _, _, hframe⟩ :=
    relocate_loop_table cfg s P hend (fun i hi h => absurd h (hnone i hi))
      (fun i hi h => absurd h (hnone i hi))
      (fun i j hi _ h => absurd h (hnone i hi)) (rela_count cfg) 0 _ s (by omega)
      (relocate_fuel_enough cfg s hoff hend) hoff (fun _ _ => ⟨rfl, rfl, rfl⟩)
  have hm : m' = s.mem := by
    funext a
    exact hframe a (fun i _ hi => hnone i hi)
  rw [hm] at hrun
  unfold relocate_kernel
  simp only [symbol_off s _ hoff] at hrun ⊢
  simpa using hrun

theorem setup_vm_fold_pud_post_witness :
    populated0.mem 0x80900c00 ≠ 0 ∧ (fold_entry cfg0 populated0).mem 0x80900c00 = 0 ∧
    ∃ s', setup_vm_fold_pud cfg0 populated0 = .ok s' ∧ s'.pgtable_l4_enabled = false ∧
      s'.kernel_virt_addr = 0xffffffe000000000 ∧ s'.satp_mode = SATP_MODE_39 ∧
      s'.va_pa_offset = 0xffffffdf7fe00000 ∧ s'.dtb_early_pa = 0 := by
  obtain ⟨h1, h2, h3, _, h5⟩ := setup_vm_fold_pud_post cfg0 populated0 rfl (by decide)
  refine ⟨by decide, (h2 384 (by decide)).1, ?_⟩
  have hlow : ∀ a, a < 0x80900000 → (fold_entry cfg0 populated0).mem a = populated0.mem a := by
    intro a ha
    refine h3 a (fun i hi => ⟨?_, ?_⟩)
    · have := (cell_in cfg0.early_pg_dir i (by decide) hi).1
      generalize slot cfg0.early_pg_dir i = c at this ⊢
      have e : cfg0.early_pg_dir = 0x80900000 := rfl
      rw [e] at this
      omega
    · have := (cell_in cfg0.trampoline_pg_dir i (by decide) hi).1
      generalize slot cfg0.trampoline_pg_dir i = c at this ⊢
      have e : cfg0.trampoline_pg_dir = 0x80901000 := rfl
      rw [e] at this
      omega
  have hn : rela_count cfg0 = 3 := by decide
  have hrel : relocate_kernel cfg0 { fold_entry cfg0 populated0 with
      va_pa_offset := sub64 (PAGE_OFFSET (fold_entry cfg0 populated0))
        (symbol (fold_entry cfg0 populated0) cfg0._start)
      pfn_base := PFN_DOWN (symbol (fold_entry cfg0 populated0) cfg0._start) }
      (symbol (fold_entry cfg0 populated0) cfg0._start) = .ok { fold_entry cfg0 populated0 with
      va_pa_offset := sub64 (PAGE_OFFSET (fold_entry cfg0 populated0))
        (symbol (fold_entry cfg0 populated0) cfg0._start)
      pfn_base := PFN_DOWN (symbol (fold_entry cfg0 populated0) cfg0._start) } := by
    refine relocate_kernel_none cfg0 _ _ rfl (by decide) ?_
    intro i hi
    rw [hn] at hi
    show read64 (fold_entry cfg0 populated0).mem (cfg0.__rela_dyn_start + 24 * i + 8) ≠ 3
    interval_cases i
    · rw [read64_aligned _ _ (by decide), hlow _ (by decide)]; decide
    · rw [read64_aligned _ _ (by decide), hlow _ (by decide)]; decide
    · rw [read64_aligned _ _ (by decide), hlow _ (by decide)]; decide
  have hpass := setup_vm_pass cfg0 (fold_entry cfg0 populated0) _ 0 (by decide) hrel
    (by decide) (by decide) (by decide)
  obtain ⟨s', n, e, _⟩ := setup_vm_tables_kmap cfg0 { fold_entry cfg0 populated0 with
      va_pa_offset := sub64 (PAGE_OFFSET (fold_entry cfg0 populated0))
        (symbol (fold_entry cfg0 populated0) cfg0._start)
      pfn_base := PFN_DOWN (symbol (fold_entry cfg0 populated0) cfg0._start) } 0
    (symbol (fold_entry cfg0 populated0) cfg0._start)
    (sub64 (symbol (fold_entry cfg0 populated0) cfg0._end)
      (symbol (fold_entry cfg0 populated0) cfg0._start)) rfl (by decide) (by decide)
    (by decide) (by decide) (by decide) (by decide) (by decide)
    (h2 _ (pgd_index_lt _ _)).1
  have hrun : setup_vm_fold_pud cfg0 populated0 = .ok s' := by
    rw [h1]
    exact hpass.trans e
  obtain ⟨a1, a2, a3, a4, a5, _⟩ := h5 s' hrun
  exact ⟨s', hrun, a1, a2, a3, a4, a5⟩

/-! ## Building a fresh path: closed forms -/

theorem memblock_phys_alloc_mem (s : State) (m : Nat → Nat) :
    memblock_phys_alloc { s with mem := m }
      = ({ (memblock_phys_alloc s).1 with mem := m }, (memblock_phys_alloc s).2) := by
  unfold memblock_phys_alloc
  cases h : s.free_pages <;> simp [h, handed_out]

theorem alloc_pte_mem (s s1 : State) (m : Nat → Nat) (va A : Nat)
    (h : alloc_pte s va = .ok (s1, A)) :
    alloc_pte { s with mem := m } va = .ok ({ s1 with mem := m }, A) := by
  unfold alloc_pte at h ⊢
  simp only [] at h ⊢
  split at h
  · simp at h
  · rename_i hm
    rw [if_neg hm, memblock_phys_alloc_mem]
    simp only [Except.ok.injEq] at h
    rw [h]

theorem alloc_pmd_mem (cfg : Config) (s s1 : State) (m : Nat → Nat) (va A : Nat)
    (h : alloc_pmd cfg s va = .ok (s1, A)) :
    alloc_pmd cfg { s with mem := m } va = .ok ({ s1 with mem := m }, A) := by
  unfold alloc_pmd at h ⊢
  simp only [] at h ⊢
  split at h
  · rename_i hm
    rw [if_pos hm, memblock_phys_alloc_mem]
    simp only [Except.ok.injEq] at h
    rw [h]
  · rename_i hm
    rw [if_neg hm]
    split at h
    · simp at h
    · rename_i hb
      have hb' : ¬ sub64 va (PAGE_OFFSET { s with mem := m }) >>> PUD_SHIFT ≠ 0 := hb
      rw [if_neg hb']
      simp only [Except.ok.injEq, handed_out, Prod.mk.injEq] at h
      obtain ⟨rfl, rfl⟩ := h
      rfl

theorem alloc_pud_mem (cfg : Config) (s s1 : State) (m : Nat → Nat) (va A : Nat)
    (h : alloc_pud cfg s va = .ok (s1, A)) :
    alloc_pud cfg { s with mem := m } va = .ok ({ s1 with mem := m }, A) := by
  unfold alloc_pud at h ⊢
  simp only [] at h ⊢
  split at h
  · rename_i hm
    rw [if_pos hm, memblock_phys_alloc_mem]
    simp only [Except.ok.injEq] at h
    rw [h]
  · rename_i hm
    rw [if_neg hm]
    split at h
    · simp at h
    · rename_i hb
      have hb' : ¬ sub64 va (PAGE_OFFSET { s with mem := m })
          >>> PGDIR_SHIFT { s with mem := m } ≠ 0 := hb
      rw [if_neg hb']
      simp only [Except.ok.injEq, handed_out, Prod.mk.injEq] at h
      obtain ⟨rfl, rfl⟩ := h
      rfl

theorem unsafe_mem (cfg : Config) (s : State) (m : Nat → Nat) (T : Nat) :
    unsafe_table cfg { s with mem := m } T ↔ unsafe_table cfg s T := Iff.rfl

theorem unsafe_alloc (cfg : Config) (s s1 : State) (T : Nat) (h : same_config s s1) :
    unsafe_table cfg s1 T ↔ unsafe_table cfg s T := by
  unfold unsafe_table
  rw [h.1]

/-- One level that finds its slot empty and the size smaller than its block:
the page `A` is handed out, linked and cleared, and the next level runs on it. -/
theorem phys_level_grow (cfg : Config) (SIZE idx : Nat)
    (alloc : State → Except Stopped (State × Nat))
    (child : State → Nat → Except Stopped State) (s s1 : State) (m : Nat → Nat)
    (T pa sz prot A : Nat)
    (hsz : sz ≠ SIZE) (he : m (slot T idx) = 0)
    (hal : alloc { s with mem := m } = .ok ({ s1 with mem := m }, A))
    (hu : ¬ unsafe_table cfg s1 A) :
    phys_level cfg SIZE idx alloc child { s with mem := m } T pa sz prot =
      child { s1 with mem := (zero_words
        (upd m (slot T idx) (pfn_pte (PFN_DOWN A) PAGE_TABLE)) A 512) } A :=
  phys_level_alloc cfg SIZE idx alloc child { s with mem := m } { s1 with mem := m } T pa sz
    prot A hsz he hal hu

theorem phys_level_put (cfg : Config) (SIZE idx : Nat)
    (alloc : State → Except Stopped (State × Nat))
    (child : State → Nat → Except Stopped State) (s : State) (m : Nat → Nat)
    (T pa prot : Nat) (he : m (slot T idx) = 0) :
    phys_level cfg SIZE idx alloc child { s with mem := m } T pa SIZE prot =
      .ok { s with mem := upd m (slot T idx) (pfn_pte (PFN_DOWN pa) prot) } := by
  rw [phys_level_leaf]
  simp only []
  rw [if_pos he]

theorem phys_pte_put (s : State) (m : Nat → Nat) (T va pa prot : Nat)
    (he : m (slot T (pte_index va)) = 0) :
    phys_pte { s with mem := m } T va pa PAGE_SIZE prot =
      .ok { s with mem := upd m (slot T (pte_index va)) (pfn_pte (PFN_DOWN pa) prot) } := by
  unfold phys_pte
  simp only [ne_eq, not_true_eq_false, if_false]
  rw [if_pos he]

/-! ### Cells of distinct pages -/

theorem keep_upd (m : Nat → Nat) (X Y i j v : Nat) (hX : Pg X) (hY : Pg Y) (hne : X ≠ Y)
    (hi : i < 512) (hj : j < 512) : upd m (slot Y j) v (slot X i) = m (slot X i) := by
  unfold upd
  rw [if_neg (cell_ne X Y i j hX.2 hY.2 hi hj hX.1 hY.1 hne)]

theorem keep_grow (m : Nat → Nat) (X A i c : Nat) (hX : Pg X) (hA : Pg A) (hne : X ≠ A)
    (hi : i < 512) (hc : slot X i ≠ c) : grow m c A (slot X i) = m (slot X i) := by
  unfold grow
  rw [zero_words_out _ _ _ hA.2 (cell_out X A i hX.2 hi hX.1 hA.1 hne)]
  unfold upd
  rw [if_neg hc]

theorem self_grow (m : Nat → Nat) (X A i : Nat) (hX : Pg X) (hA : Pg A) (hne : X ≠ A)
    (hi : i < 512) : grow m (slot X i) A (slot X i) = pfn_pte (PFN_DOWN A) PAGE_TABLE := by
  unfold grow
  rw [zero_words_out _ _ _ hA.2 (cell_out X A i hX.2 hi hX.1 hA.1 hne)]
  simp [upd]

theorem zero_grow (m : Nat → Nat) (A i c : Nat) (hA : Pg A) (hi : i < 512) :
    grow m c A (slot A i) = 0 := by
  unfold grow
  exact zero_words_in _ _ _ hA.2 hi

theorem self_upd (m : Nat → Nat) (c v : Nat) : upd m c v c = v := by
  simp [upd]

/-! ### Closed forms of the inserts that build a fresh path -/

theorem pmd_build_page (cfg : Config) (s s1 : State) (m : Nat → Nat) (T va pa prot A : Nat)
    (he : m (slot T (pmd_index va)) = 0) (hal : alloc_pte s va = .ok (s1, A))
    (hu : ¬ unsafe_table cfg s A) (hA : Pg A) :
    phys_pmd cfg { s with mem := m } T va pa PAGE_SIZE prot = .ok { s1 with mem :=
      (upd (grow m (slot T (pmd_index va)) A) (slot A (pte_index va))
        (pfn_pte (PFN_DOWN pa) prot)) } := by
  unfold phys_pmd
  rw [phys_level_grow cfg _ _ _ _ s s1 m T pa PAGE_SIZE prot A (by decide) he
    (alloc_pte_mem s s1 m va A hal)
    (by rw [unsafe_alloc cfg s s1 A (alloc_pte_config va s _ hal)]; exact hu)]
  exact phys_pte_put s1 _ A va pa prot (zero_grow m A _ _ hA (pte_index_lt va))

theorem pud_build_pmd (cfg : Config) (s s1 : State) (m : Nat → Nat) (T va pa prot A : Nat)
    (he : m (slot T (pud_index va)) = 0) (hal : alloc_pmd cfg s va = .ok (s1, A))
    (hu : ¬ unsafe_table cfg s A) (hA : Pg A) :
    phys_pud cfg { s with mem := m } T va pa PMD_SIZE prot = .ok { s1 with mem :=
      (upd (grow m (slot T (pud_index va)) A) (slot A (pmd_index va))
        (pfn_pte (PFN_DOWN pa) prot)) } := by
  unfold phys_pud
  rw [phys_level_grow cfg _ _ _ _ s s1 m T pa PMD_SIZE prot A (by decide) he
    (alloc_pmd_mem cfg s s1 m va A hal)
    (by rw [unsafe_alloc cfg s s1 A (alloc_pmd_config cfg va s _ hal)]; exact hu)]
  unfold phys_pmd
  exact phys_level_put cfg _ _ _ _ s1 _ A pa prot (zero_grow m A _ _ hA (pmd_index_lt va))

theorem pud_build_page (cfg : Config) (s s1 s2 : State) (m : Nat → Nat)
    (T va pa prot A B : Nat)
    (he : m (slot T (pud_index va)) = 0) (hal : alloc_pmd cfg s va = .ok (s1, A))
    (hal2 : alloc_pte s1 va = .ok (s2, B))
    (hu : ¬ unsafe_table cfg s A) (hA : Pg A) (hu2 : ¬ unsafe_table cfg s B) (hB : Pg B) :
    phys_pud cfg { s with mem := m } T va pa PAGE_SIZE prot = .ok { s2 with mem :=
      (upd (grow (grow m (slot T (pud_index va)) A) (slot A (pmd_index va)) B)
        (slot B (pte_index va)) (pfn_pte (PFN_DOWN pa) prot)) } := by
  unfold phys_pud
  have c1 := alloc_pmd_config cfg va s _ hal
  rw [phys_level_grow cfg _ _ _ _ s s1 m T pa PAGE_SIZE prot A (by decide) he
    (alloc_pmd_mem cfg s s1 m va A hal) (by rw [unsafe_alloc cfg s s1 A c1]; exact hu)]
  exact pmd_build_page cfg s1 s2 _ A va pa prot B (zero_grow m A _ _ hA (pmd_index_lt va)) hal2
    (by rw [unsafe_alloc cfg s s1 B c1]; exact hu2) hB

theorem pgdir_size_deep (s : State) (h : s.pgtable_l4_enabled = true) :
    PGDIR_SIZE s = 549755813888 := by
  rw [PGDIR_SIZE_eq, h]
  rfl

theorem pgdir_size_shallow (s : State) (h : s.pgtable_l4_enabled = false) :
    PGDIR_SIZE s = 1073741824 := by
  rw [PGDIR_SIZE_eq, h]
  rfl

theorem phys_pgd_deep (cfg : Config) (s : State) (m : Nat → Nat) (T va pa sz prot : Nat)
    (hl : s.pgtable_l4_enabled = true) :
    phys_pgd cfg { s with mem := m } T va pa sz prot =
      phys_level cfg (PGDIR_SIZE s) (pgd_index s va) (fun s => alloc_pud cfg s va)
        (fun s T => phys_pud cfg s T va pa sz prot) { s with mem := m } T pa sz prot := by
  unfold phys_pgd
  rw [if_neg (by simp [hl])]
  rfl

theorem phys_pgd_shallow (cfg : Config) (s : State) (m : Nat → Nat) (T va pa sz prot : Nat)
    (hl : s.pgtable_l4_enabled = false) :
    phys_pgd cfg { s with mem := m } T va pa sz prot
      = phys_pud cfg { s with mem := m } T va pa sz prot := by
  unfold phys_pgd
  rw [if_pos (by simp [hl])]

theorem pgd_build_pud (cfg : Config) (s s1 : State) (m : Nat → Nat) (T va pa prot A : Nat)
    (hl : s.pgtable_l4_enabled = true)
    (he : m (slot T (pgd_index s va)) = 0) (hal : alloc_pud cfg s va = .ok (s1, A))
    (hu : ¬ unsafe_table cfg s A) (hA : Pg A) :
    phys_pgd cfg { s with mem := m } T va pa PUD_SIZE prot = .ok { s1 with mem :=
      (upd (grow m (slot T (pgd_index s va)) A) (slot A (pud_index va))
        (pfn_pte (PFN_DOWN pa) prot)) } := by
  rw [phys_pgd_deep cfg s m T va pa _ prot hl]
  rw [phys_level_grow cfg _ _ _ _ s s1 m T pa PUD_SIZE prot A
    (by rw [pgdir_size_deep s hl]; decide) he
    (alloc_pud_mem cfg s s1 m va A hal)
    (by rw [unsafe_alloc cfg s s1 A (alloc_pud_config cfg va s _ hal)]; exact hu)]
  unfold phys_pud
  exact phys_level_put cfg _ _ _ _ s1 _ A pa prot (zero_grow m A _ _ hA (pud_index_lt va))

theorem pgd_build_pmd (cfg : Config) (s s1 s2 : State) (m : Nat → Nat)
    (T va pa prot A B : Nat) (hl : s.pgtable_l4_enabled = true)
    (he : m (slot T (pgd_index s va)) = 0) (hal : alloc_pud cfg s va = .ok (s1, A))
    (hal2 : alloc_pmd cfg s1 va = .ok (s2, B))
    (hu : ¬ unsafe_table cfg s A) (hA : Pg A) (hu2 : ¬ unsafe_table cfg s B) (hB : Pg B) :
    phys_pgd cfg { s with mem := m } T va pa PMD_SIZE prot = .ok { s2 with mem :=
      (upd (grow (grow m (slot T (pgd_index s va)) A) (slot A (pud_index va)) B)
        (slot B (pmd_index va)) (pfn_pte (PFN_DOWN pa) prot)) } := by
  rw [phys_pgd_deep cfg s m T va pa _ prot hl]
  have c1 := alloc_pud_config cfg va s _ hal
  rw [phys_level_grow cfg _ _ _ _ s s1 m T pa PMD_SIZE prot A
    (by rw [pgdir_size_deep s hl]; decide) he
    (alloc_pud_mem cfg s s1 m va A hal) (by rw [unsafe_alloc cfg s s1 A c1]; exact hu)]
  exact pud_build_pmd cfg s1 s2 _ A va pa prot B (zero_grow m A _ _ hA (pud_index_lt va)) hal2
    (by rw [unsafe_alloc cfg s s1 B c1]; exact hu2) hB

theorem pgd_build_page (cfg : Config) (s s1 s2 s3 : State) (m : Nat → Nat)
    (T va pa prot A B C : Nat) (hl : s.pgtable_l4_enabled = true)
    (he : m (slot T (pgd_index s va)) = 0) (hal : alloc_pud cfg s va = .ok (s1, A))
    (hal2 : alloc_pmd cfg s1 va = .ok (s2, B)) (hal3 : alloc_pte s2 va = .ok (s3, C))
    (hu : ¬ unsafe_table cfg s A) (hA : Pg A) (hu2 : ¬ unsafe_table cfg s B) (hB : Pg B)
    (hu3 : ¬ unsafe_table cfg s C) (hC : Pg C) :
    phys_pgd cfg { s with mem := m } T va pa PAGE_SIZE prot = .ok { s3 with mem :=
      (upd (grow (grow (grow m (slot T (pgd_index s va)) A) (slot A (pud_index va)) B)
          (slot B (pmd_index va)) C)
        (slot C (pte_index va)) (pfn_pte (PFN_DOWN pa) prot)) } := by
  rw [phys_pgd_deep cfg s m T va pa _ prot hl]
  have c1 := alloc_pud_config cfg va s _ hal
  rw [phys_level_grow cfg _ _ _ _ s s1 m T pa PAGE_SIZE prot A
    (by rw [pgdir_size_deep s hl]; decide) he
    (alloc_pud_mem cfg s s1 m va A hal) (by rw [unsafe_alloc cfg s s1 A c1]; exact hu)]
  exact pud_build_page cfg s1 s2 s3 _ A va pa prot B C
    (zero_grow m A _ _ hA (pud_index_lt va)) hal2 hal3
    (by rw [unsafe_alloc cfg s s1 B c1]; exact hu2) hB
    (by rw [unsafe_alloc cfg s s1 C c1]; exact hu3) hC

/-! ### Steps of the table walk -/

theorem walk_pte_leaf (m : Nat → Nat) (T va pa prot : Nat)
    (h : m (slot T (pte_index va)) = pfn_pte (PFN_DOWN pa) prot)
    (hp : leaf_prot prot) (hpa : pa < WORD) :
    walk_pte m T va = some ⟨.pte, PFN_DOWN pa, prot⟩ := by
  obtain ⟨l1, l2, l3, _⟩ := leaf_classify pa prot hpa hp
  unfold walk_pte
  simp only []
  rw [h, if_pos l1, l2, l3]

theorem walk_pmd_leaf (m : Nat → Nat) (T va pa prot : Nat)
    (h : m (slot T (pmd_index va)) = pfn_pte (PFN_DOWN pa) prot)
    (hp : leaf_prot prot) (hpa : pa < WORD) :
    walk_pmd m T va = some ⟨.pmd, PFN_DOWN pa, prot⟩ := by
  obtain ⟨l1, l2, l3, _⟩ := leaf_classify pa prot hpa hp
  unfold walk_pmd
  simp only []
  rw [h, if_pos l1, l2, l3]

theorem walk_pud_leaf (m : Nat → Nat) (T va pa prot : Nat)
    (h : m (slot T (pud_index va)) = pfn_pte (PFN_DOWN pa) prot)
    (hp : leaf_prot prot) (hpa : pa < WORD) :
    walk_pud m T va = some ⟨.pud, PFN_DOWN pa, prot⟩ := by
  obtain ⟨l1, l2, l3, _⟩ := leaf_classify pa prot hpa hp
  unfold walk_pud
  simp only []
  rw [h, if_pos l1, l2, l3]

theorem link_roundtrip (A : Nat) (hA : Pg A) :
    PFN_PHYS (_pmd_pfn (pfn_pte (PFN_DOWN A) PAGE_TABLE)) = A :=
  entry_roundtrip _ _ hA.1 (by rw [WORD_eq]; have := hA.2; omega) (by decide)

theorem walk_pmd_link (m : Nat → Nat) (T va A : Nat)
    (h : m (slot T (pmd_index va)) = pfn_pte (PFN_DOWN A) PAGE_TABLE) (hA : Pg A) :
    walk_pmd m T va = walk_pte m A va := by
  unfold walk_pmd
  simp only []
  rw [h, (link_classify _).1, (link_classify _).2.1, link_roundtrip A hA]
  simp only [Bool.false_eq_true, if_false, if_true]

theorem walk_pud_link (m : Nat → Nat) (T va A : Nat)
    (h : m (slot T (pud_index va)) = pfn_pte (PFN_DOWN A) PAGE_TABLE) (hA : Pg A) :
    walk_pud m T va = walk_pmd m A va := by
  unfold walk_pud
  simp only []
  rw [h, (link_classify _).1, (link_classify _).2.1, link_roundtrip A hA]
  simp only [Bool.false_eq_true, if_false, if_true]

theorem walk_shallow (t : State) (T va : Nat) (hl : t.pgtable_l4_enabled = false) :
    walk t T va = walk_pud t.mem T va := by
  unfold walk
  rw [if_neg (by simp [hl])]

theorem walk_deep_leaf (t : State) (T va pa prot : Nat) (hl : t.pgtable_l4_enabled = true)
    (h : t.mem (slot T (pgd_index t va)) = pfn_pte (PFN_DOWN pa) prot)
    (hp : leaf_prot prot) (hpa : pa < WORD) :
    walk t T va = some ⟨.pgd, PFN_DOWN pa, prot⟩ := by
  obtain ⟨l1, l2, l3, _⟩ := leaf_classify pa prot hpa hp
  unfold walk
  rw [if_pos hl]
  simp only []
  rw [h, if_pos l1, l2, l3]

theorem walk_deep_link (t : State) (T va A : Nat) (hl : t.pgtable_l4_enabled = true)
    (h : t.mem (slot T (pgd_index t va)) = pfn_pte (PFN_DOWN A) PAGE_TABLE) (hA : Pg A) :
    walk t T va = walk_pud t.mem A va := by
  unfold walk
  rw [if_pos hl]
  simp only []
  rw [h, (link_classify _).1, (link_classify _).2.1, link_roundtrip A hA]
  simp only [Bool.false_eq_true, if_false, if_true]

/-! ## Insert-then-lookup (C1) -/

theorem supply_tail (cfg : Config) (s1 : State) (va sz : Nat) (l pages : List Nat)
    (hne : sz ≠ PUD_SIZE)
    (h : ((alloc_pmd cfg s1 va).bind fun a =>
        if sz = PMD_SIZE then (.ok (l ++ [a.2]) : Except Stopped (List Nat))
        else (alloc_pte a.1 va).bind fun b => .ok (l ++ [a.2, b.2])) = .ok pages) :
    ∃ s2 B, alloc_pmd cfg s1 va = .ok (s2, B) ∧
      ((sz = PMD_SIZE ∧ pages = l ++ [B]) ∨
        (sz ≠ PMD_SIZE ∧ ∃ s3 C, alloc_pte s2 va = .ok (s3, C) ∧ pages = l ++ [B, C])) := by
  obtain ⟨a, ha, h⟩ := bind_ok_inv h
  refine ⟨a.1, a.2, ha, ?_⟩
  by_cases h2 : sz = PMD_SIZE
  · rw [if_pos h2] at h
    simp only [Except.ok.injEq] at h
    exact Or.inl ⟨h2, h.symm⟩
  · rw [if_neg h2] at h
    obtain ⟨b, hb, h⟩ := bind_ok_inv h
    simp only [Except.ok.injEq] at h
    exact Or.inr ⟨h2, b.1, b.2, hb, h.symm⟩

theorem supply_deep (cfg : Config) (s : State) (va sz : Nat) (pages : List Nat)
    (hl : s.pgtable_l4_enabled = true) (hne : sz ≠ PGDIR_SIZE s)
    (h : supply cfg s va sz = .ok pages) :
    ∃ s1 A, alloc_pud cfg s va = .ok (s1, A) ∧
      ((sz = PUD_SIZE ∧ pages = [A]) ∨
        (sz ≠ PUD_SIZE ∧ ∃ s2 B, alloc_pmd cfg s1 va = .ok (s2, B) ∧
          ((sz = PMD_SIZE ∧ pages = [A, B]) ∨
            (sz ≠ PMD_SIZE ∧ ∃ s3 C, alloc_pte s2 va = .ok (s3, C) ∧ pages = [A, B, C])))) := by
  unfold supply at h
  rw [if_neg hne, if_pos hl] at h
  obtain ⟨x, hx, h⟩ := bind_ok_inv h
  obtain ⟨a, ha, hx⟩ := bind_ok_inv hx
  simp only [Except.ok.injEq] at hx
  subst hx
  refine ⟨a.1, a.2, ha, ?_⟩
  by_cases h1 : sz = PUD_SIZE
  · rw [if_pos h1] at h
    simp only [Except.ok.injEq] at h
    exact Or.inl ⟨h1, h.symm⟩
  · rw [if_neg h1] at h
    exact Or.inr ⟨h1, supply_tail cfg a.1 va sz [a.2] pages h1 h⟩

theorem supply_shallow (cfg : Config) (s : State) (va sz : Nat) (pages : List Nat)
    (hl : s.pgtable_l4_enabled = false) (hne : sz ≠ PGDIR_SIZE s)
    (h : supply cfg s va sz = .ok pages) :
    ∃ s2 B, alloc_pmd cfg s va = .ok (s2, B) ∧
      ((sz = PMD_SIZE ∧ pages = [B]) ∨
        (sz ≠ PMD_SIZE ∧ ∃ s3 C, alloc_pte s2 va = .ok (s3, C) ∧ pages = [B, C])) := by
  unfold supply at h
  rw [if_neg hne, if_neg (by simp [hl])] at h
  simp only [bind_ok] at h
  have h1 : sz ≠ PUD_SIZE := by
    rw [pgdir_size_shallow s hl] at hne
    exact hne
  rw [if_neg h1] at h
  exact supply_tail cfg s va sz [] pages h1 h

theorem pages_ok_elem (cfg : Config) (s : State) (ps : List Nat) (X : Nat)
    (h : Pages_ok cfg s ps) (hX : X ∈ ps) : Pg X ∧ ¬ unsafe_table cfg s X := by
  obtain ⟨h1, h2, h3⟩ := h.1 X hX
  rw [PAGE_SIZE_eq] at h1
  rw [PAGE_SIZE_eq, WORD_eq] at h2
  refine ⟨⟨h1, h2⟩, ?_⟩
  unfold unsafe_table
  rw [PAGE_SIZE_eq, WORD_eq]
  intro hu
  rcases hu.2 with h | h | h
  · exact h h1
  · omega
  · exact h3 hu.1 h

theorem cells1 (m : Nat → Nat) (T A i0 iA e : Nat) (hT : Pg T) (hA : Pg A) (hTA : T ≠ A)
    (h0 : i0 < 512) (h1 : iA < 512) :
    upd (grow m (slot T i0) A) (slot A iA) e (slot T i0) = pfn_pte (PFN_DOWN A) PAGE_TABLE ∧
    upd (grow m (slot T i0) A) (slot A iA) e (slot A iA) = e := by
  refine ⟨?_, self_upd _ _ _⟩
  rw [keep_upd _ T A i0 iA e hT hA hTA h0 h1, self_grow m T A i0 hT hA hTA h0]

theorem cells2 (m : Nat → Nat) (T A B i0 iA iB e : Nat) (hT : Pg T) (hA : Pg A) (hB : Pg B)
    (hTA : T ≠ A) (hTB : T ≠ B) (hAB : A ≠ B) (h0 : i0 < 512) (h1 : iA < 512)
    (h2 : iB < 512) :
    upd (grow (grow m (slot T i0) A) (slot A iA) B) (slot B iB) e (slot T i0)
      = pfn_pte (PFN_DOWN A) PAGE_TABLE ∧
    upd (grow (grow m (slot T i0) A) (slot A iA) B) (slot B iB) e (slot A iA)
      = pfn_pte (PFN_DOWN B) PAGE_TABLE ∧
    upd (grow (grow m (slot T i0) A) (slot A iA) B) (slot B iB) e (slot B iB) = e := by
  refine ⟨?_, (cells1 _ A B iA iB e hA hB hAB h1 h2).1, self_upd _ _ _⟩
  rw [keep_upd _ T B i0 iB e hT hB hTB h0 h2,
    keep_grow _ T B i0 _ hT hB hTB h0 (cell_ne T A i0 iA hT.2 hA.2 h0 h1 hT.1 hA.1 hTA),
    self_grow m T A i0 hT hA hTA h0]

theorem cells3 (m : Nat → Nat) (T A B C i0 iA iB iC e : Nat) (hT : Pg T) (hA : Pg A)
    (hB : Pg B) (hC : Pg C) (hTA : T ≠ A) (hTB : T ≠ B) (hTC : T ≠ C) (hAB : A ≠ B)
    (hAC : A ≠ C) (hBC : B ≠ C) (h0 : i0 < 512) (h1 : iA < 512) (h2 : iB < 512)
    (h3 : iC < 512) :
    upd (grow (grow (grow m (slot T i0) A) (slot A iA) B) (slot B iB) C) (slot C iC) e
      (slot T i0) = pfn_pte (PFN_DOWN A) PAGE_TABLE ∧
    upd (grow (grow (grow m (slot T i0) A) (slot A iA) B) (slot B iB) C) (slot C iC) e
      (slot A iA) = pfn_pte (PFN_DOWN B) PAGE_TABLE ∧
    upd (grow (grow (grow m (slot T i0) A) (slot A iA) B) (slot B iB) C) (slot C iC) e
      (slot B iB) = pfn_pte (PFN_DOWN C) PAGE_TABLE ∧
    upd (grow (grow (grow m (slot T i0) A) (slot A iA) B) (slot B iB) C) (slot C iC) e
      (slot C iC) = e := by
  obtain ⟨f1, f2, f3⟩ := cells2 (grow m (slot T i0) A) A B C iA iB iC e hA hB hC hAB hAC hBC
    h1 h2 h3
  refine ⟨?_, f1, f2, f3⟩
  rw [keep_upd _ T C i0 iC e hT hC hTC h0 h3,
    keep_grow _ T C i0 _ hT hC hTC h0 (cell_ne T B i0 iB hT.2 hB.2 h0 h2 hT.1 hB.1 hTB),
    keep_grow _ T B i0 _ hT hB hTB h0 (cell_ne T A i0 iA hT.2 hA.2 h0 h1 hT.1 hA.1 hTA),
    self_grow m T A i0 hT hA hTA h0]

theorem block_pgd_deep (s : State) (hl : s.pgtable_l4_enabled = true) :
    Level.block s.pgtable_l4_enabled .pgd = PGDIR_SIZE s := by
  rw [pgdir_size_deep s hl, hl]
  rfl

theorem nodup2 (T A : Nat) (h : [T, A].Nodup) : T ≠ A := by
  simp at h
  exact h

theorem nodup3 (T A B : Nat) (h : [T, A, B].Nodup) : T ≠ A ∧ T ≠ B ∧ A ≠ B := by
  simp at h
  exact ⟨h.1.1, h.1.2, h.2⟩

theorem nodup4 (T A B C : Nat) (h : [T, A, B, C].Nodup) :
    T ≠ A ∧ T ≠ B ∧ T ≠ C ∧ A ≠ B ∧ A ≠ C ∧ B ≠ C := by
  simp at h
  exact ⟨h.1.1, h.1.2.1, h.1.2.2, h.2.1.1, h.2.1.2, h.2.2⟩

/-- Deep mode: an insert that finds the root slot empty and is supplied with
fresh pages builds a path that the walk follows to the leaf. -/
theorem phys_insert_lookup_deep (cfg : Config) (s : State) (T va pa sz prot : Nat)
    (pages : List Nat) (hl : s.pgtable_l4_enabled = true)
    (hsz : sz = PAGE_SIZE ∨ sz = PMD_SIZE ∨ sz = PUD_SIZE ∨ sz = PGDIR_SIZE s)
    (hprot : leaf_prot prot) (hpa : pa < WORD)
    (h0 : s.mem (slot T (pgd_index s va)) = 0)
    (hsup : supply cfg s va sz = .ok pages) (hok : Pages_ok cfg s (T :: pages)) :
    ∃ s', phys_pgd cfg s T va pa sz prot = .ok s' ∧ same_config s s' ∧
      ∀ t : State, t.pgtable_l4_enabled = s.pgtable_l4_enabled →
        (∀ X ∈ T :: pages, ∀ i, i < 512 → t.mem (slot X i) = s'.mem (slot X i)) →
        ∃ l, walk t T va = some l ∧ l.level.block s.pgtable_l4_enabled = sz ∧
          l.pfn = PFN_DOWN pa ∧ l.prot = prot := by
  have hT := (pages_ok_elem cfg s _ T hok (by simp)).1
  have hi0 := pgd_index_lt s va
  have hi1 := pud_index_lt va
  have hi2 := pmd_index_lt va
  have hi3 := pte_index_lt va
  have hix : ∀ t : State, t.pgtable_l4_enabled = s.pgtable_l4_enabled →
      pgd_index t va = pgd_index s va := by
    intro t ht
    rw [pgd_index_of_eq, pgd_index_of_eq, ht]
  by_cases hg : sz = PGDIR_SIZE s
  · subst hg
    refine ⟨_, (phys_pgd_deep cfg s s.mem T va pa _ prot hl).trans
      (phys_level_put cfg _ _ _ _ s s.mem T pa prot h0), by simp [same_config], ?_⟩
    intro t htl ht
    refine ⟨⟨.pgd, PFN_DOWN pa, prot⟩, ?_, block_pgd_deep s hl, rfl, rfl⟩
    refine walk_deep_leaf t T va pa prot (by rw [htl]; exact hl) ?_ hprot hpa
    rw [hix t htl, ht T (by simp) _ hi0]
    exact self_upd _ _ _
  · obtain ⟨s1, A, hal, hrest⟩ := supply_deep cfg s va sz pages hl hg hsup
    have c1 := alloc_pud_config cfg va s _ hal
    rcases hrest with ⟨h1, hp⟩ | ⟨h1, s2, B, hal2, hrest⟩
    · subst h1
      subst hp
      obtain ⟨hA, hAu⟩ := pages_ok_elem cfg s _ A hok (by simp)
      have hTA := nodup2 T A hok.2
      obtain ⟨f0, f1⟩ := cells1 s.mem T A (pgd_index s va) (pud_index va)
        (pfn_pte (PFN_DOWN pa) prot) hT hA hTA hi0 hi1
      refine ⟨_, pgd_build_pud cfg s s1 s.mem T va pa prot A hl h0 hal hAu hA, c1, ?_⟩
      intro t htl ht
      refine ⟨⟨.pud, PFN_DOWN pa, prot⟩, ?_, rfl, rfl, rfl⟩
      rw [walk_deep_link t T va A (by rw [htl]; exact hl)
        (by rw [hix t htl, ht T (by simp) _ hi0]; exact f0) hA]
      exact walk_pud_leaf _ A va pa prot (by rw [ht A (by simp) _ hi1]; exact f1) hprot hpa
    · have c2 := same_config_trans c1 (alloc_pmd_config cfg va s1 _ hal2)
      rcases hrest with ⟨h2, hp⟩ | ⟨h2, s3, C, hal3, hp⟩
      · subst h2
        subst hp
        obtain ⟨hA, hAu⟩ := pages_ok_elem cfg s _ A hok (by simp)
        obtain ⟨hB, hBu⟩ := pages_ok_elem cfg s _ B hok (by simp)
        obtain ⟨hTA, hTB, hAB⟩ := nodup3 T A B hok.2
        obtain ⟨f0, f1, f2⟩ := cells2 s.mem T A B (pgd_index s va) (pud_index va)
          (pmd_index va) (pfn_pte (PFN_DOWN pa) prot) hT hA hB hTA hTB hAB hi0 hi1 hi2
        refine ⟨_, pgd_build_pmd cfg s s1 s2 s.mem T va pa prot A B hl h0 hal hal2 hAu hA
          hBu hB, c2, ?_⟩
        intro t htl ht
        refine ⟨⟨.pmd, PFN_DOWN pa, prot⟩, ?_, rfl, rfl, rfl⟩
        rw [walk_deep_link t T va A (by rw [htl]; exact hl)
          (by rw [hix t htl, ht T (by simp) _ hi0]; exact f0) hA,
          walk_pud_link _ A va B (by rw [ht A (by simp) _ hi1]; exact f1) hB]
        exact walk_pmd_leaf _ B va pa prot (by rw [ht B (by simp) _ hi2]; exact f2) hprot hpa
      · have hs : sz = PAGE_SIZE := by
          rcases hsz with h | h | h | h
          · exact h
          · exact absurd h h2
          · exact absurd h h1
          · exact absurd h hg
        subst hs
        subst hp
        have c3 := same_config_trans c2 (alloc_pte_config va s2 _ hal3)
        obtain ⟨hA, hAu⟩ := pages_ok_elem cfg s _ A hok (by simp)
        obtain ⟨hB, hBu⟩ := pages_ok_elem cfg s _ B hok (by simp)
        obtain ⟨hC, hCu⟩ := pages_ok_elem cfg s _ C hok (by simp)
        obtain ⟨hTA, hTB, hTC, hAB, hAC, hBC⟩ := nodup4 T A B C hok.2
        obtain ⟨f0, f1, f2, f3⟩ := cells3 s.mem T A B C (pgd_index s va) (pud_index va)
          (pmd_index va) (pte_index va) (pfn_pte (PFN_DOWN pa) prot) hT hA hB hC hTA hTB hTC
          hAB hAC hBC hi0 hi1 hi2 hi3
        refine ⟨_, pgd_build_page cfg s s1 s2 s3 s.mem T va pa prot A B C hl h0 hal hal2 hal3
          hAu hA hBu hB hCu hC, c3, ?_⟩
        intro t htl ht
        refine ⟨⟨.pte, PFN_DOWN pa, prot⟩, ?_, rfl, rfl, rfl⟩
        rw [walk_deep_link t T va A (by rw [htl]; exact hl)
          (by rw [hix t htl, ht T (by simp) _ hi0]; exact f0) hA,
          walk_pud_link _ A va B (by rw [ht A (by simp) _ hi1]; exact f1) hB,
          walk_pmd_link _ B va C (by rw [ht B (by simp) _ hi2]; exact f2) hC]
        exact walk_pte_leaf _ C va pa prot (by rw [ht C (by simp) _ hi3]; exact f3) hprot hpa

/-- Shallow mode: the same, the root being the upper-level table. -/
theorem phys_insert_lookup_shallow (cfg : Config) (s : State) (T va pa sz prot : Nat)
    (pages : List Nat) (hl : s.pgtable_l4_enabled = false)
    (hsz : sz = PAGE_SIZE ∨ sz = PMD_SIZE ∨ sz = PUD_SIZE ∨ sz = PGDIR_SIZE s)
    (hprot : leaf_prot prot) (hpa : pa < WORD)
    (h0 : s.mem (slot T (pgd_index s va)) = 0)
    (hsup : supply cfg s va sz = .ok pages) (hok : Pages_ok cfg s (T :: pages)) :
    ∃ s', phys_pgd cfg s T va pa sz prot = .ok s' ∧ same_config s s' ∧
      ∀ t : State, t.pgtable_l4_enabled = s.pgtable_l4_enabled →
        (∀ X ∈ T :: pages, ∀ i, i < 512 → t.mem (slot X i) = s'.mem (slot X i)) →
        ∃ l, walk t T va = some l ∧ l.level.block s.pgtable_l4_enabled = sz ∧
          l.pfn = PFN_DOWN pa ∧ l.prot = prot := by
  have hT := (pages_ok_elem cfg s _ T hok (by simp)).1
  have hi1 := pud_index_lt va
  have hi2 := pmd_index_lt va
  have hi3 := pte_index_lt va
  have hgs : PGDIR_SIZE s = PUD_SIZE := pgdir_size_shallow s hl
  have hix : pgd_index s va = pud_index va := by
    rw [pgd_index_of_eq, hl]
    rfl
  rw [hix] at h0
  by_cases hg : sz = PGDIR_SIZE s
  · rw [hgs] at hg
    subst hg
    refine ⟨_, (phys_pgd_shallow cfg s s.mem T va pa _ prot hl).trans
      (phys_level_put cfg _ _ _ _ s s.mem T pa prot h0), by simp [same_config], ?_⟩
    intro t htl ht
    refine ⟨⟨.pud, PFN_DOWN pa, prot⟩, ?_, rfl, rfl, rfl⟩
    rw [walk_shallow t T va (by rw [htl]; exact hl)]
    refine walk_pud_leaf _ T va pa prot ?_ hprot hpa
    rw [ht T (by simp) _ hi1]
    exact self_upd _ _ _
  · obtain ⟨s2, B, hal2, hrest⟩ := supply_shallow cfg s va sz pages hl hg hsup
    have c2 := alloc_pmd_config cfg va s _ hal2
    rcases hrest with ⟨h2, hp⟩ | ⟨h2, s3, C, hal3, hp⟩
    · subst h2
      subst hp
      obtain ⟨hB, hBu⟩ := pages_ok_elem cfg s _ B hok (by simp)
      have hTB := nodup2 T B hok.2
      obtain ⟨f0, f1⟩ := cells1 s.mem T B (pud_index va) (pmd_index va)
        (pfn_pte (PFN_DOWN pa) prot) hT hB hTB hi1 hi2
      refine ⟨_, (phys_pgd_shallow cfg s s.mem T va pa _ prot hl).trans
        (pud_build_pmd cfg s s2 s.mem T va pa prot B h0 hal2 hBu hB), c2, ?_⟩
      intro t htl ht
      refine ⟨⟨.pmd, PFN_DOWN pa, prot⟩, ?_, rfl, rfl, rfl⟩
      rw [walk_shallow t T va (by rw [htl]; exact hl),
        walk_pud_link _ T va B (by rw [ht T (by simp) _ hi1]; exact f0) hB]
      exact walk_pmd_leaf _ B va pa prot (by rw [ht B (by simp) _ hi2]; exact f1) hprot hpa
    · have hs : sz = PAGE_SIZE := by
        rcases hsz with h | h | h | h
        · exact h
        · exact absurd h h2
        · exact absurd (h.trans hgs.symm) hg
        · exact absurd h hg
      subst hs
      subst hp
      have c3 := same_config_trans c2 (alloc_pte_config va s2 _ hal3)
      obtain ⟨hB, hBu⟩ := pages_ok_elem cfg s _ B hok (by simp)
      obtain ⟨hC, hCu⟩ := pages_ok_elem cfg s _ C hok (by simp)
      obtain ⟨hTB, hTC, hBC⟩ := nodup3 T B C hok.2
      obtain ⟨f0, f1, f2⟩ := cells2 s.mem T B C (pud_index va) (pmd_index va)
        (pte_index va) (pfn_pte (PFN_DOWN pa) prot) hT hB hC hTB hTC hBC hi1 hi2 hi3
      refine ⟨_, (phys_pgd_shallow cfg s s.mem T va pa _ prot hl).trans
        (pud_build_page cfg s s2 s3 s.mem T va pa prot B C h0 hal2 hal3 hBu hB hCu hC), c3, ?_⟩
      intro t htl ht
      refine ⟨⟨.pte, PFN_DOWN pa, prot⟩, ?_, rfl, rfl, rfl⟩
      rw [walk_shallow t T va (by rw [htl]; exact hl),
        walk_pud_link _ T va B (by rw [ht T (by simp) _ hi1]; exact f0) hB,
        walk_pmd_link _ B va C (by rw [ht B (by simp) _ hi2]; exact f1) hC]
      exact walk_pte_leaf _ C va pa prot (by rw [ht C (by simp) _ hi3]; exact f2) hprot hpa

/-- C1 (as amended): insert, then look up.  Let `prot` be a leaf protection
(valid bit and one of read, write, execute, within the ten low bits), `sz` one of
`PAGE_SIZE`, `PMD_SIZE`, `PUD_SIZE`, `PGDIR_SIZE`, the root slot of `va` empty,
and let the allocators supply the pages `pages`, which together with the root
are distinct pages (none of them `fixmap_pte` when translation is on).  Then
`create_pgd_mapping` returns, and a walk of `va` from the root in the state it
leaves ends at a leaf of the level whose block size is `sz`, with frame number
`PFN_DOWN(pa)` and protection `prot`.  This holds at both depths, with
translation off and on. -/
theorem insert_then_lookup (cfg : Config) (s : State) (ptr T va pa sz prot : Nat)
    (pages : List Nat) (hfix : Fixmap_ok cfg s) (hA : Addr cfg s ptr T)
    (hsz : sz = PAGE_SIZE ∨ sz = PMD_SIZE ∨ sz = PUD_SIZE ∨ sz = PGDIR_SIZE s)
    (hprot : leaf_prot prot) (hpa : pa < WORD)
    (h0 : s.mem (slot T (pgd_index s va)) = 0)
    (hsup : supply cfg s va sz = .ok pages) (hok : Pages_ok cfg s (T :: pages)) :
    ∃ s', create_pgd_mapping cfg s ptr va pa sz prot = .ok s' ∧
      ∃ l, walk s' T va = some l ∧ l.level.block s.pgtable_l4_enabled = sz ∧
        l.pfn = PFN_DOWN pa ∧ l.prot = prot := by
  have hphys : ∃ sp, phys_pgd cfg s T va pa sz prot = .ok sp ∧ same_config s sp ∧
      ∀ t : State, t.pgtable_l4_enabled = s.pgtable_l4_enabled →
        (∀ X ∈ T :: pages, ∀ i, i < 512 → t.mem (slot X i) = sp.mem (slot X i)) →
        ∃ l, walk t T va = some l ∧ l.level.block s.pgtable_l4_enabled = sz ∧
          l.pfn = PFN_DOWN pa ∧ l.prot = prot := by
    rcases Bool.eq_false_or_eq_true s.pgtable_l4_enabled with hl | hl
    · exact phys_insert_lookup_deep cfg s T va pa sz prot pages hl hsz hprot hpa h0 hsup hok
    · exact phys_insert_lookup_shallow cfg s T va pa sz prot pages hl hsz hprot hpa h0 hsup hok
  obtain ⟨sp, hrun, hc, hwalk⟩ := hphys
  have hsim := refine_pgd cfg va pa sz prot s s ptr T (Rel_refl cfg s) hfix hA
    (pages_ok_elem cfg s _ T hok (by simp)).2
  rw [hrun] at hsim
  obtain ⟨sc, hsc, hR⟩ := hsim
  refine ⟨sc, hsc, hwalk sc (hR.1.2.1.trans hc.2.1) ?_⟩
  intro X hX i hi
  exact Rel_mem cfg sc sp X i hR (Fixmap_ok_congr cfg s sp hc hfix)
    (fun h => (pages_ok_elem cfg s _ X hok hX).2 ((unsafe_table_congr cfg s sp X hc).mp h)) hi

/-- C1 as stated fails for a protection that is not a leaf protection: the
insert of a root-level block with `prot = PAGE_TABLE` into an all-zero root
(the call of line 523 of `setup_vm` has this shape) returns, and the walk of
`va` then takes the entry for a link to a table and ends at no leaf. -/
theorem insert_then_lookup_counterexample :
    (0xffffc00000000000 % PGDIR_SIZE (boot cfg0 (fun _ => 0) true) = 0 ∧
      0x8000000000 % PGDIR_SIZE (boot cfg0 (fun _ => 0) true) = 0 ∧
      supply cfg0 (boot cfg0 (fun _ => 0) true) 0xffffc00000000000
        (PGDIR_SIZE (boot cfg0 (fun _ => 0) true)) = .ok [] ∧
      Pages_ok cfg0 (boot cfg0 (fun _ => 0) true) [cfg0.early_pg_dir]) ∧
    ∃ s', create_pgd_mapping cfg0 (boot cfg0 (fun _ => 0) true) cfg0.early_pg_dir
        0xffffc00000000000 0x8000000000 (PGDIR_SIZE (boot cfg0 (fun _ => 0) true)) PAGE_TABLE
        = .ok s' ∧
      walk s' cfg0.early_pg_dir 0xffffc00000000000 = none := by
  refine ⟨⟨by decide, by decide, rfl, by unfold Pages_ok; decide⟩, ?_⟩
  rw [pgd_leaf_off cfg0 _ _ _ _ _ rfl]
  exact ⟨_, rfl, by decide⟩

theorem insert_then_lookup_witness :
    ∃ s', create_pgd_mapping cfg0 running0 (symbol running0 cfg0.swapper_pg_dir)
        0xffffc00040201000 0x90001000 PAGE_SIZE PAGE_KERNEL = .ok s' ∧
      ∃ l, walk s' cfg0.swapper_pg_dir 0xffffc00040201000 = some l ∧
        l.level.block true = PAGE_SIZE ∧ l.pfn = 0x90001 ∧ l.prot = PAGE_KERNEL :=
  insert_then_lookup cfg0 running0 (symbol running0 cfg0.swapper_pg_dir) cfg0.swapper_pg_dir
    0xffffc00040201000 0x90001000 PAGE_SIZE PAGE_KERNEL [0x81000000, 0x81001000, 0x81002000]
    (by unfold Fixmap_ok Linear; decide)
    (Addr_linear cfg0 running0 _ (by unfold Linear; decide))
    (Or.inl rfl) (by decide) (by decide) rfl rfl (by unfold Pages_ok; decide)

/-! ## Idempotence of the insert (C2) -/

theorem upd_same (m : Nat → Nat) (c : Nat) : upd m c (m c) = m := by
  funext x
  unfold upd
  split
  · rename_i h
    rw [h]
  · rfl

theorem Pages_ok_congr (cfg : Config) (s t : State) (P : List Nat) (h : same_config s t)
    (hok : Pages_ok cfg s P) : Pages_ok cfg t P := by
  unfold Pages_ok at hok ⊢
  rw [h.1]
  exact hok

theorem Pages_ok_tail (cfg : Config) (s : State) (T : Nat) (P : List Nat)
    (hok : Pages_ok cfg s (T :: P)) : Pages_ok cfg s P ∧ T ∉ P :=
  ⟨⟨fun p hp => hok.1 p (List.mem_cons_of_mem T hp), (List.nodup_cons.mp hok.2).2⟩,
    (List.nodup_cons.mp hok.2).1⟩

theorem outside_cell (P : List Nat) (X i : Nat) (hX : Pg X) (hi : i < 512)
    (hP : ∀ p ∈ P, Pg p) (hne : X ∉ P) : outside P (slot X i) := by
  intro p hp
  have hpg := hP p hp
  exact cell_out X p i hX.2 hi hX.1 hpg.1 (fun h => hne (h ▸ hp))

theorem outside_not_cell (P : List Nat) (X i a : Nat) (hX : Pg X) (hi : i < 512)
    (hm : X ∈ P) (ha : outside P a) : a ≠ slot X i := by
  have h1 := ha X hm
  obtain ⟨c1, c2, _⟩ := cell_in X i hX.2 hi
  omega

theorem put_settles (s : State) (c e : Nat) :
    (if (if s.mem c = 0 then { s with mem := upd s.mem c e } else s).mem c = 0 then
        { (if s.mem c = 0 then { s with mem := upd s.mem c e } else s) with
          mem := upd (if s.mem c = 0 then { s with mem := upd s.mem c e } else s).mem c e }
      else (if s.mem c = 0 then { s with mem := upd s.mem c e } else s))
      = (if s.mem c = 0 then { s with mem := upd s.mem c e } else s) := by
  by_cases h : s.mem c = 0
  · simp only [h, if_true]
    by_cases he : e = 0
    · subst he
      simp only [self_upd, if_true]
      have := upd_same (upd s.mem c 0) c
      rw [self_upd] at this
      rw [this]
    · simp only [self_upd, he, if_false]
  · simp only [h, if_false]

theorem pte_settles (cfg : Config) (s : State) (T va pa sz prot : Nat) (P : List Nat)
    (h : path_pte T sz = some P) (hok : Pages_ok cfg s P) :
    Settles (fun s T => phys_pte s T va pa sz prot) s T P := by
  unfold path_pte at h
  split at h
  · simp at h
  · rename_i hsz
    simp only [Option.some.injEq] at h
    subst h
    have hT := (pages_ok_elem cfg s _ T hok (by simp)).1
    have hrun : ∀ t : State, phys_pte t T va pa sz prot = .ok (if t.mem (slot T (pte_index va)) = 0
        then { t with mem := upd t.mem (slot T (pte_index va)) (pfn_pte (PFN_DOWN pa) prot) }
        else t) := by
      intro t
      unfold phys_pte
      simp only []
      rw [if_neg hsz]
      split <;> rfl
    refine ⟨_, hrun s, ?_, ?_, ?_, rfl⟩
    · exact (hrun _).trans (congrArg Except.ok (put_settles s _ _))
    · split
      · simp [same_config]
      · exact same_config_refl s
    · intro a ha
      have hne := outside_not_cell [T] T (pte_index va) a hT (pte_index_lt va) (by simp) ha
      split
      · simp [upd, hne]
      · rfl

theorem head_mem (P : List Nat) (A : Nat) (h : P.head? = some A) : A ∈ P := by
  cases P with
  | nil => simp at h
  | cons x xs =>
    simp only [List.head?_cons, Option.some.injEq] at h
    rw [h]
    exact List.mem_cons_self _ _

theorem map_cons_some (o : Option (List Nat)) (T : Nat) (P : List Nat)
    (h : (o.map fun P => T :: P) = some P) : ∃ Q, o = some Q ∧ P = T :: Q := by
  cases o with
  | none => simp at h
  | some Q =>
    simp only [Option.map_some', Option.some.injEq] at h
    exact ⟨Q, rfl, h.symm⟩

/-- One level settles if the next one does, the tables visited being distinct
pages. -/
theorem level_settles (cfg : Config) (SIZE idx : Nat)
    (alloc : State → Except Stopped (State × Nat))
    (child : State → Nat → Except Stopped State) (cpath : State → Nat → Option (List Nat))
    (pa sz prot : Nat) (hidx : idx < 512)
    (halloc : ∀ s a, alloc s = .ok a → a.1.mem = s.mem ∧ same_config s a.1)
    (hchild : ∀ s T P, cpath s T = some P → Pages_ok cfg s P → Settles child s T P)
    (s : State) (T : Nat) (P : List Nat)
    (h : path_level SIZE idx alloc cpath s T sz = some P) (hok : Pages_ok cfg s P) :
    Settles (fun s T => phys_level cfg SIZE idx alloc child s T pa sz prot) s T P := by
  unfold path_level at h
  simp only [] at h
  by_cases hsz : sz = SIZE
  · rw [if_pos hsz] at h
    simp only [Option.some.injEq] at h
    subst h
    subst hsz
    have hT := (pages_ok_elem cfg s _ T hok (by simp)).1
    refine ⟨_, phys_level_leaf cfg _ _ _ _ s T pa prot, ?_, ?_, ?_, rfl⟩
    · exact (phys_level_leaf cfg _ _ _ _ _ T pa prot).trans
        (congrArg Except.ok (put_settles s _ _))
    · split
      · simp [same_config]
      · exact same_config_refl s
    · intro a ha
      have hne := outside_not_cell [T] T idx a hT hidx (by simp) ha
      split
      · simp [upd, hne]
      · rfl
  · rw [if_neg hsz] at h
    by_cases he : s.mem (slot T idx) = 0
    · rw [if_pos he] at h
      cases hal : alloc s with
      | error e =>
        rw [hal] at h
        simp at h
      | ok a =>
        rw [hal] at h
        simp only [] at h
        obtain ⟨Q, hq, hP⟩ := map_cons_some _ T P h
        subst hP
        obtain ⟨hm, hc⟩ := halloc s a hal
        obtain ⟨hokQ, hTQ⟩ := Pages_ok_tail cfg s T Q hok
        have hT := (pages_ok_elem cfg s _ T hok (by simp)).1
        have hc2 : same_config s { a.1 with mem := (zero_words
            (upd a.1.mem (slot T idx) (pfn_pte (PFN_DOWN a.2) PAGE_TABLE)) a.2
            (PAGE_SIZE / 8)) } := hc
        obtain ⟨s1, r1, r2, c1, fr, hd⟩ := hchild _ a.2 Q hq (Pages_ok_congr cfg s _ Q hc2 hokQ)
        have hAQ := head_mem Q a.2 hd
        obtain ⟨hA, hAu⟩ := pages_ok_elem cfg s _ a.2 hokQ hAQ
        have hcs := same_config_trans hc2 c1
        have hcell : s1.mem (slot T idx) = pfn_pte (PFN_DOWN a.2) PAGE_TABLE := by
          rw [fr _ (outside_cell Q T idx hT hidx
            (fun p hp => (pages_ok_elem cfg s _ p hokQ hp).1) hTQ)]
          exact self_grow a.1.mem T a.2 idx hT hA (fun h => hTQ (h ▸ hAQ)) hidx
        refine ⟨s1, ?_, ?_, hcs, ?_, rfl⟩
        · show phys_level cfg SIZE idx alloc child s T pa sz prot = .ok s1
          rw [phys_level_alloc cfg _ _ _ _ s a.1 T pa sz prot a.2 hsz he hal
            (fun h => hAu ((unsafe_table_congr cfg s a.1 a.2 hc).mp h))]
          exact r1
        · show phys_level cfg SIZE idx alloc child s1 T pa sz prot = .ok s1
          rw [phys_level_follow cfg _ _ _ _ s1 T pa sz prot hsz
            (by rw [hcell]; exact (link_classify _).2.2)
            (by rw [hcell, link_roundtrip a.2 hA]
                exact fun h => hAu ((unsafe_table_congr cfg s s1 a.2 hcs).mp h)),
            hcell, link_roundtrip a.2 hA]
          exact r2
        · intro x hx
          have hxQ : outside Q x := fun p hp => hx p (List.mem_cons_of_mem T hp)
          rw [fr x hxQ]
          have hne := outside_not_cell (T :: Q) T idx x hT hidx (List.mem_cons_self _ _) hx
          show grow a.1.mem (slot T idx) a.2 x = s.mem x
          unfold grow
          rw [zero_words_out _ _ _ hA.2 (hxQ a.2 hAQ)]
          unfold upd
          rw [if_neg hne, hm]
    · rw [if_neg he] at h
      obtain ⟨Q, hq, hP⟩ := map_cons_some _ T P h
      subst hP
      obtain ⟨hokQ, hTQ⟩ := Pages_ok_tail cfg s T Q hok
      have hT := (pages_ok_elem cfg s _ T hok (by simp)).1
      obtain ⟨s1, r1, r2, c1, fr, hd⟩ := hchild s _ Q hq hokQ
      have hAQ := head_mem Q _ hd
      obtain ⟨hA, hAu⟩ := pages_ok_elem cfg s _ _ hokQ hAQ
      have hcell : s1.mem (slot T idx) = s.mem (slot T idx) :=
        fr _ (outside_cell Q T idx hT hidx (fun p hp => (pages_ok_elem cfg s _ p hokQ hp).1) hTQ)
      refine ⟨s1, ?_, ?_, c1, ?_, rfl⟩
      · show phys_level cfg SIZE idx alloc child s T pa sz prot = .ok s1
        rw [phys_level_follow cfg _ _ _ _ s T pa sz prot hsz he hAu]
        exact r1
      · show phys_level cfg SIZE idx alloc child s1 T pa sz prot = .ok s1
        rw [phys_level_follow cfg _ _ _ _ s1 T pa sz prot hsz (by rw [hcell]; exact he)
          (by rw [hcell]
              exact fun h => hAu ((unsafe_table_congr cfg s s1 _ c1).mp h)), hcell]
        exact r2
      · intro x hx
        exact fr x (fun p hp => hx p (List.mem_cons_of_mem T hp))

theorem memblock_phys_alloc_keeps (s : State) : (memblock_phys_alloc s).1.mem = s.mem := by
  unfold memblock_phys_alloc
  split <;> rfl

theorem alloc_pte_keeps (va : Nat) (s : State) (a : State × Nat)
    (h : alloc_pte s va = .ok a) : a.1.mem = s.mem ∧ same_config s a.1 := by
  refine ⟨?_, alloc_pte_config va s a h⟩
  unfold alloc_pte at h
  split at h
  · simp at h
  · simp only [Except.ok.injEq] at h
    rw [← h]
    exact memblock_phys_alloc_keeps s

theorem alloc_pmd_keeps (cfg : Config) (va : Nat) (s : State) (a : State × Nat)
    (h : alloc_pmd cfg s va = .ok a) : a.1.mem = s.mem ∧ same_config s a.1 := by
  refine ⟨?_, alloc_pmd_config cfg va s a h⟩
  unfold alloc_pmd at h
  split at h
  · simp only [Except.ok.injEq] at h
    rw [← h]
    exact memblock_phys_alloc_keeps s
  · split at h
    · simp at h
    · simp only [Except.ok.injEq] at h
      rw [← h]
      rfl

theorem alloc_pud_keeps (cfg : Config) (va : Nat) (s : State) (a : State × Nat)
    (h : alloc_pud cfg s va = .ok a) : a.1.mem = s.mem ∧ same_config s a.1 := by
  refine ⟨?_, alloc_pud_config cfg va s a h⟩
  unfold alloc_pud at h
  split at h
  · simp only [Except.ok.injEq] at h
    rw [← h]
    exact memblock_phys_alloc_keeps s
  · split at h
    · simp at h
    · simp only [Except.ok.injEq] at h
      rw [← h]
      rfl

theorem pmd_settles (cfg : Config) (va pa sz prot : Nat) (s : State) (T : Nat) (P : List Nat)
    (h : path_pmd s T va sz = some P) (hok : Pages_ok cfg s P) :
    Settles (fun s T => phys_pmd cfg s T va pa sz prot) s T P :=
  level_settles cfg _ _ _ _ _ pa sz prot (pmd_index_lt va) (alloc_pte_keeps va)
    (fun s T P h hok => pte_settles cfg s T va pa sz prot P h hok) s T P h hok

theorem pud_settles (cfg : Config) (va pa sz prot : Nat) (s : State) (T : Nat) (P : List Nat)
    (h : path_pud cfg s T va sz = some P) (hok : Pages_ok cfg s P) :
    Settles (fun s T => phys_pud cfg s T va pa sz prot) s T P :=
  level_settles cfg _ _ _ _ _ pa sz prot (pud_index_lt va) (alloc_pmd_keeps cfg va)
    (fun s T P h hok => pmd_settles cfg va pa sz prot s T P h hok) s T P h hok

theorem pgd_settles (cfg : Config) (va pa sz prot : Nat) (s : State) (T : Nat) (P : List Nat)
    (h : path_pgd cfg s T va sz = some P) (hok : Pages_ok cfg s P) :
    ∃ s1, phys_pgd cfg s T va pa sz prot = .ok s1 ∧ phys_pgd cfg s1 T va pa sz prot = .ok s1 ∧
      same_config s s1 ∧ (∀ a, outside P a → s1.mem a = s.mem a) ∧ P.head? = some T := by
  unfold path_pgd at h
  by_cases hl : ¬ s.pgtable_l4_enabled = true
  · rw [if_pos hl] at h
    obtain ⟨s1, r1, r2, c, fr, hd⟩ := pud_settles cfg va pa sz prot s T P h hok
    have hl1 : ¬ s1.pgtable_l4_enabled = true := by rw [c.2.1]; exact hl
    refine ⟨s1, ?_, ?_, c, fr, hd⟩
    · unfold phys_pgd
      rw [if_pos hl]
      exact r1
    · unfold phys_pgd
      rw [if_pos hl1]
      exact r2
  · rw [if_neg hl] at h
    obtain ⟨s1, r1, r2, c, fr, hd⟩ := level_settles cfg _ _ _ _ _ pa sz prot (pgd_index_lt s va)
      (alloc_pud_keeps cfg va) (fun s T P h hok => pud_settles cfg va pa sz prot s T P h hok)
      s T P h hok
    have hl1 : ¬ ¬ s1.pgtable_l4_enabled = true := by rw [c.2.1]; exact hl
    have hsz : PGDIR_SIZE s1 = PGDIR_SIZE s := by rw [PGDIR_SIZE_eq, PGDIR_SIZE_eq, c.2.1]
    have hix : pgd_index s1 va = pgd_index s va := by
      rw [pgd_index_of_eq, pgd_index_of_eq, c.2.1]
    refine ⟨s1, ?_, ?_, c, fr, hd⟩
    · unfold phys_pgd
      rw [if_neg hl]
      exact r1
    · unfold phys_pgd
      rw [if_neg hl1, hsz, hix]
      exact r2

/-- C2 (as amended): idempotence of the insert.  Let the tables the insert
visits (`path_pgd`: the root, then at each level the table an existing entry
points to or the page the allocator hands out) be pairwise distinct pages, none
of them `fixmap_pte` when translation is on.  Then `create_pgd_mapping` returns,
and if the root pointer still gives access to the root, the same call applied
to the state it leaves returns too, with every memory cell other than the three
fixmap window cells unchanged, the same free pages and no further allocation;
with translation off the second call returns the very state the first left. -/
theorem insert_idempotent (cfg : Config) (s : State) (ptr T va pa sz prot : Nat)
    (P : List Nat) (hfix : Fixmap_ok cfg s) (hA : Addr cfg s ptr T)
    (hpath : path_pgd cfg s T va sz = some P) (hok : Pages_ok cfg s P) :
    ∃ s1, create_pgd_mapping cfg s ptr va pa sz prot = .ok s1 ∧ same_config s s1 ∧
      (Addr cfg s1 ptr T →
        ∃ s2, create_pgd_mapping cfg s1 ptr va pa sz prot = .ok s2 ∧
          (∀ a, ¬ Win cfg s a → s2.mem a = s1.mem a) ∧
          s2.free_pages = s1.free_pages ∧ allocs s2.trace = allocs s1.trace ∧
          same_config s1 s2 ∧ (s.mmu_enabled = false → s2 = s1)) := by
  obtain ⟨sp, r1, r2, c, _, hd⟩ := pgd_settles cfg va pa sz prot s T P hpath hok
  have hTu := (pages_ok_elem cfg s _ T hok (head_mem P T hd)).2
  have hsim := refine_pgd cfg va pa sz prot s s ptr T (Rel_refl cfg s) hfix hA hTu
  rw [r1] at hsim
  obtain ⟨s1, h1, hR⟩ := hsim
  have c1 : same_config s s1 := same_config_trans c hR.1
  refine ⟨s1, h1, c1, ?_⟩
  intro hA1
  have hsim2 := refine_pgd cfg va pa sz prot s1 sp ptr T hR (Fixmap_ok_congr cfg s sp c hfix)
    hA1 (fun h => hTu ((unsafe_table_congr cfg s sp T c).mp h))
  rw [r2] at hsim2
  obtain ⟨s2, h2, hR2⟩ := hsim2
  refine ⟨s2, h2, ?_, ?_, ?_, same_config_trans (same_config_symm hR.1) hR2.1, ?_⟩
  · intro a ha
    have hw : ¬ Win cfg sp a := fun h => ha ((Win_congr cfg s sp a c).mp h)
    rw [hR2.2.2.2.1 a hw, hR.2.2.2.1 a hw]
  · rw [hR2.2.1, hR.2.1]
  · rw [hR2.2.2.1, hR.2.2.1]
  · intro hoff
    have hoffp : sp.mmu_enabled = false := by rw [c.1]; exact hoff
    rw [hR2.2.2.2.2 hoffp, hR.2.2.2.2 hoffp]

theorem symbol_congr (s t : State) (p : Nat) (h : same_config s t) :
    symbol t p = symbol s p := by
  unfold symbol __va
  rw [h.1, h.2.2.2.2.1]

/-- C2 as stated fails when a page is visited twice: with translation off,
an insert of an upper-level block whose root is `early_pud`, the page
`alloc_pud` hands out, links the page into itself and clears it, link included;
the second call finds the root slot empty again and is handed the page once
more. -/
theorem insert_idempotent_counterexample :
    ∃ s1 s2,
      create_pgd_mapping cfg0 (boot cfg0 (fun _ => 0) true) cfg0.early_pud
        0xffffc00000000000 0x80000000 PUD_SIZE PAGE_KERNEL_EXEC = .ok s1 ∧
      create_pgd_mapping cfg0 s1 cfg0.early_pud
        0xffffc00000000000 0x80000000 PUD_SIZE PAGE_KERNEL_EXEC = .ok s2 ∧
      allocs s1.trace = [cfg0.early_pud] ∧
      allocs s2.trace = [cfg0.early_pud, cfg0.early_pud] := by
  have hU : Pg cfg0.early_pud := by unfold Pg; decide
  have e1 := pgd_build_pud cfg0 (boot cfg0 (fun _ => 0) true)
    (handed_out (boot cfg0 (fun _ => 0) true) cfg0.early_pud).1 (fun _ => 0) cfg0.early_pud
    0xffffc00000000000 0x80000000 PAGE_KERNEL_EXEC cfg0.early_pud rfl rfl rfl
    (unsafe_off cfg0 _ _ rfl) hU
  have e2 := pgd_build_pud cfg0 (handed_out (boot cfg0 (fun _ => 0) true) cfg0.early_pud).1
    (handed_out (handed_out (boot cfg0 (fun _ => 0) true) cfg0.early_pud).1 cfg0.early_pud).1
    (upd (grow (fun _ => 0) (slot cfg0.early_pud
        (pgd_index (boot cfg0 (fun _ => 0) true) 0xffffc00000000000)) cfg0.early_pud)
      (slot cfg0.early_pud (pud_index 0xffffc00000000000))
      (pfn_pte (PFN_DOWN 0x80000000) PAGE_KERNEL_EXEC))
    cfg0.early_pud 0xffffc00000000000 0x80000000 PAGE_KERNEL_EXEC cfg0.early_pud rfl
    (by
      have hne : slot cfg0.early_pud (pgd_index (handed_out (boot cfg0 (fun _ => 0) true)
          cfg0.early_pud).1 0xffffc00000000000)
          ≠ slot cfg0.early_pud (pud_index 0xffffc00000000000) := by decide
      unfold upd
      rw [if_neg hne]
      exact zero_grow _ cfg0.early_pud _ _ hU (pgd_index_lt _ _))
    rfl (unsafe_off cfg0 _ _ rfl) hU
  exact ⟨_, _, (pgd_off cfg0 _ _ _ _ _ _ rfl).trans e1, (pgd_off cfg0 _ _ _ _ _ _ rfl).trans e2,
    rfl, rfl⟩

theorem insert_idempotent_witness :
    ∃ s1, create_pgd_mapping cfg0 running0 (symbol running0 cfg0.swapper_pg_dir)
        0xffffc00040000000 0x80000000 PUD_SIZE PAGE_KERNEL = .ok s1 ∧
      ∃ s2, create_pgd_mapping cfg0 s1 (symbol running0 cfg0.swapper_pg_dir)
          0xffffc00040000000 0x80000000 PUD_SIZE PAGE_KERNEL = .ok s2 ∧
        (∀ a, ¬ Win cfg0 running0 a → s2.mem a = s1.mem a) ∧
        s2.free_pages = s1.free_pages ∧ allocs s2.trace = allocs s1.trace := by
  obtain ⟨s1, h1, c1, h⟩ := insert_idempotent cfg0 running0
    (symbol running0 cfg0.swapper_pg_dir) cfg0.swapper_pg_dir 0xffffc00040000000 0x80000000
    PUD_SIZE PAGE_KERNEL [cfg0.swapper_pg_dir, 0x81000000]
    (by unfold Fixmap_ok Linear; decide)
    (Addr_linear cfg0 running0 _ (by unfold Linear; decide)) rfl (by unfold Pages_ok; decide)
  have hA1 : Addr cfg0 s1 (symbol running0 cfg0.swapper_pg_dir) cfg0.swapper_pg_dir := by
    rw [← symbol_congr running0 s1 _ c1]
    exact Addr_linear cfg0 s1 _ (Linear_congr cfg0 running0 s1 _ c1 (by unfold Linear; decide))
  obtain ⟨s2, h2, hm, hf, ha, _⟩ := h hA1
  exact ⟨s1, h1, s2, h2, hm, hf, ha⟩

/-! ## Number of tables an insert creates (C14) -/

theorem allocs_cons (p : Nat) (t : List Event) : allocs (Event.alloc p :: t) = p :: allocs t := by
  simp [allocs]

theorem memblock_trace (s : State) :
    allocs (memblock_phys_alloc s).1.trace = (memblock_phys_alloc s).2 :: allocs s.trace := by
  unfold memblock_phys_alloc
  cases s.free_pages with
  | nil => exact allocs_cons _ _
  | cons p rest => exact allocs_cons _ _

theorem alloc_pte_trace (va : Nat) (s s1 : State) (A : Nat)
    (h : alloc_pte s va = .ok (s1, A)) : allocs s1.trace = A :: allocs s.trace := by
  unfold alloc_pte at h
  split at h
  · simp at h
  · simp only [Except.ok.injEq] at h
    have := memblock_trace s
    rw [h] at this
    exact this

theorem alloc_pmd_trace (cfg : Config) (va : Nat) (s s1 : State) (A : Nat)
    (h : alloc_pmd cfg s va = .ok (s1, A)) : allocs s1.trace = A :: allocs s.trace := by
  unfold alloc_pmd at h
  split at h
  · simp only [Except.ok.injEq] at h
    have := memblock_trace s
    rw [h] at this
    exact this
  · split at h
    · simp at h
    · simp only [Except.ok.injEq, handed_out, Prod.mk.injEq] at h
      obtain ⟨rfl, rfl⟩ := h
      exact allocs_cons _ _

theorem alloc_pud_trace (cfg : Config) (va : Nat) (s s1 : State) (A : Nat)
    (h : alloc_pud cfg s va = .ok (s1, A)) : allocs s1.trace = A :: allocs s.trace := by
  unfold alloc_pud at h
  split at h
  · simp only [Except.ok.injEq] at h
    have := memblock_trace s
    rw [h] at this
    exact this
  · split at h
    · simp at h
    · simp only [Except.ok.injEq, handed_out, Prod.mk.injEq] at h
      obtain ⟨rfl, rfl⟩ := h
      exact allocs_cons _ _

/-- An insert that finds the root slot empty: the pages the allocators supply
are the tables it creates. -/
theorem phys_insert_allocs (cfg : Config) (s : State) (T va pa sz prot : Nat)
    (pages : List Nat)
    (hsz : sz = PAGE_SIZE ∨ sz = PMD_SIZE ∨ sz = PUD_SIZE ∨ sz = PGDIR_SIZE s)
    (h0 : s.mem (slot T (pgd_index s va)) = 0)
    (hsup : supply cfg s va sz = .ok pages) (hok : Pages_ok cfg s (T :: pages)) :
    ∃ s', phys_pgd cfg s T va pa sz prot = .ok s' ∧
      allocs s'.trace = pages.reverse ++ allocs s.trace ∧
      pages.length + 1 = levels s.pgtable_l4_enabled sz := by
  by_cases hg : sz = PGDIR_SIZE s
  · have hp : pages = [] := by
      unfold supply at hsup
      rw [if_pos hg] at hsup
      simp only [Except.ok.injEq] at hsup
      exact hsup.symm
    subst hp
    subst hg
    rcases Bool.eq_false_or_eq_true s.pgtable_l4_enabled with hl | hl
    · refine ⟨{ s with mem := upd s.mem (slot T (pgd_index s va)) (pfn_pte (PFN_DOWN pa) prot) },
        (phys_pgd_deep cfg s s.mem T va pa _ prot hl).trans
          (phys_level_put cfg _ _ _ _ s s.mem T pa prot h0), rfl, ?_⟩
      rw [hl, pgdir_size_deep s hl]
      rfl
    · have hgs : PGDIR_SIZE s = PUD_SIZE := pgdir_size_shallow s hl
      have hix : pgd_index s va = pud_index va := by
        rw [pgd_index_of_eq, hl]
        rfl
      rw [hix] at h0
      rw [hgs]
      refine ⟨{ s with mem := upd s.mem (slot T (pud_index va)) (pfn_pte (PFN_DOWN pa) prot) },
        (phys_pgd_shallow cfg s s.mem T va pa _ prot hl).trans
          (phys_level_put cfg _ _ _ _ s s.mem T pa prot h0), rfl, ?_⟩
      rw [hl]
      rfl
  · rcases Bool.eq_false_or_eq_true s.pgtable_l4_enabled with hl | hl
    · obtain ⟨s1, A, hal, hrest⟩ := supply_deep cfg s va sz pages hl hg hsup
      have t1 := alloc_pud_trace cfg va s s1 A hal
      rcases hrest with ⟨h1, hp⟩ | ⟨h1, s2, B, hal2, hrest⟩
      · subst h1
        subst hp
        obtain ⟨hA, hAu⟩ := pages_ok_elem cfg s _ A hok (by simp)
        refine ⟨_, pgd_build_pud cfg s s1 s.mem T va pa prot A hl h0 hal hAu hA, ?_, ?_⟩
        · show allocs s1.trace = _
          rw [t1]
          rfl
        · rw [hl]
          rfl
      · have t2 := alloc_pmd_trace cfg va s1 s2 B hal2
        rcases hrest with ⟨h2, hp⟩ | ⟨h2, s3, C, hal3, hp⟩
        · subst h2
          subst hp
          obtain ⟨hA, hAu⟩ := pages_ok_elem cfg s _ A hok (by simp)
          obtain ⟨hB, hBu⟩ := pages_ok_elem cfg s _ B hok (by simp)
          refine ⟨_, pgd_build_pmd cfg s s1 s2 s.mem T va pa prot A B hl h0 hal hal2 hAu hA
            hBu hB, ?_, ?_⟩
          · show allocs s2.trace = _
            rw [t2, t1]
            rfl
          · rw [hl]
            rfl
        · have hs : sz = PAGE_SIZE := by
            rcases hsz with h | h | h | h
            · exact h
            · exact absurd h h2
            · exact absurd h h1
            · exact absurd h hg
          subst hs
          subst hp
          have t3 := alloc_pte_trace va s2 s3 C hal3
          obtain ⟨hA, hAu⟩ := pages_ok_elem cfg s _ A hok (by simp)
          obtain ⟨hB, hBu⟩ := pages_ok_elem cfg s _ B hok (by simp)
          obtain ⟨hC, hCu⟩ := pages_ok_elem cfg s _ C hok (by simp)
          refine ⟨_, pgd_build_page cfg s s1 s2 s3 s.mem T va pa prot A B C hl h0 hal hal2
            hal3 hAu hA hBu hB hCu hC, ?_, ?_⟩
          · show allocs s3.trace = _
            rw [t3, t2, t1]
            rfl
          · rw [hl]
            rfl
    · have hgs : PGDIR_SIZE s = PUD_SIZE := pgdir_size_shallow s hl
      have hix : pgd_index s va = pud_index va := by
        rw [pgd_index_of_eq, hl]
        rfl
      rw [hix] at h0
      obtain ⟨s2, B, hal2, hrest⟩ := supply_shallow cfg s va sz pages hl hg hsup
      have t2 := alloc_pmd_trace cfg va s s2 B hal2
      rcases hrest with ⟨h2, hp⟩ | ⟨h2, s3, C, hal3, hp⟩
      · subst h2
        subst hp
        obtain ⟨hB, hBu⟩ := pages_ok_elem cfg s _ B hok (by simp)
        refine ⟨_, (phys_pgd_shallow cfg s s.mem T va pa _ prot hl).trans
          (pud_build_pmd cfg s s2 s.mem T va pa prot B h0 hal2 hBu hB), ?_, ?_⟩
        · show allocs s2.trace = _
          rw [t2]
          rfl
        · rw [hl]
          rfl
      · have hs : sz = PAGE_SIZE := by
          rcases hsz with h | h | h | h
          · exact h
          · exact absurd h h2
          · exact absurd (h.trans hgs.symm) hg
          · exact absurd h hg
        subst hs
        subst hp
        have t3 := alloc_pte_trace va s2 s3 C hal3
        obtain ⟨hB, hBu⟩ := pages_ok_elem cfg s _ B hok (by simp)
        obtain ⟨hC, hCu⟩ := pages_ok_elem cfg s _ C hok (by simp)
        refine ⟨_, (phys_pgd_shallow cfg s s.mem T va pa _ prot hl).trans
          (pud_build_page cfg s s2 s3 s.mem T va pa prot B C h0 hal2 hal3 hBu hB hCu hC),
          ?_, ?_⟩
        · show allocs s3.trace = _
          rw [t3, t2]
          rfl
        · rw [hl]
          rfl

theorem put_trace (s : State) (c v : Nat) :
    (if s.mem c = 0 then { s with mem := upd s.mem c v } else s).trace = s.trace := by
  split <;> rfl

theorem phys_pmd_present (cfg : Config) (s : State) (T va pa sz prot : Nat)
    (h : present_pmd cfg s T va sz) :
    ∃ s', phys_pmd cfg s T va pa sz prot = .ok s' ∧ s'.trace = s.trace := by
  unfold phys_pmd
  rcases h with h | ⟨h, he, hu⟩
  · subst h
    exact ⟨_, phys_level_leaf cfg _ _ _ _ s T pa prot, put_trace s _ _⟩
  · subst h
    rw [phys_level_follow cfg _ _ _ _ s T pa PAGE_SIZE prot (by decide) he hu]
    unfold phys_pte
    simp only [ne_eq, not_true_eq_false, if_false]
    split
    · exact ⟨_, rfl, rfl⟩
    · exact ⟨_, rfl, rfl⟩

theorem phys_pud_present (cfg : Config) (s : State) (T va pa sz prot : Nat)
    (h : present_pud cfg s T va sz) :
    ∃ s', phys_pud cfg s T va pa sz prot = .ok s' ∧ s'.trace = s.trace := by
  unfold phys_pud
  rcases h with h | ⟨he, hu, h⟩
  · subst h
    exact ⟨_, phys_level_leaf cfg _ _ _ _ s T pa prot, put_trace s _ _⟩
  · by_cases hsz : sz = PUD_SIZE
    · subst hsz
      exact ⟨_, phys_level_leaf cfg _ _ _ _ s T pa prot, put_trace s _ _⟩
    · rw [phys_level_follow cfg _ _ _ _ s T pa sz prot hsz he hu]
      exact phys_pmd_present cfg s _ va pa sz prot h

theorem phys_pgd_present (cfg : Config) (s : State) (T va pa sz prot : Nat)
    (h : present_pgd cfg s T va sz) :
    ∃ s', phys_pgd cfg s T va pa sz prot = .ok s' ∧ s'.trace = s.trace := by
  unfold phys_pgd
  unfold present_pgd at h
  by_cases hl : s.pgtable_l4_enabled = true
  · rw [if_pos hl] at h
    rw [if_neg (by simp [hl])]
    by_cases hsz : sz = PGDIR_SIZE s
    · rw [hsz]
      exact ⟨_, phys_level_leaf cfg _ _ _ _ s T pa prot, put_trace s _ _⟩
    · rcases h with h | ⟨he, hu, h⟩
      · exact absurd h hsz
      · rw [phys_level_follow cfg _ _ _ _ s T pa sz prot hsz he hu]
        exact phys_pud_present cfg s _ va pa sz prot h
  · rw [if_neg hl] at h
    rw [if_pos hl]
    exact phys_pud_present cfg s T va pa sz prot h

/-- C14 (amended): the number of tables an insert creates.  On a machine with the fixmap
geometry `Fixmap_ok`, for a root `T` reached through `ptr`, a supported size
`sz` and any `va`, `pa` and `prot`: when the root slot of `va` is empty (as in
an all-zero root) and the allocators supply the pages `pages`, which with the
root are distinct pages that the access port can serve, `create_pgd_mapping`
returns and the allocations it adds to the trace are exactly `pages`, newest
first, `levels - 1` of them, where `levels` counts the levels from the root to
the level of `sz` (three tables for a base page in deep mode, two in shallow
mode, none for the root's own block size); and when the whole path of the
insert already exists, `create_pgd_mapping` returns with no allocation added. -/
theorem tables_created (cfg : Config) (s : State) (ptr T va pa sz prot : Nat)
    (hfix : Fixmap_ok cfg s) (hA : Addr cfg s ptr T) (hs : ¬ unsafe_table cfg s T)
    (hsz : sz = PAGE_SIZE ∨ sz = PMD_SIZE ∨ sz = PUD_SIZE ∨ sz = PGDIR_SIZE s) :
    (∀ pages, s.mem (slot T (pgd_index s va)) = 0 → supply cfg s va sz = .ok pages →
      Pages_ok cfg s (T :: pages) →
      ∃ s', create_pgd_mapping cfg s ptr va pa sz prot = .ok s' ∧
        allocs s'.trace = pages.reverse ++ allocs s.trace ∧
        pages.length = levels s.pgtable_l4_enabled sz - 1) ∧
    (present_pgd cfg s T va sz →
      ∃ s', create_pgd_mapping cfg s ptr va pa sz prot = .ok s' ∧
        allocs s'.trace = allocs s.trace) := by
  have hsim := refine_pgd cfg va pa sz prot s s ptr T (Rel_refl cfg s) hfix hA hs
  refine ⟨fun pages h0 hsup hok => ?_, fun hp => ?_⟩
  · obtain ⟨sp, hrun, ht, hn⟩ := phys_insert_allocs cfg s T va pa sz prot pages hsz h0 hsup hok
    rw [hrun] at hsim
    obtain ⟨sc, hsc, hR⟩ := hsim
    exact ⟨sc, hsc, by rw [hR.2.2.1]; exact ht, by omega⟩
  · obtain ⟨sp, hrun, ht⟩ := phys_pgd_present cfg s T va pa sz prot hp
    rw [hrun] at hsim
    obtain ⟨sc, hsc, hR⟩ := hsim
    exact ⟨sc, hsc, by rw [hR.2.2.1, ht]⟩

theorem tables_created_witness :
    (∃ s', create_pgd_mapping cfg0 running0 (symbol running0 cfg0.swapper_pg_dir)
        0xffffc00040201000 0x90001000 PAGE_SIZE PAGE_KERNEL = .ok s' ∧
      allocs s'.trace = [0x81002000, 0x81001000, 0x81000000] ++ allocs running0.trace) ∧
    levels true PAGE_SIZE = 4 ∧ levels false PAGE_SIZE = 3 ∧ levels true 549755813888 = 1 ∧
    (∃ s', create_pgd_mapping cfg0 populated0 cfg0.early_pg_dir 0xffffc00000000000
        0x90000000 PUD_SIZE PAGE_KERNEL = .ok s' ∧
      allocs s'.trace = allocs populated0.trace) := by
  have h := tables_created cfg0 running0 (symbol running0 cfg0.swapper_pg_dir)
    cfg0.swapper_pg_dir 0xffffc00040201000 0x90001000 PAGE_SIZE PAGE_KERNEL
    (by unfold Fixmap_ok Linear; decide)
    (Addr_linear cfg0 running0 _ (by unfold Linear; decide)) (by decide) (Or.inl rfl)
  have h2 := tables_created cfg0 populated0 cfg0.early_pg_dir
    cfg0.early_pg_dir 0xffffc00000000000 0x90000000 PUD_SIZE PAGE_KERNEL
    (by unfold Fixmap_ok Linear; decide)
    (Addr_off cfg0 populated0 _ rfl) (by decide) (Or.inr (Or.inr (Or.inl rfl)))
  obtain ⟨s', e1, e2, _⟩ := h.1 [0x81000000, 0x81001000, 0x81002000] rfl rfl
    (by unfold Pages_ok; decide)
  have hp : present_pgd cfg0 populated0 cfg0.early_pg_dir 0xffffc00000000000 PUD_SIZE := by
    unfold present_pgd
    rw [if_pos (show populated0.pgtable_l4_enabled = true from rfl)]
    exact Or.inr ⟨by decide, by decide, Or.inl rfl⟩
  exact ⟨⟨s', e1, e2⟩, by decide, by decide, by decide, h2.2 hp⟩

theorem tables_created_counterexample :
    ∃ e, create_pgd_mapping cfg0 (boot cfg0 (fun _ => 0) true) cfg0.early_pg_dir
        0xffffc00000000000 0x80200000 PAGE_SIZE PAGE_KERNEL = .error e ∧
      e.cause = Halt.BUG_ON 240 ∧ allocs e.st.trace = [cfg0.early_pmd, cfg0.early_pud] ∧
      levels true PAGE_SIZE - 1 = 3 := by
  have hU : Pg cfg0.early_pud := by unfold Pg; decide
  have hM : Pg cfg0.early_pmd := by unfold Pg; decide
  rw [pgd_off cfg0 _ _ _ _ _ _ rfl]
  have e0 := phys_pgd_deep cfg0 (boot cfg0 (fun _ => 0) true) (fun _ => 0) cfg0.early_pg_dir
    0xffffc00000000000 0x80200000 PAGE_SIZE PAGE_KERNEL rfl
  have e1 := phys_level_grow cfg0 (PGDIR_SIZE (boot cfg0 (fun _ => 0) true))
    (pgd_index (boot cfg0 (fun _ => 0) true) 0xffffc00000000000)
    (fun s => alloc_pud cfg0 s 0xffffc00000000000)
    (fun s T => phys_pud cfg0 s T 0xffffc00000000000 0x80200000 PAGE_SIZE PAGE_KERNEL)
    (boot cfg0 (fun _ => 0) true) (handed_out (boot cfg0 (fun _ => 0) true) cfg0.early_pud).1
    (fun _ => 0) cfg0.early_pg_dir 0x80200000 PAGE_SIZE PAGE_KERNEL cfg0.early_pud
    (by decide) rfl rfl (unsafe_off cfg0 _ _ rfl)
  have e2 := phys_level_grow cfg0 PUD_SIZE (pud_index 0xffffc00000000000)
    (fun s => alloc_pmd cfg0 s 0xffffc00000000000)
    (fun s T => phys_pmd cfg0 s T 0xffffc00000000000 0x80200000 PAGE_SIZE PAGE_KERNEL)
    (handed_out (boot cfg0 (fun _ => 0) true) cfg0.early_pud).1
    (handed_out (handed_out (boot cfg0 (fun _ => 0) true) cfg0.early_pud).1 cfg0.early_pmd).1
    (grow (fun _ => 0) (slot cfg0.early_pg_dir
      (pgd_index (boot cfg0 (fun _ => 0) true) 0xffffc00000000000)) cfg0.early_pud)
    cfg0.early_pud 0x80200000 PAGE_SIZE PAGE_KERNEL cfg0.early_pmd
    (by decide) (zero_grow _ _ _ _ hU (pud_index_lt _)) rfl (unsafe_off cfg0 _ _ rfl)
  have hrun : phys_pgd cfg0 (boot cfg0 (fun _ => 0) true) cfg0.early_pg_dir
      0xffffc00000000000 0x80200000 PAGE_SIZE PAGE_KERNEL
      = .error ⟨Halt.BUG_ON 240,
        { (handed_out (handed_out (boot cfg0 (fun _ => 0) true) cfg0.early_pud).1
            cfg0.early_pmd).1 with
          mem := (grow (grow (fun _ => 0) (slot cfg0.early_pg_dir
            (pgd_index (boot cfg0 (fun _ => 0) true) 0xffffc00000000000)) cfg0.early_pud)
            (slot cfg0.early_pud (pud_index 0xffffc00000000000)) cfg0.early_pmd) }⟩ := by
    refine e0.trans (e1.trans ?_)
    unfold phys_pud
    refine e2.trans ?_
    unfold phys_pmd phys_level
    simp only []
    rw [if_neg (by decide), if_pos (zero_words_in _ _ _ hM.2 (pmd_index_lt _))]
    rfl
  exact ⟨_, hrun, rfl, rfl, rfl⟩

/-! ## The fixmap primitive and the table access port (C18, C17) -/

theorem fixmap_cell (cfg : Config) (s : State) (idx : Nat) (hlin : Linear cfg s cfg.fixmap_pte) :
    slot cfg.fixmap_pte (pte_index (__fix_to_virt cfg s idx)) = wincell cfg s idx := by
  have hW := WORD_eq
  have hP := PAGE_SIZE_eq
  have hi := pte_index_lt (__fix_to_virt cfg s idx)
  unfold wincell
  exact slot_eq _ _ (by have := hlin.1; omega)

/-- C18: with `fixmap_pte` reached through the kernel mapping, for a slot index
`idx` with `FIX_HOLE < idx < __end_of_fixed_addresses` the call
`__set_fixmap(idx, phys, prot)` returns; with a non-zero `prot` the state it
returns differs from the one it started in only in the entry of `fixmap_pte`
selected by the slot address, which holds `pfn_pte(phys >> PAGE_SHIFT, prot)`
(the event trace, and so the record of invalidations, is unchanged); with a
zero `prot` that entry is zero and the trace has one new event, the
invalidation of the slot address; for an index outside the range the call stops
at the `BUG_ON` of line 212 in the unchanged state. -/
theorem set_fixmap_set_versus_clear (cfg : Config) (s : State) (idx phys prot : Nat)
    (hlin : Linear cfg s cfg.fixmap_pte) :
    (FIX_HOLE < idx ∧ idx < cfg.end_of_fixed_addresses →
      (prot ≠ 0 → __set_fixmap cfg s idx phys prot = .ok { s with
          mem := upd s.mem (slot cfg.fixmap_pte (pte_index (__fix_to_virt cfg s idx)))
            (pfn_pte (phys >>> PAGE_SHIFT) prot) }) ∧
      (prot = 0 → __set_fixmap cfg s idx phys prot = .ok { s with
          mem := upd s.mem (slot cfg.fixmap_pte (pte_index (__fix_to_virt cfg s idx))) 0
          trace := Event.local_flush_tlb_page (__fix_to_virt cfg s idx) :: s.trace })) ∧
    (idx ≤ FIX_HOLE ∨ cfg.end_of_fixed_addresses ≤ idx →
      __set_fixmap cfg s idx phys prot = .error ⟨.BUG_ON 212, s⟩) := by
  have hA := Addr_linear cfg s cfg.fixmap_pte hlin
  have hi := pte_index_lt (__fix_to_virt cfg s idx)
  refine ⟨fun hr => ⟨fun hp => ?_, fun hp => ?_⟩, fun hr => ?_⟩
  · unfold __set_fixmap
    simp only []
    rw [if_neg (by omega), if_pos hp, store_Addr cfg s _ _ _ _ hA hi]
  · unfold __set_fixmap
    simp only []
    rw [if_neg (by omega), if_neg (by simp [hp]), store_Addr cfg s _ _ _ _ hA hi]
    rfl
  · unfold __set_fixmap
    simp only []
    rw [if_pos (by omega)]

theorem set_fixmap_set_versus_clear_witness :
    Linear cfg0 running0 cfg0.fixmap_pte ∧
    slot cfg0.fixmap_pte (pte_index (__fix_to_virt cfg0 running0 cfg0.FIX_PMD)) = 0x809037f0 ∧
    __set_fixmap cfg0 running0 cfg0.FIX_PMD 0x81000abc FIXMAP_PAGE_NORMAL
      = .ok { running0 with
          mem := upd running0.mem
            (slot cfg0.fixmap_pte (pte_index (__fix_to_virt cfg0 running0 cfg0.FIX_PMD)))
            (pfn_pte (0x81000abc >>> PAGE_SHIFT) FIXMAP_PAGE_NORMAL) } ∧
    __set_fixmap cfg0 running0 cfg0.FIX_PMD 0x81000abc 0
      = .ok { running0 with
          mem := upd running0.mem
            (slot cfg0.fixmap_pte (pte_index (__fix_to_virt cfg0 running0 cfg0.FIX_PMD))) 0
          trace := Event.local_flush_tlb_page (__fix_to_virt cfg0 running0 cfg0.FIX_PMD) ::
            running0.trace } ∧
    __set_fixmap cfg0 running0 261 0x81000abc FIXMAP_PAGE_NORMAL
      = .error ⟨.BUG_ON 212, running0⟩ :=
  have h := set_fixmap_set_versus_clear cfg0 running0 cfg0.FIX_PMD 0x81000abc FIXMAP_PAGE_NORMAL
    (by unfold Linear; decide)
  have h0 := set_fixmap_set_versus_clear cfg0 running0 cfg0.FIX_PMD 0x81000abc 0
    (by unfold Linear; decide)
  have h2 := set_fixmap_set_versus_clear cfg0 running0 261 0x81000abc FIXMAP_PAGE_NORMAL
    (by unfold Linear; decide)
  ⟨by unfold Linear; decide, by decide, (h.1 (by decide)).1 (by decide),
    (h0.1 (by decide)).2 rfl, h2.2 (by decide)⟩

theorem clear_fixmap_on (cfg : Config) (s : State) (idx : Nat)
    (hfix : Fixmap_ok cfg s) (hon : s.mmu_enabled = true)
    (h1 : FIX_HOLE < idx) (h2 : idx < cfg.end_of_fixed_addresses) :
    clear_fixmap cfg s idx = .ok (win_clear cfg s idx) := by
  unfold clear_fixmap
  rw [set_fixmap_on cfg s idx 0 FIXMAP_PAGE_CLEAR hfix hon h1 h2]
  have hz : ¬ (FIXMAP_PAGE_CLEAR ≠ 0) := by decide
  rw [if_neg hz]
  rfl

theorem windowed_port (cfg : Config) (s : State) (idx pa : Nat)
    (hfix : Fixmap_ok cfg s) (hon : s.mmu_enabled = true)
    (h1 : FIX_HOLE < idx) (h2 : idx < cfg.end_of_fixed_addresses) :
    Windowed cfg s idx pa
      ((clear_fixmap cfg s idx).bind fun s1 => set_fixmap_offset cfg s1 idx pa) := by
  refine ⟨clear_fixmap_on cfg s idx hfix hon h1 h2, ?_, window_on cfg s idx pa hfix hon h1 h2⟩
  rw [clear_fixmap_on cfg s idx hfix hon h1 h2]
  rfl

/-- C17: with translation disabled each of `get_pte_virt`, `get_pmd_virt` and
`get_pud_virt` returns the physical address it was given and the unchanged
state.  With translation enabled, on a machine with the fixmap geometry
`Fixmap_ok`, each first clears its own slot (`FIX_PTE`, `FIX_PMD`, `FIX_PUD`)
with the invalidation of the slot address, then installs the page of `pa` in
that slot, and returns the slot address plus the offset of `pa` in its page; in
the state it returns the window cell of the slot holds the frame of `pa` and
every other word of memory is as before. -/
theorem table_access_port_modes (cfg : Config) (s : State) (pa : Nat)
    (hfix : Fixmap_ok cfg s) :
    (s.mmu_enabled = false →
      get_pte_virt cfg s pa = .ok (s, pa) ∧ get_pmd_virt cfg s pa = .ok (s, pa) ∧
      get_pud_virt cfg s pa = .ok (s, pa)) ∧
    (s.mmu_enabled = true →
      Windowed cfg s cfg.FIX_PTE pa (get_pte_virt cfg s pa) ∧
      Windowed cfg s cfg.FIX_PMD pa (get_pmd_virt cfg s pa) ∧
      Windowed cfg s cfg.FIX_PUD pa (get_pud_virt cfg s pa) ∧
      ∀ idx, (win_set cfg s idx pa).mem (wincell cfg s idx)
          = pfn_pte (pa >>> PAGE_SHIFT) FIXMAP_PAGE_NORMAL ∧
        ∀ a, a ≠ wincell cfg s idx → (win_set cfg s idx pa).mem a = s.mem a) := by
  refine ⟨fun hoff => ?_, fun hon => ?_⟩
  · unfold get_pte_virt get_pmd_virt get_pud_virt
    simp [hoff]
  · obtain ⟨_, _, _, _, _, ⟨a1, a2, _⟩, ⟨b1, b2, _⟩, ⟨c1, c2, _⟩, _⟩ := hfix hon
    unfold get_pte_virt get_pmd_virt get_pud_virt
    rw [if_pos hon, if_pos hon, if_pos hon]
    refine ⟨windowed_port cfg s _ pa hfix hon a1 a2, windowed_port cfg s _ pa hfix hon b1 b2,
      windowed_port cfg s _ pa hfix hon c1 c2, fun idx => ⟨?_, fun a ha => ?_⟩⟩
    · simp [win_set, upd]
    · simp [win_set, upd, ha]

theorem table_access_port_modes_witness :
    Fixmap_ok cfg0 running0 ∧
    get_pmd_virt cfg0 running0 0x81000abc
      = .ok (win_set cfg0 running0 cfg0.FIX_PMD 0x81000abc, 0xffffbfeefeefeabc) ∧
    get_pte_virt cfg0 (boot cfg0 mem0 true) 0x81000abc = .ok (boot cfg0 mem0 true, 0x81000abc) :=
  have h := table_access_port_modes cfg0 running0 0x81000abc (by unfold Fixmap_ok Linear; decide)
  have h0 := table_access_port_modes cfg0 (boot cfg0 mem0 true) 0x81000abc
    (by unfold Fixmap_ok Linear; decide)
  ⟨by unfold Fixmap_ok Linear; decide, (h.2 rfl).2.1.2.2.trans
    (by rw [show add64 (__fix_to_virt cfg0 running0 cfg0.FIX_PMD) (0x81000abc &&& (PAGE_SIZE - 1))
      = 0xffffbfeefeefeabc from by decide]), (h0.1 rfl).1⟩

/-! ## Link first, zero-fill next (C13) -/

theorem level_fills (cfg : Config) (SIZE idx : Nat)
    (alloc : State → Except Stopped (State × Nat))
    (getv : State → Nat → Except Stopped (State × Nat))
    (child : State → Nat → Except Stopped State) (pa sz prot : Nat)
    (hidx : idx < 512) (halloc : AllocSpec cfg alloc) (hgetv : GetvSpec cfg getv)
    (s : State) (tbl T : Nat) (s1 : State) (A : Nat)
    (hfix : Fixmap_ok cfg s) (hA : Addr cfg s tbl T) (hs : ¬ unsafe_table cfg s T)
    (hsz : sz ≠ SIZE) (he : s.mem (slot T idx) = 0) (hal : alloc s = .ok (s1, A))
    (hu : ¬ unsafe_table cfg s A) (hAW : A + PAGE_SIZE ≤ WORD) :
    Fills cfg idx alloc getv child s tbl T A
      (create_level cfg SIZE idx alloc getv child s tbl pa sz prot) := by
  obtain ⟨sc1, hca, hR1, hm1, _, hc1, _⟩ := (halloc s s (Rel_refl cfg s)).1 s1 A hal
  rw [hal] at hca
  simp only [Except.ok.injEq, Prod.mk.injEq, and_true] at hca
  subst hca
  have hA1 : Addr cfg s1 tbl T := Addr_congr cfg s s1 tbl T hc1 (fun i _ => by rw [hm1]) hA
  have hfix2 : Fixmap_ok cfg
      { s1 with mem := upd s1.mem (slot T idx) (pfn_pte (PFN_DOWN A) PAGE_TABLE) } :=
    Fixmap_ok_congr cfg s _ (same_config_trans hc1 (by simp [same_config])) hfix
  have hu2 : ¬ unsafe_table cfg
      { s1 with mem := upd s1.mem (slot T idx) (pfn_pte (PFN_DOWN A) PAGE_TABLE) } A :=
    fun h => hu ((unsafe_table_congr cfg s _ A
      (same_config_trans hc1 (by simp [same_config]))).mp h)
  obtain ⟨s3, s4, ptr, hg, hms, hR4, hA4⟩ :=
    fresh_table cfg getv hgetv _ _ A (Rel_refl cfg _) hfix2 hu2
  refine ⟨{ s1 with mem := upd s1.mem (slot T idx) (pfn_pte (PFN_DOWN A) PAGE_TABLE) },
    s4, ptr, ?_, ?_, ?_, ?_, hA4, ?_, ?_⟩
  · unfold link_new_table
    rw [hal]
    simp only [Except.bind]
    rw [store_Addr cfg s1 tbl T _ _ hA1 hidx]
  · simp [upd]
  · intro a ha
    simp only [upd, if_neg ha, hm1]
  · unfold zero_new_table
    rw [hg]
    simp only [Except.bind]
    rw [hms]
  · intro i hi
    rw [Rel_mem cfg s4 _ A i hR4 (Fixmap_ok_congr cfg _ _ (by simp [same_config]) hfix2) hu2 hi]
    exact zero_words_in _ A i hAW hi
  · unfold create_level
    simp only []
    rw [load_Addr cfg s tbl T _ hA hidx]
    simp only [Except.bind]
    rw [if_neg hsz, if_pos he, hal]
    simp only []
    rw [store_Addr cfg s1 tbl T _ _ hA1 hidx]
    simp only []
    rw [hg]
    simp only []
    rw [hms]

/-- C13 (amended): in an insert that creates a new intermediate table, in
`create_pmd_mapping`, `create_pud_mapping` and the deep branch of
`create_pgd_mapping`, the parent entry pointing to the new table is written
first and the table is zero-filled next: for every page `A` the allocator
returns that the access port can serve (a page below the end of the address
space, not the page of `fixmap_pte` once translation is on), whatever the page
held before, the entry of the parent points to `A` in the state right after
the write of the entry, and every entry of `A` is zero in the state on which
the insert of the next level runs. -/
theorem zero_fill_after_link (cfg : Config) (s : State) (tbl T va pa sz prot : Nat)
    (s1 : State) (A : Nat) (hfix : Fixmap_ok cfg s) (hA : Addr cfg s tbl T)
    (hs : ¬ unsafe_table cfg s T) (hu : ¬ unsafe_table cfg s A) (hAW : A + PAGE_SIZE ≤ WORD) :
    (sz ≠ PMD_SIZE → s.mem (slot T (pmd_index va)) = 0 → alloc_pte s va = .ok (s1, A) →
      Fills cfg (pmd_index va) (fun s => alloc_pte s va) (get_pte_virt cfg)
        (fun s p => create_pte_mapping cfg s p va pa sz prot) s tbl T A
        (create_pmd_mapping cfg s tbl va pa sz prot)) ∧
    (sz ≠ PUD_SIZE → s.mem (slot T (pud_index va)) = 0 → alloc_pmd cfg s va = .ok (s1, A) →
      Fills cfg (pud_index va) (fun s => alloc_pmd cfg s va) (get_pmd_virt cfg)
        (fun s p => create_pmd_mapping cfg s p va pa sz prot) s tbl T A
        (create_pud_mapping cfg s tbl va pa sz prot)) ∧
    (s.pgtable_l4_enabled = true → sz ≠ PGDIR_SIZE s → s.mem (slot T (pgd_index s va)) = 0 →
      alloc_pud cfg s va = .ok (s1, A) →
      Fills cfg (pgd_index s va) (fun s => alloc_pud cfg s va) (get_pud_virt cfg)
        (fun s p => create_pud_mapping cfg s p va pa sz prot) s tbl T A
        (create_pgd_mapping cfg s tbl va pa sz prot)) := by
  refine ⟨fun hsz he hal => ?_, fun hsz he hal => ?_, fun hl hsz he hal => ?_⟩
  · rw [create_pmd_mapping_level]
    exact level_fills cfg _ _ _ _ _ pa sz prot (pmd_index_lt va) (alloc_pte_spec cfg va)
      (get_pte_virt_spec cfg) s tbl T s1 A hfix hA hs hsz he hal hu hAW
  · rw [create_pud_mapping_level]
    exact level_fills cfg _ _ _ _ _ pa sz prot (pud_index_lt va) (alloc_pmd_spec cfg va)
      (get_pmd_virt_spec cfg) s tbl T s1 A hfix hA hs hsz he hal hu hAW
  · rw [create_pgd_mapping_level, if_neg (by simp [hl])]
    exact level_fills cfg _ _ _ _ _ pa sz prot (pgd_index_lt s va) (alloc_pud_spec cfg va)
      (get_pud_virt_spec cfg) s tbl T s1 A hfix hA hs hsz he hal hu hAW

theorem stale0_fills :
    Fills cfg0 (pmd_index 0xffffc00040201000) (fun s => alloc_pte s 0xffffc00040201000)
      (get_pte_virt cfg0)
      (fun s p => create_pte_mapping cfg0 s p 0xffffc00040201000 0x90001000 PAGE_SIZE PAGE_KERNEL)
      stale0 (symbol stale0 cfg0.fixmap_pmd) cfg0.fixmap_pmd 0x81000000
      (create_pmd_mapping cfg0 stale0 (symbol stale0 cfg0.fixmap_pmd) 0xffffc00040201000
        0x90001000 PAGE_SIZE PAGE_KERNEL) := by
  rw [create_pmd_mapping_level]
  exact level_fills cfg0 PMD_SIZE (pmd_index 0xffffc00040201000)
    (fun s => alloc_pte s 0xffffc00040201000) (get_pte_virt cfg0)
    (fun s p => create_pte_mapping cfg0 s p 0xffffc00040201000 0x90001000 PAGE_SIZE PAGE_KERNEL)
    0x90001000 PAGE_SIZE PAGE_KERNEL (pmd_index_lt _)
    (alloc_pte_spec cfg0 _) (get_pte_virt_spec cfg0) stale0 (symbol stale0 cfg0.fixmap_pmd)
    cfg0.fixmap_pmd (memblock_phys_alloc stale0).1
    0x81000000 (by unfold Fixmap_ok Linear; decide)
    (Addr_linear cfg0 stale0 cfg0.fixmap_pmd (by unfold Linear; decide)) (by decide) (by decide)
    (by decide) rfl (by decide) (by decide)

theorem zero_fill_after_link_counterexample :
    ∃ s2, link_new_table cfg0 (pmd_index 0xffffc00040201000)
        (fun s => alloc_pte s 0xffffc00040201000) stale0 (symbol stale0 cfg0.fixmap_pmd)
        = .ok (s2, 0x81000000) ∧
      s2.mem (slot cfg0.fixmap_pmd (pmd_index 0xffffc00040201000))
        = pfn_pte (PFN_DOWN 0x81000000) PAGE_TABLE ∧
      s2.mem (slot 0x81000000 1) = 0x200000cf ∧
      create_pmd_mapping cfg0 stale0 (symbol stale0 cfg0.fixmap_pmd) 0xffffc00040201000
          0x90001000 PAGE_SIZE PAGE_KERNEL
        = (zero_new_table cfg0 (get_pte_virt cfg0) s2 0x81000000).bind fun y =>
            create_pte_mapping cfg0 y.1 y.2 0xffffc00040201000 0x90001000 PAGE_SIZE
              PAGE_KERNEL := by
  obtain ⟨s2, s4, ptr, h1, h2, h3, h4, _, _, h7⟩ := stale0_fills
  refine ⟨s2, h1, h2, ?_, ?_⟩
  · rw [h3 _ (by decide)]
    decide
  · rw [h7, h4]
    rfl

theorem zero_fill_after_link_witness :
    Fills cfg0 (pmd_index 0xffffc00040201000) (fun s => alloc_pte s 0xffffc00040201000)
      (get_pte_virt cfg0)
      (fun s p => create_pte_mapping cfg0 s p 0xffffc00040201000 0x90001000 PAGE_SIZE PAGE_KERNEL)
      stale0 (symbol stale0 cfg0.fixmap_pmd) cfg0.fixmap_pmd 0x81000000
      (create_pmd_mapping cfg0 stale0 (symbol stale0 cfg0.fixmap_pmd) 0xffffc00040201000
        0x90001000 PAGE_SIZE PAGE_KERNEL) :=
  (zero_fill_after_link cfg0 stale0 (symbol stale0 cfg0.fixmap_pmd) cfg0.fixmap_pmd
    0xffffc00040201000 0x90001000 PAGE_SIZE PAGE_KERNEL (memblock_phys_alloc stale0).1
    0x81000000 (by unfold Fixmap_ok Linear; decide)
    (Addr_linear cfg0 stale0 _ (by unfold Linear; decide)) (by decide) (by decide)
    (by decide)).1 (by decide) (by decide) rfl

/-! ## An insert below a slot that holds a leaf (C20) -/

theorem level_follows (cfg : Config) (SIZE idx : Nat)
    (alloc : State → Except Stopped (State × Nat))
    (getv : State → Nat → Except Stopped (State × Nat))
    (child : State → Nat → Except Stopped State) (s : State) (tbl T pa sz prot : Nat)
    (hidx : idx < 512) (hA : Addr cfg s tbl T) (hsz : sz ≠ SIZE)
    (he : s.mem (slot T idx) ≠ 0) :
    create_level cfg SIZE idx alloc getv child s tbl pa sz prot =
      (getv s (PFN_PHYS (_pmd_pfn (s.mem (slot T idx))))).bind fun w => child w.1 w.2 := by
  unfold create_level
  simp only []
  rw [load_Addr cfg s tbl T _ hA hidx]
  simp only [Except.bind]
  rw [if_neg hsz, if_neg he]

theorem leaf_ne_zero (e : Nat) (h : entry_leaf e = true) : e ≠ 0 := by
  have := ((entry_leaf_iff e).mp h).1
  omega

/-- A base-page insert below a middle-level slot that holds an entry writes the
page entry into the frame the entry names, when the word there is zero. -/
theorem pmd_under_entry (cfg : Config) (s : State) (tbl T va pa prot : Nat)
    (hfix : Fixmap_ok cfg s) (hA : Addr cfg s tbl T) (hs : ¬ unsafe_table cfg s T)
    (he : s.mem (slot T (pmd_index va)) ≠ 0)
    (hu : ¬ unsafe_table cfg s (PFN_PHYS (_pmd_pfn (s.mem (slot T (pmd_index va)))))) :
    ∃ s', create_pmd_mapping cfg s tbl va pa PAGE_SIZE prot = .ok s' ∧
      ∀ a, ¬ Win cfg s a → s'.mem a =
        (if s.mem (slot (PFN_PHYS (_pmd_pfn (s.mem (slot T (pmd_index va))))) (pte_index va)) = 0
          then upd s.mem
            (slot (PFN_PHYS (_pmd_pfn (s.mem (slot T (pmd_index va))))) (pte_index va))
            (pfn_pte (PFN_DOWN pa) prot)
          else s.mem) a := by
  have hsim := refine_pmd cfg va pa PAGE_SIZE prot s s tbl T (Rel_refl cfg s) hfix hA hs
  unfold phys_pmd at hsim
  rw [phys_level_follow cfg _ _ _ _ s T pa PAGE_SIZE prot (by decide) he hu] at hsim
  unfold phys_pte at hsim
  simp only [ne_eq, not_true_eq_false, if_false] at hsim
  by_cases hz :
      s.mem (slot (PFN_PHYS (_pmd_pfn (s.mem (slot T (pmd_index va))))) (pte_index va)) = 0
  · rw [if_pos hz] at hsim
    obtain ⟨sc, h1, h2⟩ := hsim
    refine ⟨sc, h1, fun a ha => ?_⟩
    rw [if_pos hz]
    exact h2.2.2.2.1 a (fun hw => ha ((Win_congr cfg s _ a (by simp [same_config])).mp hw))
  · rw [if_neg hz] at hsim
    obtain ⟨sc, h1, h2⟩ := hsim
    refine ⟨sc, h1, fun a ha => ?_⟩
    rw [if_neg hz]
    exact h2.2.2.2.1 a ha

/-- C20 (amended): a populated slot is followed as a table link whatever it
holds.  When the slot of `va` at a level holds a terminal leaf and the size of
the insert is not the block size of that level, `create_pmd_mapping`,
`create_pud_mapping` and the deep branch of `create_pgd_mapping` leave the slot
as it is and continue with the insert of the next level in the page at the
frame address of the leaf, opened through the access port.  In particular a
base-page insert below a medium-block leaf returns, and outside the window
cells of the access port the only word of memory it changes is word
`pte_index(va)` of the frame of the leaf, which receives the page entry when it
was zero. -/
theorem leaf_slot_followed (cfg : Config) (s : State) (tbl T va pa sz prot : Nat)
    (hfix : Fixmap_ok cfg s) (hA : Addr cfg s tbl T) (hs : ¬ unsafe_table cfg s T) :
    (sz ≠ PMD_SIZE → entry_leaf (s.mem (slot T (pmd_index va))) = true →
      create_pmd_mapping cfg s tbl va pa sz prot =
        (get_pte_virt cfg s (PFN_PHYS (_pmd_pfn (s.mem (slot T (pmd_index va)))))).bind fun w =>
          create_pte_mapping cfg w.1 w.2 va pa sz prot) ∧
    (sz ≠ PUD_SIZE → entry_leaf (s.mem (slot T (pud_index va))) = true →
      create_pud_mapping cfg s tbl va pa sz prot =
        (get_pmd_virt cfg s (PFN_PHYS (_pmd_pfn (s.mem (slot T (pud_index va)))))).bind fun w =>
          create_pmd_mapping cfg w.1 w.2 va pa sz prot) ∧
    (s.pgtable_l4_enabled = true → sz ≠ PGDIR_SIZE s →
      entry_leaf (s.mem (slot T (pgd_index s va))) = true →
      create_pgd_mapping cfg s tbl va pa sz prot =
        (get_pud_virt cfg s (PFN_PHYS (_pmd_pfn (s.mem (slot T (pgd_index s va)))))).bind
          fun w => create_pud_mapping cfg w.1 w.2 va pa sz prot) ∧
    (sz = PAGE_SIZE → entry_leaf (s.mem (slot T (pmd_index va))) = true →
      ¬ unsafe_table cfg s (PFN_PHYS (_pmd_pfn (s.mem (slot T (pmd_index va))))) →
      ∃ s', create_pmd_mapping cfg s tbl va pa sz prot = .ok s' ∧
        ∀ a, ¬ Win cfg s a → s'.mem a =
          (if s.mem (slot (PFN_PHYS (_pmd_pfn (s.mem (slot T (pmd_index va)))))
              (pte_index va)) = 0
            then upd s.mem
              (slot (PFN_PHYS (_pmd_pfn (s.mem (slot T (pmd_index va))))) (pte_index va))
              (pfn_pte (PFN_DOWN pa) prot)
            else s.mem) a) := by
  refine ⟨fun hsz hl => ?_, fun hsz hl => ?_, fun h4 hsz hl => ?_, fun hsz hl hu => ?_⟩
  · rw [create_pmd_mapping_level]
    exact level_follows cfg _ _ _ _ _ s tbl T pa sz prot (pmd_index_lt va) hA hsz
      (leaf_ne_zero _ hl)
  · rw [create_pud_mapping_level]
    exact level_follows cfg _ _ _ _ _ s tbl T pa sz prot (pud_index_lt va) hA hsz
      (leaf_ne_zero _ hl)
  · rw [create_pgd_mapping_level, if_neg (by simp [h4])]
    exact level_follows cfg _ _ _ _ _ s tbl T pa sz prot (pgd_index_lt s va) hA hsz
      (leaf_ne_zero _ hl)
  · rw [hsz]
    exact pmd_under_entry cfg s tbl T va pa prot hfix hA hs (leaf_ne_zero _ hl) hu

theorem leaf_slot_followed_counterexample :
    entry_leaf (populated0.mem (slot cfg0.early_pmd (pmd_index 0xffffc00000001000))) = true ∧
    PFN_PHYS (_pmd_pfn (populated0.mem (slot cfg0.early_pmd (pmd_index 0xffffc00000001000))))
      = 0x80200000 ∧
    ∃ s', create_pmd_mapping cfg0 populated0 cfg0.early_pmd 0xffffc00000001000 0x90001000
        PAGE_SIZE PAGE_KERNEL = .ok s' ∧
      s'.mem 0x80200008 ≠ populated0.mem 0x80200008 := by
  refine ⟨by decide, by decide, ?_⟩
  obtain ⟨s', h1, h2⟩ := pmd_under_entry cfg0 populated0 cfg0.early_pmd cfg0.early_pmd
    0xffffc00000001000 0x90001000 PAGE_KERNEL (by unfold Fixmap_ok Linear; decide)
    (Addr_off cfg0 populated0 _ rfl) (by decide) (by decide) (by decide)
  refine ⟨s', h1, ?_⟩
  rw [h2 0x80200008 (by unfold Win wincell; decide)]
  decide

theorem leaf_slot_followed_witness :
    ∃ s', create_pmd_mapping cfg0 populated0 cfg0.early_pmd 0xffffc00000001000 0x90001000
        PAGE_SIZE PAGE_KERNEL = .ok s' ∧
      ∀ a, ¬ Win cfg0 populated0 a → s'.mem a =
        (if populated0.mem (slot (PFN_PHYS (_pmd_pfn (populated0.mem
            (slot cfg0.early_pmd (pmd_index 0xffffc00000001000))))) (pte_index 0xffffc00000001000))
            = 0
          then upd populated0.mem
            (slot (PFN_PHYS (_pmd_pfn (populated0.mem
              (slot cfg0.early_pmd (pmd_index 0xffffc00000001000)))))
              (pte_index 0xffffc00000001000))
            (pfn_pte (PFN_DOWN 0x90001000) PAGE_KERNEL)
          else populated0.mem) a :=
  (leaf_slot_followed cfg0 populated0 cfg0.early_pmd cfg0.early_pmd 0xffffc00000001000
    0x90001000 PAGE_SIZE PAGE_KERNEL (by unfold Fixmap_ok Linear; decide)
    (Addr_off cfg0 populated0 _ rfl) (by decide)).2.2.2 rfl (by decide) (by decide)

/-! ## The event trace of phase 2 (C12) -/

theorem Extends_refl (s : State) : Extends s s :=
  ⟨same_config_refl s, [], rfl, fun _ h => absurd h (List.not_mem_nil _)⟩

theorem Extends_trans {s t u : State} (h1 : Extends s t) (h2 : Extends t u) : Extends s u := by
  obtain ⟨c1, p1, e1, q1⟩ := h1
  obtain ⟨c2, p2, e2, q2⟩ := h2
  refine ⟨same_config_trans c1 c2, p2 ++ p1, by rw [e2, e1, List.append_assoc], ?_⟩
  intro e he
  rcases List.mem_append.mp he with h | h
  · exact q2 e h
  · exact q1 e h

theorem Extends_mem (s : State) (m : Nat → Nat) : Extends s { s with mem := m } :=
  ⟨by simp [same_config], [], rfl, fun _ h => absurd h (List.not_mem_nil _)⟩

theorem Quiet_bind {α β : Type} (s : State) (r : Except Stopped α) (st : α → State)
    (f : α → Except Stopped β) (st2 : β → State) (h1 : Quiet s r st)
    (h2 : ∀ a, r = .ok a → Quiet (st a) (f a) st2) : Quiet s (r.bind f) st2 := by
  cases r with
  | error e => exact h1
  | ok a =>
    have h := h2 a rfl
    show Quiet s (f a) st2
    cases hf : f a with
    | error e =>
      rw [hf] at h
      exact Extends_trans h1 h
    | ok b =>
      rw [hf] at h
      exact Extends_trans h1 h

theorem Quiet_ok {α : Type} (s : State) (a : α) (st : α → State) (h : Extends s (st a)) :
    Quiet s (.ok a : Except Stopped α) st := h

theorem Quiet_error {α : Type} (s : State) (c : Halt) (st : α → State) :
    Quiet s (.error ⟨c, s⟩ : Except Stopped α) st := Extends_refl s

theorem translate_stop (cfg : Config) (s : State) (va : Nat) (e : Stopped)
    (h : translate cfg s va = .error e) : e.st = s := by
  unfold translate at h
  by_cases hm : s.mmu_enabled = true
  · rw [if_pos hm] at h
    by_cases hr : FIXADDR_START cfg s ≤ va ∧ va < cfg.FIXADDR_TOP (PAGE_OFFSET s)
    · rw [if_pos hr] at h
      by_cases hp : s.mem (cfg.fixmap_pte + 8 * pte_index va) &&& _PAGE_PRESENT = 0
      · simp only [hp, if_true, Except.error.injEq] at h
        rw [← h]
      · simp only [hp, if_false, reduceCtorEq] at h
    · rw [if_neg hr] at h
      simp only [reduceCtorEq] at h
  · rw [if_neg hm] at h
    simp only [reduceCtorEq] at h

theorem translate_quiet (cfg : Config) (s : State) (va : Nat) :
    Quiet s (translate cfg s va) (fun _ => s) := by
  cases h : translate cfg s va with
  | ok a => exact Extends_refl s
  | error e =>
    show Extends s e.st
    rw [translate_stop cfg s va e h]
    exact Extends_refl s

theorem load_quiet (cfg : Config) (s : State) (p : Nat) :
    Quiet s (load cfg s p) (fun _ => s) := by
  unfold load
  exact Quiet_bind s _ (fun _ => s) _ _ (translate_quiet cfg s p) (fun _ _ => Extends_refl s)

theorem store_quiet (cfg : Config) (s : State) (p v : Nat) :
    Quiet s (store cfg s p v) id := by
  unfold store
  exact Quiet_bind s _ (fun _ => s) _ _ (translate_quiet cfg s p)
    (fun _ _ => Extends_mem s _)

theorem memset_zero_quiet (cfg : Config) :
    ∀ (n : Nat) (s : State) (p : Nat), Quiet s (memset_zero cfg s p n) id := by
  intro n
  induction n with
  | zero => intro s p; exact Extends_refl s
  | succ k ih =>
    intro s p
    unfold memset_zero
    exact Quiet_bind s _ id _ _ (store_quiet cfg s p 0) (fun a _ => ih a (add64 p 8))

theorem quiet_flush_page (a : Nat) : quiet [Event.local_flush_tlb_page a] := by
  intro e he
  simp only [List.mem_singleton] at he
  subst he
  exact ⟨fun v h => Event.noConfusion h, fun h => Event.noConfusion h⟩

theorem quiet_alloc (a : Nat) : quiet [Event.alloc a] := by
  intro e he
  simp only [List.mem_singleton] at he
  subst he
  exact ⟨fun v h => Event.noConfusion h, fun h => Event.noConfusion h⟩

theorem set_fixmap_quiet (cfg : Config) (s : State) (idx phys prot : Nat) :
    Quiet s (__set_fixmap cfg s idx phys prot) id := by
  unfold __set_fixmap
  simp only []
  split
  · exact Extends_refl s
  · split
    · exact store_quiet cfg s _ _
    · exact Quiet_bind s _ id _ _ (store_quiet cfg s _ _)
        (fun a _ => ⟨by simp [same_config], [_], rfl, quiet_flush_page _⟩)

theorem clear_fixmap_quiet (cfg : Config) (s : State) (idx : Nat) :
    Quiet s (clear_fixmap cfg s idx) id :=
  set_fixmap_quiet cfg s idx 0 FIXMAP_PAGE_CLEAR

theorem set_fixmap_offset_quiet (cfg : Config) (s : State) (idx phys : Nat) :
    Quiet s (set_fixmap_offset cfg s idx phys) Prod.fst := by
  unfold set_fixmap_offset
  exact Quiet_bind s _ id _ _ (set_fixmap_quiet cfg s idx phys _) (fun a _ => Extends_refl a)

theorem window_quiet (cfg : Config) (s : State) (idx pa : Nat) :
    Quiet s ((clear_fixmap cfg s idx).bind fun s1 => set_fixmap_offset cfg s1 idx pa)
      Prod.fst :=
  Quiet_bind s _ id _ _ (clear_fixmap_quiet cfg s idx)
    (fun a _ => set_fixmap_offset_quiet cfg a idx pa)

theorem get_pte_virt_quiet (cfg : Config) (s : State) (pa : Nat) :
    Quiet s (get_pte_virt cfg s pa) Prod.fst := by
  unfold get_pte_virt
  split
  · exact window_quiet cfg s _ pa
  · exact Extends_refl s

theorem get_pmd_virt_quiet (cfg : Config) (s : State) (pa : Nat) :
    Quiet s (get_pmd_virt cfg s pa) Prod.fst := by
  unfold get_pmd_virt
  split
  · exact window_quiet cfg s _ pa
  · exact Extends_refl s

theorem get_pud_virt_quiet (cfg : Config) (s : State) (pa : Nat) :
    Quiet s (get_pud_virt cfg s pa) Prod.fst := by
  unfold get_pud_virt
  split
  · exact window_quiet cfg s _ pa
  · exact Extends_refl s

theorem memblock_phys_alloc_extends (s : State) : Extends s (memblock_phys_alloc s).1 := by
  unfold memblock_phys_alloc
  cases s.free_pages with
  | nil => exact ⟨by simp [same_config, handed_out], [_], rfl, quiet_alloc _⟩
  | cons p rest => exact ⟨by simp [same_config, handed_out], [_], rfl, quiet_alloc _⟩

theorem alloc_pte_quiet (va : Nat) (s : State) : Quiet s (alloc_pte s va) Prod.fst := by
  unfold alloc_pte
  split
  · exact Extends_refl s
  · exact memblock_phys_alloc_extends s

theorem alloc_pmd_quiet (cfg : Config) (va : Nat) (s : State) :
    Quiet s (alloc_pmd cfg s va) Prod.fst := by
  unfold alloc_pmd
  split
  · exact memblock_phys_alloc_extends s
  · split
    · exact Extends_refl s
    · exact ⟨by simp [same_config, handed_out], [_], rfl, quiet_alloc _⟩

theorem alloc_pud_quiet (cfg : Config) (va : Nat) (s : State) :
    Quiet s (alloc_pud cfg s va) Prod.fst := by
  unfold alloc_pud
  split
  · exact memblock_phys_alloc_extends s
  · split
    · exact Extends_refl s
    · exact ⟨by simp [same_config, handed_out], [_], rfl, quiet_alloc _⟩

theorem put_quiet (cfg : Config) (s : State) (p v : Nat) :
    Quiet s ((load cfg s p).bind fun e => if e = 0 then store cfg s p v else .ok s) id := by
  refine Quiet_bind s _ (fun _ => s) _ _ (load_quiet cfg s p) (fun e _ => ?_)
  show Quiet s (if e = 0 then store cfg s p v else .ok s) id
  split
  · exact store_quiet cfg s p v
  · exact Extends_refl s

theorem create_pte_mapping_quiet (cfg : Config) (va pa sz prot : Nat) (s : State) (p : Nat) :
    Quiet s (create_pte_mapping cfg s p va pa sz prot) id := by
  unfold create_pte_mapping
  simp only []
  split
  · exact Extends_refl s
  · exact put_quiet cfg s _ _

theorem create_level_quiet (cfg : Config) (SIZE idx : Nat)
    (alloc : State → Except Stopped (State × Nat))
    (getv : State → Nat → Except Stopped (State × Nat))
    (child : State → Nat → Except Stopped State) (pa sz prot : Nat)
    (halloc : ∀ s, Quiet s (alloc s) Prod.fst)
    (hgetv : ∀ s T, Quiet s (getv s T) Prod.fst)
    (hchild : ∀ s p, Quiet s (child s p) id) (s : State) (tbl : Nat) :
    Quiet s (create_level cfg SIZE idx alloc getv child s tbl pa sz prot) id := by
  unfold create_level
  simp only []
  split
  · exact put_quiet cfg s _ _
  · refine Quiet_bind s _ (fun _ => s) _ _ (load_quiet cfg s _) (fun e _ => ?_)
    show Quiet s (if e = 0 then _ else _) id
    split
    · refine Quiet_bind s _ Prod.fst _ _ (halloc s) (fun a _ => ?_)
      refine Quiet_bind a.1 _ id _ _ (store_quiet cfg a.1 _ _) (fun s2 _ => ?_)
      refine Quiet_bind s2 _ Prod.fst _ _ (hgetv s2 a.2) (fun w _ => ?_)
      refine Quiet_bind w.1 _ id _ _ (memset_zero_quiet cfg _ w.1 w.2) (fun s4 _ => ?_)
      exact hchild s4 w.2
    · exact Quiet_bind s _ Prod.fst _ _ (hgetv s _) (fun w _ => hchild w.1 w.2)

theorem create_pmd_mapping_quiet (cfg : Config) (va pa sz prot : Nat) (s : State) (p : Nat) :
    Quiet s (create_pmd_mapping cfg s p va pa sz prot) id := by
  rw [create_pmd_mapping_level]
  exact create_level_quiet cfg _ _ _ _ _ pa sz prot (alloc_pte_quiet va)
    (get_pte_virt_quiet cfg) (create_pte_mapping_quiet cfg va pa sz prot) s p

theorem create_pud_mapping_quiet (cfg : Config) (va pa sz prot : Nat) (s : State) (p : Nat) :
    Quiet s (create_pud_mapping cfg s p va pa sz prot) id := by
  rw [create_pud_mapping_level]
  exact create_level_quiet cfg _ _ _ _ _ pa sz prot (alloc_pmd_quiet cfg va)
    (get_pmd_virt_quiet cfg) (create_pmd_mapping_quiet cfg va pa sz prot) s p

theorem create_pgd_mapping_quiet (cfg : Config) (va pa sz prot : Nat) (s : State) (p : Nat) :
    Quiet s (create_pgd_mapping cfg s p va pa sz prot) id := by
  rw [create_pgd_mapping_level]
  split
  · exact create_pud_mapping_quiet cfg va pa sz prot s p
  · exact create_level_quiet cfg _ _ _ _ _ pa sz prot (alloc_pud_quiet cfg va)
      (get_pud_virt_quiet cfg) (create_pud_mapping_quiet cfg va pa sz prot) s p

theorem setup_vm_final_range_quiet (cfg : Config) (map_size end_ : Nat) :
    ∀ (fuel : Nat) (s : State) (pa : Nat),
      Quiet s (setup_vm_final_range cfg map_size end_ fuel s pa) id := by
  intro fuel
  induction fuel with
  | zero =>
    intro s pa
    unfold setup_vm_final_range
    split
    · exact Extends_refl s
    · exact Extends_refl s
  | succ f ih =>
    intro s pa
    unfold setup_vm_final_range
    split
    · exact Quiet_bind s _ id _ _ (create_pgd_mapping_quiet cfg _ _ _ _ s _)
        (fun s1 _ => ih s1 _)
    · exact Extends_refl s

theorem setup_vm_final_banks_quiet (cfg : Config) :
    ∀ (regs : List memblock_region) (s : State),
      Quiet s (setup_vm_final_banks cfg regs s) id := by
  intro regs
  induction regs with
  | nil => intro s; exact Extends_refl s
  | cons reg rest ih =>
    intro s
    unfold setup_vm_final_banks
    simp only []
    split
    · exact Extends_refl s
    · split
      · exact ih s
      · exact Quiet_bind s _ id _ _ (setup_vm_final_range_quiet cfg _ _ _ s _)
          (fun s1 _ => ih s1)

theorem satp_writes_append (a b : List Event) :
    satp_writes (a ++ b) = satp_writes a + satp_writes b := by
  unfold satp_writes
  rw [List.filter_append, List.length_append]

theorem satp_writes_quiet (a : List Event) (h : quiet a) : satp_writes a = 0 := by
  unfold satp_writes
  rw [List.length_eq_zero, List.filter_eq_nil_iff]
  intro e he
  cases e with
  | csr_write_satp v => exact absurd rfl ((h _ he).1 v)
  | alloc p => simp
  | local_flush_tlb_page a => simp
  | local_flush_tlb_all => simp

theorem symbol_roundtrip (s : State) (p : Nat) (hon : s.mmu_enabled = true) (hp : p < WORD) :
    __pa s (symbol s p) = p := by
  unfold symbol __pa __va sub64 add64
  rw [WORD_eq] at hp ⊢
  rw [if_pos hon]
  omega

theorem stop_bind {α β : Type} (s : State) (r : Except Stopped α) (st : α → State)
    (f : α → Except Stopped β) (h1 : Quiet s r st)
    (h2 : ∀ a e, r = .ok a → f a = .error e → Extends (st a) e.st) :
    ∀ e, r.bind f = .error e → Extends s e.st := by
  intro e he
  cases r with
  | error x =>
    simp only [Except.bind, Except.error.injEq] at he
    subst he
    exact h1
  | ok a => exact Extends_trans h1 (h2 a e rfl he)

theorem quiet_of_ok {α : Type} {s : State} {r : Except Stopped α} {st : α → State} {a : α}
    (h : Quiet s r st) (e : r = .ok a) : Extends s (st a) := by
  rw [e] at h
  exact h

/-- C12: the root switch.  In a run of `setup_vm_final` that returns, the fixmap
link and all region mappings have been inserted and the three windows released
(the state `s3`) before the translation-control register is written; the
state returned is `s3` with two more events and the same memory: the write of
`PFN_DOWN(__pa(swapper_pg_dir)) | satp_mode`, which is `PFN_DOWN` of the
physical address of `swapper_pg_dir` combined with the mode of the start state,
and directly after it the full flush; the events before them that the run added
hold no write of the register and no full flush, so the register is written
exactly once.  In a run that stops the register is not written. -/
theorem root_switch_once (cfg : Config) (s : State) :
    (∀ s', setup_vm_final cfg s = .ok s' →
      ∃ s1 s2 sa sb s3 pre,
        create_pgd_mapping cfg { s with mmu_enabled := true }
          (symbol { s with mmu_enabled := true } cfg.swapper_pg_dir)
          (FIXADDR_START cfg { s with mmu_enabled := true })
          (__pa { s with mmu_enabled := true }
            (fixmap_pgd_next cfg { s with mmu_enabled := true }))
          (PGDIR_SIZE { s with mmu_enabled := true }) PAGE_TABLE = .ok s1 ∧
        setup_vm_final_banks cfg s1.memory s1 = .ok s2 ∧
        clear_fixmap cfg s2 cfg.FIX_PTE = .ok sa ∧ clear_fixmap cfg sa cfg.FIX_PMD = .ok sb ∧
        clear_fixmap cfg sb cfg.FIX_PUD = .ok s3 ∧
        s3.trace = pre ++ s.trace ∧ quiet pre ∧
        s' = { s3 with
          trace := Event.local_flush_tlb_all ::
            Event.csr_write_satp
              (PFN_DOWN (__pa s3 (symbol s3 cfg.swapper_pg_dir)) ||| s3.satp_mode) ::
            s3.trace } ∧
        s3.satp_mode = s.satp_mode ∧
        (cfg.swapper_pg_dir < WORD →
          __pa s3 (symbol s3 cfg.swapper_pg_dir) = cfg.swapper_pg_dir) ∧
        satp_writes s'.trace = satp_writes s.trace + 1) ∧
    (∀ e, setup_vm_final cfg s = .error e →
      ∃ pre, e.st.trace = pre ++ s.trace ∧ quiet pre) := by
  refine ⟨fun s' h => ?_, fun e h => ?_⟩
  · unfold setup_vm_final at h
    simp only [] at h
    obtain ⟨s1, e1, h⟩ := bind_ok_inv h
    obtain ⟨s2, e2, h⟩ := bind_ok_inv h
    obtain ⟨sa, ea, h⟩ := bind_ok_inv h
    obtain ⟨sb, eb, h⟩ := bind_ok_inv h
    obtain ⟨s3, ec, h⟩ := bind_ok_inv h
    simp only [Except.ok.injEq] at h
    have q1 := quiet_of_ok (create_pgd_mapping_quiet cfg _ _ _ _ _ _) e1
    have q2 := quiet_of_ok (setup_vm_final_banks_quiet cfg _ _) e2
    have qa := quiet_of_ok (clear_fixmap_quiet cfg _ _) ea
    have qb := quiet_of_ok (clear_fixmap_quiet cfg _ _) eb
    have qc := quiet_of_ok (clear_fixmap_quiet cfg _ _) ec
    obtain ⟨c, pre, ht, hq⟩ :=
      Extends_trans q1 (Extends_trans q2 (Extends_trans qa (Extends_trans qb qc)))
    have ht' : s3.trace = pre ++ s.trace := ht
    refine ⟨s1, s2, sa, sb, s3, pre, e1, e2, ea, eb, ec, ht', hq, h.symm, c.2.2.1,
      fun hw => symbol_roundtrip s3 _ c.1 hw, ?_⟩
    rw [← h]
    show satp_writes (_ :: _ :: s3.trace) = _
    rw [ht']
    have e2 : ∀ v t, satp_writes (Event.local_flush_tlb_all :: Event.csr_write_satp v :: t)
        = satp_writes t + 1 := by
      intro v t
      simp [satp_writes]
    rw [e2, satp_writes_append, satp_writes_quiet pre hq, Nat.zero_add]
  · unfold setup_vm_final at h
    simp only [] at h
    have := stop_bind _ _ id _ (create_pgd_mapping_quiet cfg _ _ _ _ _ _)
      (fun s1 e1 _ => stop_bind s1 _ id _ (setup_vm_final_banks_quiet cfg _ _)
        (fun s2 e2 _ => stop_bind s2 _ id _ (clear_fixmap_quiet cfg _ _)
          (fun sa e3 _ => stop_bind sa _ id _ (clear_fixmap_quiet cfg _ _)
            (fun sb e4 _ => stop_bind sb _ id _ (clear_fixmap_quiet cfg _ _)
              (fun s3 e5 _ h5 => by simp only [reduceCtorEq] at h5) e4) e3) e2) e1) e h
    obtain ⟨_, pre, ht, hq⟩ := this
    exact ⟨pre, ht, hq⟩

theorem running0_final : ∃ s', setup_vm_final cfg0 running0 = .ok s' := ⟨_, rfl⟩

theorem root_switch_once_witness :
    ∃ s', setup_vm_final cfg0 running0 = .ok s' ∧
      satp_writes s'.trace = satp_writes running0.trace + 1 ∧
      ∃ t, s'.trace = Event.local_flush_tlb_all ::
        Event.csr_write_satp (PFN_DOWN cfg0.swapper_pg_dir ||| running0.satp_mode) :: t := by
  obtain ⟨s', h⟩ := running0_final
  obtain ⟨s1, s2, sa, sb, s3, pre, _, _, _, _, _, _, _, e, hm, hv, hc⟩ :=
    (root_switch_once cfg0 running0).1 s' h
  refine ⟨s', h, hc, s3.trace, ?_⟩
  rw [e]
  show Event.local_flush_tlb_all :: Event.csr_write_satp
    (PFN_DOWN (__pa s3 (symbol s3 cfg0.swapper_pg_dir)) ||| s3.satp_mode) :: s3.trace = _
  rw [hv (by decide), hm]

/-! ## Phase 2: tables that hold what the inserted blocks say -/

theorem snoc_prefix_inj (π k : List Nat) (i j : Nat) (h1 : (π ++ [i]) <+: k)
    (h2 : (π ++ [j]) <+: k) : i = j := by
  obtain ⟨t1, e1⟩ := h1
  obtain ⟨t2, e2⟩ := h2
  rw [← e2, List.append_assoc, List.append_assoc] at e1
  have := List.append_cancel_left e1
  simp only [List.singleton_append, List.cons.injEq] at this
  exact this.1

theorem prefix_of_snoc (π k : List Nat) (i : Nat) (h : (π ++ [i]) <+: k) : π <+: k :=
  (List.prefix_append π [i]).trans h

theorem ins_same (M : List Nat → Option (Nat × Nat)) (k : List Nat) (b : Nat × Nat) :
    ins M k b k = some b := by
  simp [ins]

theorem ins_other (M : List Nat → Option (Nat × Nat)) (k j : List Nat) (b : Nat × Nat)
    (h : j ≠ k) : ins M k b j = M j := by
  simp [ins, h]

theorem live_ins_iff (M : List Nat → Option (Nat × Nat)) (k κ : List Nat) (b : Nat × Nat)
    (h : ¬ κ <+: k) : live (ins M k b) κ ↔ live M κ := by
  constructor
  · rintro ⟨j, hj, hM⟩
    refine ⟨j, hj, ?_⟩
    rw [ins_other M k j b (fun e => h (e ▸ hj))] at hM
    exact hM
  · rintro ⟨j, hj, hM⟩
    refine ⟨j, hj, ?_⟩
    rw [ins_other M k j b (fun e => h (e ▸ hj))]
    exact hM

theorem live_ins_self (M : List Nat → Option (Nat × Nat)) (k κ : List Nat) (b : Nat × Nat)
    (h : κ <+: k) : live (ins M k b) κ :=
  ⟨k, h, by rw [ins_same]; simp⟩

theorem Local_false : Local fun _ _ _ _ _ => False :=
  fun _ _ _ _ _ _ _ _ h _ _ _ => h

theorem Local_level
    (E : (Nat → Nat) → (Nat → Option (List Nat)) → (List Nat → Option (Nat × Nat)) →
      Nat → List Nat → Prop) (hE : Local E) : Local (Rep_level E) := by
  intro m m' own own' M M' X π h hX hp hM i hi
  obtain ⟨h1, h2, h3⟩ := h i hi
  have hcell : m' (slot X i) = m (slot X i) := (hp X π hX (List.prefix_refl π)).2 i hi
  have hk : M' (π ++ [i]) = M (π ++ [i]) := hM _ (List.prefix_append π [i])
  have hlive : live M' (π ++ [i]) ↔ live M (π ++ [i]) := by
    constructor
    · rintro ⟨j, hj, hne⟩
      exact ⟨j, hj, by rw [← hM j (prefix_of_snoc π j i hj)]; exact hne⟩
    · rintro ⟨j, hj, hne⟩
      exact ⟨j, hj, by rw [hM j (prefix_of_snoc π j i hj)]; exact hne⟩
  rw [hcell, hk]
  refine ⟨h1, ?_, ?_⟩
  · intro hn hl
    obtain ⟨A, a1, a2, a3⟩ := h2 hn (hlive.mp hl)
    refine ⟨A, a1, (hp A _ a2 (List.prefix_append π [i])).1, ?_⟩
    exact hE m m' own own' M M' A (π ++ [i]) a3 a2
      (fun p k hpk hpre => hp p k hpk (prefix_of_snoc π k i hpre))
      (fun k hpre => hM k (prefix_of_snoc π k i hpre))
  · intro hn hl
    exact h3 hn (fun h => hl (hlive.mpr h))

/-- A cleared table holds what `M` says when `M` has nothing below its block. -/
theorem Rep_level_empty
    (E : (Nat → Nat) → (Nat → Option (List Nat)) → (List Nat → Option (Nat × Nat)) →
      Nat → List Nat → Prop)
    (m : Nat → Nat) (own : Nat → Option (List Nat)) (M : List Nat → Option (Nat × Nat))
    (X : Nat) (π : List Nat) (hz : ∀ i, i < 512 → m (slot X i) = 0)
    (hM : ∀ k, π <+: k → M k = none) : Rep_level E m own M X π := by
  intro i hi
  refine ⟨?_, ?_, fun _ _ => hz i hi⟩
  · intro b hb
    rw [hM _ (List.prefix_append π [i])] at hb
    simp at hb
  · rintro _ ⟨j, hj, hne⟩
    exact absurd (hM j (prefix_of_snoc π j i hj)) hne

theorem snoc_ne (π : List Nat) (i j : Nat) (h : i ≠ j) : π ++ [i] ≠ π ++ [j] := by
  intro e
  have := List.append_cancel_left e
  simp only [List.cons.injEq, and_true] at this
  exact h this

theorem snoc_apart (π : List Nat) (i j : Nat) (h : i ≠ j) : ¬ (π ++ [i]) <+: (π ++ [j]) :=
  fun hp => h (snoc_prefix_inj π (π ++ [j]) i j hp (List.prefix_refl _))

/-- Writing the entry of a new block into the empty slot of its table. -/
theorem put_post
    (E : (Nat → Nat) → (Nat → Option (List Nat)) → (List Nat → Option (Nat × Nat)) →
      Nat → List Nat → Prop) (hE : Local E)
    (cfg : Config) (s : State) (own : Nat → Option (List Nat))
    (M : List Nat → Option (Nat × Nat)) (X : Nat) (π : List Nat) (idx : Nat) (b : Nat × Nat)
    (henv : Env cfg s own) (hX : own X = some π) (hidx : idx < 512)
    (hrep : Rep_level E s.mem own M X π)
    (hc : ∀ k, (k <+: π ++ [idx] ∨ π ++ [idx] <+: k) → M k = none) :
    s.mem (slot X idx) = 0 ∧
    Rep_level E (upd s.mem (slot X idx) (pfn_pte (PFN_DOWN b.1) b.2)) own
      (ins M (π ++ [idx]) b) X π ∧
    (∀ a, (∀ p k, own p = some k → π <+: k → a < p ∨ p + 4096 ≤ a) →
      upd s.mem (slot X idx) (pfn_pte (PFN_DOWN b.1) b.2) a = s.mem a) := by
  have hPg := (henv.2.1 X π hX).1
  have hMk : M (π ++ [idx]) = none := hc _ (Or.inl (List.prefix_refl _))
  have hnl : ¬ live M (π ++ [idx]) := fun ⟨j, hj, hne⟩ => hne (hc j (Or.inr hj))
  refine ⟨(hrep idx hidx).2.2 hMk hnl, ?_, ?_⟩
  · intro j hj
    by_cases hji : j = idx
    · subst hji
      rw [self_upd, ins_same]
      refine ⟨?_, ?_, ?_⟩
      · intro b' hb'
        simp only [Option.some.injEq] at hb'
        rw [hb']
      · intro h
        simp at h
      · intro h
        simp at h
    · obtain ⟨h1, h2, h3⟩ := hrep j hj
      have hcell : upd s.mem (slot X idx) (pfn_pte (PFN_DOWN b.1) b.2) (slot X j)
          = s.mem (slot X j) := by
        unfold upd
        rw [if_neg (cell_inj X j idx hPg.2 hj hidx hji)]
      rw [hcell, ins_other M _ _ b (snoc_ne π j idx hji),
        live_ins_iff M _ _ b (snoc_apart π j idx hji)]
      refine ⟨h1, ?_, h3⟩
      intro hn hl
      obtain ⟨A, a1, a2, a3⟩ := h2 hn hl
      refine ⟨A, a1, a2, ?_⟩
      refine hE _ _ own own M _ A (π ++ [j]) a3 a2 ?_ ?_
      · intro p k hpk hpre
        refine ⟨hpk, fun i hi => ?_⟩
        have hpX : p ≠ X := by
          intro e
          rw [e, hX] at hpk
          simp only [Option.some.injEq] at hpk
          rw [← hpk] at hpre
          have := List.IsPrefix.length_le hpre
          simp at this
        unfold upd
        rw [if_neg (cell_ne p X i idx (henv.2.1 p k hpk).1.2 hPg.2 hi hidx
          (henv.2.1 p k hpk).1.1 hPg.1 hpX)]
      · intro k hpre
        exact ins_other M _ _ b (fun e => snoc_apart π j idx hji (e ▸ hpre))
  · intro a ha
    have := ha X π hX (List.prefix_refl π)
    obtain ⟨c1, c2, _⟩ := cell_in X idx hPg.2 hidx
    unfold upd
    rw [if_neg (by omega)]

theorem snoc_append (π : List Nat) (i : Nat) (t : List Nat) : π ++ i :: t = (π ++ [i]) ++ t := by
  simp

theorem snoc_tail_ne (π : List Nat) (i j : Nat) (t : List Nat) (h : j ≠ i) :
    π ++ [j] ≠ (π ++ [i]) ++ t := by
  intro e
  rw [List.append_assoc] at e
  have := List.append_cancel_left e
  simp only [List.singleton_append, List.cons.injEq] at this
  exact h this.1

theorem snoc_tail_apart (π : List Nat) (i j : Nat) (t : List Nat) (h : j ≠ i) :
    ¬ (π ++ [j]) <+: ((π ++ [i]) ++ t) :=
  fun hp => h (snoc_prefix_inj π _ j i hp (List.prefix_append _ t))

theorem not_prefix_longer (π k : List Nat) (i : Nat) (h : (π ++ [i]) <+: k) : k ≠ π := by
  intro e
  rw [e] at h
  have := List.IsPrefix.length_le h
  simp at this

/-- The table `X` after a block has been inserted below its slot `idx`: the
slot links the table `A` of the block `π ++ [idx]`, which holds what `M` says,
and the pages that serve other blocks are as before. -/
theorem after_child
    (E : (Nat → Nat) → (Nat → Option (List Nat)) → (List Nat → Option (Nat × Nat)) →
      Nat → List Nat → Prop) (hE : Local E)
    (m m' : Nat → Nat) (own own' : Nat → Option (List Nat))
    (M : List Nat → Option (Nat × Nat)) (X : Nat) (π : List Nat) (idx : Nat)
    (tail : List Nat) (b : Nat × Nat) (A : Nat)
    (hX : own X = some π) (hidx : idx < 512) (htail : tail ≠ [])
    (hrep : Rep_level E m own M X π) (hMk : M (π ++ [idx]) = none)
    (hpres : ∀ p k, own p = some k → own' p = some k)
    (hlink : m' (slot X idx) = pfn_pte (PFN_DOWN A) PAGE_TABLE)
    (hA : own' A = some (π ++ [idx]))
    (hEA : E m' own' (ins M ((π ++ [idx]) ++ tail) b) A (π ++ [idx]))
    (hframe : ∀ p k, own p = some k → ¬ (π ++ [idx]) <+: k →
      ∀ i, i < 512 → (p = X → i ≠ idx) → m' (slot p i) = m (slot p i)) :
    Rep_level E m' own' (ins M ((π ++ [idx]) ++ tail) b) X π := by
  have hKne : π ++ [idx] ≠ (π ++ [idx]) ++ tail := by
    intro e
    have := congrArg List.length e
    simp only [List.length_append, List.length_singleton] at this
    have : tail.length = 0 := by omega
    exact htail (List.length_eq_zero.mp this)
  intro j hj
  by_cases hji : j = idx
  · subst hji
    rw [ins_other M _ _ b hKne, hlink]
    refine ⟨?_, ?_, ?_⟩
    · intro b' hb'
      rw [hMk] at hb'
      simp at hb'
    · intro _ _
      exact ⟨A, rfl, hA, hEA⟩
    · intro _ hnl
      exact absurd (live_ins_self M _ _ b (List.prefix_append _ tail)) hnl
  · obtain ⟨h1, h2, h3⟩ := hrep j hj
    have hcell : m' (slot X j) = m (slot X j) :=
      hframe X π hX (fun h => not_prefix_longer π π idx h rfl) j hj (fun _ => hji)
    rw [hcell, ins_other M _ _ b (snoc_tail_ne π idx j tail hji),
      live_ins_iff M _ _ b (snoc_tail_apart π idx j tail hji)]
    refine ⟨h1, ?_, h3⟩
    intro hn hl
    obtain ⟨B, a1, a2, a3⟩ := h2 hn hl
    refine ⟨B, a1, hpres B _ a2, ?_⟩
    refine hE m m' own own' M _ B (π ++ [j]) a3 a2 ?_ ?_
    · intro p k hpk hpre
      refine ⟨hpres p k hpk, fun i hi => hframe p k hpk
        (fun h => hji (snoc_prefix_inj π k j idx hpre h)) i hi (fun e => ?_)⟩
      rw [e, hX] at hpk
      simp only [Option.some.injEq] at hpk
      exact absurd hpk.symm (not_prefix_longer π k j hpre)
    · intro k hpre
      exact ins_other M _ _ b (fun e => snoc_tail_apart π idx j tail hji (e ▸ hpre))

theorem env_safe (cfg : Config) (s : State) (A : Nat) (hA : Pg A) (hne : A ≠ cfg.fixmap_pte) :
    ¬ unsafe_table cfg s A := by
  unfold unsafe_table
  rw [PAGE_SIZE_eq, WORD_eq]
  intro hu
  rcases hu.2 with h | h | h
  · exact h hA.1
  · have := hA.2
    omega
  · exact hne h

theorem grow_out (m : Nat → Nat) (c A a : Nat) (hA : Pg A) (ha : a < A ∨ A + 4096 ≤ a)
    (hc : a ≠ c) : grow m c A a = m a := by
  unfold grow
  rw [zero_words_out _ _ _ hA.2 ha]
  unfold upd
  rw [if_neg hc]

theorem pte_grows (cfg : Config) (va pa prot : Nat) :
    Grows cfg (fun s T => phys_pte s T va pa PAGE_SIZE prot) Rep_pte [pte_index va]
      (pa, prot) := by
  intro s own M X π henv hX hrep hc _
  obtain ⟨h0, hR, hF⟩ := put_post _ Local_false cfg s own M X π (pte_index va) (pa, prot) henv hX
    (pte_index_lt va) hrep hc
  exact ⟨{ s with mem := upd s.mem (slot X (pte_index va)) (pfn_pte (PFN_DOWN pa) prot) }, own,
    phys_pte_put s s.mem X va pa prot h0, henv, hR, by simp [same_config], fun _ _ h => h,
    fun _ _ h => Or.inl h, hF, by simp, fun _ hp => hp⟩

/-! ## One level of an insert into tables that hold what `M` says -/

theorem outside_under (cfg : Config) (s' : State) (own own' : Nat → Option (List Nat))
    (κ : List Nat) (henv' : Env cfg s' own')
    (howned : ∀ p k, own p = some k → Pg p)
    (hpres : ∀ p k, own p = some k → own' p = some k)
    (p : Nat) (k : List Nat) (hpk : own p = some k) (hnot : ¬ κ <+: k) (i : Nat) (hi : i < 512)
    (q : Nat) (k' : List Nat) (hq : own' q = some k') (hpre : κ <+: k') :
    slot p i < q ∨ q + 4096 ≤ slot p i := by
  have hPp := howned p k hpk
  have hPq := (henv'.2.1 q k' hq).1
  refine cell_out p q i hPp.2 hi hPp.1 hPq.1 (fun e => ?_)
  have h1 := hpres p k hpk
  rw [e, hq] at h1
  simp only [Option.some.injEq] at h1
  exact hnot (h1 ▸ hpre)

/-- A level that finds the slot of the new block linked follows the link. -/
theorem level_grows_follow (cfg : Config) (SIZE idx : Nat)
    (alloc : State → Except Stopped (State × Nat))
    (child : State → Nat → Except Stopped State)
    (E : (Nat → Nat) → (Nat → Option (List Nat)) → (List Nat → Option (Nat × Nat)) →
      Nat → List Nat → Prop)
    (tail : List Nat) (pa sz prot : Nat) (hidx : idx < 512) (hE : Local E)
    (hsz : sz ≠ SIZE) (ht : tail ≠ []) (hchild : Grows cfg child E tail (pa, prot))
    (s : State) (own : Nat → Option (List Nat)) (M : List Nat → Option (Nat × Nat))
    (X : Nat) (π : List Nat) (henv : Env cfg s own) (hX : own X = some π)
    (hrep : Rep_level E s.mem own M X π)
    (hc : ∀ k, (k <+: π ++ idx :: tail ∨ π ++ idx :: tail <+: k) → M k = none)
    (hlen : (idx :: tail).length ≤ s.free_pages.length + 1)
    (hMk : M (π ++ [idx]) = none) (hl : live M (π ++ [idx])) :
    ∃ s' own', phys_level cfg SIZE idx alloc child s X pa sz prot = .ok s' ∧ Env cfg s' own' ∧
      Rep_level E s'.mem own' (ins M (π ++ idx :: tail) (pa, prot)) X π ∧ same_config s s' ∧
      (∀ p k, own p = some k → own' p = some k) ∧
      (∀ p k, own' p = some k →
        own p = some k ∨ (own p = none ∧ π <+: k ∧ k ≠ π ∧ p ∈ s.free_pages)) ∧
      (∀ a, (∀ p k, own' p = some k → π <+: k → a < p ∨ p + 4096 ≤ a) → s'.mem a = s.mem a) ∧
      s.free_pages.length + 1 ≤ s'.free_pages.length + (idx :: tail).length ∧
      (∀ p ∈ s'.free_pages, p ∈ s.free_pages) := by
  obtain ⟨A, a1, a2, a3⟩ := (hrep idx hidx).2.1 hMk hl
  have hA := henv.2.1 A _ a2
  have hAu : ¬ unsafe_table cfg s A := env_safe cfg s A hA.1 hA.2
  have hne : s.mem (slot X idx) ≠ 0 := by rw [a1]; exact (link_classify _).2.2
  have hrt : PFN_PHYS (_pmd_pfn (s.mem (slot X idx))) = A := by
    rw [a1]; exact link_roundtrip A hA.1
  obtain ⟨s', own', r, henv', hEA, hcfg, hpres, hnew, hfr, hcnt, hsub⟩ :=
    hchild s own M A (π ++ [idx]) henv a2 a3 (by rw [← snoc_append]; exact hc)
      (by simp only [List.length_cons] at hlen; omega)
  have hout := outside_under cfg s' own own' (π ++ [idx]) henv'
    (fun p k h => (henv.2.1 p k h).1) hpres
  have hframe : ∀ p k, own p = some k → ¬ (π ++ [idx]) <+: k →
      ∀ i, i < 512 → s'.mem (slot p i) = s.mem (slot p i) :=
    fun p k hpk hnot i hi => hfr _ (fun q k' hq hpre => hout p k hpk hnot i hi q k' hq hpre)
  refine ⟨s', own', ?_, henv', ?_, hcfg, hpres, ?_, ?_, ?_, hsub⟩
  · rw [phys_level_follow cfg _ _ _ _ s X pa sz prot hsz hne (by rw [hrt]; exact hAu), hrt]
    exact r
  · rw [snoc_append]
    refine after_child E hE s.mem s'.mem own own' M X π idx tail (pa, prot) A hX hidx ht hrep hMk
      hpres ?_ (hpres A _ a2) hEA (fun p k hpk hnot i hi _ => hframe p k hpk hnot i hi)
    rw [hframe X π hX (fun h => not_prefix_longer π π idx h rfl) idx hidx]
    exact a1
  · intro p k hpk
    rcases hnew p k hpk with h | ⟨h1, h2, _, h4⟩
    · exact Or.inl h
    · exact Or.inr ⟨h1, prefix_of_snoc π k idx h2, not_prefix_longer π k idx h2, h4⟩
  · intro a ha
    exact hfr a (fun p k h1 h2 => ha p k h1 (prefix_of_snoc π k idx h2))
  · simp only [List.length_cons]
    omega

/-- A level that finds the slot of the new block empty takes the next free
page, links and clears it, and goes on in it. -/
theorem level_grows_alloc (cfg : Config) (SIZE idx : Nat)
    (alloc : State → Except Stopped (State × Nat))
    (child : State → Nat → Except Stopped State)
    (E : (Nat → Nat) → (Nat → Option (List Nat)) → (List Nat → Option (Nat × Nat)) →
      Nat → List Nat → Prop)
    (tail : List Nat) (pa sz prot : Nat) (hidx : idx < 512) (hE : Local E)
    (hEempty : ∀ m own M X π, (∀ i, i < 512 → m (slot X i) = 0) →
      (∀ k, π <+: k → M k = none) → E m own M X π)
    (halloc : ∀ s, s.mmu_enabled = true → alloc s = .ok (memblock_phys_alloc s))
    (hsz : sz ≠ SIZE) (ht : tail ≠ []) (hchild : Grows cfg child E tail (pa, prot))
    (s : State) (own : Nat → Option (List Nat)) (M : List Nat → Option (Nat × Nat))
    (X : Nat) (π : List Nat) (henv : Env cfg s own) (hX : own X = some π)
    (hrep : Rep_level E s.mem own M X π)
    (hc : ∀ k, (k <+: π ++ idx :: tail ∨ π ++ idx :: tail <+: k) → M k = none)
    (hlen : (idx :: tail).length ≤ s.free_pages.length + 1)
    (hMk : M (π ++ [idx]) = none) (hl : ¬ live M (π ++ [idx])) :
    ∃ s' own', phys_level cfg SIZE idx alloc child s X pa sz prot = .ok s' ∧ Env cfg s' own' ∧
      Rep_level E s'.mem own' (ins M (π ++ idx :: tail) (pa, prot)) X π ∧ same_config s s' ∧
      (∀ p k, own p = some k → own' p = some k) ∧
      (∀ p k, own' p = some k →
        own p = some k ∨ (own p = none ∧ π <+: k ∧ k ≠ π ∧ p ∈ s.free_pages)) ∧
      (∀ a, (∀ p k, own' p = some k → π <+: k → a < p ∨ p + 4096 ≤ a) → s'.mem a = s.mem a) ∧
      s.free_pages.length + 1 ≤ s'.free_pages.length + (idx :: tail).length ∧
      (∀ p ∈ s'.free_pages, p ∈ s.free_pages) := by
  obtain ⟨hon, hown, hfree, hnd⟩ := henv
  have hPX := (hown X π hX).1
  have h0 : s.mem (slot X idx) = 0 := (hrep idx hidx).2.2 hMk hl
  have htl : 1 ≤ tail.length := by
    cases tail with
    | nil => exact absurd rfl ht
    | cons x xs => simp
  cases hfp : s.free_pages with
  | nil =>
    rw [hfp] at hlen
    simp only [List.length_cons, List.length_nil] at hlen
    omega
  | cons A rest =>
    obtain ⟨hAn, hPA, hAf⟩ := hfree A (by rw [hfp]; exact List.mem_cons_self _ _)
    have hXA : X ≠ A := by
      intro e
      rw [e, hAn] at hX
      simp at hX
    have hndr : A ∉ rest ∧ rest.Nodup := by
      rw [hfp] at hnd
      exact List.nodup_cons.mp hnd
    have hmb : memblock_phys_alloc s = handed_out { s with free_pages := rest } A := by
      unfold memblock_phys_alloc
      rw [hfp]
    have hal : alloc s = .ok ((handed_out { s with free_pages := rest } A).1, A) := by
      rw [halloc s hon, hmb]
      rfl
    have henv2 : Env cfg { (handed_out { s with free_pages := rest } A).1 with
        mem := grow s.mem (slot X idx) A }
        (fun p => if p = A then some (π ++ [idx]) else own p) := by
      refine ⟨hon, ?_, ?_, hndr.2⟩
      · intro p k hpk
        by_cases hp : p = A
        · rw [hp]
          exact ⟨hPA, hAf⟩
        · simp only [hp, if_false] at hpk
          exact hown p k hpk
      · intro p hp
        have hpA : p ≠ A := fun e => hndr.1 (e ▸ hp)
        have := hfree p (by rw [hfp]; exact List.mem_cons_of_mem _ hp)
        simp only [hpA, if_false]
        exact this
    have hE2 : E (grow s.mem (slot X idx) A) (fun p => if p = A then some (π ++ [idx]) else own p)
        M A (π ++ [idx]) :=
      hEempty _ _ _ _ _ (fun i hi => zero_grow s.mem A i _ hPA hi)
        (fun k hk => by
          by_contra hne
          exact hl ⟨k, hk, hne⟩)
    obtain ⟨s', own', r, henv', hEA, hcfg, hpres2, hnew, hfr, hcnt, hsub⟩ :=
      hchild _ _ M A (π ++ [idx]) henv2 (by simp) hE2 (by rw [← snoc_append]; exact hc)
        (by
          show tail.length ≤ rest.length + 1
          rw [hfp] at hlen
          simp only [List.length_cons] at hlen
          omega)
    have hpres : ∀ p k, own p = some k → own' p = some k := by
      intro p k hpk
      refine hpres2 p k ?_
      have hpA : p ≠ A := by
        intro e
        rw [e, hAn] at hpk
        simp at hpk
      simp only [hpA, if_false]
      exact hpk
    have hA' : own' A = some (π ++ [idx]) := hpres2 A _ (by simp)
    have hout := outside_under cfg s' own own' (π ++ [idx]) henv'
      (fun p k h => (hown p k h).1) hpres
    have hframe : ∀ p k, own p = some k → ¬ (π ++ [idx]) <+: k →
        ∀ i, i < 512 → s'.mem (slot p i) = grow s.mem (slot X idx) A (slot p i) :=
      fun p k hpk hnot i hi => hfr _ (fun q k' hq hpre => hout p k hpk hnot i hi q k' hq hpre)
    refine ⟨s', own', ?_, henv', ?_, ?_, hpres, ?_, ?_, ?_, ?_⟩
    · rw [phys_level_alloc cfg _ _ _ _ s _ X pa sz prot A hsz h0 hal
        (env_safe cfg _ A hPA hAf)]
      exact r
    · rw [snoc_append]
      refine after_child E hE s.mem s'.mem own own' M X π idx tail (pa, prot) A hX hidx ht hrep
        hMk hpres ?_ hA' hEA ?_
      · rw [hframe X π hX (fun h => not_prefix_longer π π idx h rfl) idx hidx]
        exact self_grow s.mem X A idx hPX hPA hXA hidx
      · intro p k hpk hnot i hi hpi
        rw [hframe p k hpk hnot i hi]
        have hPp := (hown p k hpk).1
        have hpA : p ≠ A := by
          intro e
          rw [e, hAn] at hpk
          simp at hpk
        refine keep_grow s.mem p A i _ hPp hPA hpA hi ?_
        by_cases hpX : p = X
        · rw [hpX]
          exact cell_inj X i idx hPX.2 hi hidx (hpi hpX)
        · exact cell_ne p X i idx hPp.2 hPX.2 hi hidx hPp.1 hPX.1 hpX
    · exact same_config_trans (by simp [same_config, handed_out]) hcfg
    · intro p k hpk
      rcases hnew p k hpk with h | ⟨h1, h2, _, h4⟩
      · by_cases hp : p = A
        · simp only [hp, if_true, Option.some.injEq] at h
          rw [hp, ← h]
          exact Or.inr ⟨hAn, List.prefix_append π [idx],
            not_prefix_longer π _ idx (List.prefix_refl _),
            List.mem_cons_self _ _⟩
        · simp only [hp, if_false] at h
          exact Or.inl h
      · by_cases hp : p = A
        · simp [hp] at h1
        · simp only [hp, if_false] at h1
          exact Or.inr ⟨h1, prefix_of_snoc π k idx h2, not_prefix_longer π k idx h2,
            List.mem_cons_of_mem _ h4⟩
    · intro a ha
      rw [hfr a (fun p k h1 h2 => ha p k h1 (prefix_of_snoc π k idx h2))]
      have h1 := ha A _ hA' (List.prefix_append π [idx])
      have h2 := ha X π (hpres X π hX) (List.prefix_refl π)
      obtain ⟨c1, c2, _⟩ := cell_in X idx hPX.2 hidx
      exact grow_out s.mem _ A a hPA h1 (by omega)
    · have hc2 : rest.length + 1 ≤ s'.free_pages.length + tail.length := hcnt
      simp only [List.length_cons]
      omega
    · intro p hp
      exact List.mem_cons_of_mem _ (hsub p hp)

theorem level_grows (cfg : Config) (SIZE idx : Nat)
    (alloc : State → Except Stopped (State × Nat))
    (child : State → Nat → Except Stopped State)
    (E : (Nat → Nat) → (Nat → Option (List Nat)) → (List Nat → Option (Nat × Nat)) →
      Nat → List Nat → Prop)
    (tail : List Nat) (pa sz prot : Nat) (hidx : idx < 512) (hE : Local E)
    (hEempty : ∀ m own M X π, (∀ i, i < 512 → m (slot X i) = 0) →
      (∀ k, π <+: k → M k = none) → E m own M X π)
    (halloc : ∀ s, s.mmu_enabled = true → alloc s = .ok (memblock_phys_alloc s))
    (hshape : (sz = SIZE ∧ tail = []) ∨
      (sz ≠ SIZE ∧ tail ≠ [] ∧ Grows cfg child E tail (pa, prot))) :
    Grows cfg (fun s T => phys_level cfg SIZE idx alloc child s T pa sz prot) (Rep_level E)
      (idx :: tail) (pa, prot) := by
  intro s own M X π henv hX hrep hc hlen
  rcases hshape with ⟨hsz, ht⟩ | ⟨hsz, ht, hchild⟩
  · subst ht
    subst hsz
    obtain ⟨h0, hR, hF⟩ := put_post E hE cfg s own M X π idx (pa, prot) henv hX hidx hrep hc
    exact ⟨{ s with mem := upd s.mem (slot X idx) (pfn_pte (PFN_DOWN pa) prot) }, own,
      phys_level_put cfg _ _ _ _ s s.mem X pa prot h0, henv, hR, by simp [same_config],
      fun _ _ h => h, fun _ _ h => Or.inl h, hF, by simp, fun _ hp => hp⟩
  · have hMk : M (π ++ [idx]) = none :=
      hc (π ++ [idx]) (Or.inl ⟨tail, by simp⟩)
    by_cases hl : live M (π ++ [idx])
    · exact level_grows_follow cfg SIZE idx alloc child E tail pa sz prot hidx hE hsz ht hchild
        s own M X π henv hX hrep hc hlen hMk hl
    · exact level_grows_alloc cfg SIZE idx alloc child E tail pa sz prot hidx hE hEempty halloc
        hsz ht hchild s own M X π henv hX hrep hc hlen hMk hl

theorem Local_pte : Local Rep_pte := Local_level _ Local_false

theorem Local_pmd : Local Rep_pmd := Local_level _ Local_pte

theorem Local_pud : Local Rep_pud := Local_level _ Local_pmd

theorem alloc_pte_on (va : Nat) (s : State) (h : s.mmu_enabled = true) :
    alloc_pte s va = .ok (memblock_phys_alloc s) := by
  unfold alloc_pte
  rw [if_neg (by simp [h])]

theorem alloc_pmd_on (cfg : Config) (va : Nat) (s : State) (h : s.mmu_enabled = true) :
    alloc_pmd cfg s va = .ok (memblock_phys_alloc s) := by
  unfold alloc_pmd
  rw [if_pos h]

theorem alloc_pud_on (cfg : Config) (va : Nat) (s : State) (h : s.mmu_enabled = true) :
    alloc_pud cfg s va = .ok (memblock_phys_alloc s) := by
  unfold alloc_pud
  rw [if_pos h]

theorem pmd_grows (cfg : Config) (va pa sz prot : Nat)
    (hsz : sz = PMD_SIZE ∨ sz = PAGE_SIZE) :
    Grows cfg (fun s T => phys_pmd cfg s T va pa sz prot) Rep_pmd (key_pmd va sz)
      (pa, prot) := by
  unfold key_pmd
  refine level_grows cfg _ _ _ _ Rep_pte _ pa sz prot (pmd_index_lt va) Local_pte
    (fun m own M X π h1 h2 => Rep_level_empty _ m own M X π h1 h2) (alloc_pte_on va) ?_
  rcases hsz with h | h
  · exact Or.inl ⟨h, by rw [if_pos h]⟩
  · have hne : sz ≠ PMD_SIZE := by rw [h]; decide
    refine Or.inr ⟨hne, by rw [if_neg hne]; simp, ?_⟩
    rw [if_neg hne, h]
    exact pte_grows cfg va pa prot

theorem pud_grows (cfg : Config) (va pa sz prot : Nat)
    (hsz : sz = PUD_SIZE ∨ sz = PMD_SIZE ∨ sz = PAGE_SIZE) :
    Grows cfg (fun s T => phys_pud cfg s T va pa sz prot) Rep_pud (key_pud va sz)
      (pa, prot) := by
  unfold key_pud
  refine level_grows cfg _ _ _ _ Rep_pmd _ pa sz prot (pud_index_lt va) Local_pmd
    (fun m own M X π h1 h2 => Rep_level_empty _ m own M X π h1 h2) (alloc_pmd_on cfg va) ?_
  rcases hsz with h | h
  · exact Or.inl ⟨h, by rw [if_pos h]⟩
  · have hne : sz ≠ PUD_SIZE := by
      rcases h with h | h <;> rw [h] <;> decide
    refine Or.inr ⟨hne, by rw [if_neg hne]; simp [key_pmd], ?_⟩
    rw [if_neg hne]
    exact pmd_grows cfg va pa sz prot h

theorem pgd_grows_deep (cfg : Config) (va pa sz prot : Nat)
    (hsz : sz = 549755813888 ∨ sz = PUD_SIZE ∨ sz = PMD_SIZE ∨ sz = PAGE_SIZE) :
    Grows cfg (fun s T => phys_level cfg 549755813888 (pgd_index_of true va)
        (fun s => alloc_pud cfg s va) (fun s T => phys_pud cfg s T va pa sz prot) s T pa sz prot)
      (Rep_level Rep_pud) (key_pgd true va sz) (pa, prot) := by
  unfold key_pgd
  simp only [if_true]
  refine level_grows cfg _ _ _ _ Rep_pud _ pa sz prot (pgd_index_of_lt true va) Local_pud
    (fun m own M X π h1 h2 => Rep_level_empty _ m own M X π h1 h2) (alloc_pud_on cfg va) ?_
  rcases hsz with h | h
  · exact Or.inl ⟨h, by rw [if_pos h]⟩
  · have hne : sz ≠ 549755813888 := by
      rcases h with h | h | h <;> rw [h] <;> decide
    refine Or.inr ⟨hne, by rw [if_neg hne]; simp [key_pud], ?_⟩
    rw [if_neg hne]
    exact pud_grows cfg va pa sz prot h

/-! ## Looking a block of the block map up -/

theorem cons_ne_self_append (π : List Nat) (i : Nat) (t : List Nat) (ht : t ≠ []) :
    π ++ [i] ≠ π ++ i :: t := by
  intro e
  have := congrArg List.length e
  simp only [List.length_append, List.length_cons, List.length_nil] at this
  exact ht (List.length_eq_zero.mp (by omega))

/-- The slot on the way to a mapped block links the table that holds the rest
of the way. -/
theorem rep_descend
    (E : (Nat → Nat) → (Nat → Option (List Nat)) → (List Nat → Option (Nat × Nat)) →
      Nat → List Nat → Prop)
    (m : Nat → Nat) (own : Nat → Option (List Nat)) (M : List Nat → Option (Nat × Nat))
    (X : Nat) (π : List Nat) (idx : Nat) (tail : List Nat) (b : Nat × Nat)
    (hidx : idx < 512) (htail : tail ≠ []) (hrep : Rep_level E m own M X π)
    (hM : M (π ++ idx :: tail) = some b)
    (hpre : ∀ k, k <+: π ++ idx :: tail → k ≠ π ++ idx :: tail → M k = none) :
    ∃ A, m (slot X idx) = pfn_pte (PFN_DOWN A) PAGE_TABLE ∧ own A = some (π ++ [idx]) ∧
      E m own M A (π ++ [idx]) := by
  have hn : M (π ++ [idx]) = none :=
    hpre _ ⟨tail, by simp⟩ (cons_ne_self_append π idx tail htail)
  have hl : live M (π ++ [idx]) := ⟨π ++ idx :: tail, ⟨tail, by simp⟩, by rw [hM]; simp⟩
  exact (hrep idx hidx).2.1 hn hl

theorem rep_walk_pmd (m : Nat → Nat) (own : Nat → Option (List Nat))
    (M : List Nat → Option (Nat × Nat)) (X : Nat) (π : List Nat) (va pa sz prot : Nat)
    (hPg : ∀ p k, own p = some k → Pg p) (hrep : Rep_pmd m own M X π)
    (hM : M (π ++ key_pmd va sz) = some (pa, prot))
    (hpre : ∀ k, k <+: π ++ key_pmd va sz → k ≠ π ++ key_pmd va sz → M k = none)
    (hp : leaf_prot prot) (hpa : pa < WORD) (hsz : sz = PMD_SIZE ∨ sz = PAGE_SIZE) :
    walk_pmd m X va = some ⟨if sz = PMD_SIZE then .pmd else .pte, PFN_DOWN pa, prot⟩ := by
  unfold key_pmd at hM hpre
  rcases hsz with h | h
  · rw [if_pos h] at hM
    rw [if_pos h]
    exact walk_pmd_leaf m X va pa prot ((hrep (pmd_index va) (pmd_index_lt va)).1 (pa, prot) hM) hp hpa
  · have hne : sz ≠ PMD_SIZE := by rw [h]; decide
    rw [if_neg hne] at hM hpre
    rw [if_neg hne]
    obtain ⟨A, hl, hoA, hE⟩ := rep_descend Rep_pte m own M X π (pmd_index va) [pte_index va]
      (pa, prot) (pmd_index_lt va) (by simp) hrep hM hpre
    rw [walk_pmd_link m X va A hl (hPg A _ hoA)]
    have hM2 : M ((π ++ [pmd_index va]) ++ [pte_index va]) = some (pa, prot) := by
      rw [← snoc_append]; exact hM
    exact walk_pte_leaf m A va pa prot ((hE (pte_index va) (pte_index_lt va)).1 (pa, prot) hM2) hp hpa

theorem rep_walk_pud (m : Nat → Nat) (own : Nat → Option (List Nat))
    (M : List Nat → Option (Nat × Nat)) (X : Nat) (π : List Nat) (va pa sz prot : Nat)
    (hPg : ∀ p k, own p = some k → Pg p) (hrep : Rep_pud m own M X π)
    (hM : M (π ++ key_pud va sz) = some (pa, prot))
    (hpre : ∀ k, k <+: π ++ key_pud va sz → k ≠ π ++ key_pud va sz → M k = none)
    (hp : leaf_prot prot) (hpa : pa < WORD) (hsz : sz = PMD_SIZE ∨ sz = PAGE_SIZE) :
    walk_pud m X va = some ⟨if sz = PMD_SIZE then .pmd else .pte, PFN_DOWN pa, prot⟩ := by
  have hne : sz ≠ PUD_SIZE := by
    rcases hsz with h | h <;> rw [h] <;> decide
  unfold key_pud at hM hpre
  rw [if_neg hne] at hM hpre
  have hnil : key_pmd va sz ≠ [] := by simp [key_pmd]
  obtain ⟨A, hl, hoA, hE⟩ := rep_descend Rep_pmd m own M X π (pud_index va) (key_pmd va sz)
    (pa, prot) (pud_index_lt va) hnil hrep hM hpre
  rw [walk_pud_link m X va A hl (hPg A _ hoA)]
  refine rep_walk_pmd m own M A (π ++ [pud_index va]) va pa sz prot hPg hE ?_ ?_ hp hpa hsz
  · rw [← snoc_append]; exact hM
  · intro k h1 h2
    rw [← snoc_append] at h1 h2
    exact hpre k h1 h2

theorem rep_walk (t : State) (own : Nat → Option (List Nat))
    (M : List Nat → Option (Nat × Nat)) (X : Nat) (va pa sz prot : Nat)
    (hPg : ∀ p k, own p = some k → Pg p)
    (hrep : Rep_pgd t.pgtable_l4_enabled t.mem own M X [])
    (hM : M (key_pgd t.pgtable_l4_enabled va sz) = some (pa, prot))
    (hpre : ∀ k, k <+: key_pgd t.pgtable_l4_enabled va sz →
      k ≠ key_pgd t.pgtable_l4_enabled va sz → M k = none)
    (hp : leaf_prot prot) (hpa : pa < WORD) (hsz : sz = PMD_SIZE ∨ sz = PAGE_SIZE) :
    walk t X va = some ⟨if sz = PMD_SIZE then .pmd else .pte, PFN_DOWN pa, prot⟩ := by
  cases hl : t.pgtable_l4_enabled
  · rw [hl] at hrep hM hpre
    rw [walk_shallow t X va hl]
    exact rep_walk_pud t.mem own M X [] va pa sz prot hPg hrep hM hpre hp hpa hsz
  · rw [hl] at hrep hM hpre
    have hne : sz ≠ 549755813888 := by
      rcases hsz with h | h <;> rw [h] <;> decide
    have hk : key_pgd true va sz = [] ++ pgd_index_of true va :: key_pud va sz := by
      unfold key_pgd
      rw [if_pos rfl, if_neg hne]
      rfl
    rw [hk] at hM hpre
    have hix : pgd_index t va = pgd_index_of true va := by
      unfold pgd_index pgd_index_of PGDIR_SHIFT
      rw [hl]
    have hnil : key_pud va sz ≠ [] := by simp [key_pud]
    obtain ⟨A, hlk, hoA, hE⟩ := rep_descend Rep_pud t.mem own M X [] (pgd_index_of true va)
      (key_pud va sz) (pa, prot) (pgd_index_of_lt true va) hnil hrep hM hpre
    rw [← hix] at hlk
    rw [walk_deep_link t X va A hl hlk (hPg A _ hoA)]
    refine rep_walk_pud t.mem own M A ([] ++ [pgd_index_of true va]) va pa sz prot hPg hE ?_ ?_
      hp hpa hsz
    · rw [← snoc_append]; exact hM
    · intro k h1 h2
      rw [← snoc_append] at h1 h2
      exact hpre k h1 h2
/-! ## Keys of the blocks of the kernel mapping -/

theorem key_stem (l4 : Bool) (va sz : Nat) (hsz : sz = PMD_SIZE ∨ sz = PAGE_SIZE) :
    key_pgd l4 va sz = stem l4 va ++ (if sz = PMD_SIZE then [] else [pte_index va]) := by
  have h1 : sz ≠ 549755813888 := by
    rcases hsz with h | h <;> rw [h] <;> decide
  have h2 : sz ≠ PUD_SIZE := by
    rcases hsz with h | h <;> rw [h] <;> decide
  unfold key_pgd key_pud key_pmd stem
  cases l4
  · simp only [Bool.false_eq_true, if_false, if_neg h2]
    split <;> rfl
  · simp only [if_true, if_neg h1, if_neg h2]
    split <;> rfl

theorem stem_length (l4 : Bool) (va : Nat) : (stem l4 va).length = if l4 then 3 else 2 := by
  unfold stem
  cases l4 <;> rfl

theorem key_length (l4 : Bool) (va sz : Nat) (hsz : sz = PMD_SIZE ∨ sz = PAGE_SIZE) :
    2 ≤ (key_pgd l4 va sz).length ∧ (key_pgd l4 va sz).length ≤ 4 := by
  rw [key_stem l4 va sz hsz, List.length_append, stem_length]
  by_cases h : sz = PMD_SIZE
  · rw [if_pos h]
    cases l4 <;> simp
  · rw [if_neg h]
    cases l4 <;> simp

theorem key_head (l4 : Bool) (va sz : Nat) (hsz : sz = PMD_SIZE ∨ sz = PAGE_SIZE) :
    ∃ t, key_pgd l4 va sz = pgd_index_of l4 va :: t := by
  rw [key_stem l4 va sz hsz]
  unfold stem
  cases l4
  · exact ⟨_, rfl⟩
  · exact ⟨_, rfl⟩

/-- The stem of an address of the kernel mapping, as arithmetic on the physical
address. -/
theorem stem_eq_iff (l4 : Bool) (a b : Nat) :
    stem l4 a = stem l4 b ↔
      a / 2097152 % (if l4 then 134217728 else 262144)
        = b / 2097152 % (if l4 then 134217728 else 262144) := by
  unfold stem
  cases l4
  · simp only [Bool.false_eq_true, if_false, List.cons.injEq, and_true, pud_index_eq,
      pmd_index_eq]
    omega
  · simp only [if_true, List.cons.injEq, and_true, pud_index_eq, pmd_index_eq,
      pgd_index_of_true]
    omega

/-- Of two blocks whose keys begin alike, the stems are equal, and when the
first is a page so is the second, with the same last index. -/
theorem key_prefix_stem (l4 : Bool) (a sa b sb : Nat)
    (ha : sa = PMD_SIZE ∨ sa = PAGE_SIZE) (hb : sb = PMD_SIZE ∨ sb = PAGE_SIZE)
    (h : key_pgd l4 a sa <+: key_pgd l4 b sb) :
    stem l4 a = stem l4 b ∧ (sa ≠ PMD_SIZE → sb ≠ PMD_SIZE ∧ pte_index a = pte_index b) := by
  rw [key_stem l4 a sa ha, key_stem l4 b sb hb] at h
  unfold stem at h ⊢
  cases l4
  · simp only [Bool.false_eq_true, if_false] at h ⊢
    by_cases h1 : sa = PMD_SIZE <;> by_cases h2 : sb = PMD_SIZE <;>
      simp only [h1, h2, if_true, if_false, List.cons_append, List.nil_append,
        List.cons_prefix_cons, List.nil_prefix, List.prefix_nil, and_true] at h <;>
      simp_all
  · simp only [if_true] at h ⊢
    by_cases h1 : sa = PMD_SIZE <;> by_cases h2 : sb = PMD_SIZE <;>
      simp only [h1, h2, if_true, if_false, List.cons_append, List.nil_append,
        List.cons_prefix_cons, List.nil_prefix, List.prefix_nil, and_true] at h <;>
      simp_all

theorem Span_eq (l4 : Bool) :
    Span l4 = 2097152 * (if l4 then 134217728 else 262144) := by
  unfold Span
  cases l4 <;> rfl

/-- Two aligned blocks of the window at `lo` whose keys begin alike lie one in
the other. -/
theorem keys_meet (l4 : Bool) (off lo a sa b sb : Nat) (hoff : off % PMD_SIZE = 0)
    (ha : sa = PMD_SIZE ∨ sa = PAGE_SIZE) (hb : sb = PMD_SIZE ∨ sb = PAGE_SIZE)
    (ha0 : a % sa = 0) (hb0 : b % sb = 0) (ha1 : lo ≤ a) (hb1 : lo ≤ b)
    (ha2 : a + sa ≤ lo + Span l4) (hb2 : b + sb ≤ lo + Span l4)
    (h : key_pgd l4 (add64 a off) sa <+: key_pgd l4 (add64 b off) sb) :
    a ≤ b ∧ b + sb ≤ a + sa := by
  obtain ⟨h1, h2⟩ := key_prefix_stem l4 _ sa _ sb ha hb h
  rw [stem_eq_iff] at h1
  rw [Span_eq] at ha2 hb2
  unfold add64 at h1 h2
  rw [WORD_eq] at h1 h2
  rw [PMD_SIZE_eq] at hoff
  simp only [pte_index_eq] at h2
  cases l4
  · simp only [Bool.false_eq_true, if_false] at h1 ha2 hb2
    rcases ha with ha | ha <;> rcases hb with hb | hb
    · rw [ha, PMD_SIZE_eq] at ha0 ha2 ⊢
      rw [hb, PMD_SIZE_eq] at hb0 hb2 ⊢
      omega
    · rw [ha, PMD_SIZE_eq] at ha0 ha2 ⊢
      rw [hb, PAGE_SIZE_eq] at hb0 hb2 ⊢
      omega
    · have := (h2 (by rw [ha]; decide)).1
      exact absurd hb this
    · have h3 := (h2 (by rw [ha]; decide)).2
      rw [ha, PAGE_SIZE_eq] at ha0 ha2 ⊢
      rw [hb, PAGE_SIZE_eq] at hb0 hb2 ⊢
      omega
  · simp only [if_true] at h1 ha2 hb2
    rcases ha with ha | ha <;> rcases hb with hb | hb
    · rw [ha, PMD_SIZE_eq] at ha0 ha2 ⊢
      rw [hb, PMD_SIZE_eq] at hb0 hb2 ⊢
      omega
    · rw [ha, PMD_SIZE_eq] at ha0 ha2 ⊢
      rw [hb, PAGE_SIZE_eq] at hb0 hb2 ⊢
      omega
    · have := (h2 (by rw [ha]; decide)).1
      exact absurd hb this
    · have h3 := (h2 (by rw [ha]; decide)).2
      rw [ha, PAGE_SIZE_eq] at ha0 ha2 ⊢
      rw [hb, PAGE_SIZE_eq] at hb0 hb2 ⊢
      omega

/-- Every address of a block has the key of the block. -/
theorem same_block_key (l4 : Bool) (off b sz a : Nat) (hoff : off % PMD_SIZE = 0)
    (hsz : sz = PMD_SIZE ∨ sz = PAGE_SIZE) (hb : b % sz = 0) (h1 : b ≤ a) (h2 : a < b + sz) :
    key_pgd l4 (add64 a off) sz = key_pgd l4 (add64 b off) sz := by
  rw [key_stem l4 _ sz hsz, key_stem l4 _ sz hsz]
  rw [PMD_SIZE_eq] at hoff
  have hs : stem l4 (add64 a off) = stem l4 (add64 b off) := by
    rw [stem_eq_iff]
    unfold add64
    rw [WORD_eq]
    rcases hsz with h | h
    · rw [h, PMD_SIZE_eq] at hb h2
      cases l4
      · simp only [Bool.false_eq_true, if_false]
        omega
      · simp only [if_true]
        omega
    · rw [h, PAGE_SIZE_eq] at hb h2
      cases l4
      · simp only [Bool.false_eq_true, if_false]
        omega
      · simp only [if_true]
        omega
  rw [hs]
  by_cases h : sz = PMD_SIZE
  · simp only [if_pos h]
  · simp only [if_neg h]
    have hp : sz = PAGE_SIZE := by
      rcases hsz with h' | h'
      · exact absurd h' h
      · exact h'
    rw [hp, PAGE_SIZE_eq] at hb h2
    have : pte_index (add64 a off) = pte_index (add64 b off) := by
      rw [pte_index_eq, pte_index_eq]
      unfold add64
      rw [WORD_eq]
      omega
    rw [this]

/-- The offset of an address of the kernel mapping in its block. -/
theorem block_offset (off b sz a : Nat) (hoff : off % PMD_SIZE = 0)
    (hsz : sz = PMD_SIZE ∨ sz = PAGE_SIZE) (hb : b % sz = 0) (h1 : b ≤ a) (h2 : a < b + sz)
    (hW : b < WORD) :
    PFN_PHYS (PFN_DOWN b) + add64 a off % sz = a := by
  rw [PFN_PHYS_eq, PFN_DOWN_eq]
  unfold add64
  rw [WORD_eq] at hW ⊢
  rw [PMD_SIZE_eq] at hoff
  rcases hsz with h | h
  · rw [h, PMD_SIZE_eq] at hb h2 ⊢
    omega
  · rw [h, PAGE_SIZE_eq] at hb h2 ⊢
    omega
/-! ## One insert of phase 2 -/

/-- An insert at the root, at either depth, into tables that hold what `M`
says. -/
theorem root_grows (cfg : Config) (va pa sz prot : Nat) (s : State)
    (own : Nat → Option (List Nat)) (M : List Nat → Option (Nat × Nat)) (X : Nat)
    (hsz : sz = PGDIR_SIZE s ∨ sz = PMD_SIZE ∨ sz = PAGE_SIZE)
    (henv : Env cfg s own) (hX : own X = some [])
    (hrep : Rep_pgd s.pgtable_l4_enabled s.mem own M X [])
    (hc : ∀ k, (k <+: key_pgd s.pgtable_l4_enabled va sz ∨
      key_pgd s.pgtable_l4_enabled va sz <+: k) → M k = none)
    (hlen : (key_pgd s.pgtable_l4_enabled va sz).length ≤ s.free_pages.length + 1) :
    ∃ s' own', phys_pgd cfg s X va pa sz prot = .ok s' ∧ Env cfg s' own' ∧
      Rep_pgd s.pgtable_l4_enabled s'.mem own'
        (ins M (key_pgd s.pgtable_l4_enabled va sz) (pa, prot)) X [] ∧
      same_config s s' ∧ (∀ p k, own p = some k → own' p = some k) ∧
      (∀ p k, own' p = some k → own p = some k ∨ (own p = none ∧ p ∈ s.free_pages)) ∧
      (∀ a, (∀ p k, own' p = some k → a < p ∨ p + 4096 ≤ a) → s'.mem a = s.mem a) ∧
      s.free_pages.length + 1 ≤
        s'.free_pages.length + (key_pgd s.pgtable_l4_enabled va sz).length ∧
      (∀ p ∈ s'.free_pages, p ∈ s.free_pages) := by
  have hP := PGDIR_SIZE_eq s
  cases hl : s.pgtable_l4_enabled
  · rw [hl] at hrep hc hlen hP
    simp only [Bool.false_eq_true, if_false] at hP
    have hsz2 : sz = PUD_SIZE ∨ sz = PMD_SIZE ∨ sz = PAGE_SIZE := by
      rcases hsz with h | h
      · exact Or.inl (h.trans hP)
      · exact Or.inr h
    have hk : key_pgd false va sz = key_pud va sz := by
      unfold key_pgd
      simp
    rw [hk] at hc hlen ⊢
    obtain ⟨s', own', r, e1, e2, e3, e4, e5, e6, e7, e8⟩ :=
      pud_grows cfg va pa sz prot hsz2 s own M X [] henv hX hrep hc hlen
    refine ⟨s', own', ?_, e1, e2, e3, e4, ?_, ?_, e7, e8⟩
    · unfold phys_pgd
      rw [if_pos (by simp [hl])]
      exact r
    · intro p k h
      rcases e5 p k h with h1 | ⟨h1, _, _, h4⟩
      · exact Or.inl h1
      · exact Or.inr ⟨h1, h4⟩
    · intro a h
      exact e6 a (fun p k h1 _ => h p k h1)
  · rw [hl] at hrep hc hlen hP
    simp only [if_true] at hP
    have hsz2 : sz = 549755813888 ∨ sz = PUD_SIZE ∨ sz = PMD_SIZE ∨ sz = PAGE_SIZE := by
      rcases hsz with h | h | h
      · exact Or.inl (h.trans hP)
      · exact Or.inr (Or.inr (Or.inl h))
      · exact Or.inr (Or.inr (Or.inr h))
    have hix : pgd_index s va = pgd_index_of true va := by
      unfold pgd_index pgd_index_of PGDIR_SHIFT
      rw [hl]
    obtain ⟨s', own', r, e1, e2, e3, e4, e5, e6, e7, e8⟩ :=
      pgd_grows_deep cfg va pa sz prot hsz2 s own M X [] henv hX hrep hc hlen
    refine ⟨s', own', ?_, e1, e2, e3, e4, ?_, ?_, e7, e8⟩
    · unfold phys_pgd
      rw [if_neg (by simp [hl]), hP, hix]
      exact r
    · intro p k h
      rcases e5 p k h with h1 | ⟨h1, _, _, h4⟩
      · exact Or.inl h1
      · exact Or.inr ⟨h1, h4⟩
    · intro a h
      exact e6 a (fun p k h1 _ => h p k h1)

theorem pgd_index_depth (s : State) (va : Nat) :
    pgd_index s va = pgd_index_of s.pgtable_l4_enabled va := by
  unfold pgd_index pgd_index_of PGDIR_SHIFT
  rfl

theorem size_pos (sz : Nat) (hsz : sz = PMD_SIZE ∨ sz = PAGE_SIZE) : 0 < sz := by
  rcases hsz with h | h <;> rw [h] <;> decide

/-- The key of a new block of phase 2 is comparable with no key of a block
already inserted. -/
theorem new_key_apart (cfg : Config) (s0 : State) (lo : Nat) (C : Nat → Nat → Prop)
    (M : List Nat → Option (Nat × Nat)) (pa sz : Nat)
    (hoff : s0.va_pa_offset % PMD_SIZE = 0)
    (hkeys : ∀ k, M k ≠ none → k = [pgd_index s0 (FIXADDR_START cfg s0)] ∨
      ∃ pa sz, (sz = PMD_SIZE ∨ sz = PAGE_SIZE) ∧ pa % sz = 0 ∧ lo ≤ pa ∧
        pa + sz ≤ lo + Span s0.pgtable_l4_enabled ∧
        k = key_pgd s0.pgtable_l4_enabled (__va s0 pa) sz ∧
        ∀ a, pa ≤ a → a < pa + sz → C a sz)
    (hsz : sz = PMD_SIZE ∨ sz = PAGE_SIZE) (hal : pa % sz = 0) (hlo : lo ≤ pa)
    (hhi : pa + sz ≤ lo + Span s0.pgtable_l4_enabled)
    (hroot : pgd_index s0 (__va s0 pa) ≠ pgd_index s0 (FIXADDR_START cfg s0))
    (hnew : ∀ a z, pa ≤ a → a < pa + sz → ¬ C a z) (k : List Nat)
    (hk : k <+: key_pgd s0.pgtable_l4_enabled (__va s0 pa) sz ∨
      key_pgd s0.pgtable_l4_enabled (__va s0 pa) sz <+: k) : M k = none := by
  by_contra hne
  have hp := size_pos sz hsz
  rcases hkeys k hne with hfx | ⟨b, zb, hzb, hb0, hb1, hb2, hbk, hbC⟩
  · obtain ⟨t, ht⟩ := key_head s0.pgtable_l4_enabled (__va s0 pa) sz hsz
    have hlen := (key_length s0.pgtable_l4_enabled (__va s0 pa) sz hsz).1
    rw [hfx] at hk
    rcases hk with h | h
    · rw [ht, List.cons_prefix_cons] at h
      exact hroot ((pgd_index_depth s0 _).trans h.1.symm)
    · have := h.length_le
      simp only [List.length_singleton] at this
      omega
  · have hpb := size_pos zb hzb
    rw [hbk] at hk
    rcases hk with h | h
    · have := keys_meet s0.pgtable_l4_enabled s0.va_pa_offset lo b zb pa sz hoff hzb hsz hb0 hal
        hb1 hlo hb2 hhi h
      exact hnew pa zb (Nat.le_refl _) (by omega) (hbC pa this.1 (by omega))
    · have := keys_meet s0.pgtable_l4_enabled s0.va_pa_offset lo pa sz b zb hoff hsz hzb hal hb0
        hlo hb1 hhi hb2 h
      exact hnew b zb this.1 (by omega) (hbC b (Nat.le_refl _) (by omega))

/-- One insert of the inner loop of phase 2 keeps `Final_inv` and covers the
block it maps. -/
theorem final_step (cfg : Config) (s0 : State) (lo : Nat) (C : Nat → Nat → Prop) (sc : State)
    (pa sz : Nat) (hfix : Fixmap_ok cfg s0) (hlin : Linear cfg s0 cfg.swapper_pg_dir)
    (hoff : s0.va_pa_offset % PMD_SIZE = 0)
    (hinv : Final_inv cfg s0 lo C sc)
    (hsz : sz = PMD_SIZE ∨ sz = PAGE_SIZE) (hal : pa % sz = 0) (hlo : lo ≤ pa)
    (hhi : pa + sz ≤ lo + Span s0.pgtable_l4_enabled)
    (hroot : pgd_index s0 (__va s0 pa) ≠ pgd_index s0 (FIXADDR_START cfg s0))
    (hnew : ∀ a z, pa ≤ a → a < pa + sz → ¬ C a z)
    (hfree : 3 ≤ sc.free_pages.length) :
    ∃ sc', create_pgd_mapping cfg sc (symbol sc cfg.swapper_pg_dir) (__va sc pa) pa sz
        PAGE_KERNEL_EXEC = .ok sc' ∧
      Final_inv cfg s0 lo (fun a z => C a z ∨ (pa ≤ a ∧ a < pa + sz ∧ z = sz)) sc' ∧
      sc.free_pages.length ≤ sc'.free_pages.length + 3 := by
  obtain ⟨sp, own, M, hR, hc0, henv, hX, hrep, hpf, hkeys, hmap, hown, hsub, hfr⟩ := hinv
  have hl4 : sp.pgtable_l4_enabled = s0.pgtable_l4_enabled := hc0.2.1
  have hcc : same_config s0 sc := same_config_trans hc0 hR.1
  have hva : __va sc pa = __va s0 pa := by
    unfold __va
    rw [hcc.2.2.2.2.1]
  have hcmp := new_key_apart cfg s0 lo C M pa sz hoff hkeys hsz hal hlo hhi hroot hnew
  have hklen := (key_length s0.pgtable_l4_enabled (__va s0 pa) sz hsz).2
  have hPX := henv.2.1 _ _ hX
  obtain ⟨sp', own', r, henv', hrep', hc', hpres, hnw, hframe, hcnt, hsub'⟩ :=
    root_grows cfg (__va s0 pa) pa sz PAGE_KERNEL_EXEC sp own M cfg.swapper_pg_dir
      (Or.inr hsz) henv hX (by rw [hl4]; exact hrep) (by rw [hl4]; exact hcmp)
      (by rw [hl4, ← hR.2.1]; omega)
  rw [hl4] at hrep' hcnt
  have hsim := refine_pgd cfg (__va s0 pa) pa sz PAGE_KERNEL_EXEC sc sp
    (symbol sc cfg.swapper_pg_dir) cfg.swapper_pg_dir hR (Fixmap_ok_congr cfg s0 sp hc0 hfix)
    (Addr_linear cfg sc _ (Linear_congr cfg s0 sc _ hcc hlin))
    (env_safe cfg sp _ hPX.1 hPX.2)
  rw [r] at hsim
  obtain ⟨sc', hrun, hR'⟩ := hsim
  have hMk : M (key_pgd s0.pgtable_l4_enabled (__va s0 pa) sz) = none :=
    hcmp _ (Or.inl (List.prefix_refl _))
  have hown' : ∀ p k, own' p = some k → p = cfg.swapper_pg_dir ∨ p ∈ s0.free_pages := by
    intro p k h
    rcases hnw p k h with h1 | ⟨_, h2⟩
    · exact hown p k h1
    · exact Or.inr (hsub p h2)
  refine ⟨sc', by rw [hva]; exact hrun, ⟨sp', own', _, hR', same_config_trans hc0 hc', henv',
    hpres _ _ hX, hrep', ?_, ?_, ?_, hown', fun p hp => hsub p (hsub' p hp), ?_⟩, ?_⟩
  · intro k j hk hj hkj
    by_cases ek : k = key_pgd s0.pgtable_l4_enabled (__va s0 pa) sz
    · by_cases ej : j = key_pgd s0.pgtable_l4_enabled (__va s0 pa) sz
      · rw [ek, ej]
      · rw [ins_other M _ j _ ej] at hj
        exact absurd (hcmp j (Or.inr (ek ▸ hkj))) hj
    · rw [ins_other M _ k _ ek] at hk
      by_cases ej : j = key_pgd s0.pgtable_l4_enabled (__va s0 pa) sz
      · exact absurd (hcmp k (Or.inl (ej ▸ hkj))) hk
      · rw [ins_other M _ j _ ej] at hj
        exact hpf k j hk hj hkj
  · intro k hk
    by_cases ek : k = key_pgd s0.pgtable_l4_enabled (__va s0 pa) sz
    · exact Or.inr ⟨pa, sz, hsz, hal, hlo, hhi, ek, fun a h1 h2 => Or.inr ⟨h1, h2, rfl⟩⟩
    · rw [ins_other M _ k _ ek] at hk
      rcases hkeys k hk with h | ⟨b, zb, h1, h2, h3, h4, h5, h6⟩
      · exact Or.inl h
      · exact Or.inr ⟨b, zb, h1, h2, h3, h4, h5, fun a x y => Or.inl (h6 a x y)⟩
  · intro a z hC
    rcases hC with hC | ⟨h1, h2, h3⟩
    · obtain ⟨b, m1, m2, m3, m4, m5⟩ := hmap a z hC
      refine ⟨b, m1, m2, m3, m4, ?_⟩
      rw [ins_other M _ _ _ (fun e => by rw [e, hMk] at m5; exact Option.noConfusion m5)]
      exact m5
    · subst h3
      exact ⟨pa, hsz, hal, h1, h2, ins_same M _ _⟩
  · intro a ha
    rw [hframe a (fun p k h => ?_)]
    · exact hfr a ha
    · rcases hown' p k h with e | e
      · exact ha p (e ▸ List.mem_cons_self _ _)
      · exact ha p (List.mem_cons_of_mem _ e)
  · rw [hR.2.1, hR'.2.1]
    omega

theorem Final_inv_congr (cfg : Config) (s0 : State) (lo : Nat) (C D : Nat → Nat → Prop)
    (sc : State) (h : ∀ a z, C a z ↔ D a z) (hi : Final_inv cfg s0 lo C sc) :
    Final_inv cfg s0 lo D sc := by
  have e : C = D := funext fun a => funext fun z => propext (h a z)
  rw [← e]
  exact hi

/-- The inner loop of phase 2 maps the `n` blocks of size `ms` from `pa` to
`end_`, given three free pages for each. -/
theorem final_range (cfg : Config) (s0 : State) (lo ms end_ : Nat) (hfix : Fixmap_ok cfg s0)
    (hlin : Linear cfg s0 cfg.swapper_pg_dir) (hoff : s0.va_pa_offset % PMD_SIZE = 0)
    (hms : ms = PMD_SIZE ∨ ms = PAGE_SIZE) (hend : end_ ≤ lo + Span s0.pgtable_l4_enabled)
    (hW : end_ < WORD) :
    ∀ (n fuel : Nat) (C : Nat → Nat → Prop) (sc : State) (pa : Nat), n ≤ fuel →
      pa + n * ms = end_ → pa % ms = 0 → lo ≤ pa →
      (∀ a, pa ≤ a → a < end_ →
        pgd_index s0 (__va s0 a) ≠ pgd_index s0 (FIXADDR_START cfg s0)) →
      (∀ a z, pa ≤ a → a < end_ → ¬ C a z) → Final_inv cfg s0 lo C sc →
      3 * n ≤ sc.free_pages.length →
      ∃ sc', setup_vm_final_range cfg ms end_ fuel sc pa = .ok sc' ∧
        Final_inv cfg s0 lo (fun a z => C a z ∨ (pa ≤ a ∧ a < end_ ∧ z = ms)) sc' ∧
        sc.free_pages.length ≤ sc'.free_pages.length + 3 * n := by
  have hp := size_pos ms hms
  intro n
  induction n with
  | zero =>
    intro fuel C sc pa _ hn _ _ _ _ hinv _
    simp only [Nat.zero_mul, Nat.add_zero] at hn
    refine ⟨sc, ?_, Final_inv_congr cfg s0 lo C _ sc (fun a z => ?_) hinv, by omega⟩
    · cases fuel <;> unfold setup_vm_final_range <;> rw [if_neg (by omega)]
    · constructor
      · exact fun h => Or.inl h
      · rintro (h | ⟨h1, h2, _⟩)
        · exact h
        · omega
  | succ n ih =>
    intro fuel C sc pa hfuel hn hal hlo hroot hnew hinv hfree
    rw [Nat.succ_mul] at hn
    cases fuel with
    | zero => omega
    | succ f =>
      obtain ⟨sc1, hrun, hinv1, hcnt1⟩ := final_step cfg s0 lo C sc pa ms hfix hlin hoff hinv hms
        hal hlo (by omega) (hroot pa (Nat.le_refl _) (by omega))
        (fun a z h1 h2 => hnew a z h1 (by omega)) (by omega)
      have hadd : add64 pa ms = pa + ms := by
        unfold add64
        exact Nat.mod_eq_of_lt (by omega)
      obtain ⟨sc2, hrun2, hinv2, hcnt2⟩ := ih f _ sc1 (pa + ms) (by omega) (by omega)
        (by rw [Nat.add_mod_right]; exact hal) (by omega)
        (fun a h1 h2 => hroot a (by omega) h2)
        (fun a z h1 h2 hC => by
          rcases hC with hC | ⟨_, h4, _⟩
          · exact hnew a z (by omega) h2 hC
          · omega)
        hinv1 (by omega)
      refine ⟨sc2, ?_, Final_inv_congr cfg s0 lo _ _ sc2 (fun a z => ?_) hinv2, by omega⟩
      · unfold setup_vm_final_range
        rw [if_pos (by omega), hrun, hadd]
        exact hrun2
      · constructor
        · rintro ((h | ⟨h1, h2, h3⟩) | ⟨h1, h2, h3⟩)
          · exact Or.inl h
          · exact Or.inr ⟨h1, by omega, h3⟩
          · exact Or.inr ⟨by omega, h2, h3⟩
        · rintro (h | ⟨h1, h2, h3⟩)
          · exact Or.inl (Or.inl h)
          · by_cases hb : a < pa + ms
            · exact Or.inl (Or.inr ⟨h1, hb, h3⟩)
            · exact Or.inr ⟨by omega, h2, h3⟩
/-! ## The loop of phase 2 over the regions -/

theorem banks_cons (cfg : Config) (reg : memblock_region) (rest : List memblock_region)
    (s : State) :
    setup_vm_final_banks cfg (reg :: rest) s =
      if reg.base ≥ bank_end reg then .ok s
      else if reg.nomap then setup_vm_final_banks cfg rest s
      else
        (setup_vm_final_range cfg
          (best_map_size (bank_start s reg) (sub64 (bank_end reg) (bank_start s reg)))
          (bank_end reg) (bank_blocks s reg + 1) s (bank_start s reg)).bind
          fun s1 => setup_vm_final_banks cfg rest s1 := rfl

theorem bank_start_congr (s t : State) (reg : memblock_region) (h : same_config s t) :
    bank_start t reg = bank_start s reg := by
  unfold bank_start __pa PAGE_OFFSET
  rw [h.2.2.2.1, h.2.2.2.2.1]

theorem bank_blocks_congr (s t : State) (reg : memblock_region) (h : same_config s t) :
    bank_blocks t reg = bank_blocks s reg := by
  unfold bank_blocks
  rw [bank_start_congr s t reg h]

theorem best_map_size_cases (base size : Nat) :
    (best_map_size base size = PMD_SIZE ∧ base % PMD_SIZE = 0 ∧ size % PMD_SIZE = 0) ∨
      best_map_size base size = PAGE_SIZE := by
  have hb : base &&& (PMD_SIZE - 1) = base % PMD_SIZE := and_mask_eq_mod base 21
  have hs : size &&& (PMD_SIZE - 1) = size % PMD_SIZE := and_mask_eq_mod size 21
  unfold best_map_size
  rw [hb, hs]
  by_cases h : base % PMD_SIZE ≠ 0 ∨ size % PMD_SIZE ≠ 0
  · rw [if_pos h]
    exact Or.inr rfl
  · rw [if_neg h]
    refine Or.inl ⟨rfl, ?_, ?_⟩
    · by_contra h1
      exact h (Or.inl h1)
    · by_contra h1
      exact h (Or.inr h1)

theorem bank_end_lt (reg : memblock_region) : bank_end reg < WORD := by
  unfold bank_end add64
  exact Nat.mod_lt _ (by decide)

/-- The mapped range of a region that is mapped: it starts inside the region,
and the block size the loop chooses divides its start and its length. -/
theorem bank_shape (s : State) (reg : memblock_region) (h : reg.base < bank_end reg)
    (h1 : bank_start s reg % PAGE_SIZE = 0) (h2 : bank_end reg % PAGE_SIZE = 0) :
    bank_start s reg < bank_end reg ∧
    sub64 (bank_end reg) (bank_start s reg) = bank_end reg - bank_start s reg ∧
    (best_map_size (bank_start s reg) (sub64 (bank_end reg) (bank_start s reg)) = PMD_SIZE ∨
      best_map_size (bank_start s reg) (sub64 (bank_end reg) (bank_start s reg)) = PAGE_SIZE) ∧
    bank_start s reg %
      best_map_size (bank_start s reg) (sub64 (bank_end reg) (bank_start s reg)) = 0 ∧
    bank_start s reg + bank_blocks s reg *
      best_map_size (bank_start s reg) (sub64 (bank_end reg) (bank_start s reg)) =
        bank_end reg := by
  have hW := bank_end_lt reg
  have hlt : bank_start s reg < bank_end reg := by
    unfold bank_start
    split
    · rename_i hc
      exact hc.2
    · exact h
  have hsub : sub64 (bank_end reg) (bank_start s reg) = bank_end reg - bank_start s reg := by
    unfold sub64
    rw [WORD_eq] at hW ⊢
    omega
  refine ⟨hlt, hsub, ?_, ?_, ?_⟩
  · rcases best_map_size_cases (bank_start s reg) (sub64 (bank_end reg) (bank_start s reg))
      with h | h
    · exact Or.inl h.1
    · exact Or.inr h
  · rcases best_map_size_cases (bank_start s reg) (sub64 (bank_end reg) (bank_start s reg))
      with h | h
    · rw [h.1]
      exact h.2.1
    · rw [h]
      exact h1
  · unfold bank_blocks
    rcases best_map_size_cases (bank_start s reg) (sub64 (bank_end reg) (bank_start s reg))
      with h | h
    · have h3 := h.2.2
      rw [h.1]
      rw [hsub] at h3 ⊢
      rw [PMD_SIZE_eq] at h3 ⊢
      omega
    · rw [h, hsub]
      rw [PAGE_SIZE_eq] at h1 h2 ⊢
      omega

theorem Cover_nil (s : State) (a z : Nat) : ¬ Cover s [] a z := by
  rintro ⟨reg, h, _⟩
  exact absurd h (List.not_mem_nil reg)

theorem Cover_cons (s : State) (reg : memblock_region) (rest : List memblock_region)
    (a z : Nat) :
    Cover s (reg :: rest) a z ↔
      (reg.nomap = false ∧ reg.base < bank_end reg ∧ bank_start s reg ≤ a ∧ a < bank_end reg ∧
        z = best_map_size (bank_start s reg) (sub64 (bank_end reg) (bank_start s reg))) ∨
      Cover s rest a z := by
  unfold Cover
  constructor
  · rintro ⟨r, hr, h⟩
    rcases List.mem_cons.mp hr with e | e
    · exact Or.inl (e ▸ h)
    · exact Or.inr ⟨r, e, h⟩
  · rintro (h | ⟨r, hr, h⟩)
    · exact ⟨reg, List.mem_cons_self _ _, h⟩
    · exact ⟨r, List.mem_cons_of_mem _ hr, h⟩

/-- The loop over the regions maps the mapped range of every region that is
to be mapped, given three free pages for each block. -/
theorem final_banks (cfg : Config) (s0 : State) (lo : Nat) (hfix : Fixmap_ok cfg s0)
    (hlin : Linear cfg s0 cfg.swapper_pg_dir) (hoff : s0.va_pa_offset % PMD_SIZE = 0) :
    ∀ (regs : List memblock_region) (C : Nat → Nat → Prop) (sc : State),
      Banks_ok cfg s0 lo regs → (∀ a z y, Cover s0 regs a y → ¬ C a z) →
      Final_inv cfg s0 lo C sc → bank_pages s0 regs ≤ sc.free_pages.length →
      ∃ sc', setup_vm_final_banks cfg regs sc = .ok sc' ∧
        Final_inv cfg s0 lo (fun a z => C a z ∨ Cover s0 regs a z) sc' := by
  intro regs
  induction regs with
  | nil =>
    intro C sc _ _ hinv _
    exact ⟨sc, rfl, Final_inv_congr cfg s0 lo C _ sc
      (fun a z => ⟨Or.inl, fun h => h.elim id (fun h => absurd h (Cover_nil s0 a z))⟩) hinv⟩
  | cons reg rest ih =>
    intro C sc hbanks hnew hinv hfree
    obtain ⟨hall, hpair⟩ := hbanks
    obtain ⟨hp1, hp2⟩ := List.pairwise_cons.mp hpair
    have hrest : Banks_ok cfg s0 lo rest :=
      ⟨fun r hr => hall r (List.mem_cons_of_mem _ hr), hp2⟩
    have hcc : same_config s0 sc := by
      obtain ⟨sp, _, _, hR, hc0, _⟩ := hinv
      exact same_config_trans hc0 hR.1
    rw [banks_cons, bank_start_congr s0 sc reg hcc, bank_blocks_congr s0 sc reg hcc]
    by_cases he : reg.base ≥ bank_end reg
    · rw [if_pos he]
      refine ⟨sc, rfl, Final_inv_congr cfg s0 lo C _ sc (fun a z => ⟨Or.inl, fun h => ?_⟩) hinv⟩
      rcases h with h | h
      · exact h
      · rcases (Cover_cons s0 reg rest a z).mp h with ⟨_, h2, _⟩ | ⟨r, hr, h1, h2, _⟩
        · omega
        · rcases (hp1 r hr).1 he with h3 | h3
          · rw [h3] at h1
            exact Bool.noConfusion h1
          · omega
    · rw [if_neg he]
      cases hn : reg.nomap
      · simp only [Bool.false_eq_true, if_false]
        have hlt : reg.base < bank_end reg := by omega
        obtain ⟨b1, b2, b3, b4, b5⟩ := hall reg (List.mem_cons_self _ _) hn hlt
        obtain ⟨c1, c2, c3, c4, c5⟩ := bank_shape s0 reg hlt b1 b2
        have hpages : bank_pages s0 (reg :: rest) = 3 * bank_blocks s0 reg + bank_pages s0 rest := by
          show (if reg.nomap = true ∨ bank_end reg ≤ reg.base then 0 else 3 * bank_blocks s0 reg)
            + bank_pages s0 rest = _
          rw [if_neg (by rw [hn]; simp; omega)]
        rw [hpages] at hfree
        obtain ⟨sc1, hrun, hinv1, hcnt⟩ := final_range cfg s0 lo _ (bank_end reg) hfix hlin hoff
          c3 b4 (bank_end_lt reg) (bank_blocks s0 reg) (bank_blocks s0 reg + 1) C sc
          (bank_start s0 reg) (by omega) c5 c4 b3 b5
          (fun a z h1 h2 => hnew a z _ ((Cover_cons s0 reg rest a _).mpr
            (Or.inl ⟨hn, hlt, h1, h2, rfl⟩)))
          hinv (by omega)
        obtain ⟨sc2, hrun2, hinv2⟩ := ih _ sc1 hrest
          (fun a z y hcov hC => by
            rcases hC with hC | ⟨h1, h2, _⟩
            · exact hnew a z y ((Cover_cons s0 reg rest a y).mpr (Or.inr hcov)) hC
            · obtain ⟨r, hr, r1, r2, r3, r4, _⟩ := hcov
              rcases (hp1 r hr).2 hn r1 hlt r2 with h | h
              · omega
              · omega)
          hinv1 (by omega)
        refine ⟨sc2, ?_, Final_inv_congr cfg s0 lo _ _ sc2 (fun a z => ?_) hinv2⟩
        · rw [hrun]
          exact hrun2
        · rw [Cover_cons]
          constructor
          · rintro ((h | ⟨h1, h2, h3⟩) | h)
            · exact Or.inl h
            · exact Or.inr (Or.inl ⟨hn, hlt, h1, h2, h3⟩)
            · exact Or.inr (Or.inr h)
          · rintro (h | ⟨_, _, h1, h2, h3⟩ | h)
            · exact Or.inl (Or.inl h)
            · exact Or.inl (Or.inr ⟨h1, h2, h3⟩)
            · exact Or.inr h
      · simp only [if_true]
        have hpages : bank_pages s0 (reg :: rest) = bank_pages s0 rest := by
          show (if reg.nomap = true ∨ bank_end reg ≤ reg.base then 0 else 3 * bank_blocks s0 reg)
            + bank_pages s0 rest = _
          rw [if_pos (Or.inl hn), Nat.zero_add]
        rw [hpages] at hfree
        obtain ⟨sc2, hrun2, hinv2⟩ := ih C sc hrest
          (fun a z y hcov => hnew a z y ((Cover_cons s0 reg rest a y).mpr (Or.inr hcov)))
          hinv hfree
        refine ⟨sc2, hrun2, Final_inv_congr cfg s0 lo _ _ sc2 (fun a z => ?_) hinv2⟩
        rw [Cover_cons]
        constructor
        · rintro (h | h)
          · exact Or.inl h
          · exact Or.inr (Or.inr h)
        · rintro (h | ⟨h1, _⟩ | h)
          · exact Or.inl h
          · rw [hn] at h1
            exact Bool.noConfusion h1
          · exact Or.inr h
/-! ## Phase 2 as a whole -/

theorem key_root (s : State) (va : Nat) :
    key_pgd s.pgtable_l4_enabled va (PGDIR_SIZE s) = [pgd_index s va] := by
  rw [PGDIR_SIZE_eq, pgd_index_depth]
  unfold key_pgd key_pud
  cases s.pgtable_l4_enabled
  · simp only [Bool.false_eq_true, if_false]
    rw [if_pos (by decide)]
    rfl
  · simp only [if_true]

theorem Rep_pgd_empty (l4 : Bool) (m : Nat → Nat) (own : Nat → Option (List Nat)) (X : Nat)
    (hz : ∀ i, i < 512 → m (slot X i) = 0) : Rep_pgd l4 m own (fun _ => none) X [] := by
  unfold Rep_pgd
  cases l4
  · exact Rep_level_empty _ m own _ X [] hz (fun _ _ => rfl)
  · exact Rep_level_empty _ m own _ X [] hz (fun _ _ => rfl)

theorem Local_pgd (l4 : Bool) : Local (Rep_pgd l4) := by
  unfold Rep_pgd
  cases l4
  · exact Local_pud
  · exact Local_level _ Local_pud

/-- The first insert of phase 2, the link of the fixmap, establishes
`Final_inv` on a zero root. -/
theorem final_start (cfg : Config) (s0 : State) (lo : Nat) (hon : s0.mmu_enabled = true)
    (hfix : Fixmap_ok cfg s0) (hlin : Linear cfg s0 cfg.swapper_pg_dir)
    (hpages : Pages_ok cfg s0 (cfg.swapper_pg_dir :: s0.free_pages))
    (hzero : ∀ i, i < 512 → s0.mem (slot cfg.swapper_pg_dir i) = 0) :
    ∃ sc, create_pgd_mapping cfg s0 (symbol s0 cfg.swapper_pg_dir) (FIXADDR_START cfg s0)
        (__pa s0 (fixmap_pgd_next cfg s0)) (PGDIR_SIZE s0) PAGE_TABLE = .ok sc ∧
      Final_inv cfg s0 lo (fun _ _ => False) sc ∧
      s0.free_pages.length ≤ sc.free_pages.length := by
  obtain ⟨hall, hnd⟩ := hpages
  obtain ⟨hnin, hndf⟩ := List.nodup_cons.mp hnd
  have hPg : ∀ p ∈ cfg.swapper_pg_dir :: s0.free_pages, Pg p ∧ p ≠ cfg.fixmap_pte := by
    intro p hp
    obtain ⟨h1, h2, h3⟩ := hall p hp
    rw [PAGE_SIZE_eq] at h1 h2
    rw [WORD_eq] at h2
    exact ⟨⟨h1, h2⟩, h3 hon⟩
  have hX := hPg _ (List.mem_cons_self _ _)
  have henv : Env cfg s0 (fun p => if p = cfg.swapper_pg_dir then some [] else none) := by
    refine ⟨hon, ?_, ?_, hndf⟩
    · intro p k h
      by_cases e : p = cfg.swapper_pg_dir
      · rw [e]
        exact hX
      · simp [e] at h
    · intro p hp
      have e : p ≠ cfg.swapper_pg_dir := fun e => hnin (e ▸ hp)
      simp only [e, if_false, true_and]
      exact hPg p (List.mem_cons_of_mem _ hp)
  obtain ⟨sp, own, r, henv', hrep, hc, hpres, hnw, hframe, hcnt, hsub⟩ :=
    root_grows cfg (FIXADDR_START cfg s0) (__pa s0 (fixmap_pgd_next cfg s0)) (PGDIR_SIZE s0)
      PAGE_TABLE s0 _ (fun _ => none) cfg.swapper_pg_dir (Or.inl rfl) henv (by simp)
      (Rep_pgd_empty _ _ _ _ hzero) (fun _ _ => rfl) (by rw [key_root]; simp)
  rw [key_root] at hrep hcnt
  have hsim := refine_pgd cfg (FIXADDR_START cfg s0) (__pa s0 (fixmap_pgd_next cfg s0))
    (PGDIR_SIZE s0) PAGE_TABLE s0 s0 (symbol s0 cfg.swapper_pg_dir) cfg.swapper_pg_dir
    (Rel_refl cfg s0) hfix (Addr_linear cfg s0 _ hlin) (env_safe cfg s0 _ hX.1 hX.2)
  rw [r] at hsim
  obtain ⟨sc, hrun, hR⟩ := hsim
  have hown : ∀ p k, own p = some k → p = cfg.swapper_pg_dir ∨ p ∈ s0.free_pages := by
    intro p k h
    rcases hnw p k h with h1 | ⟨_, h2⟩
    · by_cases e : p = cfg.swapper_pg_dir
      · exact Or.inl e
      · simp [e] at h1
    · exact Or.inr h2
  refine ⟨sc, hrun, ⟨sp, own, _, hR, hc, henv', hpres _ _ (by simp), hrep, ?_, ?_, ?_, hown,
    hsub, ?_⟩, ?_⟩
  · intro k j hk hj _
    have ek : k = [pgd_index s0 (FIXADDR_START cfg s0)] := by
      by_contra e
      rw [ins_other _ _ k _ e] at hk
      exact hk rfl
    have ej : j = [pgd_index s0 (FIXADDR_START cfg s0)] := by
      by_contra e
      rw [ins_other _ _ j _ e] at hj
      exact hj rfl
    rw [ek, ej]
  · intro k hk
    refine Or.inl ?_
    by_contra e
    rw [ins_other _ _ k _ e] at hk
    exact hk rfl
  · intro a z h
    exact absurd h id
  · intro a ha
    refine hframe a (fun p k h => ?_)
    rcases hown p k h with e | e
    · exact ha p (e ▸ List.mem_cons_self _ _)
    · exact ha p (List.mem_cons_of_mem _ e)
  · rw [hR.2.1]
    simp only [List.length_singleton] at hcnt
    omega

theorem win_clear_config (cfg : Config) (s : State) (idx : Nat) :
    same_config s (win_clear cfg s idx) := by
  simp [same_config, win_clear]

theorem win_clear_mem (cfg : Config) (s : State) (idx a : Nat)
    (h : a ≠ wincell cfg s idx) : (win_clear cfg s idx).mem a = s.mem a := by
  show upd s.mem (wincell cfg s idx) 0 a = s.mem a
  unfold upd
  rw [if_neg h]

/-- The three clears that end phase 2 write only in the page `fixmap_pte`. -/
theorem final_clear (cfg : Config) (s : State) (hfix : Fixmap_ok cfg s)
    (hon : s.mmu_enabled = true) :
    ∃ s5, ((clear_fixmap cfg s cfg.FIX_PTE).bind fun s =>
        (clear_fixmap cfg s cfg.FIX_PMD).bind fun s => clear_fixmap cfg s cfg.FIX_PUD) = .ok s5 ∧
      same_config s s5 ∧
      ∀ a, (a < cfg.fixmap_pte ∨ cfg.fixmap_pte + 4096 ≤ a) → s5.mem a = s.mem a := by
  obtain ⟨_, _, _, hal, _, f1, f2, f3, _⟩ := hfix hon
  have c1 := win_clear_config cfg s cfg.FIX_PTE
  have c2 := win_clear_config cfg (win_clear cfg s cfg.FIX_PTE) cfg.FIX_PMD
  have c3 := win_clear_config cfg (win_clear cfg (win_clear cfg s cfg.FIX_PTE) cfg.FIX_PMD)
    cfg.FIX_PUD
  have hw : ∀ (t : State) (idx a : Nat), (a < cfg.fixmap_pte ∨ cfg.fixmap_pte + 4096 ≤ a) →
      a ≠ wincell cfg t idx := by
    intro t idx a ha
    unfold wincell
    have := pte_index_lt (__fix_to_virt cfg t idx)
    omega
  refine ⟨win_clear cfg (win_clear cfg (win_clear cfg s cfg.FIX_PTE) cfg.FIX_PMD) cfg.FIX_PUD,
    ?_, same_config_trans c1 (same_config_trans c2 c3), ?_⟩
  · rw [clear_fixmap_on cfg s _ hfix hon f1.1 f1.2.1, bind_ok,
      clear_fixmap_on cfg _ _ (Fixmap_ok_congr cfg s _ c1 hfix) (c1.1.trans hon) f2.1 f2.2.1,
      bind_ok,
      clear_fixmap_on cfg _ _ (Fixmap_ok_congr cfg s _ (same_config_trans c1 c2) hfix)
        ((same_config_trans c1 c2).1.trans hon) f3.1 f3.2.1]
  · intro a ha
    rw [win_clear_mem cfg _ _ a (hw _ _ a ha), win_clear_mem cfg _ _ a (hw _ _ a ha),
      win_clear_mem cfg _ _ a (hw _ _ a ha)]

theorem setup_vm_final_eq (cfg : Config) (s : State) :
    setup_vm_final cfg s =
      (create_pgd_mapping cfg { s with mmu_enabled := true }
        (symbol { s with mmu_enabled := true } cfg.swapper_pg_dir)
        (FIXADDR_START cfg { s with mmu_enabled := true })
        (__pa { s with mmu_enabled := true } (fixmap_pgd_next cfg { s with mmu_enabled := true }))
        (PGDIR_SIZE { s with mmu_enabled := true }) PAGE_TABLE).bind fun s =>
      (setup_vm_final_banks cfg s.memory s).bind fun s =>
      ((clear_fixmap cfg s cfg.FIX_PTE).bind fun s =>
        (clear_fixmap cfg s cfg.FIX_PMD).bind fun s => clear_fixmap cfg s cfg.FIX_PUD).bind
        fun s => .ok { s with
          trace := Event.local_flush_tlb_all ::
            Event.csr_write_satp
              (PFN_DOWN (__pa s (symbol s cfg.swapper_pg_dir)) ||| s.satp_mode) :: s.trace } := by
  unfold setup_vm_final
  simp only []
  cases create_pgd_mapping cfg { s with mmu_enabled := true }
      (symbol { s with mmu_enabled := true } cfg.swapper_pg_dir)
      (FIXADDR_START cfg { s with mmu_enabled := true })
      (__pa { s with mmu_enabled := true } (fixmap_pgd_next cfg { s with mmu_enabled := true }))
      (PGDIR_SIZE { s with mmu_enabled := true }) PAGE_TABLE with
  | error e => rfl
  | ok s1 =>
    simp only [bind_ok]
    cases setup_vm_final_banks cfg s1.memory s1 with
    | error e => rfl
    | ok s2 =>
      simp only [bind_ok]
      cases clear_fixmap cfg s2 cfg.FIX_PTE with
      | error e => rfl
      | ok s3 =>
        simp only [bind_ok]
        cases clear_fixmap cfg s3 cfg.FIX_PMD with
        | error e => rfl
        | ok s4 =>
          simp only [bind_ok]

theorem bank_pages_on (s : State) (regs : List memblock_region) :
    bank_pages { s with mmu_enabled := true } regs = bank_pages s regs := by
  induction regs with
  | nil => rfl
  | cons reg rest ih =>
    show (if reg.nomap = true ∨ bank_end reg ≤ reg.base then 0
        else 3 * bank_blocks { s with mmu_enabled := true } reg) +
      bank_pages { s with mmu_enabled := true } rest = _
    rw [ih]
    rfl

/-- Phase 2 on a zero root, with regions as `Banks_ok` says and three free
pages for each block: it returns, every address of a mapped range is walked to
a leaf of the block size chosen for its region, and memory outside the
permanent root, `fixmap_pte` and the free pages is unchanged. -/
theorem final_main (cfg : Config) (s : State) (lo : Nat)
    (hfix : Fixmap_ok cfg { s with mmu_enabled := true })
    (hlin : Linear cfg { s with mmu_enabled := true } cfg.swapper_pg_dir)
    (hoff : s.va_pa_offset % PMD_SIZE = 0)
    (hpages : Pages_ok cfg { s with mmu_enabled := true } (cfg.swapper_pg_dir :: s.free_pages))
    (hzero : ∀ i, i < 512 → s.mem (slot cfg.swapper_pg_dir i) = 0)
    (hbanks : Banks_ok cfg s lo s.memory)
    (hfree : bank_pages s s.memory ≤ s.free_pages.length) :
    ∃ s', setup_vm_final cfg s = .ok s' ∧ s'.pgtable_l4_enabled = s.pgtable_l4_enabled ∧
      (∀ a z, Cover s s.memory a z →
        ∃ b, (z = PMD_SIZE ∨ z = PAGE_SIZE) ∧ b % z = 0 ∧ b ≤ a ∧ a < b + z ∧ b < WORD ∧
          walk s' cfg.swapper_pg_dir (__va s a) =
            some ⟨if z = PMD_SIZE then .pmd else .pte, PFN_DOWN b, PAGE_KERNEL_EXEC⟩) ∧
      (∀ a, outside (cfg.swapper_pg_dir :: cfg.fixmap_pte :: s.free_pages) a →
        s'.mem a = s.mem a) := by
  obtain ⟨sc1, hrun1, hinv1, hcnt1⟩ :=
    final_start cfg { s with mmu_enabled := true } lo rfl hfix hlin hpages hzero
  have hcc1 : same_config { s with mmu_enabled := true } sc1 := by
    obtain ⟨sp, _, _, hR, hc0, _⟩ := hinv1
    exact same_config_trans hc0 hR.1
  obtain ⟨sc2, hrun2, hinv2⟩ :=
    final_banks cfg { s with mmu_enabled := true } lo hfix hlin hoff s.memory _ sc1 hbanks
      (fun _ _ _ _ h => h) hinv1
      (Nat.le_trans (by rw [bank_pages_on]; exact hfree) hcnt1)
  obtain ⟨sp, own, M, hR, hc0, henv, hX, hrep, hpf, hkeys, hmap, hown, hsub, hfr⟩ := hinv2
  have hcc2 : same_config { s with mmu_enabled := true } sc2 := same_config_trans hc0 hR.1
  obtain ⟨s5, hrun3, hc5, hm5⟩ := final_clear cfg sc2
    (Fixmap_ok_congr cfg _ sc2 hcc2 hfix) hcc2.1
  have hFa : cfg.fixmap_pte % 4096 = 0 := (hfix rfl).2.2.2.1
  have hcell : ∀ p k, own p = some k → ∀ i, i < 512 →
      s5.mem (slot p i) = sp.mem (slot p i) := by
    intro p k h i hi
    obtain ⟨hP, hne⟩ := henv.2.1 p k h
    have ho := cell_out p cfg.fixmap_pte i hP.2 hi hP.1 hFa hne
    rw [hm5 _ ho]
    refine hR.2.2.2.1 _ (fun hw => ?_)
    have h1 := pte_index_lt (__fix_to_virt cfg sp cfg.FIX_PTE)
    have h2 := pte_index_lt (__fix_to_virt cfg sp cfg.FIX_PMD)
    have h3 := pte_index_lt (__fix_to_virt cfg sp cfg.FIX_PUD)
    unfold Win wincell at hw
    omega
  have hl5 : s5.pgtable_l4_enabled = s.pgtable_l4_enabled := hc5.2.1.trans hcc2.2.1
  refine ⟨{ s5 with
    trace := Event.local_flush_tlb_all ::
      Event.csr_write_satp
        (PFN_DOWN (__pa s5 (symbol s5 cfg.swapper_pg_dir)) ||| s5.satp_mode) :: s5.trace }, ?_,
    hl5, ?_, ?_⟩
  · rw [setup_vm_final_eq, hrun1, bind_ok, hcc1.2.2.2.2.2.2.2.2, hrun2, bind_ok, hrun3, bind_ok]
  · intro a z hcov
    obtain ⟨b, m1, m2, m3, m4, m5⟩ := hmap a z (Or.inr hcov)
    have hbW : b < WORD := by
      obtain ⟨reg, _, _, _, _, h4, _⟩ := hcov
      have := bank_end_lt reg
      omega
    refine ⟨b, m1, m2, m3, m4, hbW, ?_⟩
    have hk := same_block_key s.pgtable_l4_enabled s.va_pa_offset b z a hoff m1 m2 m3 m4
    refine rep_walk _ own M cfg.swapper_pg_dir (__va s a) b z PAGE_KERNEL_EXEC
      (fun p k h => (henv.2.1 p k h).1) ?_ ?_ ?_ (by decide) hbW m1
    · show Rep_pgd s5.pgtable_l4_enabled s5.mem own M cfg.swapper_pg_dir []
      rw [hl5]
      exact Local_pgd _ sp.mem s5.mem own own M M _ [] hrep hX
        (fun p k h _ => ⟨h, fun i hi => hcell p k h i hi⟩) (fun _ _ => rfl)
    · show M (key_pgd s5.pgtable_l4_enabled (add64 a s.va_pa_offset) z) = _
      rw [hl5, hk]
      exact m5
    · intro k h1 h2
      by_contra hne
      refine h2 (hpf k _ hne ?_ h1)
      show M (key_pgd s5.pgtable_l4_enabled (add64 a s.va_pa_offset) z) ≠ none
      rw [hl5, hk, m5]
      exact Option.noConfusion
  · intro a ha
    show s5.mem a = s.mem a
    have h1 := ha cfg.fixmap_pte (List.mem_cons_of_mem _ (List.mem_cons_self _ _))
    rw [hm5 a h1]
    have hnw : ¬ Win cfg sp a := by
      intro hw
      have h1 := pte_index_lt (__fix_to_virt cfg sp cfg.FIX_PTE)
      have h2 := pte_index_lt (__fix_to_virt cfg sp cfg.FIX_PMD)
      have h3 := pte_index_lt (__fix_to_virt cfg sp cfg.FIX_PUD)
      unfold Win wincell at hw
      omega
    rw [hR.2.2.2.1 a hnw]
    exact hfr a (fun p hp => by
      rcases List.mem_cons.mp hp with e | e
      · exact ha p (e ▸ List.mem_cons_self _ _)
      · exact ha p (List.mem_cons_of_mem _ (List.mem_cons_of_mem _ e)))
/-! ## Phase 2: coverage, granularity and the early root (C7, C16, C15) -/

theorem bank_nonempty (s : State) (reg : memblock_region) (pa : Nat)
    (h1 : bank_start s reg ≤ pa) (h2 : pa < bank_end reg) : reg.base < bank_end reg := by
  unfold bank_start at h1
  split at h1
  · rename_i hc
    omega
  · omega

theorem Cover_of_mem (s : State) (reg : memblock_region) (pa : Nat) (hr : reg ∈ s.memory)
    (hn : reg.nomap = false) (h1 : bank_start s reg ≤ pa) (h2 : pa < bank_end reg) :
    Cover s s.memory pa
      (best_map_size (bank_start s reg) (sub64 (bank_end reg) (bank_start s reg))) :=
  ⟨reg, hr, hn, bank_nonempty s reg pa h1 h2, h1, h2, rfl⟩

theorem resolve_block (t : State) (root off b z a : Nat) (hoff : off % PMD_SIZE = 0)
    (hz : z = PMD_SIZE ∨ z = PAGE_SIZE) (hb : b % z = 0) (h1 : b ≤ a) (h2 : a < b + z)
    (hW : b < WORD)
    (hw : walk t root (add64 a off) =
      some ⟨if z = PMD_SIZE then .pmd else .pte, PFN_DOWN b, PAGE_KERNEL_EXEC⟩) :
    resolve t root (add64 a off) = some (a, PAGE_KERNEL_EXEC) := by
  unfold resolve
  rw [hw]
  have hbo := block_offset off b z a hoff hz hb h1 h2 hW
  rcases hz with e | e
  · subst e
    simp only [Option.map, if_true, Level.block]
    rw [hbo]
  · subst e
    have hne : PAGE_SIZE ≠ PMD_SIZE := by decide
    simp only [Option.map, if_neg hne, Level.block]
    rw [hbo]

/-- C7 (amended): phase-2 region coverage.  On a machine with the fixmap
geometry `Fixmap_ok`, a permanent root that is reached through the kernel
mapping and is all zero, a kernel-mapping offset that is a multiple of
`PMD_SIZE`, free pages that are distinct pages other than the root and
`fixmap_pte`, three of them for every block to map, and a region list as
`Banks_ok` says (mapped ranges on page boundaries, inside one root's reach,
pairwise disjoint, off the root slot of the fixmap, and no empty region before
a region to map, since the loop stops at the first empty region),
`setup_vm_final` returns, and for every region not flagged do-not-map and
every `pa` in `[start', end)` the walk of `__va(pa)` from `swapper_pg_dir`
resolves to `pa` with the protection of the kernel mapping; where the early
root gave that result, the permanent root gives the identical one. -/
theorem final_covers_regions (cfg : Config) (s : State) (lo : Nat)
    (hfix : Fixmap_ok cfg { s with mmu_enabled := true })
    (hlin : Linear cfg { s with mmu_enabled := true } cfg.swapper_pg_dir)
    (hoff : s.va_pa_offset % PMD_SIZE = 0)
    (hpages : Pages_ok cfg { s with mmu_enabled := true } (cfg.swapper_pg_dir :: s.free_pages))
    (hzero : ∀ i, i < 512 → s.mem (slot cfg.swapper_pg_dir i) = 0)
    (hbanks : Banks_ok cfg s lo s.memory)
    (hfree : bank_pages s s.memory ≤ s.free_pages.length) :
    ∃ s', setup_vm_final cfg s = .ok s' ∧
      ∀ reg ∈ s.memory, reg.nomap = false →
        ∀ pa, bank_start s reg ≤ pa → pa < bank_end reg →
          resolve s' cfg.swapper_pg_dir (__va s pa) = some (pa, PAGE_KERNEL_EXEC) ∧
          (resolve s cfg.early_pg_dir (__va s pa) = some (pa, PAGE_KERNEL_EXEC) →
            resolve s' cfg.swapper_pg_dir (__va s pa) =
              resolve s cfg.early_pg_dir (__va s pa)) := by
  obtain ⟨s', hrun, _, hwalk, _⟩ :=
    final_main cfg s lo hfix hlin hoff hpages hzero hbanks hfree
  refine ⟨s', hrun, fun reg hr hn pa h1 h2 => ?_⟩
  obtain ⟨b, m1, m2, m3, m4, m5, m6⟩ := hwalk pa _ (Cover_of_mem s reg pa hr hn h1 h2)
  have hres : resolve s' cfg.swapper_pg_dir (__va s pa) = some (pa, PAGE_KERNEL_EXEC) :=
    resolve_block s' _ s.va_pa_offset b _ pa hoff m1 m2 m3 m4 m5 m6
  exact ⟨hres, fun h => hres.trans h.symm⟩

/-- C16 (amended): phase-2 granularity is chosen once per region.  Under the
conditions of phase 2 (as for the coverage of the regions), every address of
the mapped range `[start', end)` of a region is mapped by a leaf whose block
size is `best_map_size(start', end - start')`: a medium-block leaf when both
`start'` and the length of the range are multiples of `PMD_SIZE`, a base-page
leaf for the whole range otherwise. -/
theorem final_granularity (cfg : Config) (s : State) (lo : Nat)
    (hfix : Fixmap_ok cfg { s with mmu_enabled := true })
    (hlin : Linear cfg { s with mmu_enabled := true } cfg.swapper_pg_dir)
    (hoff : s.va_pa_offset % PMD_SIZE = 0)
    (hpages : Pages_ok cfg { s with mmu_enabled := true } (cfg.swapper_pg_dir :: s.free_pages))
    (hzero : ∀ i, i < 512 → s.mem (slot cfg.swapper_pg_dir i) = 0)
    (hbanks : Banks_ok cfg s lo s.memory)
    (hfree : bank_pages s s.memory ≤ s.free_pages.length) :
    ∃ s', setup_vm_final cfg s = .ok s' ∧
      ∀ reg ∈ s.memory, reg.nomap = false →
        ∀ pa, bank_start s reg ≤ pa → pa < bank_end reg →
          ∃ l, walk s' cfg.swapper_pg_dir (__va s pa) = some l ∧
            l.level.block s'.pgtable_l4_enabled =
              best_map_size (bank_start s reg) (sub64 (bank_end reg) (bank_start s reg)) ∧
            (l.level = Level.pmd ↔
              bank_start s reg % PMD_SIZE = 0 ∧
                (bank_end reg - bank_start s reg) % PMD_SIZE = 0) ∧
            (l.level = Level.pte ↔
              ¬ (bank_start s reg % PMD_SIZE = 0 ∧
                (bank_end reg - bank_start s reg) % PMD_SIZE = 0)) := by
  obtain ⟨s', hrun, _, hwalk, _⟩ :=
    final_main cfg s lo hfix hlin hoff hpages hzero hbanks hfree
  refine ⟨s', hrun, fun reg hr hn pa h1 h2 => ?_⟩
  obtain ⟨b, m1, m2, m3, m4, m5, m6⟩ := hwalk pa _ (Cover_of_mem s reg pa hr hn h1 h2)
  have hlt := bank_nonempty s reg pa h1 h2
  obtain ⟨hall, _⟩ := hbanks
  obtain ⟨b1, b2, _⟩ := hall reg hr hn hlt
  obtain ⟨_, c2, _⟩ := bank_shape s reg hlt b1 b2
  refine ⟨_, m6, ?_, ?_, ?_⟩
  · rcases m1 with e | e
    · rw [e]
      rfl
    · rw [e]
      rfl
  · rcases best_map_size_cases (bank_start s reg) (sub64 (bank_end reg) (bank_start s reg))
      with h | h
    · rw [c2] at h
      rw [c2, h.1]
      simp only [if_true, true_iff]
      exact h.2
    · have hne : PAGE_SIZE ≠ PMD_SIZE := by decide
      have hn2 : ¬ (bank_start s reg % PMD_SIZE = 0 ∧
          (bank_end reg - bank_start s reg) % PMD_SIZE = 0) := by
        intro hc
        have hb : bank_start s reg &&& (PMD_SIZE - 1) = bank_start s reg % PMD_SIZE :=
          and_mask_eq_mod _ 21
        have hs : sub64 (bank_end reg) (bank_start s reg) &&& (PMD_SIZE - 1)
            = sub64 (bank_end reg) (bank_start s reg) % PMD_SIZE := and_mask_eq_mod _ 21
        unfold best_map_size at h
        rw [hb, hs, c2, hc.1, hc.2] at h
        simp at h
        exact hne h.symm
      rw [h]
      simp only [if_neg hne]
      constructor
      · intro hl
        exact Level.noConfusion hl
      · intro hc
        exact absurd hc hn2
  · rcases best_map_size_cases (bank_start s reg) (sub64 (bank_end reg) (bank_start s reg))
      with h | h
    · rw [c2] at h
      rw [c2, h.1]
      simp only [if_true]
      constructor
      · intro hl
        exact Level.noConfusion hl
      · intro hc
        exact absurd h.2 hc
    · have hne : PAGE_SIZE ≠ PMD_SIZE := by decide
      have hn2 : ¬ (bank_start s reg % PMD_SIZE = 0 ∧
          (bank_end reg - bank_start s reg) % PMD_SIZE = 0) := by
        intro hc
        have hb : bank_start s reg &&& (PMD_SIZE - 1) = bank_start s reg % PMD_SIZE :=
          and_mask_eq_mod _ 21
        have hs : sub64 (bank_end reg) (bank_start s reg) &&& (PMD_SIZE - 1)
            = sub64 (bank_end reg) (bank_start s reg) % PMD_SIZE := and_mask_eq_mod _ 21
        unfold best_map_size at h
        rw [hb, hs, c2, hc.1, hc.2] at h
        simp at h
        exact hne h.symm
      rw [h]
      simp only [if_neg hne, true_iff]
      exact hn2

theorem pgd_index_apart (s : State) (cfg : Config) (pa : Nat)
    (hl : s.pgtable_l4_enabled = true) (ho : s.va_pa_offset = 0xffffbfff7fe00000)
    (hf : FIXADDR_START cfg s = 0xffffbfeefee00000)
    (h1 : 0x80200000 ≤ pa) (h2 : pa < 0x100000000) :
    pgd_index s (__va s pa) ≠ pgd_index s (FIXADDR_START cfg s) := by
  rw [pgd_index_eq, pgd_index_eq, hl, hf]
  unfold __va add64
  rw [ho, WORD_eq]
  simp only [if_true]
  omega

theorem mapped0_banks : Banks_ok cfg0 mapped0 0x80000000 mapped0.memory := by
  refine ⟨fun reg hr hn hlt => ?_, ?_⟩
  · have hr2 : reg = ⟨0x80600000, 0x1000, false⟩ ∨ reg = ⟨0x80800000, 0x200000, false⟩ := by
      simpa [mapped0] using hr
    rcases hr2 with e | e
    · subst e
      refine ⟨by decide, by decide, by decide, by decide, fun pa h1 h2 => ?_⟩
      have hs : bank_start mapped0 ⟨0x80600000, 0x1000, false⟩ = 0x80600000 := by decide
      have he : bank_end ⟨0x80600000, 0x1000, false⟩ = 0x80601000 := by decide
      rw [hs] at h1
      rw [he] at h2
      exact pgd_index_apart mapped0 cfg0 pa rfl rfl (by decide) (by omega) (by omega)
    · subst e
      refine ⟨by decide, by decide, by decide, by decide, fun pa h1 h2 => ?_⟩
      have hs : bank_start mapped0 ⟨0x80800000, 0x200000, false⟩ = 0x80800000 := by decide
      have he : bank_end ⟨0x80800000, 0x200000, false⟩ = 0x80a00000 := by decide
      rw [hs] at h1
      rw [he] at h2
      exact pgd_index_apart mapped0 cfg0 pa rfl rfl (by decide) (by omega) (by omega)
  · show List.Pairwise _ [_, _]
    refine List.pairwise_cons.mpr ⟨fun b hb => ?_, List.pairwise_singleton _ _⟩
    have e : b = ⟨0x80800000, 0x200000, false⟩ := by simpa using hb
    subst e
    exact ⟨by decide, fun _ _ _ _ => by decide⟩

theorem final_covers_regions_witness :
    ∃ s', setup_vm_final cfg0 mapped0 = .ok s' ∧
      resolve s' cfg0.swapper_pg_dir (__va mapped0 0x80600800) =
        some (0x80600800, PAGE_KERNEL_EXEC) ∧
      resolve s' cfg0.swapper_pg_dir (__va mapped0 0x80912340) =
        some (0x80912340, PAGE_KERNEL_EXEC) := by
  obtain ⟨s', h1, h2⟩ := final_covers_regions cfg0 mapped0 0x80000000
    (by unfold Fixmap_ok Linear; decide) (by unfold Linear; decide) (by decide)
    (by unfold Pages_ok; decide) (fun _ _ => rfl) mapped0_banks (by decide)
  exact ⟨s', h1,
    (h2 ⟨0x80600000, 0x1000, false⟩ (by decide) rfl 0x80600800 (by decide) (by decide)).1,
    (h2 ⟨0x80800000, 0x200000, false⟩ (by decide) rfl 0x80912340 (by decide) (by decide)).1⟩

/-- C7 as stated fails: the loop over the regions stops at the first empty
region, so the region after it is not mapped. -/
theorem final_covers_regions_counterexample :
    ∃ s', setup_vm_final cfg0 broken0 = .ok s' ∧
      (⟨0x80600000, 0x1000, false⟩ : memblock_region) ∈ broken0.memory ∧
      bank_start broken0 ⟨0x80600000, 0x1000, false⟩ ≤ 0x80600000 ∧
      0x80600000 < bank_end ⟨0x80600000, 0x1000, false⟩ ∧
      resolve s' cfg0.swapper_pg_dir (__va broken0 0x80600000) = none :=
  ⟨_, rfl, by decide, by decide, by decide, by decide⟩

theorem final_granularity_witness :
    ∃ s', setup_vm_final cfg0 mapped0 = .ok s' ∧
      (∃ l, walk s' cfg0.swapper_pg_dir (__va mapped0 0x80600800) = some l ∧
        l.level = Level.pte) ∧
      (∃ l, walk s' cfg0.swapper_pg_dir (__va mapped0 0x80912340) = some l ∧
        l.level = Level.pmd) := by
  obtain ⟨s', h1, h2⟩ := final_granularity cfg0 mapped0 0x80000000
    (by unfold Fixmap_ok Linear; decide) (by unfold Linear; decide) (by decide)
    (by unfold Pages_ok; decide) (fun _ _ => rfl) mapped0_banks (by decide)
  obtain ⟨l1, a1, _, _, a4⟩ :=
    h2 ⟨0x80600000, 0x1000, false⟩ (by decide) rfl 0x80600800 (by decide) (by decide)
  obtain ⟨l2, b1, _, b3, _⟩ :=
    h2 ⟨0x80800000, 0x200000, false⟩ (by decide) rfl 0x80912340 (by decide) (by decide)
  exact ⟨s', h1, ⟨l1, a1, a4.mpr (by decide)⟩, ⟨l2, b1, b3.mpr (by decide)⟩⟩

theorem pool_mem (n p : Nat) (h : p ∈ pool n) : ∃ i, i < n ∧ p = 0x90000000 + 4096 * i := by
  unfold pool at h
  obtain ⟨i, hi, e⟩ := List.mem_map.mp h
  exact ⟨i, List.mem_range.mp hi, e.symm⟩

theorem pool_nodup (n : Nat) : (pool n).Nodup := by
  unfold pool
  refine (List.nodup_range n).map (fun a b h => ?_)
  simp only at h
  omega

theorem wide0_pages :
    Pages_ok cfg0 { wide0 with mmu_enabled := true } (cfg0.swapper_pg_dir :: wide0.free_pages) := by
  show Pages_ok cfg0 { wide0 with mmu_enabled := true } (cfg0.swapper_pg_dir :: pool 1539)
  refine ⟨fun p hp => ?_, List.nodup_cons.mpr ⟨fun h => ?_, pool_nodup 1539⟩⟩
  · rcases List.mem_cons.mp hp with e | h
    · rw [e]
      decide
    · obtain ⟨i, hi, e⟩ := pool_mem 1539 p h
      rw [e, PAGE_SIZE_eq, WORD_eq]
      refine ⟨by omega, by omega, fun _ => ?_⟩
      show 0x90000000 + 4096 * i ≠ 0x80903000
      omega
  · obtain ⟨i, hi, e⟩ := pool_mem 1539 _ h
    have : cfg0.swapper_pg_dir = 0x80902000 := rfl
    omega

theorem wide0_banks : Banks_ok cfg0 wide0 0x80000000 wide0.memory := by
  refine ⟨fun reg hr hn hlt => ?_, List.pairwise_singleton _ _⟩
  have e : reg = ⟨0x80200000, 0x201000, false⟩ := by simpa [wide0] using hr
  subst e
  refine ⟨by decide, by decide, by decide, by decide, fun pa h1 h2 => ?_⟩
  have hs : bank_start wide0 ⟨0x80200000, 0x201000, false⟩ = 0x80200000 := by decide
  have he : bank_end ⟨0x80200000, 0x201000, false⟩ = 0x80401000 := by decide
  rw [hs] at h1
  rw [he] at h2
  exact pgd_index_apart wide0 cfg0 pa rfl rfl (by decide) (by omega) (by omega)

/-- C16 as stated fails: a region of a medium block and a page that starts at
a medium-block boundary is mapped by base pages throughout, its first medium
block included, because the block size is chosen once for the region. -/
theorem final_granularity_counterexample :
    ∃ s', setup_vm_final cfg0 wide0 = .ok s' ∧
      (⟨0x80200000, 0x201000, false⟩ : memblock_region) ∈ wide0.memory ∧
      0x80200000 % PMD_SIZE = 0 ∧
      bank_start wide0 ⟨0x80200000, 0x201000, false⟩ ≤ 0x80200000 ∧
      0x80200000 + PMD_SIZE ≤ bank_end ⟨0x80200000, 0x201000, false⟩ ∧
      ∀ pa, 0x80200000 ≤ pa → pa < 0x80200000 + PMD_SIZE →
        ∃ l, walk s' cfg0.swapper_pg_dir (__va wide0 pa) = some l ∧ l.level = Level.pte := by
  obtain ⟨s', hrun, _, hwalk, _⟩ := final_main cfg0 wide0 0x80000000
    (by unfold Fixmap_ok Linear; decide) (by unfold Linear; decide) (by decide)
    wide0_pages (fun _ _ => rfl) wide0_banks
    (by
      have h1 : bank_pages wide0 wide0.memory = 1539 := by decide
      have h2 : wide0.free_pages.length = 1539 := by simp [wide0, pool]
      rw [h1, h2])
  refine ⟨s', hrun, by decide, by decide, by decide, by decide, fun pa h1 h2 => ?_⟩
  have hs : bank_start wide0 ⟨0x80200000, 0x201000, false⟩ = 0x80200000 := by decide
  have he : bank_end ⟨0x80200000, 0x201000, false⟩ = 0x80401000 := by decide
  have hz : best_map_size (bank_start wide0 ⟨0x80200000, 0x201000, false⟩)
      (sub64 (bank_end ⟨0x80200000, 0x201000, false⟩)
        (bank_start wide0 ⟨0x80200000, 0x201000, false⟩)) = PAGE_SIZE := by decide
  rw [PMD_SIZE_eq] at h2
  obtain ⟨b, _, _, _, _, _, m6⟩ := hwalk pa _
    (Cover_of_mem wide0 ⟨0x80200000, 0x201000, false⟩ pa (by decide) rfl
      (by rw [hs]; exact h1) (by rw [he]; omega))
  rw [hz] at m6
  exact ⟨_, m6, rfl⟩
/-! ## A page inserted under a medium-block leaf -/

theorem grow_cases (m : Nat → Nat) (c A a : Nat) (hA : Pg A) (h : grow m c A a ≠ m a) :
    a = c ∨ (A ≤ a ∧ a < A + 4096) := by
  by_cases hin : A ≤ a ∧ a < A + 4096
  · exact Or.inr hin
  · refine Or.inl ?_
    by_contra hne
    refine h ?_
    unfold grow
    rw [zero_words_out _ _ _ hA.2 (by omega)]
    unfold upd
    rw [if_neg hne]

theorem memblock_phys_alloc_fresh (cfg : Config) (s : State) (hon : s.mmu_enabled = true) :
    (memblock_phys_alloc s).2 ∈ fresh_pages cfg s ∧
      ∀ p ∈ fresh_pages cfg (memblock_phys_alloc s).1, p ∈ fresh_pages cfg s := by
  unfold memblock_phys_alloc
  cases hf : s.free_pages with
  | nil =>
    have e : fresh_pages cfg (handed_out s 0).1 = fresh_pages cfg s := rfl
    refine ⟨?_, fun p hp => e ▸ hp⟩
    show 0 ∈ fresh_pages cfg s
    unfold fresh_pages
    rw [hon, hf]
    simp
  | cons x rest =>
    refine ⟨?_, fun p hp => ?_⟩
    · show x ∈ fresh_pages cfg s
      unfold fresh_pages
      rw [hon, hf]
      simp
    · have hp2 : p ∈ rest ++ [0] := by
        have e : fresh_pages cfg (handed_out { s with free_pages := rest } x).1 = rest ++ [0] := by
          unfold fresh_pages handed_out
          simp only [hon, if_true]
        rw [← e]
        exact hp
      unfold fresh_pages
      rw [hon, hf]
      simp only [if_true, List.cons_append, List.mem_cons]
      exact Or.inr hp2

theorem alloc_pte_fresh (cfg : Config) (va : Nat) (s : State) (a : State × Nat)
    (h : alloc_pte s va = .ok a) :
    a.2 ∈ fresh_pages cfg s ∧ ∀ p ∈ fresh_pages cfg a.1, p ∈ fresh_pages cfg s := by
  unfold alloc_pte at h
  split at h
  · simp at h
  · rename_i hon
    simp only [Except.ok.injEq] at h
    rw [← h]
    exact memblock_phys_alloc_fresh cfg s (by simpa using hon)

theorem static_fresh (cfg : Config) (s : State) (p : Nat) (hoff : ¬ s.mmu_enabled = true)
    (hp : p = cfg.early_pud ∨ p = cfg.early_pmd) :
    (handed_out s (symbol s p)).2 ∈ fresh_pages cfg s ∧
      ∀ q ∈ fresh_pages cfg (handed_out s (symbol s p)).1, q ∈ fresh_pages cfg s := by
  have e : fresh_pages cfg (handed_out s (symbol s p)).1 = fresh_pages cfg s := rfl
  refine ⟨?_, fun q hq => e ▸ hq⟩
  show symbol s p ∈ fresh_pages cfg s
  unfold symbol fresh_pages
  rw [if_neg hoff, if_neg hoff]
  rcases hp with hp | hp <;> simp [hp]

theorem alloc_pmd_fresh (cfg : Config) (va : Nat) (s : State) (a : State × Nat)
    (h : alloc_pmd cfg s va = .ok a) :
    a.2 ∈ fresh_pages cfg s ∧ ∀ p ∈ fresh_pages cfg a.1, p ∈ fresh_pages cfg s := by
  unfold alloc_pmd at h
  split at h
  · rename_i hon
    simp only [Except.ok.injEq] at h
    rw [← h]
    exact memblock_phys_alloc_fresh cfg s hon
  · rename_i hoff
    split at h
    · simp at h
    · simp only [Except.ok.injEq] at h
      rw [← h]
      exact static_fresh cfg s _ hoff (Or.inr rfl)

theorem alloc_pud_fresh (cfg : Config) (va : Nat) (s : State) (a : State × Nat)
    (h : alloc_pud cfg s va = .ok a) :
    a.2 ∈ fresh_pages cfg s ∧ ∀ p ∈ fresh_pages cfg a.1, p ∈ fresh_pages cfg s := by
  unfold alloc_pud at h
  split at h
  · rename_i hon
    simp only [Except.ok.injEq] at h
    rw [← h]
    exact memblock_phys_alloc_fresh cfg s hon
  · rename_i hoff
    split at h
    · simp at h
    · simp only [Except.ok.injEq] at h
      rw [← h]
      exact static_fresh cfg s _ hoff (Or.inl rfl)

theorem pte_gentle (cfg : Config) (s : State) (T va pa sz prot : Nat) (P : List Nat)
    (h : path_pte T sz = some P) :
    Gentle cfg (fun s T => phys_pte s T va pa sz prot) s T P := by
  unfold path_pte at h
  split at h
  · simp at h
  · rename_i hsz
    simp only [Option.some.injEq] at h
    subst h
    by_cases h0 : s.mem (slot T (pte_index va)) = 0
    · refine ⟨{ s with mem := upd s.mem (slot T (pte_index va)) (pfn_pte (PFN_DOWN pa) prot) },
        ?_, by simp [same_config], fun p hp => hp, fun a ha => ?_, rfl⟩
      · show phys_pte s T va pa sz prot = _
        unfold phys_pte
        simp only []
        rw [if_neg hsz, if_pos h0]
      · refine Or.inl ?_
        by_cases e : a = slot T (pte_index va)
        · rw [e]
          exact h0
        · exact absurd (by simp [upd, e]) ha
    · refine ⟨s, ?_, same_config_refl s, fun p hp => hp, fun a ha => absurd rfl ha, rfl⟩
      show phys_pte s T va pa sz prot = _
      unfold phys_pte
      simp only []
      rw [if_neg hsz, if_neg h0]

/-- One level changes only zero cells and cells of handed-out pages if the
next one does, the tables visited being distinct pages. -/
theorem level_gentle (cfg : Config) (SIZE idx : Nat)
    (alloc : State → Except Stopped (State × Nat))
    (child : State → Nat → Except Stopped State) (cpath : State → Nat → Option (List Nat))
    (pa sz prot : Nat)
    (halloc : ∀ s a, alloc s = .ok a → a.1.mem = s.mem ∧ same_config s a.1)
    (hfresh : ∀ s a, alloc s = .ok a →
      a.2 ∈ fresh_pages cfg s ∧ ∀ p ∈ fresh_pages cfg a.1, p ∈ fresh_pages cfg s)
    (hchild : ∀ s T P, cpath s T = some P → Pages_ok cfg s P → Gentle cfg child s T P)
    (s : State) (T : Nat) (P : List Nat)
    (h : path_level SIZE idx alloc cpath s T sz = some P) (hok : Pages_ok cfg s P) :
    Gentle cfg (fun s T => phys_level cfg SIZE idx alloc child s T pa sz prot) s T P := by
  unfold path_level at h
  simp only [] at h
  by_cases hsz : sz = SIZE
  · rw [if_pos hsz] at h
    simp only [Option.some.injEq] at h
    subst h
    subst hsz
    by_cases h0 : s.mem (slot T idx) = 0
    · refine ⟨{ s with mem := upd s.mem (slot T idx) (pfn_pte (PFN_DOWN pa) prot) },
        phys_level_put cfg _ _ _ _ s s.mem T pa prot h0, by simp [same_config],
        fun p hp => hp, fun a ha => ?_, rfl⟩
      refine Or.inl ?_
      by_cases e : a = slot T idx
      · rw [e]
        exact h0
      · exact absurd (by simp [upd, e]) ha
    · refine ⟨s, ?_, same_config_refl s, fun p hp => hp, fun a ha => absurd rfl ha, rfl⟩
      show phys_level cfg sz idx alloc child s T pa sz prot = _
      unfold phys_level
      simp only [if_true, if_neg h0]
  · rw [if_neg hsz] at h
    by_cases he : s.mem (slot T idx) = 0
    · rw [if_pos he] at h
      cases hal : alloc s with
      | error e =>
        rw [hal] at h
        simp at h
      | ok a =>
        rw [hal] at h
        simp only [] at h
        obtain ⟨Q, hq, hP⟩ := map_cons_some _ T P h
        subst hP
        obtain ⟨hm, hc⟩ := halloc s a hal
        obtain ⟨hfa, hfs⟩ := hfresh s a hal
        obtain ⟨hokQ, hTQ⟩ := Pages_ok_tail cfg s T Q hok
        have hc2 : same_config s { a.1 with mem := (zero_words
            (upd a.1.mem (slot T idx) (pfn_pte (PFN_DOWN a.2) PAGE_TABLE)) a.2
            (PAGE_SIZE / 8)) } := hc
        obtain ⟨s1, r1, c1, f1, fr, hd⟩ := hchild _ a.2 Q hq (Pages_ok_congr cfg s _ Q hc2 hokQ)
        have hAQ := head_mem Q a.2 hd
        obtain ⟨hA, hAu⟩ := pages_ok_elem cfg s _ a.2 hokQ hAQ
        refine ⟨s1, ?_, same_config_trans hc2 c1, fun p hp => hfs p (f1 p hp), fun x hx => ?_, rfl⟩
        · show phys_level cfg SIZE idx alloc child s T pa sz prot = .ok s1
          rw [phys_level_alloc cfg _ _ _ _ s a.1 T pa sz prot a.2 hsz he hal
            (fun h => hAu ((unsafe_table_congr cfg s a.1 a.2 hc).mp h))]
          exact r1
        · have hg : ∀ y, grow a.1.mem (slot T idx) a.2 y ≠ s.mem y →
              s.mem y = 0 ∨ ∃ p ∈ fresh_pages cfg s, p ≤ y ∧ y < p + 4096 := by
            intro y hy
            rw [← hm] at hy
            rcases grow_cases a.1.mem _ a.2 y hA hy with e | e
            · rw [e]
              exact Or.inl he
            · exact Or.inr ⟨a.2, hfa, e.1, e.2⟩
          by_cases hx2 : s1.mem x = grow a.1.mem (slot T idx) a.2 x
          · rw [hx2] at hx
            exact hg x hx
          · rcases fr x hx2 with e | ⟨p, hp, e⟩
            · by_cases hx3 : grow a.1.mem (slot T idx) a.2 x = s.mem x
              · exact Or.inl (hx3 ▸ e)
              · exact hg x hx3
            · exact Or.inr ⟨p, hfs p hp, e⟩
    · rw [if_neg he] at h
      obtain ⟨Q, hq, hP⟩ := map_cons_some _ T P h
      subst hP
      obtain ⟨hokQ, hTQ⟩ := Pages_ok_tail cfg s T Q hok
      obtain ⟨s1, r1, c1, f1, fr, hd⟩ := hchild s _ Q hq hokQ
      have hAQ := head_mem Q _ hd
      obtain ⟨hA, hAu⟩ := pages_ok_elem cfg s _ _ hokQ hAQ
      refine ⟨s1, ?_, c1, f1, fr, rfl⟩
      show phys_level cfg SIZE idx alloc child s T pa sz prot = .ok s1
      rw [phys_level_follow cfg _ _ _ _ s T pa sz prot hsz he hAu]
      exact r1

theorem pmd_gentle (cfg : Config) (va pa sz prot : Nat) (s : State) (T : Nat) (P : List Nat)
    (h : path_pmd s T va sz = some P) (hok : Pages_ok cfg s P) :
    Gentle cfg (fun s T => phys_pmd cfg s T va pa sz prot) s T P :=
  level_gentle cfg _ _ _ _ _ pa sz prot (alloc_pte_keeps va) (alloc_pte_fresh cfg va)
    (fun s T P h _ => pte_gentle cfg s T va pa sz prot P h) s T P h hok

theorem pud_gentle (cfg : Config) (va pa sz prot : Nat) (s : State) (T : Nat) (P : List Nat)
    (h : path_pud cfg s T va sz = some P) (hok : Pages_ok cfg s P) :
    Gentle cfg (fun s T => phys_pud cfg s T va pa sz prot) s T P :=
  level_gentle cfg _ _ _ _ _ pa sz prot (alloc_pmd_keeps cfg va) (alloc_pmd_fresh cfg va)
    (fun s T P h hok => pmd_gentle cfg va pa sz prot s T P h hok) s T P h hok

theorem pgd_gentle (cfg : Config) (va pa sz prot : Nat) (s : State) (T : Nat) (P : List Nat)
    (h : path_pgd cfg s T va sz = some P) (hok : Pages_ok cfg s P) :
    Gentle cfg (fun s T => phys_pgd cfg s T va pa sz prot) s T P := by
  unfold path_pgd at h
  by_cases hl : ¬ s.pgtable_l4_enabled = true
  · rw [if_pos hl] at h
    obtain ⟨s1, r1, c, f, fr, hd⟩ := pud_gentle cfg va pa sz prot s T P h hok
    refine ⟨s1, ?_, c, f, fr, hd⟩
    show phys_pgd cfg s T va pa sz prot = .ok s1
    unfold phys_pgd
    rw [if_pos hl]
    exact r1
  · rw [if_neg hl] at h
    obtain ⟨s1, r1, c, f, fr, hd⟩ := level_gentle cfg _ _ _ _ _ pa sz prot
      (alloc_pud_keeps cfg va) (alloc_pud_fresh cfg va)
      (fun s T P h hok => pud_gentle cfg va pa sz prot s T P h hok) s T P h hok
    refine ⟨s1, ?_, c, f, fr, hd⟩
    show phys_pgd cfg s T va pa sz prot = .ok s1
    unfold phys_pgd
    rw [if_neg hl]
    exact r1

theorem leaf_entry_ne (e : Nat) (h : entry_leaf e = true) : e ≠ 0 := by
  have := (entry_leaf_iff e).mp h
  omega

theorem valid_entry_ne (e : Nat) (h : entry_valid e = true) : e ≠ 0 := by
  have := (entry_valid_iff e).mp h
  omega

theorem walk_pte_keep (m n : Nat → Nat) (tbl va : Nat) (l : Leaf)
    (h : walk_pte m tbl va = some l)
    (hk : ∀ c ∈ cells_pte tbl va, m c ≠ 0 → n c = m c) :
    walk_pte n tbl va = some l := by
  unfold walk_pte at h ⊢
  simp only [] at h ⊢
  by_cases hl : entry_leaf (m (slot tbl (pte_index va))) = true
  · rw [hk _ (by simp [cells_pte]) (leaf_entry_ne _ hl)]
    exact h
  · rw [if_neg hl] at h
    exact absurd h (by simp)

theorem walk_pmd_keep (m n : Nat → Nat) (tbl va : Nat) (l : Leaf)
    (h : walk_pmd m tbl va = some l)
    (hk : ∀ c ∈ cells_pmd m tbl va, m c ≠ 0 → n c = m c) :
    walk_pmd n tbl va = some l := by
  unfold walk_pmd at h ⊢
  unfold cells_pmd at hk
  simp only [] at h ⊢
  by_cases hl : entry_leaf (m (slot tbl (pmd_index va))) = true
  · rw [hk _ (List.mem_cons_self _ _) (leaf_entry_ne _ hl), if_pos hl]
    rw [if_pos hl] at h
    exact h
  · rw [if_neg hl] at h hk
    by_cases hv : entry_valid (m (slot tbl (pmd_index va))) = true
    · rw [if_pos hv] at h hk
      rw [hk _ (List.mem_cons_self _ _) (valid_entry_ne _ hv), if_neg hl, if_pos hv]
      exact walk_pte_keep m n _ va l h (fun c hc => hk c (List.mem_cons_of_mem _ hc))
    · rw [if_neg hv] at h
      exact absurd h (by simp)

theorem walk_pud_keep (m n : Nat → Nat) (tbl va : Nat) (l : Leaf)
    (h : walk_pud m tbl va = some l)
    (hk : ∀ c ∈ cells_pud m tbl va, m c ≠ 0 → n c = m c) :
    walk_pud n tbl va = some l := by
  unfold walk_pud at h ⊢
  unfold cells_pud at hk
  simp only [] at h ⊢
  by_cases hl : entry_leaf (m (slot tbl (pud_index va))) = true
  · rw [hk _ (List.mem_cons_self _ _) (leaf_entry_ne _ hl), if_pos hl]
    rw [if_pos hl] at h
    exact h
  · rw [if_neg hl] at h hk
    by_cases hv : entry_valid (m (slot tbl (pud_index va))) = true
    · rw [if_pos hv] at h hk
      rw [hk _ (List.mem_cons_self _ _) (valid_entry_ne _ hv), if_neg hl, if_pos hv]
      exact walk_pmd_keep m n _ va l h (fun c hc => hk c (List.mem_cons_of_mem _ hc))
    · rw [if_neg hv] at h
      exact absurd h (by simp)

/-- A walk that ends at a leaf ends at the same leaf in every state of the same
depth that holds the same non-zero entries in the cells the walk reads. -/
theorem walk_keep (s t : State) (root va : Nat) (l : Leaf)
    (hl4 : t.pgtable_l4_enabled = s.pgtable_l4_enabled)
    (h : walk s root va = some l)
    (hk : ∀ c ∈ walk_cells s root va, s.mem c ≠ 0 → t.mem c = s.mem c) :
    walk t root va = some l := by
  have hix : pgd_index t va = pgd_index s va := by
    rw [pgd_index_depth, pgd_index_depth, hl4]
  unfold walk at h ⊢
  unfold walk_cells at hk
  rw [hl4, hix]
  by_cases hd : s.pgtable_l4_enabled = true
  · rw [if_pos hd] at h hk ⊢
    simp only [] at h ⊢
    by_cases hl : entry_leaf (s.mem (slot root (pgd_index s va))) = true
    · rw [hk _ (List.mem_cons_self _ _) (leaf_entry_ne _ hl), if_pos hl]
      rw [if_pos hl] at h
      exact h
    · rw [if_neg hl] at h hk
      by_cases hv : entry_valid (s.mem (slot root (pgd_index s va))) = true
      · rw [if_pos hv] at h hk
        rw [hk _ (List.mem_cons_self _ _) (valid_entry_ne _ hv), if_neg hl, if_pos hv]
        exact walk_pud_keep s.mem t.mem _ va l h (fun c hc => hk c (List.mem_cons_of_mem _ hc))
      · rw [if_neg hv] at h
        exact absurd h (by simp)
  · rw [if_neg hd] at h hk ⊢
    exact walk_pud_keep s.mem t.mem root va l h hk

/-- C19 (amended): existing translations survive later inserts, unless they
pass through a window of the table access port.  On a machine with the fixmap
geometry `Fixmap_ok`, let `va1` be walked from the root `T` to the leaf `l`,
and let an insert `create_pgd_mapping(root, va2, pa2, size2, prot2)` visit the
distinct usable pages `P`.  If no entry that the walk of `va1` reads lies in a
page the allocators can hand out (the allocator returns only fresh pages), and,
with translation on, none of them is one of the three window cells of
`fixmap_pte` that `get_pte_virt`, `get_pmd_virt` and `get_pud_virt` rewrite,
then the insert returns and `va1` is still walked to `l` and resolves to the
same physical address and protection. -/
theorem translations_survive (cfg : Config) (s : State) (ptr T va1 va2 pa2 sz2 prot2 : Nat)
    (P : List Nat) (l : Leaf) (hfix : Fixmap_ok cfg s) (hA : Addr cfg s ptr T)
    (hpath : path_pgd cfg s T va2 sz2 = some P) (hP : Pages_ok cfg s P)
    (hw : walk s T va1 = some l)
    (hfresh : ∀ c ∈ walk_cells s T va1, outside (fresh_pages cfg s) c)
    (hwin : s.mmu_enabled = true → ∀ c ∈ walk_cells s T va1, ¬ Win cfg s c) :
    ∃ s', create_pgd_mapping cfg s ptr va2 pa2 sz2 prot2 = .ok s' ∧
      walk s' T va1 = some l ∧ resolve s' T va1 = resolve s T va1 := by
  obtain ⟨sp, r1, c, _, fr, hd⟩ := pgd_gentle cfg va2 pa2 sz2 prot2 s T P hpath hP
  have hsafe := (pages_ok_elem cfg s P T hP (head_mem P T hd)).2
  have r2 : phys_pgd cfg s T va2 pa2 sz2 prot2 = .ok sp := r1
  have hsim := refine_pgd cfg va2 pa2 sz2 prot2 s s ptr T (Rel_refl cfg s) hfix hA hsafe
  rw [r2] at hsim
  obtain ⟨sc, hrun, hR⟩ := hsim
  have hl4 : sc.pgtable_l4_enabled = s.pgtable_l4_enabled := hR.1.2.1.trans c.2.1
  have hk : ∀ x ∈ walk_cells s T va1, s.mem x ≠ 0 → sc.mem x = s.mem x := by
    intro x hx hne
    have h1 : sp.mem x = s.mem x := by
      by_contra hch
      rcases fr x hch with e | ⟨p, hp, e1, e2⟩
      · exact hne e
      · have := hfresh x hx p hp
        omega
    have h2 : sc.mem x = sp.mem x := by
      cases hm : s.mmu_enabled
      · rw [hR.2.2.2.2 (c.1.trans hm)]
      · exact hR.2.2.2.1 x (fun h => hwin hm x hx ((Win_congr cfg s sp x c).mp h))
    rw [h2, h1]
  have hw2 := walk_keep s sc T va1 l hl4 hw hk
  refine ⟨sc, hrun, hw2, ?_⟩
  unfold resolve
  rw [hw2, hw, hl4]

theorem translations_survive_witness :
    ∃ s', create_pgd_mapping cfg0 windowed0 (symbol windowed0 cfg0.swapper_pg_dir)
        0xffffc00000000000 0x80000000 PUD_SIZE PAGE_KERNEL = .ok s' ∧
      resolve s' cfg0.swapper_pg_dir 0xffffc00140000123 = some (0xc0000123, PAGE_KERNEL) := by
  obtain ⟨s', h1, _, h3⟩ := translations_survive cfg0 windowed0
    (symbol windowed0 cfg0.swapper_pg_dir) cfg0.swapper_pg_dir 0xffffc00140000123
    0xffffc00000000000 0x80000000 PUD_SIZE PAGE_KERNEL [cfg0.swapper_pg_dir, 0x81800000]
    ⟨Level.pud, PFN_DOWN 0xc0000000, PAGE_KERNEL⟩
    (by unfold Fixmap_ok Linear; decide)
    (Addr_linear cfg0 windowed0 _ (by unfold Linear; decide)) (by decide)
    (by unfold Pages_ok; decide) (by decide) (by decide) (fun _ => by decide)
  exact ⟨s', h1, h3.trans (by decide)⟩

/-- C19 as stated fails for an address of a window of the table access port:
the address of the slot `FIX_PUD` resolves to the page `0x82000000` through the
fixmap tables of the root; an insert of an upper-level block elsewhere, which
allocates nothing, points the window at the table it follows, and the address
resolves to that table afterwards. -/
theorem translations_survive_counterexample :
    resolve windowed0 cfg0.swapper_pg_dir (__fix_to_virt cfg0 windowed0 cfg0.FIX_PUD) =
      some (0x82000000, FIXMAP_PAGE_NORMAL) ∧
    ∃ s', create_pgd_mapping cfg0 windowed0 (symbol windowed0 cfg0.swapper_pg_dir)
        0xffffc00000000000 0x80000000 PUD_SIZE PAGE_KERNEL = .ok s' ∧
      allocs s'.trace = allocs windowed0.trace ∧
      resolve s' cfg0.swapper_pg_dir (__fix_to_virt cfg0 windowed0 cfg0.FIX_PUD) =
        some (0x81800000, FIXMAP_PAGE_NORMAL) :=
  ⟨by decide, _, rfl, by decide, by decide⟩

end RiscvMM
